import Mathlib

/-!
# Apophenia text ingestion: a shallow embedding of `apop_conversions.c`

The text-processing section of `src/apop_conversions.c` is embedded as Lean
functions; the statements of the specification are then proved (or refuted)
about these functions.

Conventions of the embedding.

* A C `char` is a `Nat` holding the byte value `0 .. 255`.  The source stores
  the result of `fgetc` in a `char` and compares it with `EOF`; on the usual
  signed-`char` targets the byte `0xFF` and the end-of-file value are then the
  same `char`, written `EOF = 255` here.
* A `FILE` is the list of bytes not yet read.  `fgetc` on the empty list
  returns `EOF` and leaves the list empty.
* A C string argument (`delimiters`) is the list of its bytes without the
  terminating NUL.
* The text grid `fn->text` of a row buffer has one column; it is the list of
  its cell buffers, each buffer being the list of the bytes allocated for it.
  `fn->textsize[0]` is the length of the list.
* `int` counters are `Nat`; the 0/1 flags of the source are `Bool`.
* A loop of the source that need not terminate is run with a bound computed
  from the input length; the result `none` says the bound was reached.
-/

namespace Apophenia

/-! ## Bytes, streams and C strings -/

/-- The byte type of the embedding. -/
abbrev CChar := Nat

/-- The value of `EOF` once stored in a `char`. -/
def EOF : CChar := 255

/-- The unread bytes of an input stream. -/
abbrev FILE := List CChar

/-- Read one byte: `char c = fgetc(f)`. -/
def fgetc : FILE → CChar × FILE
  | [] => (EOF, [])
  | c :: cs => (c, cs)

/-- The test `strchr(s, c) != NULL`: the terminating NUL is part of the string
that `strchr` searches. -/
def strchr (s : List CChar) (c : CChar) : Bool :=
  c == 0 || s.contains c

/-- The C string held by a buffer: the bytes before the first NUL. -/
def cstr (buf : List CChar) : List CChar :=
  buf.takeWhile (fun c => c != 0)

/-- Bytes of freshly allocated memory have no defined value; the embedding
writes this value there. -/
def indeterminate : CChar := 0xAA

/-- The call `realloc(buf, n)`: the first bytes are kept, the buffer has `n`
bytes afterwards. -/
def realloc (buf : List CChar) (n : Nat) : List CChar :=
  buf.take n ++ List.replicate (n - buf.length) indeterminate

/-- The text grid of an `apop_data` row buffer (one column). -/
abbrev Text := List (List CChar)

/-- Modelled from the spec: `apop_text_alloc(fn, ct, 1)` is not part of the
sources given; the row buffer is grown to `ct` cells, the cells already
there are kept and every new cell holds the empty string. -/
def apop_text_alloc (text : Text) (ct : Nat) : Text :=
  text ++ List.replicate (ct - text.length) [0]

/-- The assignment `fn->text[i][0][j] = c`. -/
def text_poke (text : Text) (i j : Nat) (c : CChar) : Text :=
  text.set i ((text.getD i []).set j c)

/-- The assignment `*fn->text[i] = realloc(*fn->text[i], n)`. -/
def text_realloc (text : Text) (i n : Nat) : Text :=
  text.set i (realloc (text.getD i []) n)

/-! ## The character classifier -/

/-- The one-letter `type` codes of `apop_char_info`:
`W` white-space delimiter, `w` plain white space, `d` delimiter, `n` newline,
`dq` the double quote, `sq` the single quote, `bs` the backslash,
`E` end of input, `hash` the comment sign, `r` regular. -/
inductive CType
  | W | w | d | n | dq | sq | bs | E | hash | r
  deriving DecidableEq

/-- The struct `apop_char_info`. -/
structure apop_char_info where
  c : CChar
  type : CType
  deriving DecidableEq

/-- The chain of conditionals of `parse_next_char` on the byte read. -/
def char_type (delimiters : List CChar) (c : CChar) : CType :=
  let is_delimiter := strchr delimiters c
  if c = 32 ∨ c = 9 ∨ c = 0 then (if is_delimiter then CType.W else CType.w)
  else if is_delimiter then CType.d
  else if c = 10 then CType.n
  else if c = 34 then CType.dq
  else if c = 39 then CType.sq
  else if c = 92 then CType.bs
  else if c = EOF then CType.E
  else if c = 35 then CType.hash
  else CType.r

/-- The function `parse_next_char`. -/
def parse_next_char (f : FILE) (delimiters : List CChar) : apop_char_info × FILE :=
  let r := fgetc f
  ({ c := r.1, type := char_type delimiters r.1 }, r.2)

/-! ## The line tokenizer -/

/-- The struct `line_parse_t`. -/
structure line_parse_t where
  ct : Nat
  eof : Bool
  deriving DecidableEq

/-- The local variables of `parse_a_line` together with the row buffer `fn`. -/
structure PState where
  fn : Text
  ct : Nat
  thisflen : Nat
  mlen : Nat
  lastnonwhite : Nat
  inq : Bool
  inqq : Bool
  infield : Bool
  lastwhite : Bool
  deriving DecidableEq

/-- The initial values of the locals of `parse_a_line`. -/
def PState.init (fn : Text) : PState :=
  { fn := fn, ct := 0, thisflen := 0, mlen := 5, lastnonwhite := 0,
    inq := false, inqq := false, infield := false, lastwhite := false }

/-- The comment loop `for(char c='x'; (c!='\n' && c!=EOF); ) c = fgetc(infile);`. -/
def skip_comment : FILE → FILE
  | [] => []
  | c :: cs => if c = 10 ∨ c = EOF then cs else skip_comment cs

/-- The block "new field" of `parse_a_line`. -/
def open_field (st : PState) : PState :=
  let ct := st.ct + 1
  let fn := if ct > st.fn.length then apop_text_alloc st.fn ct else st.fn
  { st with ct := ct, fn := text_realloc fn (ct - 1) 5, thisflen := 0, mlen := 5,
            infield := true }

/-- The block "delimiter; close off this field" of `parse_a_line`. -/
def close_field (st : PState) : PState :=
  { st with fn := text_poke st.fn (st.ct - 1) st.lastnonwhite 0,
            infield := false, thisflen := 0, lastnonwhite := 0 }

/-- The block "extend field" of `parse_a_line`. -/
def extend_field (st : PState) (ci : apop_char_info) : PState :=
  let thisflen := st.thisflen + 1
  let grow : Bool := decide (thisflen + 2 > st.mlen)
  let mlen := if grow then st.mlen * 2 else st.mlen
  let fn := if grow then text_realloc st.fn (st.ct - 1) mlen else st.fn
  { st with thisflen := thisflen, mlen := mlen,
            fn := text_poke fn (st.ct - 1) (thisflen - 1) ci.c,
            lastnonwhite := if ci.type ≠ CType.w then thisflen else st.lastnonwhite }

/-- The two blocks `if (!infield){...}` and `if (infield){...}` at the end of
the loop body of `parse_a_line`: leading white space is skipped, a field is
opened, closed or extended. -/
def field_fill (st : PState) (ci : apop_char_info) : PState :=
  if st.infield = false ∧ ci.type = CType.w then st
  else
    let st :=
      if st.infield = false ∧
          (ci.type = CType.r ∨ ci.type = CType.d ∨
            ((ci.type = CType.n ∨ ci.type = CType.E) ∧ st.ct > 0))
      then open_field st else st
    if st.infield = true then
      if ci.type = CType.d ∨ ci.type = CType.n ∨ ci.type = CType.E ∨ ci.type = CType.W
      then close_field st
      else if ci.type = CType.w ∨ ci.type = CType.r then extend_field st ci
      else st
    else st

/-- The part of the loop body of `parse_a_line` that follows the quote
handling: a white-space delimiter after another one is passed over, `lastwhite`
is set, then the field blocks run. -/
def field_step (st : PState) (ci : apop_char_info) : PState :=
  if ci.type = CType.W ∧ st.lastwhite = true then st
  else field_fill { st with lastwhite := decide (ci.type = CType.W) } ci

/-- The part of the loop body of `parse_a_line` that reads the next character:
comments, the backslash and the quotes.  Takes the quote flags `inq`, `inqq`
and returns the character as the rest of the body sees it, the new quote flags
and the stream. -/
def read_step (delimiters : List CChar) (inq inqq : Bool) (infile : FILE) :
    apop_char_info × Bool × Bool × FILE :=
  let r := parse_next_char infile delimiters
  let ci := r.1
  let infile := r.2
  let r :=
    if ci.type = CType.hash ∧ (inq || inqq) = false
    then ({ ci with type := CType.n }, skip_comment infile) else (ci, infile)
  let ci := r.1
  let infile := r.2
  let r :=
    if ci.type = CType.bs then
      let r2 := parse_next_char infile delimiters
      (if r2.1.type ≠ CType.E then { r2.1 with type := CType.r } else r2.1, r2.2)
    else (ci, infile)
  let ci := r.1
  let infile := r.2
  let ci :=
    if ((inq = true ∧ ci.type ≠ CType.sq) ∨ (inqq = true ∧ ci.type ≠ CType.dq))
        ∧ ci.type ≠ CType.E
    then { ci with type := CType.r } else ci
  if ci.type = CType.sq then (ci, !inq, inqq, infile)
  else if ci.type = CType.dq then (ci, inq, !inqq, infile)
  else (ci, inq, inqq, infile)

/-- One pass through the body of the `do ... while` loop of `parse_a_line`:
the new state, the type the loop condition tests, and the stream. -/
def parse_iter (delimiters : List CChar) (st : PState) (infile : FILE) :
    PState × CType × FILE :=
  let r := read_step delimiters st.inq st.inqq infile
  (field_step { st with inq := r.2.1, inqq := r.2.2.1 } r.1, r.1.type, r.2.2.2)

/-- The `do ... while (ci.type != 'n' && ci.type != 'E')` loop of
`parse_a_line`, run for at most `fuel` passes. -/
def parse_loop (delimiters : List CChar) : Nat → PState → FILE → Option (PState × CType × FILE)
  | 0, _, _ => none
  | fuel + 1, st, infile =>
    let r := parse_iter delimiters st infile
    if r.2.1 ≠ CType.n ∧ r.2.1 ≠ CType.E then parse_loop delimiters fuel r.1 r.2.2
    else some r

/-- What a call of a line tokenizer leaves behind: the returned
`line_parse_t`, the row buffer and the stream. -/
structure LineResult where
  L : line_parse_t
  fn : Text
  infile : FILE
  deriving DecidableEq

/-- The fields a caller reads after the call: the C strings of the first
`ct` cells of the row buffer. -/
def LineResult.fields (r : LineResult) : List (List CChar) :=
  (r.fn.take r.L.ct).map cstr

/-- The argument `int const *field_ends`: a pointer to the first entry of an
array of field ends that has no end marker.  `ends` are the entries of the
array.  For every byte of a line that lies behind the last end the source
reads `*field_ends` behind the array; C gives such a read no value, so
`behind i` stands for whatever the read of the `i`-th `int` behind the array
yields: it is an unknown of the embedding, and a statement on
`parse_a_fixed_line` holds for every `behind` unless it says otherwise. -/
structure FieldEnds where
  ends : List Nat
  behind : Nat → Int

/-- The state of `parse_a_fixed_line`: the row buffer and the locals.  The
pointer `field_ends` is kept as the entries of the array from the pointer on
and, once it has left the array, the number `past` of `int`s behind the array
that it has passed. -/
structure FState where
  fn : Text
  ct : Nat
  posn : Nat
  thisflen : Nat
  needfield : Bool
  field_ends : List Nat
  past : Nat
  deriving DecidableEq

/-- The read `*field_ends`: the entry the pointer is at, and behind the array
the value `behind past`. -/
def read_field_ends (behind : Nat → Int) (field_ends : List Nat) (past : Nat) : Int :=
  match field_ends with
  | e :: _ => (e : Int)
  | [] => behind past

/-- The body of the `while` loop of `parse_a_fixed_line` for the byte `c`. -/
def fixed_step (behind : Nat → Int) (st : FState) (c : CChar) : FState :=
  let posn := st.posn + 1
  let st :=
    if st.needfield = true then
      let ct := st.ct + 1
      let fn := if ct > st.fn.length then apop_text_alloc st.fn ct else st.fn
      { st with ct := ct, fn := fn, thisflen := 0, needfield := false }
    else st
  let thisflen := st.thisflen + 1
  let fn := text_poke (text_realloc st.fn (st.ct - 1) thisflen) (st.ct - 1) (thisflen - 1) c
  if (posn : Int) = read_field_ends behind st.field_ends st.past then
    { st with posn := posn,
              fn := text_poke (text_realloc fn (st.ct - 1) (thisflen + 1)) (st.ct - 1) thisflen 0,
              thisflen := 0, field_ends := st.field_ends.tail,
              past := if st.field_ends = [] then st.past + 1 else st.past,
              needfield := true }
  else { st with posn := posn, fn := fn, thisflen := thisflen }

/-- The `while(c!='\n' && c !=EOF)` loop of `parse_a_fixed_line`; returns the
state and the stream after the byte that ended the loop, and that byte. -/
def fixed_loop (behind : Nat → Int) : FState → FILE → FState × CChar × FILE
  | st, [] => (st, EOF, [])
  | st, c :: cs =>
    if c ≠ 10 ∧ c ≠ EOF then fixed_loop behind (fixed_step behind st c) cs else (st, c, cs)

/-- The function `parse_a_fixed_line`. -/
def parse_a_fixed_line (infile : FILE) (fn : Text) (field_ends : FieldEnds) : LineResult :=
  let r := fixed_loop field_ends.behind
    { fn := fn, ct := 0, posn := 0, thisflen := 0, needfield := true,
      field_ends := field_ends.ends, past := 0 }
    infile
  let st := r.1
  let fn :=
    if st.needfield = false
    then text_poke (text_realloc st.fn (st.ct - 1) (st.thisflen + 1)) (st.ct - 1) st.thisflen 0
    else st.fn
  { L := { ct := st.ct, eof := decide (r.2.1 = EOF) }, fn := fn, infile := r.2.2 }

/-- The function `parse_a_line`.  The loop is run for at most one pass per
unread byte plus one; `none` is returned when that is not enough, which
happens only when the loop of the source does not end. -/
def parse_a_line (infile : FILE) (fn : Text) (field_ends : Option FieldEnds)
    (delimiters : List CChar) : Option LineResult :=
  match field_ends with
  | some fe => some (parse_a_fixed_line infile fn fe)
  | none =>
    match parse_loop delimiters (infile.length + 1) (PState.init fn) infile with
    | none => none
    | some r => some { L := { ct := r.1.ct, eof := decide (r.2.1 = CType.E) },
                       fn := r.1.fn, infile := r.2.2 }

/-- The default delimiters `"|,\t"`. -/
def default_delimiters : List CChar := [124, 44, 9]

/-! ## The table materializer `apop_text_to_data` -/

/-- What the embedding takes from the C library and from GSL: `strtod`, given
as the value read and the number of bytes consumed, the constant `GSL_NAN`,
and the content of matrix cells that were allocated but not yet written. -/
structure NumLib (V : Type) where
  strtod : List CChar → V × Nat
  GSL_NAN : V
  fresh : V

/-- A `gsl_matrix`: its two sizes and its rows. -/
structure gsl_matrix (V : Type) where
  size1 : Nat
  size2 : Nat
  data : List (List V)
  deriving DecidableEq

/-- The row and column names of an `apop_name`. -/
structure apop_name where
  column : List (List CChar)
  row : List (List CChar)
  deriving DecidableEq

/-- The parts of an `apop_data` set that the text reader touches.  `error` is
`0` as long as no error is recorded. -/
structure apop_data (V : Type) where
  vector : Option (List V)
  matrix : Option (gsl_matrix V)
  weights : Option (List V)
  names : apop_name
  error : CChar
  deriving DecidableEq

/-- The conversion of an `int` to `size_t` on a 64-bit target. -/
def int_to_size_t (i : Int) : Nat := (i % (2 ^ 64 : Int)).toNat

/-- Modelled from the spec: `apop_data_alloc(0, size1, size2)` is not part of
the sources given; the tabular container gets a matrix of the sizes asked
for, its cells not yet written, no vector, no weights and no names.  Memory
is not bounded: an allocation does not fail. -/
def apop_data_alloc {V : Type} (lib : NumLib V) (size1 size2 : Nat) : apop_data V :=
  { vector := none,
    matrix := some { size1 := size1, size2 := size2,
                     data := List.replicate size1 (List.replicate size2 lib.fresh) },
    weights := none, names := { column := [], row := [] }, error := 0 }

/-- Modelled from the spec: `apop_matrix_realloc(m, rows, cols)` is not part of
the sources given; the storage is reallocated to fit: the cells present
before and after keep their content, the new ones are not yet written.  The
result is an `Option` because the caller tests it for `NULL`. -/
def apop_matrix_realloc {V : Type} (lib : NumLib V) (m : Option (gsl_matrix V))
    (rows cols : Nat) : Option (gsl_matrix V) :=
  let old := match m with
    | some x => x.data
    | none => []
  let fit := fun (r : List V) => r.take cols ++ List.replicate (cols - r.length) lib.fresh
  some { size1 := rows, size2 := cols,
         data := (old.take rows).map fit ++
           List.replicate (rows - old.length) (List.replicate cols lib.fresh) }

/-- Modelled from the spec: `gsl_matrix_set(m, i, j, x)` belongs to GSL; the
cell `(i, j)` is overwritten. -/
def gsl_matrix_set {V : Type} (m : gsl_matrix V) (i j : Nat) (x : V) : gsl_matrix V :=
  { m with data := m.data.set i ((m.data.getD i []).set j x) }

/-- Modelled from the spec: `apop_name_add(n, s, type)` is not part of the
sources given; a copy of the string is appended to the row names for type
`'r'` (114) and to the column names for type `'c'` (99). -/
def apop_name_add (n : apop_name) (s : List CChar) (type : CChar) : apop_name :=
  if type = 114 then { n with row := n.row ++ [s] }
  else if type = 99 then { n with column := n.column ++ [s] }
  else n

/-- Modelled from the spec: `apop_text_add(fn, i, 0, s)` is not part of the
sources given; cell `i` of the text grid holds a copy of `s` afterwards. -/
def apop_text_add (text : Text) (i : Nat) (s : List CChar) : Text :=
  text.set i (s ++ [0])

/-- The decimal digits of a number, as `sprintf` prints it with `%i`. -/
def decimal (i : Nat) : List CChar := (Nat.repr i).toList.map Char.toNat

/-- The loops `while (fn->textsize[0] == 0) parse_a_line(infile, fn, ...)` of
`get_field_names`, run for at most `fuel` lines. -/
def read_until_fields (field_ends : Option FieldEnds) (delimiters : List CChar) :
    Nat → FILE → Text → Option (Text × FILE)
  | 0, _, _ => none
  | fuel + 1, infile, fn =>
    if fn.length = 0 then
      match parse_a_line infile fn field_ends delimiters with
      | none => none
      | some r => read_until_fields field_ends delimiters fuel r.infile r.fn
    else some (fn, infile)

/-- The function `get_field_names`: returns the row buffers `fn` and
`add_this_line` and the stream.  `field_names` is `none` for `NULL`. -/
def get_field_names (has_col_names : Nat) (field_names : Option (List (List CChar)))
    (infile : FILE) (add_this_line fn : Text) (field_ends : Option FieldEnds)
    (delimiters : List CChar) : Option (Text × Text × FILE) :=
  if has_col_names ≠ 0 ∧ field_names.isNone then
    match read_until_fields field_ends delimiters (infile.length + 1) infile fn with
    | none => none
    | some r =>
      match parse_a_line r.2 add_this_line field_ends delimiters with
      | none => none
      | some r2 => some (r.1, r2.fn, r2.infile)
  else
    match read_until_fields field_ends delimiters (infile.length + 1) infile add_this_line with
    | none => none
    | some r =>
      let fn := apop_text_alloc fn r.1.length
      let fn := (List.range fn.length).foldl
        (fun t i => match field_names with
          | some names => apop_text_add t i (names.getD i [])
          | none => apop_text_add t i ([99, 111, 108, 95] ++ decimal i)) fn
      some (fn, r.1, r.2)

/-- The conversion of one field in the body of `apop_text_to_data`: the value
`strtod` reads when it consumes at least one byte, `GSL_NAN` for an empty
field and for a field of which `strtod` consumes nothing. -/
def convert_field {V : Type} (lib : NumLib V) (thisstr : List CChar) : V :=
  if thisstr.length ≠ 0 then
    let r := lib.strtod thisstr
    if r.2 ≠ 0 then r.1 else lib.GSL_NAN
  else lib.GSL_NAN

/-- The loop `for (int col=hasrows; col < L.ct; col++)` of `apop_text_to_data`. -/
def fill_row {V : Type} (lib : NumLib V) (m : gsl_matrix V) (add_this_line : Text)
    (row hasrows ct : Nat) : gsl_matrix V :=
  (List.range' hasrows (ct - hasrows)).foldl
    (fun m col => gsl_matrix_set m (row - 1) (col - hasrows)
      (convert_field lib (cstr (add_this_line.getD col [])))) m

/-- The variables of the body loop of `apop_text_to_data`. -/
structure TState (V : Type) where
  set : Option (apop_data V)
  L : line_parse_t
  row : Nat
  add_this_line : Text
  infile : FILE

/-- The loop `while(!set || (L.ct && !L.eof))` of `apop_text_to_data`, run for
at most `fuel` passes; the result is the returned set. -/
def body_loop {V : Type} (lib : NumLib V) (hasrows : Nat) (field_ends : Option FieldEnds)
    (delimiters : List CChar) : Nat → TState V → Option (apop_data V)
  | 0, _ => none
  | fuel + 1, s =>
    if s.set.isNone ∨ (s.L.ct ≠ 0 ∧ s.L.eof = false) then
      if s.L.ct = 0 then
        match parse_a_line s.infile s.add_this_line field_ends delimiters with
        | none => none
        | some r =>
          body_loop lib hasrows field_ends delimiters fuel
            { s with L := r.L, add_this_line := r.fn, infile := r.infile }
      else
        let set := match s.set with
          | some x => x
          | none => apop_data_alloc lib 1 (s.L.ct - hasrows)
        let row := s.row + 1
        let cols := match set.matrix with
          | some m => m.size2
          | none => s.L.ct - hasrows
        match apop_matrix_realloc lib set.matrix row cols with
        | none => some { set with matrix := none, error := 97 }
        | some m =>
          let set := { set with matrix := some m }
          let set :=
            if hasrows ≠ 0
            then { set with names := apop_name_add set.names (cstr (s.add_this_line.getD 0 [])) 114 }
            else set
          if s.L.ct - hasrows > m.size2 then some { set with error := 116 }
          else
            let set := { set with matrix := some (fill_row lib m s.add_this_line row hasrows s.L.ct) }
            match parse_a_line s.infile s.add_this_line field_ends delimiters with
            | none => none
            | some r =>
              body_loop lib hasrows field_ends delimiters fuel
                { set := some set, L := r.L, row := row, add_this_line := r.fn,
                  infile := r.infile }
    else s.set

/-- The function `apop_text_to_data`.  `text_file` is the content of the
file, `none` when it cannot be opened; `'y'` is 121, `'Y'` is 89, `'n'` is
110.  The result `none` says that the call does not return. -/
def apop_text_to_data {V : Type} (lib : NumLib V) (text_file : Option FILE)
    (has_row_names has_col_names : Nat) (field_ends : Option FieldEnds)
    (delimiters : List CChar) : Option (apop_data V) :=
  let has_row_names := if has_row_names = 1 ∨ has_row_names = 89 then 121 else has_row_names
  let has_col_names := if has_col_names = 1 ∨ has_col_names = 89 then 121 else has_col_names
  let hasrows : Nat := if has_row_names = 121 then 1 else 0
  match text_file with
  | none =>
    some { vector := none, matrix := none, weights := none,
           names := { column := [], row := [] }, error := 116 }
  | some infile =>
    if has_col_names = 121 then
      match get_field_names 1 none infile [] [] field_ends delimiters with
      | none => none
      | some r =>
        let field_names := r.1
        let add_this_line := r.2.1
        let ct := add_this_line.length
        let set : apop_data V :=
          apop_data_alloc lib 1 (int_to_size_t ((ct : Int) - (hasrows : Int)))
        let names := (List.range (ct - hasrows)).foldl
          (fun n j => apop_name_add n (cstr (field_names.getD j [])) 99) set.names
        body_loop lib hasrows field_ends delimiters (r.2.2.length + 2)
          { set := some { set with names := names }, L := { ct := ct, eof := false }, row := 0,
            add_this_line := add_this_line, infile := r.2.2 }
    else
      body_loop lib hasrows field_ends delimiters (infile.length + 2)
        { set := none, L := { ct := 0, eof := false }, row := 0, add_this_line := [],
          infile := infile }

/-- A small `strtod` for examples: it reads the decimal digits at the start
of the string. -/
def digits_strtod (s : List CChar) : Option Nat × Nat :=
  let ds := s.takeWhile (fun c => decide (48 ≤ c ∧ c ≤ 57))
  (some (ds.foldl (fun v c => 10 * v + (c - 48)) 0), ds.length)

/-- A library for examples: values are `Option Nat`, `none` stands for NaN,
unwritten cells hold `some 170`. -/
def digits_lib : NumLib (Option Nat) :=
  { strtod := digits_strtod, GSL_NAN := none, fresh := some 170 }

/-- Run `k` passes of the loop body of `parse_a_line`, none of which ends the
loop; `none` when one of them reads a newline or the end of the input. -/
def parse_passes (delimiters : List CChar) : Nat → PState → FILE → Option (PState × FILE)
  | 0, st, infile => some (st, infile)
  | k + 1, st, infile =>
    let r := parse_iter delimiters st infile
    if r.2.1 ≠ CType.n ∧ r.2.1 ≠ CType.E then parse_passes delimiters k r.1 r.2.2
    else none

/-- What a caller can observe of a call of a line tokenizer: the fields, the
returned struct and the stream. -/
def LineResult.obs (r : LineResult) : List (List CChar) × line_parse_t × FILE :=
  (r.fields, r.L, r.infile)

/-! ## The tokenizer on strings

The same loop with the memory of the row buffer left out: the fields closed so
far on the line are kept as strings, the open field as the bytes written to
it.  It is used in the proofs only. -/

/-- The state of the loop body seen through the fields it has built. -/
structure AState where
  closed : List (List CChar)
  cur : List CChar
  lnw : Nat
  inq : Bool
  inqq : Bool
  infield : Bool
  lastwhite : Bool
  deriving DecidableEq

/-- The state at the start of a line. -/
def AState.init : AState :=
  { closed := [], cur := [], lnw := 0, inq := false, inqq := false, infield := false,
    lastwhite := false }

/-- A state outside quotes with a field open. -/
def AState.inField (closed : List (List CChar)) (cur : List CChar) (lnw : Nat) : AState :=
  { closed := closed, cur := cur, lnw := lnw, inq := false, inqq := false, infield := true,
    lastwhite := false }

/-- A state outside quotes with no field open. -/
def AState.idle (closed : List (List CChar)) (lastwhite : Bool) : AState :=
  { closed := closed, cur := [], lnw := 0, inq := false, inqq := false, infield := false,
    lastwhite := lastwhite }

/-- The counterpart of `open_field` on strings. -/
def aopen (a : AState) : AState :=
  { a with infield := true, cur := [] }

/-- The counterpart of `close_field` on strings: the field is the C string of
the bytes written before the last non-white one. -/
def aclose (a : AState) : AState :=
  { a with closed := a.closed ++ [cstr (a.cur.take a.lnw)], infield := false, cur := [],
           lnw := 0 }

/-- The counterpart of `extend_field` on strings. -/
def aextend (a : AState) (ci : apop_char_info) : AState :=
  { a with cur := a.cur ++ [ci.c],
           lnw := if ci.type ≠ CType.w then a.cur.length + 1 else a.lnw }

/-- The counterpart of `field_fill` on strings. -/
def afield_fill (a : AState) (ci : apop_char_info) : AState :=
  if a.infield = false ∧ ci.type = CType.w then a
  else
    let a :=
      if a.infield = false ∧
          (ci.type = CType.r ∨ ci.type = CType.d ∨
            ((ci.type = CType.n ∨ ci.type = CType.E) ∧ a.closed.length > 0))
      then aopen a else a
    if a.infield = true then
      if ci.type = CType.d ∨ ci.type = CType.n ∨ ci.type = CType.E ∨ ci.type = CType.W
      then aclose a
      else if ci.type = CType.w ∨ ci.type = CType.r then aextend a ci
      else a
    else a

/-- The counterpart of `field_step` on strings. -/
def afield_step (a : AState) (ci : apop_char_info) : AState :=
  if ci.type = CType.W ∧ a.lastwhite = true then a
  else afield_fill { a with lastwhite := decide (ci.type = CType.W) } ci

/-- The counterpart of `parse_iter` on strings. -/
def aiter (delimiters : List CChar) (a : AState) (infile : FILE) : AState × CType × FILE :=
  let r := read_step delimiters a.inq a.inqq infile
  (afield_step { a with inq := r.2.1, inqq := r.2.2.1 } r.1, r.1.type, r.2.2.2)

/-- The counterpart of `parse_loop` on strings. -/
def aloop (delimiters : List CChar) : Nat → AState → FILE → Option (AState × CType × FILE)
  | 0, _, _ => none
  | fuel + 1, a, infile =>
    let r := aiter delimiters a infile
    if r.2.1 ≠ CType.n ∧ r.2.1 ≠ CType.E then aloop delimiters fuel r.1 r.2.2
    else some r

/-- The counterpart of `parse_passes` on strings. -/
def apasses (delimiters : List CChar) : Nat → AState → FILE → Option (AState × FILE)
  | 0, a, infile => some (a, infile)
  | k + 1, a, infile =>
    let r := aiter delimiters a infile
    if r.2.1 ≠ CType.n ∧ r.2.1 ≠ CType.E then apasses delimiters k r.1 r.2.2
    else none

/-- The counterpart of `parse_a_line` (delimiter mode) on strings: the fields,
the returned struct and the stream. -/
def aparse (infile : FILE) (delimiters : List CChar) :
    Option (List (List CChar) × line_parse_t × FILE) :=
  (aloop delimiters (infile.length + 1) AState.init infile).map
    (fun r => (r.1.closed, { ct := r.1.closed.length, eof := decide (r.2.1 = CType.E) }, r.2.2))

/-- The fields a state of `parse_a_line` has built. -/
def view (st : PState) : AState :=
  { closed := (st.fn.take (if st.infield then st.ct - 1 else st.ct)).map cstr,
    cur := if st.infield then (st.fn.getD (st.ct - 1) []).take st.thisflen else [],
    lnw := st.lastnonwhite, inq := st.inq, inqq := st.inqq, infield := st.infield,
    lastwhite := st.lastwhite }

/-- The invariant of the loop of `parse_a_line`: the cells counted by `ct`
exist; the cell of the open field has `mlen` bytes, two more than written. -/
def Good (st : PState) : Prop :=
  st.ct ≤ st.fn.length ∧
  (st.infield = true →
    1 ≤ st.ct ∧ (st.fn.getD (st.ct - 1) []).length = st.mlen ∧ st.thisflen + 2 ≤ st.mlen ∧
    st.lastnonwhite ≤ st.thisflen) ∧
  (st.infield = false → st.lastnonwhite = 0)

/-- The invariant of the loop on strings. -/
def AGood (a : AState) : Prop :=
  (a.infield = true → a.lnw ≤ a.cur.length ∧ a.lastwhite = false) ∧
  (a.infield = false → a.lnw = 0 ∧ a.cur = [])

/-! ## The database loader `apop_text_to_db`

The embedding covers the SQLite engine (`apop_opts.db_engine != 'm'`) and a
header `sqlite3.h` of version 3.3.9 or later.  The counters `ct` and `rows`
of the source are `int`s; they are not bounded here, so the embedding
describes inputs of fewer than `2^31` lines. -/

/-- The bytes of a string literal of the source. -/
def bytes (s : String) : List CChar := s.toList.map Char.toNat

/-- The function `tolower` in the C locale. -/
def tolower (c : CChar) : CChar := if 65 ≤ c ∧ c ≤ 90 then c + 32 else c

/-- The function `strcasecmp` on the bytes of two C strings, given without
their terminators.  The result is given by its sign, which is all that the
C library promises. -/
def strcasecmp : List CChar → List CChar → Int
  | [], [] => 0
  | [], _ :: _ => -1
  | _ :: _, [] => 1
  | a :: s, b :: t =>
    if tolower a = tolower b then strcasecmp s t
    else if tolower a < tolower b then -1 else 1

/-- What the embedding of the database loader takes from the C library, from
GSL and from the rest of Apophenia: `strtod`, given as the value read and the
number of bytes consumed, `atof`, the `int` that `isinf` and `gsl_isnan`
return, and the `int` that `apop_regex(string, regex)` returns. -/
structure DbLib (V : Type) where
  strtod : List CChar → V × Nat
  atof : List CChar → V
  isinf : V → Int
  gsl_isnan : V → Int
  apop_regex : List CChar → List CChar → Int

/-- The field of the global `apop_opts` that the loader reads for the
SQLite engine: the missing-value marker `db_nan`. -/
structure apop_opts_type where
  db_nan : List CChar

/-- The function `prep_string_for_sqlite`.  `astring` is `none` for a `NULL`
pointer and else the bytes of the C string; the result is `none` for `NULL`.
`*tail` is the byte at the offset that `strtod` consumed, the terminator when
that offset is the length of the string. -/
def prep_string_for_sqlite {V : Type} (lib : DbLib V) (opts : apop_opts_type)
    (prepped_statements : Nat) (astring : Option (List CChar)) : Option (List CChar) :=
  match astring with
  | none => none
  | some s =>
    if s.getD 0 0 = 0 ∨ strcasecmp opts.db_nan s = 0 then none
    else
      let tail := (lib.strtod s).2
      if s.getD tail 0 ≠ 0 then
        if prepped_statements = 0 then
          if strchr s 39 = true then some ([34] ++ s ++ [34])
          else some ([39] ++ s ++ [39])
        else some s
      else
        if lib.isinf (lib.atof s) = 1 then some (bytes "9e9999999")
        else if lib.isinf (lib.atof s) = -1 then some (bytes "-9e9999999")
        else if lib.gsl_isnan (lib.atof s) ≠ 0 then some (bytes "0.0/0.0")
        else if s.getD 0 0 = 46 then some (bytes "0" ++ s)
        else some s

/-- The operations that the loader issues to the database, in the order of
the calls: `apop_query` with the text of the query, `sqlite3_prepare_v2` with
the text of the statement, `sqlite3_bind_text` with the number of the
parameter and the text bound, `sqlite3_step`, `sqlite3_reset`,
`sqlite3_clear_bindings` and `sqlite3_finalize`. -/
inductive DbOp
  | query (q : List CChar)
  | prepare (q : List CChar)
  | bind_text (field : Nat) (s : List CChar)
  | step
  | reset
  | clear_bindings
  | finalize
  deriving DecidableEq

/-- The locals `q`, `field` and `comma` of `line_to_insert`, and the calls of
`sqlite3_bind_text` made so far. -/
structure IState where
  q : List CChar
  field : Nat
  comma : CChar
  binds : List DbOp
  deriving DecidableEq

/-- The body of the loop `for (int col=0; col < L.ct; col++)` of
`line_to_insert`; `p_stmt` says that the statement is not `NULL`.  A cell
that the row buffer does not have is read as `NULL`. -/
def insert_col {V : Type} (lib : DbLib V) (opts : apop_opts_type) (addme : Text)
    (p_stmt : Bool) (st : IState) (col : Nat) : IState :=
  let prepped := prep_string_for_sqlite lib opts (if p_stmt = true then 1 else 0)
    ((addme.get? col).map cstr)
  let filled : Bool := match prepped with
    | some p => decide (p.length ≠ 0)
    | none => false
  if p_stmt = true then
    if filled = false then { st with field := st.field + 1 }
    else { st with field := st.field + 1,
                   binds := st.binds ++ [DbOp.bind_text st.field (prepped.getD [])] }
  else
    { st with q := if filled = true then st.q ++ [st.comma] ++ bytes " " ++ prepped.getD []
                   else st.q ++ [st.comma] ++ bytes "NULL",
              comma := 44 }

/-- The function `line_to_insert`: the operations it issues.  The argument
`row` of the source is used in a notice only and is left out. -/
def line_to_insert {V : Type} (lib : DbLib V) (opts : apop_opts_type) (L : line_parse_t)
    (addme : Text) (tabname : List CChar) (p_stmt : Bool) : List DbOp :=
  if L.ct = 0 then []
  else
    let q := if p_stmt = true then [] else bytes "INSERT INTO " ++ tabname ++ bytes " VALUES ("
    let st := (List.range L.ct).foldl (insert_col lib opts addme p_stmt)
      { q := q, field := 1, comma := 32, binds := [] }
    if p_stmt = true then st.binds else [DbOp.query (st.q ++ bytes ");")]

/-- The function `get_field_conditions` for the SQLite engine.  `field_params`
is `none` for `NULL` and else the rows of its text grid, a regular expression
and a type each. -/
def get_field_conditions {V : Type} (lib : DbLib V) (var : List CChar)
    (field_params : Option (List (List CChar × List CChar))) : List CChar :=
  match field_params with
  | some ps =>
    match ps.find? (fun p => decide (lib.apop_regex var p.1 ≠ 0)) with
    | some p => p.2
    | none => bytes "numeric"
  | none => bytes "numeric"

/-- The body of the loop over the field names in `tab_create_sqlite`. -/
def create_col {V : Type} (lib : DbLib V) (has_row_names : Nat)
    (field_params : Option (List (List CChar × List CChar))) (fn : Text)
    (q : List CChar) (i : Nat) : List CChar :=
  let q :=
    if i = 0 then
      if has_row_names ≠ 0 then q ++ bytes " ('row_names', " else q ++ bytes " ("
    else q ++ bytes "' " ++ get_field_conditions lib (cstr (fn.getD (i - 1) [])) field_params
           ++ bytes ", "
  q ++ bytes " '" ++ cstr (fn.getD i [])

/-- The text of the `create table` query that `tab_create_sqlite` builds.
Modelled from the spec: the macro `XN` is not part of the sources given; by
the comment at `xprintf` it prints a `NULL` string as the empty string. -/
def create_query {V : Type} (lib : DbLib V) (tabname : List CChar) (has_row_names : Nat)
    (field_params : Option (List (List CChar × List CChar)))
    (table_params : Option (List CChar)) (fn : Text) : List CChar :=
  let q := (List.range fn.length).foldl (create_col lib has_row_names field_params fn)
    (bytes "create table " ++ tabname)
  q ++ bytes "' " ++ get_field_conditions lib (cstr (fn.getD (fn.length - 1) [])) field_params
    ++ (match table_params with
        | some t => bytes ", " ++ t
        | none => [])
    ++ bytes ");"

/-- The function `tab_create_sqlite`: the value returned and the operations
issued.  `created` is the answer of `apop_table_exists` after the query. -/
def tab_create_sqlite {V : Type} (lib : DbLib V) (created : Bool) (tabname : List CChar)
    (has_row_names : Nat) (field_params : Option (List (List CChar × List CChar)))
    (table_params : Option (List CChar)) (fn : Text) : Int × List DbOp :=
  let q := create_query lib tabname has_row_names field_params table_params fn
  if created = false then (-1, [DbOp.query q])
  else (0, [DbOp.query q, DbOp.query (bytes "begin;")])

/-- The answers of the database to the calls of the loader that read it:
`apop_table_exists` at the start and after the `create table` query, whether
`db` is not `NULL`, the number `sqlite3_libversion_number` returns, whether
`sqlite3_prepare_v2` yields a statement, the codes that `sqlite3_reset` and
`sqlite3_clear_bindings` return in the pass that inserts row `n`, and the
code that `sqlite3_finalize` returns. -/
structure DbEnv where
  table_exists : Bool
  created : Bool
  db : Bool
  sqlite3_libversion_number : Nat
  sqlite3_prepare_v2 : Bool
  sqlite3_reset : Nat → Int
  sqlite3_clear_bindings : Nat → Int
  sqlite3_finalize : Int

/-- The loop `do { L = parse_a_line(...); rows++; } while (!L.ct && !L.eof)`
of `apop_text_to_db`, run for at most `fuel` lines: the last line read and
the value of `rows`. -/
def skip_blank_lines (field_ends : Option FieldEnds) (delimiters : List CChar) :
    Nat → FILE → Text → Nat → Option (LineResult × Nat)
  | 0, _, _, _ => none
  | fuel + 1, infile, add_this_line, rows =>
    match parse_a_line infile add_this_line field_ends delimiters with
    | none => none
    | some r =>
      if r.L.ct = 0 ∧ r.L.eof = false
      then skip_blank_lines field_ends delimiters fuel r.infile r.fn (rows + 1)
      else some (r, rows + 1)

/-- The variables of the loop `while(L.ct && !L.eof)` of `apop_text_to_db`. -/
structure DState where
  L : line_parse_t
  add_this_line : Text
  infile : FILE
  ct : Nat
  rows : Nat
  deriving DecidableEq

/-- How the loop `while(L.ct && !L.eof)` ends: its condition fails, with the
value of `rows`; or an `Apop_assert_c` returns `-1`; or it does not end. -/
inductive LoopEnd
  | done (rows : Nat)
  | failed
  | unfinished
  deriving DecidableEq

/-- The constant `batch_size` of `apop_text_to_db`. -/
def batch_size : Nat := 10000

/-- The loop `while(L.ct && !L.eof)` of `apop_text_to_db`, run for at most
`fuel` passes: the operations issued and how the loop ends. -/
def insert_loop {V : Type} (lib : DbLib V) (opts : apop_opts_type) (env : DbEnv)
    (tabname : List CChar) (statement : Bool) (field_ends : Option FieldEnds)
    (delimiters : List CChar) : Nat → DState → List DbOp × LoopEnd
  | 0, _ => ([], LoopEnd.unfinished)
  | fuel + 1, s =>
    if s.L.ct ≠ 0 ∧ s.L.eof = false then
      let ops1 := line_to_insert lib opts s.L s.add_this_line tabname statement
      let ops2 := if s.ct % batch_size = 0 then [DbOp.query (bytes "commit; begin;")] else []
      let ct := s.ct + 1
      if statement = true ∧ env.sqlite3_reset ct ≠ 0 then
        (ops1 ++ ops2 ++ [DbOp.step, DbOp.reset], LoopEnd.failed)
      else if statement = true ∧ env.sqlite3_clear_bindings ct ≠ 0 then
        (ops1 ++ ops2 ++ [DbOp.step, DbOp.reset, DbOp.clear_bindings], LoopEnd.failed)
      else
        let ops3 := if statement = true then [DbOp.step, DbOp.reset, DbOp.clear_bindings] else []
        match skip_blank_lines field_ends delimiters (s.infile.length + 1) s.infile
            s.add_this_line s.rows with
        | none => (ops1 ++ ops2 ++ ops3, LoopEnd.unfinished)
        | some r =>
          let rest := insert_loop lib opts env tabname statement field_ends delimiters fuel
            { L := r.1.L, add_this_line := r.1.fn, infile := r.1.infile, ct := ct, rows := r.2 }
          (ops1 ++ ops2 ++ ops3 ++ rest.1, rest.2)
    else ([], LoopEnd.done s.rows)

/-- The text of the prepared statement that `apop_text_to_db` builds. -/
def prepared_query (tabname : List CChar) (col_ct : Nat) : List CChar :=
  (List.range' 1 (col_ct - 1)).foldl (fun q _ => q ++ bytes ", ?")
    (bytes "INSERT INTO " ++ tabname ++ bytes " VALUES (?") ++ bytes ")"

/-- A call of `apop_text_to_db`: the operations issued to the database, and
the value returned, `none` when the call does not return. -/
structure DbRun where
  ops : List DbOp
  ret : Option Int
  deriving DecidableEq

/-- The function `apop_text_to_db`.  `text_file` is the content of the file,
`none` when it cannot be opened; `'y'` is 121, `'Y'` is 89, `'n'` is 110. -/
def apop_text_to_db {V : Type} (lib : DbLib V) (opts : apop_opts_type) (env : DbEnv)
    (text_file : Option FILE) (tabname : List CChar) (has_row_names has_col_names : Nat)
    (field_names : Option (List (List CChar))) (field_ends : Option FieldEnds)
    (field_params : Option (List (List CChar × List CChar)))
    (table_params : Option (List CChar)) (delimiters : List CChar) : DbRun :=
  let has_row_names := if has_row_names = 1 ∨ has_row_names = 89 then 121 else has_row_names
  let has_col_names := if has_col_names = 1 ∨ has_col_names = 89 then 121 else has_col_names
  if env.table_exists = true then { ops := [], ret := some (-1) }
  else
    match text_file with
    | none => { ops := [], ret := some (-1) }
    | some infile =>
      match get_field_names (if has_col_names = 121 then 1 else 0) field_names infile [] []
          field_ends delimiters with
      | none => { ops := [], ret := none }
      | some r =>
        let fn := r.1
        let add_this_line := r.2.1
        let col_ct := add_this_line.length
        let made := tab_create_sqlite lib env.created tabname
          (if has_row_names = 121 then 1 else 0) field_params table_params fn
        if made.1 ≠ 0 then { ops := made.2, ret := some (-1) }
        else
          let use_sqlite_prepared_statements : Bool :=
            decide (env.sqlite3_libversion_number ≥ 3003009 ∧ col_ct ≤ 999)
          if use_sqlite_prepared_statements = true ∧ env.db = false
          then { ops := made.2, ret := some (-1) }
          else
            let ops_prepare :=
              if use_sqlite_prepared_statements = true
              then [DbOp.prepare (prepared_query tabname col_ct)] else []
            let statement := use_sqlite_prepared_statements && env.sqlite3_prepare_v2
            let run := insert_loop lib opts env tabname statement field_ends delimiters
              (r.2.2.length + 2)
              { L := { ct := col_ct, eof := false }, add_this_line := add_this_line,
                infile := r.2.2, ct := 0, rows := 1 }
            match run.2 with
            | LoopEnd.unfinished => { ops := made.2 ++ ops_prepare ++ run.1, ret := none }
            | LoopEnd.failed => { ops := made.2 ++ ops_prepare ++ run.1, ret := some (-1) }
            | LoopEnd.done rows =>
              let ops := made.2 ++ ops_prepare ++ run.1 ++ [DbOp.query (bytes "commit;")]
              if use_sqlite_prepared_statements = true then
                if env.sqlite3_finalize ≠ 0
                then { ops := ops ++ [DbOp.finalize], ret := some (-1) }
                else { ops := ops ++ [DbOp.finalize], ret := some (rows : Int) }
              else { ops := ops, ret := some (rows : Int) }

/-- A database in which every call succeeds, with a library of version
3.45.1 and the table not yet there. -/
def sqlite_ok : DbEnv :=
  { table_exists := false, created := true, db := true,
    sqlite3_libversion_number := 3045001, sqlite3_prepare_v2 := true,
    sqlite3_reset := fun _ => 0, sqlite3_clear_bindings := fun _ => 0,
    sqlite3_finalize := 0 }

/-- The same database behind a library older than 3.3.9, for which the
loader sends each row as the text of an `INSERT` query. -/
def sqlite_old : DbEnv := { sqlite_ok with sqlite3_libversion_number := 3003008 }

/-- The values of the example library: a number, the two infinities, NaN. -/
inductive ExVal
  | num (n : Nat)
  | pinf
  | ninf
  | nan
  deriving DecidableEq

/-- A small `strtod` for examples: it reads `inf`, `-inf`, `nan`, or the
digits and dots at the start of the string. -/
def ex_strtod (s : List CChar) : ExVal × Nat :=
  if s.take 3 = bytes "inf" then (ExVal.pinf, 3)
  else if s.take 4 = bytes "-inf" then (ExVal.ninf, 4)
  else if s.take 3 = bytes "nan" then (ExVal.nan, 3)
  else
    let ds := s.takeWhile (fun c => decide ((48 ≤ c ∧ c ≤ 57) ∨ c = 46))
    (ExVal.num ((ds.filter (fun c => decide (c ≠ 46))).foldl (fun v c => 10 * v + (c - 48)) 0),
     ds.length)

/-- A library for examples: `atof` is the value of `ex_strtod`, `isinf`
returns `1` and `-1` for the infinities, no regular expression matches. -/
def ex_lib : DbLib ExVal :=
  { strtod := ex_strtod,
    atof := fun s => (ex_strtod s).1,
    isinf := fun v => if v = ExVal.pinf then 1 else if v = ExVal.ninf then -1 else 0,
    gsl_isnan := fun v => if v = ExVal.nan then 1 else 0,
    apop_regex := fun _ _ => 0 }

/-- The default options: the missing-value marker is `NaN`. -/
def default_opts : apop_opts_type := { db_nan := bytes "NaN" }

/-! ### Transactions in a sequence of operations

What follows is not translated from the source: it says what the statements
on transactions mean, for a sequence of operations as the loader issues it. -/

/-- Whether an operation inserts a row: `sqlite3_step` of the prepared
`INSERT` statement, or a query whose text starts with `INSERT INTO `. -/
def is_row_insertion (op : DbOp) : Bool :=
  match op with
  | DbOp.step => true
  | DbOp.query q => decide (q.take 12 = bytes "INSERT INTO ")
  | _ => false

/-- The number of rows that a sequence of operations inserts. -/
def rows_inserted (ops : List DbOp) : Nat := ops.countP is_row_insertion

/-- Where a sequence of operations stands: whether a transaction is open, how
many rows were inserted in it, and whether so far every insertion was made in
an open transaction that held at most `batch_size` insertions with it. -/
structure TxState where
  inside : Bool
  count : Nat
  ok : Bool
  deriving DecidableEq

/-- The effect of one operation on the transactions: `begin;` opens one,
`commit;` closes it, `commit; begin;` closes it and opens the next one. -/
def tx_op (t : TxState) (op : DbOp) : TxState :=
  if op = DbOp.query (bytes "begin;") ∨ op = DbOp.query (bytes "commit; begin;")
  then { t with inside := true, count := 0 }
  else if op = DbOp.query (bytes "commit;") then { t with inside := false, count := 0 }
  else if is_row_insertion op = true
  then { t with count := t.count + 1,
                ok := t.ok && t.inside && decide (t.count + 1 ≤ batch_size) }
  else t

/-- The effect of a sequence of operations on the transactions. -/
def tx_run (t : TxState) (ops : List DbOp) : TxState := ops.foldl tx_op t

/-! ### The pieces of a fixed-width line

Not translated from the source: the pieces are what the statements on
`parse_a_fixed_line` compare its cells with. -/

/-- The pieces into which the field ends `ends` cut a line whose first byte
has position `p + 1`: the piece of an end `e` runs up to position `e`. -/
def field_cuts : Nat → List Nat → List CChar → List (List CChar)
  | _, [], _ => []
  | p, e :: es, line => line.take (e - p) :: field_cuts e es (line.drop (e - p))

/-! ### The classifier of the specification

Not translated from the source: the rules the specification gives for the
category of a byte outside quotes, in the order in which it gives them. -/

/-- The reference classifier: the first rule that matches decides, in the
order end of input, comment sign, backslash, quotes, space or tab or NUL
(a white-space delimiter when it is in the delimiter set, plain white space
otherwise), member of the delimiter set, newline, regular. -/
def reference_classifier (delimiters : List CChar) (c : CChar) : CType :=
  if c = EOF then CType.E
  else if c = 35 then CType.hash
  else if c = 92 then CType.bs
  else if c = 39 then CType.sq
  else if c = 34 then CType.dq
  else if c = 32 ∨ c = 9 ∨ c = 0 then (if c ∈ delimiters then CType.W else CType.w)
  else if c ∈ delimiters then CType.d
  else if c = 10 then CType.n
  else CType.r

/-- The rules in the order in which the conditionals of `parse_next_char`
test them, for a byte other than NUL, with membership in the delimiter set
for the delimiter test: space or tab (a white-space delimiter when it is in
the delimiter set, plain white space otherwise), member of the delimiter set,
newline, double quote, single quote, backslash, end of input, comment sign,
regular.  Not translated from the source. -/
def delimiter_first_classifier (delimiters : List CChar) (c : CChar) : CType :=
  if c = 32 ∨ c = 9 then (if c ∈ delimiters then CType.W else CType.w)
  else if c ∈ delimiters then CType.d
  else if c = 10 then CType.n
  else if c = 34 then CType.dq
  else if c = 39 then CType.sq
  else if c = 92 then CType.bs
  else if c = EOF then CType.E
  else if c = 35 then CType.hash
  else CType.r

/-! ## Arrays to data sets: `apop_line_to_data` and `apop_data_fill_base` -/

/-- The element `ap[k]` of a C array of doubles.  A read behind the end of
the array has no defined value; the embedding gives it the value of memory
that was not yet written. -/
def array_get {V : Type} (lib : NumLib V) (ap : List V) (k : Nat) : V :=
  ap.getD k lib.fresh

/-- Modelled from the spec: `apop_data_alloc(size1, size2, size3)` with three
sizes is not part of the sources given; with a third size other than zero the
set gets a vector of `size1` cells when `size1` is not zero and a matrix of
`size2` rows and `size3` columns when both are positive; with a third size of
zero the first two sizes are those of the matrix, and with only the first size
not zero it is the size of the vector.  The cells are not yet written, there
are no weights and no names. -/
def apop_data_alloc_base {V : Type} (lib : NumLib V) (size1 size2 : Nat) (size3 : Int) :
    apop_data V :=
  let vsize : Nat := if size3 ≠ 0 then size1 else if size2 ≠ 0 then 0 else size1
  let msize1 : Nat := if size3 ≠ 0 then size2 else if size2 ≠ 0 then size1 else 0
  let msize2 : Int := if size3 ≠ 0 then size3 else if size2 ≠ 0 then (size2 : Int) else 0
  { vector := if vsize ≠ 0 then some (List.replicate vsize lib.fresh) else none,
    matrix := if msize2 > 0 ∧ msize1 > 0
      then some { size1 := msize1, size2 := msize2.toNat,
                  data := List.replicate msize1 (List.replicate msize2.toNat lib.fresh) }
      else none,
    weights := none, names := { column := [], row := [] }, error := 0 }

/-- Modelled from the spec: `apop_data_set(in, row, col, val)` is not part of
the sources given; column `-1` is the vector, the other columns are those of
the matrix. -/
def apop_data_set {V : Type} (d : apop_data V) (row : Nat) (col : Int) (val : V) :
    apop_data V :=
  if col = -1 then { d with vector := d.vector.map (fun v => v.set row val) }
  else { d with matrix := d.matrix.map (fun m => gsl_matrix_set m row col.toNat val) }

/-- The inner loop `for (int j=start; j< fin; j++) apop_data_set(in, i, j, ap[k++])`
of `apop_data_fill_base`; the state is the set and the counter `k`. -/
def fill_base_row {V : Type} (lib : NumLib V) (ap : List V) (start fin : Int) (i : Nat)
    (s : apop_data V × Nat) : apop_data V × Nat :=
  ((List.range (fin - start).toNat).map (fun (t : Nat) => start + (t : Int))).foldl
    (fun s j => (apop_data_set s.1 i j (array_get lib ap s.2), s.2 + 1)) s

/-- The function `apop_data_fill_base`; `none` is `NULL`. -/
def apop_data_fill_base {V : Type} (lib : NumLib V) (inp : Option (apop_data V))
    (ap : List V) : Option (apop_data V) :=
  match inp with
  | none => none
  | some d =>
    let start : Int := if d.vector.isSome then -1 else 0
    let height : Nat := match d.vector with
      | some v => v.length
      | none => 0
    let fin : Int := match d.matrix with
      | some m => (m.size2 : Int)
      | none => 0
    let height : Nat := match d.matrix with
      | some m => m.size1
      | none => height
    some ((List.range height).foldl (fun s i => fill_base_row lib ap start fin i s) (d, 0)).1

/-- The function `apop_line_to_matrix`: the matrix of `rows` by `cols` cells
that holds the array row by row. -/
def apop_line_to_matrix {V : Type} (lib : NumLib V) (line : List V) (rows cols : Int) :
    gsl_matrix V :=
  { size1 := int_to_size_t rows, size2 := int_to_size_t cols,
    data := (List.range (int_to_size_t rows)).map (fun i =>
      (List.range (int_to_size_t cols)).map (fun j =>
        array_get lib line (i * int_to_size_t cols + j))) }

/-- The function `apop_array_to_vector`: the vector of `size` cells that holds
the start of the array. -/
def apop_array_to_vector {V : Type} (lib : NumLib V) (inp : List V) (size : Int) : List V :=
  (List.range (int_to_size_t size)).map (fun i => array_get lib inp i)

/-- Modelled from the spec: `apop_matrix_to_data(m)` is not part of the sources
given; the set that holds the matrix and nothing else. -/
def apop_matrix_to_data {V : Type} (m : gsl_matrix V) : apop_data V :=
  { vector := none, matrix := some m, weights := none,
    names := { column := [], row := [] }, error := 0 }

/-- Modelled from the spec: `apop_vector_to_data(v)` is not part of the sources
given; the set that holds the vector and nothing else. -/
def apop_vector_to_data {V : Type} (v : List V) : apop_data V :=
  { vector := some v, matrix := none, weights := none,
    names := { column := [], row := [] }, error := 0 }

/-- The function `apop_line_to_data`; `'d'` is 100. -/
def apop_line_to_data {V : Type} (lib : NumLib V) (inp : List V) (vsize rows cols : Int) :
    Option (apop_data V) :=
  if vsize = 0 ∧ (rows > 0 ∧ cols > 0) then
    some (apop_matrix_to_data (apop_line_to_matrix lib inp rows cols))
  else if (rows = 0 ∨ cols = 0) ∧ vsize > 0 then
    some (apop_vector_to_data (apop_array_to_vector lib inp vsize))
  else if vsize ≠ rows then
    some { vector := none, matrix := none, weights := none,
           names := { column := [], row := [] }, error := 100 }
  else
    apop_data_fill_base lib
      (some (apop_data_alloc_base lib (int_to_size_t vsize) (int_to_size_t rows) cols)) inp

/-! ## Rank format: `apop_data_rank_compress` and `apop_data_rank_expand`

The entries of the data sets of this section are doubles that hold integers.
The embedding holds such a double as its value in `Int`; the conversion of the
double to an `int` is then the identity, which is what C does for a value in
the range of `int`. -/

/-- Modelled from the spec: `gsl_matrix_max(m)` belongs to GSL; the largest
entry of the matrix. -/
def gsl_matrix_max (m : gsl_matrix Int) : Int :=
  match m.data.flatten with
  | [] => 0
  | x :: xs => xs.foldl max x

/-- Modelled from the spec: `gsl_vector_max(v)` belongs to GSL; the largest
entry of the vector. -/
def gsl_vector_max (v : List Int) : Int :=
  match v with
  | [] => 0
  | x :: xs => xs.foldl max x

/-- The macro `GSL_MAX(a, b)`, which is `((a) > (b) ? (a) : (b))`. -/
def GSL_MAX (a b : Int) : Int := if a > b then a else b

/-- Modelled from the spec: `apop_data_calloc(size1, size2, size3)` is not part
of the sources given; it allocates as `apop_data_alloc` does and sets every
cell to zero. -/
def apop_data_calloc (lib : NumLib Int) (size1 size2 : Nat) (size3 : Int) : apop_data Int :=
  apop_data_alloc_base { lib with fresh := 0 } size1 size2 size3

/-- Modelled from the spec: `apop_data_get(in, row, col)` is not part of the
sources given; column `-1` is the vector, the other columns are those of the
matrix.  The embedding gives zero for a cell that does not exist. -/
def apop_data_get (d : apop_data Int) (row : Nat) (col : Int) : Int :=
  if col = -1 then
    match d.vector with
    | some v => v.getD row 0
    | none => 0
  else
    match d.matrix with
    | some m => (m.data.getD row []).getD col.toNat 0
    | none => 0

/-- Modelled from the spec: `apop_matrix_increment(m, i, j)` is not part of the
sources given; the cell `(i, j)` is increased by one.  For a cell outside the
matrix GSL reports a range error and the call does not return: `none`. -/
def apop_matrix_increment (m : Option (gsl_matrix Int)) (i : Nat) (j : Int) :
    Option (gsl_matrix Int) :=
  match m with
  | none => none
  | some m =>
    if i < m.size1 ∧ 0 ≤ j ∧ j < (m.size2 : Int) then
      some (gsl_matrix_set m i j.toNat ((m.data.getD i []).getD j.toNat 0 + 1))
    else none

/-- The sizes `vsize`, `msize1` and `msize2` that the macro `Get_vmsizes`
declares, zero for a part that the set does not have.  Modelled from the spec:
the macro is not part of the sources given. -/
def Get_vmsizes {V : Type} (d : apop_data V) : Nat × Nat × Nat :=
  ((match d.vector with
    | some v => v.length
    | none => 0),
   (match d.matrix with
    | some m => m.size1
    | none => 0),
   (match d.matrix with
    | some m => m.size2
    | none => 0))

/-- The statement `apop_matrix_increment(out->matrix, 0, x)` of the loops of
`apop_data_rank_compress`, on the matrix pointer of `out`; the state is `none`
once a call did not return. -/
def increment_out (s : Option (Option (gsl_matrix Int))) (x : Int) :
    Option (Option (gsl_matrix Int)) :=
  match s with
  | none => none
  | some m => (apop_matrix_increment m 0 x).map some

/-- The function `apop_data_rank_compress`; `none` says that the call does not
return. -/
def apop_data_rank_compress (lib : NumLib Int) (inp : apop_data Int) :
    Option (apop_data Int) :=
  let vsize := (Get_vmsizes inp).1
  let msize1 := (Get_vmsizes inp).2.1
  let msize2 := (Get_vmsizes inp).2.2
  let upper_bound : Int :=
    GSL_MAX (match inp.matrix with
             | some m => gsl_matrix_max m
             | none => 0)
            (match inp.vector with
             | some v => gsl_vector_max v
             | none => 0)
  let out := apop_data_calloc lib 1 (int_to_size_t (upper_bound + 1)) 0
  let m1 := (List.range msize1).foldl
    (fun s i => (List.range msize2).foldl
      (fun s (j : Nat) => increment_out s (apop_data_get inp i (j : Int))) s)
    (some out.matrix)
  let m2 := (List.range vsize).foldl
    (fun s i => increment_out s (apop_data_get inp i (-1))) m1
  match m2 with
  | none => none
  | some x => some { out with matrix := x }

/-- Modelled from the spec: `apop_matrix_sum(m)` is not part of the sources
given; the sum of the entries. -/
def apop_matrix_sum (m : gsl_matrix Int) : Int := m.data.flatten.sum

/-- Modelled from the spec: `apop_vector_sum(v)` is not part of the sources
given; the sum of the entries. -/
def apop_vector_sum (v : List Int) : Int := v.sum

/-- The function `apop_data_rank_expand`.  The outer `none` says that the call
does not return (the matrix of a set without a matrix is read); the inner
`none` is `NULL`.  In the conditional expression that gives `total_ct` the
sum `0 + in->vector` is the condition of the second `?:`. -/
def apop_data_rank_expand (lib : NumLib Int) (inp : apop_data Int) :
    Option (Option (apop_data Int)) :=
  let total_ct : Int :=
    match inp.matrix with
    | some m => apop_matrix_sum m
    | none =>
      match inp.vector with
      | some v => apop_vector_sum v
      | none => 0
  if total_ct = 0 then some none
  else
    let out := apop_data_alloc_base lib (int_to_size_t total_ct) 0 0
    match inp.matrix with
    | none => none
    | some m =>
      let r := (List.range m.size1).foldl
        (fun s i => (List.range m.size2).foldl
          (fun s (k : Nat) => (List.range ((m.data.getD i []).getD k 0).toNat).foldl
            (fun (s : List Int × Nat) _ => (s.1.set s.2 (k : Int), s.2 + 1)) s) s)
        ((match out.vector with
          | some v => v
          | none => []), 0)
      some (some { out with vector := out.vector.map (fun _ => r.1) })

/-! ### The entries of a set

Not translated from the source: the list of the entries of a set, used to
state what the rank functions compute. -/

/-- The entries of the matrix of a set, row by row, followed by those of its
vector. -/
def entries (d : apop_data Int) : List Int :=
  (match d.matrix with
   | some x => x.data.flatten
   | none => []) ++
  (match d.vector with
   | some v => v
   | none => [])

/-- The list that holds `c[k]` copies of each `k` below the length of `c`, for
`k` in increasing order.  Not translated from the source: it states what
`apop_data_rank_expand` returns. -/
def rank_expansion (c : List Nat) : List Int :=
  ((List.range c.length).map (fun (k : Nat) => List.replicate (c.getD k 0) (k : Int))).flatten

/-! ## Packing a data set into a vector: `apop_data_pack` and `apop_data_unpack` -/

/-- An `apop_data` set with two members that the text reader leaves alone: the
title of its names and its text grid.  The chain of the `more` pointers of a
set is a list of such pages; the empty list is `NULL`. -/
structure apop_page (V : Type) where
  title : List CChar
  set : apop_data V
  text : List (List (List CChar))
  deriving DecidableEq

/-- Modelled from the spec: `apop_regex(title, "^<.*>$")` is not part of the
sources given; the test holds for a title that starts with `<` and ends with
`>`. -/
def apop_regex_info (title : List CChar) : Bool :=
  decide (2 ≤ title.length) && (title.head? == some 60) && (title.getLast? == some 62)

/-- Modelled from the spec: the statements
`vout = gsl_vector_subvector(out, offset, n).vector; gsl_vector_memcpy(&vout, src);`
belong to GSL: the `n` cells of `out` from `offset` on are overwritten with
`src`.  When the view does not fit into `out` or the sizes differ GSL reports
an error and copies nothing. -/
def subvector_write {V : Type} (out : List V) (offset n : Nat) (src : List V) : List V :=
  if offset + n ≤ out.length ∧ src.length = n
  then out.take offset ++ src ++ out.drop (offset + n) else out

/-- Modelled from the spec: the statements
`vin = gsl_vector_subvector(in, offset, n).vector; gsl_vector_memcpy(dest, &vin);`
belong to GSL: `dest` is overwritten with the `n` cells of `in` from `offset`
on.  When the view does not fit into `in` or the sizes differ GSL reports an
error and copies nothing. -/
def subvector_read {V : Type} (inp : List V) (offset n : Nat) (dest : List V) : List V :=
  if offset + n ≤ inp.length ∧ dest.length = n then (inp.drop offset).take n else dest

/-- The sum `(in->vector ? in->vector->size : 0) +
(in->matrix ? in->matrix->size1 * in->matrix->size2 : 0) +
(in->weights ? in->weights->size : 0)` of `sizecount`. -/
def page_size {V : Type} (d : apop_data V) : Nat :=
  (match d.vector with
   | some v => v.length
   | none => 0) +
  (match d.matrix with
   | some m => m.size1 * m.size2
   | none => 0) +
  (match d.weights with
   | some w => w.length
   | none => 0)

/-- The function `sizecount`; `all_pp` and `use_info_pp` are the two `int`
parameters, `'n'` is 110. -/
def sizecount {V : Type} : List (apop_page V) → Nat → Nat → Nat
  | [], _, _ => 0
  | p :: more, all_pp, use_info_pp =>
    if use_info_pp = 110 ∧ apop_regex_info p.title = true then
      (if all_pp ≠ 0 then sizecount more all_pp use_info_pp else 0)
    else
      page_size p.set + (if all_pp ≠ 0 then sizecount more all_pp use_info_pp else 0)

/-- The three blocks of `apop_data_pack` that copy the vector, the rows of the
matrix and the weights of the first page into `out`; the result is `out` and
`offset`. -/
def pack_page {V : Type} (d : apop_data V) (out : List V) : List V × Nat :=
  let s : List V × Nat := (out, 0)
  let s := match d.vector with
    | some v => (subvector_write s.1 0 v.length v, s.2 + v.length)
    | none => s
  let s := match d.matrix with
    | some m => (List.range m.size1).foldl
        (fun (s : List V × Nat) i =>
          (subvector_write s.1 s.2 m.size2 (m.data.getD i []), s.2 + m.size2)) s
    | none => s
  match d.weights with
  | some w => (subvector_write s.1 s.2 w.length w, s.2 + w.length)
  | none => s

/-- The loop `while (use_info_pages=='n' && in->more &&
apop_regex(in->more->names->title, "^<.*>$")) in = in->more;` of
`apop_data_pack`, on the chain `in->more`; the result is `in->more` after the
loop. -/
def skip_info_pages {V : Type} (use_info_pages : CChar) : List (apop_page V) → List (apop_page V)
  | [] => []
  | q :: rest =>
    if use_info_pages = 110 ∧ apop_regex_info q.title = true
    then skip_info_pages use_info_pages rest else q :: rest

/-- The function `apop_data_pack` with the checks of its head, run for at most
`fuel` nested calls.  `inp` is the chain of pages, `out` the vector to fill,
`none` for `NULL`.  The outer `none` of the result says that the calls were
not enough, the inner `none` is `NULL`; otherwise the result is the content of
the vector returned.  `'y'` is 121, `'Y'` is 89, `'n'` is 110. -/
def apop_data_pack_base {V : Type} (lib : NumLib V) :
    Nat → List (apop_page V) → Option (List V) → CChar → CChar → Option (Option (List V))
  | 0, _, _, _, _ => none
  | fuel + 1, inp, out, all_pages, use_info_pages =>
    match inp with
    | [] => some none
    | p :: more =>
      let all_pp : Nat := if all_pages = 121 ∨ all_pages = 89 then 1 else 0
      let total_size := sizecount (p :: more) all_pp (if use_info_pages = 110 then 1 else 0)
      let bad_size : Bool := match out with
        | some o => decide (o.length ≠ total_size)
        | none => false
      if bad_size = true then some none
      else if total_size = 0 then some none
      else
        let out := match out with
          | some o => o
          | none => List.replicate total_size lib.fresh
        let r := pack_page p.set out
        if all_pp ≠ 0 ∧ more.length ≠ 0 then
          let vout := r.1.drop r.2
          match apop_data_pack_base lib fuel (skip_info_pages use_info_pages more)
              (some vout) 121 110 with
          | none => none
          | some none => some (some r.1)
          | some (some v) => some (some (r.1.take r.2 ++ v))
        else some (some r.1)

/-- The function `apop_data_pack`: one nested call for each page is enough.
The result `none` says that the call does not return, `some none` is `NULL`. -/
def apop_data_pack {V : Type} (lib : NumLib V) (inp : List (apop_page V))
    (out : Option (List V)) (all_pages use_info_pages : CChar) : Option (Option (List V)) :=
  apop_data_pack_base lib (inp.length + 1) inp out all_pages use_info_pages

/-- The three blocks of `apop_data_unpack` that fill the vector, the rows of
the matrix and the weights of the first page from `in`; the result is the page
and `offset`. -/
def unpack_page {V : Type} (inp : List V) (d : apop_data V) : apop_data V × Nat :=
  let s : apop_data V × Nat := (d, 0)
  let s := match d.vector with
    | some v => ({ s.1 with vector := some (subvector_read inp 0 v.length v) }, s.2 + v.length)
    | none => s
  let s := match d.matrix with
    | some m =>
      let r := (List.range m.size1).foldl
        (fun (t : gsl_matrix V × Nat) i =>
          ({ t.1 with
               data := t.1.data.set i (subvector_read inp t.2 m.size2 (t.1.data.getD i [])) },
           t.2 + m.size2))
        (m, s.2)
      ({ s.1 with matrix := some r.1 }, r.2)
    | none => s
  match d.weights with
  | some w => ({ s.1 with weights := some (subvector_read inp s.2 w.length w) }, s.2 + w.length)
  | none => s

/-- The function `apop_data_unpack`, run for at most `fuel` nested calls: the
pages after the call.  `none` says that the call does not return: the calls
were not enough, or the loop `while (apop_regex(d->names->title, "^<.*>$"))
d = d->more;` reads the title of a page that does not exist. -/
def apop_data_unpack_base {V : Type} :
    Nat → List V → List (apop_page V) → CChar → Option (List (apop_page V))
  | 0, _, _, _ => none
  | fuel + 1, inp, d, use_info_pages =>
    match d with
    | [] => some []
    | p :: more =>
      let r := unpack_page inp p.set
      if r.2 ≠ inp.length ∧ more.length ≠ 0 then
        let vin := inp.drop r.2
        let skipped := if use_info_pages = 110
          then more.takeWhile (fun q => apop_regex_info q.title) else []
        let rest := more.drop skipped.length
        if rest.length = 0 then none
        else
          match apop_data_unpack_base fuel vin rest 110 with
          | none => none
          | some t => some ({ p with set := r.1 } :: skipped ++ t)
      else some ({ p with set := r.1 } :: more)

/-- The function `apop_data_unpack`: one nested call for each page is enough. -/
def apop_data_unpack {V : Type} (inp : List V) (d : List (apop_page V))
    (use_info_pages : CChar) : Option (List (apop_page V)) :=
  apop_data_unpack_base (d.length + 1) inp d use_info_pages

/-! ### The elements and the shape of a page

Not translated from the source: the list of the elements of a page in the
order in which the documentation of `apop_data_pack` gives them, and the sizes
of the parts of a page. -/

/-- The elements of the vector of a page, then those of its matrix row by
row, then its weights. -/
def packed {V : Type} (d : apop_data V) : List V :=
  (match d.vector with
   | some v => v
   | none => []) ++
  (match d.matrix with
   | some m => m.data.flatten
   | none => []) ++
  (match d.weights with
   | some w => w
   | none => [])

/-- The sizes of the parts of a page: the size of the vector, the two sizes
of the matrix with the length of each of its rows, the size of the weights;
`none` for a part that the page does not have. -/
def shape {V : Type} (d : apop_data V) :
    Option Nat × Option (Nat × Nat × List Nat) × Option Nat :=
  (d.vector.map List.length,
   d.matrix.map (fun m => (m.size1, m.size2, m.data.map List.length)),
   d.weights.map List.length)

/-- A library for examples with integer values: cells that were not yet
written hold 170. -/
def int_lib : NumLib Int := { strtod := fun _ => (0, 0), GSL_NAN := 0, fresh := 170 }

/-- A page for examples: it holds a vector and nothing else. -/
def vector_page (title : List CChar) (v : List Int) : apop_page Int :=
  { title := title, set := apop_vector_to_data v, text := [] }

/-! ## Rows with missing data: `apop_data_listwise_delete`

The function is given with the test `gsl_isnan` of GSL as a parameter: it
returns an `int` that is not zero for a NaN. -/

/-- Modelled from the spec: `apop_data_get(d, row, col)`, which is not part of
the sources given, for any type of values: column `-1` is the vector, the
other columns are those of the matrix; `none` for a cell that does not
exist. -/
def apop_data_cell {V : Type} (d : apop_data V) (row : Nat) (col : Int) : Option V :=
  if col = -1 then
    match d.vector with
    | some v => v.get? row
    | none => none
  else
    match d.matrix with
    | some m => (m.data.getD row []).get? col.toNat
    | none => none

/-- The test `gsl_isnan(apop_data_get(d, i, j))` of the first loop. -/
def nan_cell {V : Type} (gsl_isnan : V → Int) (d : apop_data V) (i : Nat) (j : Int) : Bool :=
  match apop_data_cell d i j with
  | some x => decide (gsl_isnan x ≠ 0)
  | none => false

/-- The vector `marked` after the two loops that look for NaNs: cell `i` is
`1` when row `i` holds a NaN in the columns `min .. max - 1` or in its
weight. -/
def listwise_marked {V : Type} (lib : NumLib V) (gsl_isnan : V → Int) (d : apop_data V) :
    List Nat :=
  let msize1 := (Get_vmsizes d).2.1
  let wsize := match d.weights with
    | some w => w.length
    | none => 0
  let max : Int := match d.matrix with
    | some m => (m.size2 : Int)
    | none => 0
  let min : Int := if d.vector.isSome then -1 else 0
  let marked := (List.range msize1).map (fun i =>
    if ((List.range (max - min).toNat).map (fun (t : Nat) => min + (t : Int))).any
        (fun j => nan_cell gsl_isnan d i j)
    then 1 else 0)
  (List.range wsize).foldl
    (fun (mk : List Nat) i =>
      if gsl_isnan ((match d.weights with
          | some w => w
          | none => []).getD i lib.fresh) ≠ 0
      then mk.set i 1 else mk) marked

/-- The statements that give `out` one more row of text:
`out->text = realloc(out->text, sizeof(char**) * (j+1));` and the copy of the
cells of the row into `out->text[j]`. -/
def text_add_row (text : List (List (List CChar))) (j : Nat) (row : List (List CChar)) :
    List (List (List CChar)) :=
  (text.take (j + 1) ++ List.replicate (j + 1 - text.length) []).set j row

/-- The body of the loop `for (i=0; i< msize1; i++) if (!gsl_vector_get(marked, i))`
that copies the good rows; the state is `out` and the counter `j`. -/
def listwise_copy_row {V : Type} (lib : NumLib V) (d : apop_page V) (marked : List Nat)
    (s : apop_page V × Nat) (i : Nat) : apop_page V × Nat :=
  let vsize := (Get_vmsizes d.set).1
  let msize1 := (Get_vmsizes d.set).2.1
  let wsize := match d.set.weights with
    | some w => w.length
    | none => 0
  if marked.getD i 0 = 0 then
    let out := s.1
    let j := s.2
    let out := if vsize ≠ 0
      then { out with set := { out.set with vector := out.set.vector.map (fun v =>
               v.set j ((match d.set.vector with
                 | some x => x
                 | none => []).getD i lib.fresh)) } }
      else out
    let out := if msize1 ≠ 0
      then { out with set := { out.set with
               matrix := out.set.matrix.map (fun m =>
                 { m with data := m.data.set j ((match d.set.matrix with
                     | some x => x.data
                     | none => []).getD i []) }),
               names := if d.set.names.row.length > i
                 then apop_name_add out.set.names (d.set.names.row.getD i []) 114
                 else out.set.names } }
      else out
    let out := if i < d.text.length
      then { out with text := text_add_row out.text j (d.text.getD i []) }
      else out
    let out := if wsize ≠ 0
      then { out with set := { out.set with weights := out.set.weights.map (fun w =>
               w.set j ((match d.set.weights with
                 | some x => x
                 | none => []).getD i lib.fresh)) } }
      else out
    (out, j + 1)
  else s

/-- The statements of `apop_data_listwise_delete` that allocate `out` once
`to_rm` is known: `apop_data_alloc(0, msize1-to_rm, msize1 ? max : -1)`, the
weights, the copy of the names without the row names, and the vector. -/
def listwise_alloc {V : Type} (lib : NumLib V) (d : apop_data V) (to_rm : Nat) :
    apop_data V :=
  let vsize := (Get_vmsizes d).1
  let msize1 := (Get_vmsizes d).2.1
  let wsize := match d.weights with
    | some w => w.length
    | none => 0
  let max : Int := match d.matrix with
    | some m => (m.size2 : Int)
    | none => 0
  let out := apop_data_alloc_base lib 0 (msize1 - to_rm) (if msize1 ≠ 0 then max else -1)
  let out := if wsize ≠ 0
    then { out with weights := some (List.replicate (wsize - to_rm) lib.fresh) }
    else out
  let out := { out with names := { column := d.names.column, row := [] } }
  if vsize ≠ 0 ∧ msize1 ≠ 0
  then { out with vector := some (List.replicate (msize1 - to_rm) lib.fresh) }
  else out

/-- The function `apop_data_listwise_delete`: the set returned and the set `d`
after the call, `none` for `NULL`; `'n'` is 110.  For an `inplace` other than
`'n'` the names and the text of `d` are freed and not replaced: the embedding
gives them as empty. -/
def apop_data_listwise_delete {V : Type} (lib : NumLib V) (gsl_isnan : V → Int)
    (d : Option (apop_page V)) (inplace : CChar) :
    Option (apop_page V) × Option (apop_page V) :=
  match d with
  | none => (none, none)
  | some d =>
    let vsize := (Get_vmsizes d.set).1
    let msize1 := (Get_vmsizes d.set).2.1
    let wsize := match d.set.weights with
      | some w => w.length
      | none => 0
    if msize1 = 0 ∧ vsize = 0 then (none, some d)
    else
      let marked := listwise_marked lib gsl_isnan d.set
      let to_rm := marked.sum
      if to_rm = msize1 then (none, some d)
      else
        let out := listwise_alloc lib d.set to_rm
        let r := (List.range msize1).foldl (listwise_copy_row lib d marked)
          ({ title := d.title, set := out, text := [] }, 0)
        if inplace = 110 then (some r.1, some d)
        else
          let d2 : apop_page V :=
            { title := d.title,
              set := { vector := if vsize ≠ 0 then r.1.set.vector else d.set.vector,
                       matrix := if msize1 ≠ 0 then r.1.set.matrix else d.set.matrix,
                       weights := if wsize ≠ 0 then r.1.set.weights else d.set.weights,
                       names := { column := [], row := [] }, error := d.set.error },
              text := [] }
          (some d2, some d2)

/-! ### The rows without a NaN

Not translated from the source: the test that a row holds no NaN, used to
state what `apop_data_listwise_delete` returns. -/

/-- Row `i` holds no NaN in its matrix row, in its vector element and in its
weight. -/
def row_ok {V : Type} (gsl_isnan : V → Int) (d : apop_data V) (i : Nat) : Bool :=
  !((match d.matrix with
      | some m => (m.data.getD i []).any (fun x => decide (gsl_isnan x ≠ 0))
      | none => false) ||
    (match d.vector with
      | some v => (v.get? i).any (fun x => decide (gsl_isnan x ≠ 0))
      | none => false) ||
    (match d.weights with
      | some w => (w.get? i).any (fun x => decide (gsl_isnan x ≠ 0))
      | none => false))

/-- The set that holds the rows `rows` of `d`, in this order, in a frame of
`K` rows of which the rows behind them are not yet written: the elements of
the vector, the rows of the matrix and the weights with these indices, the
column names, and the names and the text of those of the rows that have
them. -/
def rows_in_frame {V : Type} (lib : NumLib V) (d : apop_page V) (K : Nat) (rows : List Nat) :
    apop_page V :=
  { title := d.title,
    set :=
      { vector := d.set.vector.map (fun v =>
          rows.map (fun i => v.getD i lib.fresh) ++
            List.replicate (K - rows.length) lib.fresh),
        matrix := d.set.matrix.map (fun m =>
          { size1 := K, size2 := m.size2,
            data := rows.map (fun i => m.data.getD i []) ++
              List.replicate (K - rows.length) (List.replicate m.size2 lib.fresh) }),
        weights := d.set.weights.map (fun w =>
          rows.map (fun i => w.getD i lib.fresh) ++
            List.replicate (K - rows.length) lib.fresh),
        names :=
          { column := d.set.names.column,
            row := (rows.filter (fun i => decide (i < d.set.names.row.length))).map
              (fun i => d.set.names.row.getD i []) },
        error := 0 },
    text := (rows.filter (fun i => decide (i < d.text.length))).map
      (fun i => d.text.getD i []) }

/-- The set that holds exactly the rows `rows` of `d`, in this order. -/
def selected_rows {V : Type} (lib : NumLib V) (d : apop_page V) (rows : List Nat) :
    apop_page V :=
  rows_in_frame lib d rows.length rows

/-! ### The capacity of the open field

Not translated from the source: the properties of `mlen` used to state how the
cell of the open field grows. -/

/-- While a field is open its capacity `mlen` is 5 times a power of two, and
at most twice the number of bytes written plus 5. -/
def Capacity (st : PState) : Prop :=
  st.infield = true → (∃ j, st.mlen = 5 * 2 ^ j) ∧ st.mlen ≤ 2 * st.thisflen + 5

/-- From `st` to `st2` the capacity of a field that stays open is kept or
doubled. -/
def Doubles (st st2 : PState) : Prop :=
  st.infield = true → st2.infield = true → st2.mlen = st.mlen ∨ st2.mlen = 2 * st.mlen

/-! ### The statements sent to the database

Not translated from the source: the `create table` and `INSERT` statements
written as lists of column declarations and of values, used to count them. -/

/-- The column declarations of a table for the field names in `fn`: the
column `row_names` when there are row names, then each name in single quotes
with its type, after a blank. -/
def column_decls {V : Type} (lib : DbLib V) (has_row_names : Nat)
    (field_params : Option (List (List CChar × List CChar))) (fn : Text) : List (List CChar) :=
  (if has_row_names ≠ 0 then [bytes "'row_names'"] else []) ++
    (List.range fn.length).map (fun i =>
      bytes " '" ++ cstr (fn.getD i []) ++ bytes "' " ++
        get_field_conditions lib (cstr (fn.getD i [])) field_params)

/-- The statement `create table tabname (decl, decl, ...);` with the table
parameters, if any, behind the declarations. -/
def create_statement (tabname : List CChar) (decls : List (List CChar))
    (table_params : Option (List CChar)) : List CChar :=
  bytes "create table " ++ tabname ++ bytes " (" ++ (bytes ", ").intercalate decls ++
    (match table_params with
      | some t => bytes ", " ++ t
      | none => []) ++ bytes ");"

/-- The values of an `INSERT` statement for the first `ct` cells of a row
buffer: `NULL` for a missing value, else the literal after a blank. -/
def insert_values {V : Type} (lib : DbLib V) (opts : apop_opts_type) (addme : Text)
    (ct : Nat) : List (List CChar) :=
  (List.range ct).map (fun col =>
    match prep_string_for_sqlite lib opts 0 ((addme.get? col).map cstr) with
    | some v => bytes " " ++ v
    | none => bytes "NULL")

/-- The statement `INSERT INTO tabname VALUES ( value,value,...);`. -/
def insert_statement (tabname : List CChar) (values : List (List CChar)) : List CChar :=
  bytes "INSERT INTO " ++ tabname ++ bytes " VALUES (" ++ bytes " " ++
    (bytes ",").intercalate values ++ bytes ");"

/-! # Proofs -/

/-! ## Lists and buffers -/

theorem take_set_le {α : Type} (l : List α) (i k : Nat) (x : α) (h : k ≤ i) :
    (l.set i x).take k = l.take k := by
  induction l generalizing i k with
  | nil => simp
  | cons y ys ih =>
    cases i with
    | zero =>
      have hk : k = 0 := by omega
      subst hk
      simp
    | succ i =>
      cases k with
      | zero => simp
      | succ k =>
        simp only [List.set_cons_succ, List.take_succ_cons]
        rw [ih i k (by omega)]

theorem take_succ_set {α : Type} (l : List α) (i : Nat) (x : α) (h : i < l.length) :
    (l.set i x).take (i + 1) = l.take i ++ [x] := by
  induction l generalizing i with
  | nil => simp at h
  | cons y ys ih =>
    cases i with
    | zero => simp
    | succ i =>
      simp only [List.set_cons_succ, List.take_succ_cons, List.cons_append]
      rw [ih i (by simpa using h)]

theorem getD_set_same {α : Type} (l : List α) (i : Nat) (x d : α) (h : i < l.length) :
    (l.set i x).getD i d = x := by
  induction l generalizing i with
  | nil => simp at h
  | cons y ys ih =>
    cases i with
    | zero => simp
    | succ i =>
      simp only [List.set_cons_succ, List.getD_cons_succ]
      exact ih i (by simpa using h)

theorem take_succ_getD {α : Type} (l : List α) (i : Nat) (d : α) (h : i < l.length) :
    l.take (i + 1) = l.take i ++ [l.getD i d] := by
  induction l generalizing i with
  | nil => simp at h
  | cons y ys ih =>
    cases i with
    | zero => simp
    | succ i =>
      simp only [List.take_succ_cons, List.getD_cons_succ, List.cons_append]
      rw [ih i (by simpa using h)]

theorem cstr_append_zero (l r : List CChar) : cstr (l ++ 0 :: r) = cstr l := by
  induction l with
  | nil => simp [cstr]
  | cons x xs ih =>
    unfold cstr at ih ⊢
    by_cases hx : x = 0
    · simp [hx]
    · simp [List.takeWhile_cons, hx, ih]

theorem set_eq_take_cons_drop {α : Type} (l : List α) (i : Nat) (x : α) (h : i < l.length) :
    l.set i x = l.take i ++ x :: l.drop (i + 1) := by
  induction l generalizing i with
  | nil => simp at h
  | cons y ys ih =>
    cases i with
    | zero => simp
    | succ i =>
      simp only [List.set_cons_succ, List.take_succ_cons, List.drop_succ_cons, List.cons_append]
      rw [ih i (by simpa using h)]

theorem cstr_set_zero (buf : List CChar) (j : Nat) (h : j < buf.length) :
    cstr (buf.set j 0) = cstr (buf.take j) := by
  rw [set_eq_take_cons_drop buf j 0 h, cstr_append_zero]

theorem cstr_eq_self (l : List CChar) (h : ∀ c ∈ l, c ≠ 0) : cstr l = l := by
  induction l with
  | nil => simp [cstr]
  | cons x xs ih =>
    have hx : x ≠ 0 := h x (by simp)
    have hxs : ∀ c ∈ xs, c ≠ 0 := fun c hc => h c (by simp [hc])
    unfold cstr at ih ⊢
    simp [List.takeWhile_cons, hx, ih hxs]

theorem length_realloc (buf : List CChar) (n : Nat) : (realloc buf n).length = n := by
  unfold realloc
  simp only [List.length_append, List.length_take, List.length_replicate]
  omega

theorem take_realloc (buf : List CChar) (n k : Nat) (hk : k ≤ n) (hb : k ≤ buf.length) :
    (realloc buf n).take k = buf.take k := by
  unfold realloc
  rw [List.take_append_of_le_length (by simp; omega), List.take_take]
  congr 1
  omega

theorem length_text_poke (text : Text) (i j : Nat) (c : CChar) :
    (text_poke text i j c).length = text.length := by
  simp [text_poke]

theorem length_text_realloc (text : Text) (i n : Nat) :
    (text_realloc text i n).length = text.length := by
  simp [text_realloc]

theorem length_apop_text_alloc (text : Text) (ct : Nat) :
    (apop_text_alloc text ct).length = max text.length ct := by
  simp [apop_text_alloc]
  omega

theorem take_apop_text_alloc (text : Text) (ct k : Nat) (hk : k ≤ text.length) :
    (apop_text_alloc text ct).take k = text.take k := by
  unfold apop_text_alloc
  rw [List.take_append_of_le_length hk]

/-! ## The loop body builds the fields of its string counterpart -/

theorem good_open_field (st : PState) (hg : Good st) (hin : st.infield = false) :
    Good (open_field st) ∧ view (open_field st) = aopen (view st) := by
  rcases st with ⟨fn, ct, thisflen, mlen, lnw, inq, inqq, infield, lastwhite⟩
  simp only at hin
  subst hin
  obtain ⟨h1, _, h3⟩ := hg
  have hl := h3 rfl
  simp only at h1 hl
  subst hl
  have hlen : ct < (if ct + 1 > fn.length then apop_text_alloc fn (ct + 1) else fn).length := by
    split
    · rw [length_apop_text_alloc]; omega
    · omega
  constructor
  · refine ⟨?_, ?_, ?_⟩
    · simp only [open_field, length_text_realloc]
      omega
    · intro _
      refine ⟨by simp [open_field], ?_, by simp [open_field], by simp [open_field]⟩
      simp only [open_field, text_realloc, Nat.add_sub_cancel]
      rw [getD_set_same _ _ _ _ hlen, length_realloc]
    · intro h; simp [open_field] at h
  · simp only [view, open_field, aopen, text_realloc, Nat.add_sub_cancel, if_true,
      Bool.false_eq_true, if_false, List.take_zero]
    congr 1
    rw [take_set_le _ _ _ _ (le_refl _)]
    split
    · rw [take_apop_text_alloc _ _ _ h1]
    · rfl

theorem good_close_field (st : PState) (hg : Good st) (hin : st.infield = true) :
    Good (close_field st) ∧ view (close_field st) = aclose (view st) := by
  rcases st with ⟨fn, ct, thisflen, mlen, lnw, inq, inqq, infield, lastwhite⟩
  simp only at hin
  subst hin
  obtain ⟨h1, h2, _⟩ := hg
  obtain ⟨hct, hlen, hcap, hlnw⟩ := h2 rfl
  simp only at h1 hct hlen hcap hlnw
  obtain ⟨k, rfl⟩ : ∃ k, ct = k + 1 := ⟨ct - 1, by omega⟩
  rw [Nat.add_sub_cancel] at hlen
  constructor
  · refine ⟨by simpa [close_field, length_text_poke] using h1, ?_, ?_⟩
    · intro h; simp [close_field] at h
    · intro _; simp [close_field]
  · simp only [view, close_field, aclose, text_poke, if_true, Bool.false_eq_true, if_false,
      Nat.add_sub_cancel]
    congr 1
    rw [take_succ_set _ _ _ (by omega), List.map_append, List.map_cons, List.map_nil]
    congr 2
    rw [cstr_set_zero _ _ (by omega), List.take_take]
    congr 2
    omega

theorem good_extend_field (st : PState) (ci : apop_char_info) (hg : Good st)
    (hin : st.infield = true) :
    Good (extend_field st ci) ∧ view (extend_field st ci) = aextend (view st) ci := by
  rcases st with ⟨fn, ct, thisflen, mlen, lnw, inq, inqq, infield, lastwhite⟩
  simp only at hin
  subst hin
  obtain ⟨h1, h2, _⟩ := hg
  obtain ⟨hct, hlen, hcap, hlnw⟩ := h2 rfl
  simp only at h1 hct hlen hcap hlnw
  obtain ⟨k, rfl⟩ : ∃ k, ct = k + 1 := ⟨ct - 1, by omega⟩
  rw [Nat.add_sub_cancel] at hlen
  have hkl : k < fn.length := by omega
  have hcl : ((fn.getD k []).take thisflen).length = thisflen := by
    rw [List.length_take]; omega
  -- the cell after the optional doubling
  have key : ∀ fn1 : Text, ∀ m : Nat,
      fn1.length = fn.length → fn1.take k = fn.take k →
      (fn1.getD k []).length = m → thisflen + 3 ≤ m →
      (fn1.getD k []).take thisflen = (fn.getD k []).take thisflen →
      Good { fn := text_poke fn1 k thisflen ci.c, ct := k + 1, thisflen := thisflen + 1,
             mlen := m, lastnonwhite := if ci.type ≠ CType.w then thisflen + 1 else lnw,
             inq := inq, inqq := inqq, infield := true, lastwhite := lastwhite } ∧
      view { fn := text_poke fn1 k thisflen ci.c, ct := k + 1, thisflen := thisflen + 1,
             mlen := m, lastnonwhite := if ci.type ≠ CType.w then thisflen + 1 else lnw,
             inq := inq, inqq := inqq, infield := true, lastwhite := lastwhite } =
        aextend (view { fn := fn, ct := k + 1, thisflen := thisflen, mlen := mlen,
                        lastnonwhite := lnw, inq := inq, inqq := inqq, infield := true,
                        lastwhite := lastwhite }) ci := by
    intro fn1 m hl1 ht1 hm hcap1 hpre
    have hk1 : k < fn1.length := by omega
    constructor
    · refine ⟨by simp only [length_text_poke]; omega, ?_, ?_⟩
      · intro _
        refine ⟨by simp, ?_, by simp; omega, ?_⟩
        · simp only [Nat.add_sub_cancel, text_poke]
          rw [getD_set_same _ _ _ _ hk1, List.length_set]
          exact hm
        · simp only
          split <;> omega
      · intro h; simp at h
    · simp only [view, aextend, if_true, Nat.add_sub_cancel, text_poke, hcl]
      rw [getD_set_same _ _ _ _ hk1, take_set_le _ _ _ _ (le_refl _), ht1,
        take_succ_set _ _ _ (by omega), hpre]
  unfold extend_field
  simp only [Nat.add_sub_cancel]
  by_cases hgrow : thisflen + 1 + 2 > mlen
  · simp only [hgrow, decide_True, if_true]
    exact key (text_realloc fn k (mlen * 2)) (mlen * 2)
      (length_text_realloc _ _ _)
      (by simp only [text_realloc]; exact take_set_le _ _ _ _ (le_refl _))
      (by simp only [text_realloc]; rw [getD_set_same _ _ _ _ hkl, length_realloc])
      (by omega)
      (by simp only [text_realloc]
          rw [getD_set_same _ _ _ _ hkl]
          exact take_realloc _ _ _ (by omega) (by omega))
  · simp only [hgrow, decide_False, if_false, Bool.false_eq_true]
    exact key fn mlen rfl rfl hlen (by omega) rfl

theorem view_closed_length (st : PState) (hg : Good st) (hin : st.infield = false) :
    (view st).closed.length = st.ct := by
  simp only [view, hin, Bool.false_eq_true, if_false, List.length_map, List.length_take]
  exact Nat.min_eq_left hg.1

theorem good_field_fill (st1 : PState) (ci : apop_char_info) (hg1 : Good st1) :
    Good (field_fill st1 ci) ∧ view (field_fill st1 ci) = afield_fill (view st1) ci := by
  unfold field_fill afield_fill
  simp only []
  cases hin : st1.infield with
  | false =>
    have hin' : (view st1).infield = false := hin
    by_cases hw : ci.type = CType.w
    · simp only [hin', hw, and_self, if_true]
      exact ⟨hg1, trivial⟩
    · simp only [hin', hw, and_false, if_false, true_and]
      rw [view_closed_length st1 hg1 hin]
      by_cases hopen : ci.type = CType.r ∨ ci.type = CType.d ∨
            ((ci.type = CType.n ∨ ci.type = CType.E) ∧ st1.ct > 0)
      · simp only [if_pos hopen]
        obtain ⟨hg2, hv2⟩ := good_open_field st1 hg1 hin
        have hin2 : (open_field st1).infield = true := rfl
        have hin2' : (aopen (view st1)).infield = true := rfl
        rw [if_pos hin2, if_pos hin2']
        by_cases hclose : ci.type = CType.d ∨ ci.type = CType.n ∨ ci.type = CType.E ∨
            ci.type = CType.W
        · rw [if_pos hclose, if_pos hclose, ← hv2]
          exact good_close_field _ hg2 hin2
        · rw [if_neg hclose, if_neg hclose]
          have hr : ci.type = CType.r := by
            rcases hopen with h | h | ⟨h | h, _⟩
            · exact h
            · exact absurd (Or.inl h) hclose
            · exact absurd (Or.inr (Or.inl h)) hclose
            · exact absurd (Or.inr (Or.inr (Or.inl h))) hclose
          simp only [hr, or_true, if_true]
          rw [← hv2]
          have := good_extend_field _ ci hg2 hin2
          exact this
      · simp only [if_neg hopen]
        simp only [hin, hin', Bool.false_eq_true, if_false]
        exact ⟨hg1, trivial⟩
  | true =>
    have hin' : (view st1).infield = true := hin
    simp only [hin, hin', Bool.true_eq_false, false_and, if_false, if_true]
    by_cases hclose : ci.type = CType.d ∨ ci.type = CType.n ∨ ci.type = CType.E ∨
        ci.type = CType.W
    · rw [if_pos hclose, if_pos hclose]
      exact good_close_field _ hg1 hin
    · rw [if_neg hclose, if_neg hclose]
      by_cases hr : ci.type = CType.w ∨ ci.type = CType.r
      · rw [if_pos hr, if_pos hr]
        exact good_extend_field _ _ hg1 hin
      · rw [if_neg hr, if_neg hr]
        exact ⟨hg1, rfl⟩

theorem good_field_step (st : PState) (ci : apop_char_info) (hg : Good st) :
    Good (field_step st ci) ∧ view (field_step st ci) = afield_step (view st) ci := by
  unfold field_step afield_step
  by_cases hW : ci.type = CType.W ∧ st.lastwhite = true
  · have hW' : ci.type = CType.W ∧ (view st).lastwhite = true := hW
    rw [if_pos hW, if_pos hW']
    exact ⟨hg, rfl⟩
  · have hW' : ¬ (ci.type = CType.W ∧ (view st).lastwhite = true) := hW
    rw [if_neg hW, if_neg hW']
    exact good_field_fill { st with lastwhite := decide (ci.type = CType.W) } ci hg

theorem good_parse_iter (delimiters : List CChar) (st : PState) (infile : FILE) (hg : Good st) :
    Good (parse_iter delimiters st infile).1 ∧
      (view (parse_iter delimiters st infile).1, (parse_iter delimiters st infile).2) =
        aiter delimiters (view st) infile := by
  unfold parse_iter aiter
  obtain ⟨h1, h2⟩ := good_field_step
    { st with inq := (read_step delimiters st.inq st.inqq infile).2.1,
              inqq := (read_step delimiters st.inq st.inqq infile).2.2.1 }
    (read_step delimiters st.inq st.inqq infile).1 hg
  refine ⟨h1, ?_⟩
  simp only []
  rw [h2]
  rfl

theorem parse_loop_view (delimiters : List CChar) (n : Nat) (st : PState) (infile : FILE)
    (hg : Good st) :
    (parse_loop delimiters n st infile).map (fun r => (view r.1, r.2)) =
      aloop delimiters n (view st) infile := by
  induction n generalizing st infile with
  | zero => rfl
  | succ n ih =>
    obtain ⟨h1, h2⟩ := good_parse_iter delimiters st infile hg
    unfold parse_loop aloop
    simp only []
    rw [← h2]
    simp only []
    split
    · exact ih _ _ h1
    · rfl

theorem parse_loop_good (delimiters : List CChar) (n : Nat) (st : PState) (infile : FILE)
    (hg : Good st) (r : PState × CType × FILE) (h : parse_loop delimiters n st infile = some r) :
    Good r.1 := by
  induction n generalizing st infile with
  | zero => simp [parse_loop] at h
  | succ n ih =>
    obtain ⟨h1, _⟩ := good_parse_iter delimiters st infile hg
    unfold parse_loop at h
    simp only [] at h
    split at h
    · exact ih _ _ h1 h
    · cases h; exact h1

theorem parse_passes_view (delimiters : List CChar) (k : Nat) (st : PState) (infile : FILE)
    (hg : Good st) :
    (parse_passes delimiters k st infile).map (fun r => (view r.1, r.2)) =
      apasses delimiters k (view st) infile := by
  induction k generalizing st infile with
  | zero => rfl
  | succ k ih =>
    obtain ⟨h1, h2⟩ := good_parse_iter delimiters st infile hg
    unfold parse_passes apasses
    simp only []
    rw [← h2]
    simp only []
    split
    · exact ih _ _ h1
    · rfl

theorem afield_step_final (a : AState) (ci : apop_char_info)
    (h : ci.type = CType.n ∨ ci.type = CType.E) : (afield_step a ci).infield = false := by
  rcases h with h | h <;> cases hi : a.infield <;> by_cases hc : a.closed.length > 0 <;>
    simp [afield_step, afield_fill, aopen, aclose, h, hi, hc]

theorem aloop_final (delimiters : List CChar) (n : Nat) (a : AState) (infile : FILE)
    (r : AState × CType × FILE) (h : aloop delimiters n a infile = some r) :
    (r.2.1 = CType.n ∨ r.2.1 = CType.E) ∧ r.1.infield = false := by
  induction n generalizing a infile with
  | zero => simp [aloop] at h
  | succ n ih =>
    unfold aloop at h
    simp only [] at h
    split at h
    · exact ih _ _ h
    · rename_i hne
      cases h
      have ht : (aiter delimiters a infile).2.1 = CType.n ∨
          (aiter delimiters a infile).2.1 = CType.E := by
        by_cases h1 : (aiter delimiters a infile).2.1 = CType.n
        · exact Or.inl h1
        · by_cases h2 : (aiter delimiters a infile).2.1 = CType.E
          · exact Or.inr h2
          · exact absurd ⟨h1, h2⟩ hne
      exact ⟨ht, afield_step_final _ _ ht⟩

theorem good_init (fn : Text) : Good (PState.init fn) :=
  ⟨Nat.zero_le _, fun h => by simp [PState.init] at h, fun _ => rfl⟩

/-- The tokenizer on the row buffer returns what the tokenizer on strings
returns, whatever the row buffer held before. -/
theorem parse_a_line_obs (infile : FILE) (fn : Text) (delimiters : List CChar) :
    (parse_a_line infile fn none delimiters).map LineResult.obs = aparse infile delimiters := by
  have hv := parse_loop_view delimiters (infile.length + 1) (PState.init fn) infile (good_init fn)
  have hvi : view (PState.init fn) = AState.init := rfl
  rw [hvi] at hv
  unfold parse_a_line aparse
  simp only []
  cases hp : parse_loop delimiters (infile.length + 1) (PState.init fn) infile with
  | none =>
    rw [hp] at hv
    rw [← hv]
    rfl
  | some r =>
    rw [hp] at hv
    have hg := parse_loop_good delimiters _ _ _ (good_init fn) r hp
    have hf := aloop_final delimiters _ _ _ _ hv.symm
    rw [← hv]
    simp only [Option.map_some', LineResult.obs, LineResult.fields]
    have hin : r.1.infield = false := hf.2
    have hcl : (view r.1).closed = (r.1.fn.take r.1.ct).map cstr := by
      simp only [view, hin, Bool.false_eq_true, if_false]
    have hlen : (view r.1).closed.length = r.1.ct := view_closed_length _ hg hin
    rw [hcl] at hlen ⊢
    rw [hlen]

/-! ## One pass of the loop on strings, case by case -/

theorem char_type_r_ne_zero (delimiters : List CChar) (c : CChar)
    (h : char_type delimiters c = CType.r) : c ≠ 0 := by
  intro hc
  subst hc
  simp [char_type, strchr] at h

theorem cstr_regular (delimiters : List CChar) (t : List CChar)
    (h : ∀ c ∈ t, char_type delimiters c = CType.r) : cstr t = t :=
  cstr_eq_self t (fun c hc => char_type_r_ne_zero delimiters c (h c hc))

theorem read_step_plain (delimiters : List CChar) (c : CChar) (s : FILE)
    (h1 : char_type delimiters c ≠ CType.hash) (h2 : char_type delimiters c ≠ CType.bs)
    (h3 : char_type delimiters c ≠ CType.sq) (h4 : char_type delimiters c ≠ CType.dq) :
    read_step delimiters false false (c :: s) =
      ({ c := c, type := char_type delimiters c }, false, false, s) := by
  simp [read_step, parse_next_char, fgetc, h1, h2, h3, h4]

theorem aiter_plain (delimiters : List CChar) (a : AState) (c : CChar) (s : FILE)
    (hq : a.inq = false) (hqq : a.inqq = false)
    (h1 : char_type delimiters c ≠ CType.hash) (h2 : char_type delimiters c ≠ CType.bs)
    (h3 : char_type delimiters c ≠ CType.sq) (h4 : char_type delimiters c ≠ CType.dq) :
    aiter delimiters a (c :: s) =
      (afield_step a { c := c, type := char_type delimiters c }, char_type delimiters c, s) := by
  unfold aiter
  rw [hq, hqq, read_step_plain delimiters c s h1 h2 h3 h4]
  simp only []
  congr 2
  rcases a with ⟨_, _, _, inq, inqq, _, _⟩
  simp only at hq hqq
  subst hq hqq
  rfl

theorem aiter_r_idle (delimiters : List CChar) (closed : List (List CChar)) (lw : Bool)
    (c : CChar) (s : FILE) (h : char_type delimiters c = CType.r) :
    aiter delimiters (AState.idle closed lw) (c :: s) =
      (AState.inField closed [c] 1, CType.r, s) := by
  rw [aiter_plain delimiters _ c s rfl rfl (by simp [h]) (by simp [h]) (by simp [h])
    (by simp [h]), h]
  simp [afield_step, afield_fill, aopen, aextend, AState.idle, AState.inField]

theorem aiter_r_inField (delimiters : List CChar) (closed : List (List CChar))
    (cur : List CChar) (lnw : Nat) (c : CChar) (s : FILE)
    (h : char_type delimiters c = CType.r) :
    aiter delimiters (AState.inField closed cur lnw) (c :: s) =
      (AState.inField closed (cur ++ [c]) (cur.length + 1), CType.r, s) := by
  rw [aiter_plain delimiters _ c s rfl rfl (by simp [h]) (by simp [h]) (by simp [h])
    (by simp [h]), h]
  simp [afield_step, afield_fill, aextend, AState.inField]

theorem aiter_w_idle (delimiters : List CChar) (closed : List (List CChar)) (lw : Bool)
    (c : CChar) (s : FILE) (h : char_type delimiters c = CType.w) :
    aiter delimiters (AState.idle closed lw) (c :: s) =
      (AState.idle closed false, CType.w, s) := by
  rw [aiter_plain delimiters _ c s rfl rfl (by simp [h]) (by simp [h]) (by simp [h])
    (by simp [h]), h]
  simp [afield_step, afield_fill, AState.idle]

theorem aiter_w_inField (delimiters : List CChar) (closed : List (List CChar))
    (cur : List CChar) (lnw : Nat) (c : CChar) (s : FILE)
    (h : char_type delimiters c = CType.w) :
    aiter delimiters (AState.inField closed cur lnw) (c :: s) =
      (AState.inField closed (cur ++ [c]) lnw, CType.w, s) := by
  rw [aiter_plain delimiters _ c s rfl rfl (by simp [h]) (by simp [h]) (by simp [h])
    (by simp [h]), h]
  simp [afield_step, afield_fill, aextend, AState.inField]

theorem aiter_d_idle (delimiters : List CChar) (closed : List (List CChar)) (lw : Bool)
    (c : CChar) (s : FILE) (h : char_type delimiters c = CType.d) :
    aiter delimiters (AState.idle closed lw) (c :: s) =
      (AState.idle (closed ++ [[]]) false, CType.d, s) := by
  rw [aiter_plain delimiters _ c s rfl rfl (by simp [h]) (by simp [h]) (by simp [h])
    (by simp [h]), h]
  simp [afield_step, afield_fill, aopen, aclose, AState.idle, cstr]

theorem aiter_d_inField (delimiters : List CChar) (closed : List (List CChar))
    (cur : List CChar) (lnw : Nat) (c : CChar) (s : FILE)
    (h : char_type delimiters c = CType.d) :
    aiter delimiters (AState.inField closed cur lnw) (c :: s) =
      (AState.idle (closed ++ [cstr (cur.take lnw)]) false, CType.d, s) := by
  rw [aiter_plain delimiters _ c s rfl rfl (by simp [h]) (by simp [h]) (by simp [h])
    (by simp [h]), h]
  simp [afield_step, afield_fill, aclose, AState.idle, AState.inField]

theorem aiter_W_idle (delimiters : List CChar) (closed : List (List CChar)) (lw : Bool)
    (c : CChar) (s : FILE) (h : char_type delimiters c = CType.W) :
    aiter delimiters (AState.idle closed lw) (c :: s) =
      (AState.idle closed true, CType.W, s) := by
  rw [aiter_plain delimiters _ c s rfl rfl (by simp [h]) (by simp [h]) (by simp [h])
    (by simp [h]), h]
  cases lw <;> simp [afield_step, afield_fill, AState.idle]

theorem aiter_W_inField (delimiters : List CChar) (closed : List (List CChar))
    (cur : List CChar) (lnw : Nat) (c : CChar) (s : FILE)
    (h : char_type delimiters c = CType.W) :
    aiter delimiters (AState.inField closed cur lnw) (c :: s) =
      (AState.idle (closed ++ [cstr (cur.take lnw)]) true, CType.W, s) := by
  rw [aiter_plain delimiters _ c s rfl rfl (by simp [h]) (by simp [h]) (by simp [h])
    (by simp [h]), h]
  simp [afield_step, afield_fill, aclose, AState.idle, AState.inField]

theorem aiter_n_idle (delimiters : List CChar) (closed : List (List CChar)) (lw : Bool)
    (c : CChar) (s : FILE) (h : char_type delimiters c = CType.n) :
    aiter delimiters (AState.idle closed lw) (c :: s) =
      (AState.idle (if closed = [] then [] else closed ++ [[]]) false, CType.n, s) := by
  rw [aiter_plain delimiters _ c s rfl rfl (by simp [h]) (by simp [h]) (by simp [h])
    (by simp [h]), h]
  cases closed <;> simp [afield_step, afield_fill, aopen, aclose, AState.idle, cstr]

theorem aiter_n_inField (delimiters : List CChar) (closed : List (List CChar))
    (cur : List CChar) (lnw : Nat) (c : CChar) (s : FILE)
    (h : char_type delimiters c = CType.n) :
    aiter delimiters (AState.inField closed cur lnw) (c :: s) =
      (AState.idle (closed ++ [cstr (cur.take lnw)]) false, CType.n, s) := by
  rw [aiter_plain delimiters _ c s rfl rfl (by simp [h]) (by simp [h]) (by simp [h])
    (by simp [h]), h]
  simp [afield_step, afield_fill, aclose, AState.idle, AState.inField]

/-! ## Several passes -/

theorem apasses_succ (delimiters : List CChar) (k : Nat) (a a' : AState) (f f' : FILE)
    (ty : CType) (h : aiter delimiters a f = (a', ty, f')) (h1 : ty ≠ CType.n)
    (h2 : ty ≠ CType.E) :
    apasses delimiters (k + 1) a f = apasses delimiters k a' f' := by
  conv_lhs => unfold apasses
  simp only [h]
  rw [if_pos ⟨h1, h2⟩]

theorem aloop_succ (delimiters : List CChar) (k : Nat) (a a' : AState) (f f' : FILE)
    (ty : CType) (h : aiter delimiters a f = (a', ty, f')) (h1 : ty ≠ CType.n)
    (h2 : ty ≠ CType.E) :
    aloop delimiters (k + 1) a f = aloop delimiters k a' f' := by
  conv_lhs => unfold aloop
  simp only [h]
  rw [if_pos ⟨h1, h2⟩]

theorem aloop_last (delimiters : List CChar) (k : Nat) (a a' : AState) (f f' : FILE)
    (ty : CType) (h : aiter delimiters a f = (a', ty, f'))
    (h1 : ty = CType.n ∨ ty = CType.E) :
    aloop delimiters (k + 1) a f = some (a', ty, f') := by
  conv_lhs => unfold aloop
  simp only [h]
  rw [if_neg]
  rintro ⟨hn, hE⟩
  rcases h1 with h1 | h1
  · exact hn h1
  · exact hE h1

theorem aloop_of_apasses (delimiters : List CChar) (k n : Nat) (a a' : AState) (f f' : FILE)
    (h : apasses delimiters k a f = some (a', f')) :
    aloop delimiters (k + n) a f = aloop delimiters n a' f' := by
  induction k generalizing a f with
  | zero =>
    simp only [apasses, Option.some.injEq, Prod.mk.injEq] at h
    obtain ⟨rfl, rfl⟩ := h
    simp
  | succ k ih =>
    unfold apasses at h
    simp only [] at h
    split at h
    · rename_i hne
      have : k + 1 + n = (k + n) + 1 := by omega
      rw [this]
      conv_lhs => unfold aloop
      simp only []
      rw [if_pos hne]
      exact ih _ _ h
    · simp at h

theorem apasses_add (delimiters : List CChar) (j k : Nat) (a a' : AState) (f f' : FILE)
    (h : apasses delimiters j a f = some (a', f')) :
    apasses delimiters (j + k) a f = apasses delimiters k a' f' := by
  induction j generalizing a f with
  | zero =>
    simp only [apasses, Option.some.injEq, Prod.mk.injEq] at h
    obtain ⟨rfl, rfl⟩ := h
    simp
  | succ j ih =>
    unfold apasses at h
    simp only [] at h
    split at h
    · rename_i hne
      have : j + 1 + k = (j + k) + 1 := by omega
      rw [this]
      conv_lhs => unfold apasses
      simp only []
      rw [if_pos hne]
      exact ih _ _ h
    · simp at h

/-! ## Tokens -/

theorem apasses_regular_inField (delimiters : List CChar) (t : List CChar)
    (ht : ∀ c ∈ t, char_type delimiters c = CType.r) (closed : List (List CChar))
    (cur : List CChar) (lnw : Nat) (s : FILE) :
    apasses delimiters t.length (AState.inField closed cur lnw) (t ++ s) =
      some (AState.inField closed (cur ++ t) (if t = [] then lnw else (cur ++ t).length), s) := by
  induction t generalizing cur lnw with
  | nil => simp [apasses]
  | cons c t ih =>
    have hc : char_type delimiters c = CType.r := ht c (by simp)
    have ht' : ∀ c ∈ t, char_type delimiters c = CType.r := fun x hx => ht x (by simp [hx])
    rw [List.length_cons, List.cons_append,
      apasses_succ delimiters _ _ _ _ _ _ (aiter_r_inField delimiters closed cur lnw c _ hc)
        (by simp) (by simp), ih ht']
    simp only [List.append_assoc, List.singleton_append, List.length_append, List.length_cons,
      List.length_nil, reduceCtorEq, if_false]
    congr 3
    split
    · rename_i h; subst h; simp
    · omega

theorem apasses_regular_idle (delimiters : List CChar) (t : List CChar)
    (ht : ∀ c ∈ t, char_type delimiters c = CType.r) (hne : t ≠ [])
    (closed : List (List CChar)) (lw : Bool) (s : FILE) :
    apasses delimiters t.length (AState.idle closed lw) (t ++ s) =
      some (AState.inField closed t t.length, s) := by
  cases t with
  | nil => exact absurd rfl hne
  | cons c t =>
    have hc : char_type delimiters c = CType.r := ht c (by simp)
    have ht' : ∀ c ∈ t, char_type delimiters c = CType.r := fun x hx => ht x (by simp [hx])
    rw [List.length_cons, List.cons_append,
      apasses_succ delimiters _ _ _ _ _ _ (aiter_r_idle delimiters closed lw c _ hc)
        (by simp) (by simp), apasses_regular_inField delimiters t ht']
    simp only [List.singleton_append, List.length_cons]
    congr 3
    split
    · rename_i h; subst h; simp
    · rfl

theorem apasses_w_inField (delimiters : List CChar) (t : List CChar)
    (ht : ∀ c ∈ t, char_type delimiters c = CType.w) (closed : List (List CChar))
    (cur : List CChar) (lnw : Nat) (s : FILE) :
    apasses delimiters t.length (AState.inField closed cur lnw) (t ++ s) =
      some (AState.inField closed (cur ++ t) lnw, s) := by
  induction t generalizing cur with
  | nil => simp [apasses]
  | cons c t ih =>
    have hc : char_type delimiters c = CType.w := ht c (by simp)
    have ht' : ∀ c ∈ t, char_type delimiters c = CType.w := fun x hx => ht x (by simp [hx])
    rw [List.length_cons, List.cons_append,
      apasses_succ delimiters _ _ _ _ _ _ (aiter_w_inField delimiters closed cur lnw c _ hc)
        (by simp) (by simp), ih ht']
    simp

theorem apasses_w_idle (delimiters : List CChar) (t : List CChar)
    (ht : ∀ c ∈ t, char_type delimiters c = CType.w) (closed : List (List CChar))
    (lw : Bool) (s : FILE) :
    apasses delimiters t.length (AState.idle closed lw) (t ++ s) =
      some (AState.idle closed (if t = [] then lw else false), s) := by
  induction t generalizing lw with
  | nil => simp [apasses]
  | cons c t ih =>
    have hc : char_type delimiters c = CType.w := ht c (by simp)
    have ht' : ∀ c ∈ t, char_type delimiters c = CType.w := fun x hx => ht x (by simp [hx])
    rw [List.length_cons, List.cons_append,
      apasses_succ delimiters _ _ _ _ _ _ (aiter_w_idle delimiters closed lw c _ hc)
        (by simp) (by simp), ih ht']
    simp

theorem apasses_W_idle (delimiters : List CChar) (t : List CChar)
    (ht : ∀ c ∈ t, char_type delimiters c = CType.W) (closed : List (List CChar))
    (lw : Bool) (s : FILE) :
    apasses delimiters t.length (AState.idle closed lw) (t ++ s) =
      some (AState.idle closed (if t = [] then lw else true), s) := by
  induction t generalizing lw with
  | nil => simp [apasses]
  | cons c t ih =>
    have hc : char_type delimiters c = CType.W := ht c (by simp)
    have ht' : ∀ c ∈ t, char_type delimiters c = CType.W := fun x hx => ht x (by simp [hx])
    rw [List.length_cons, List.cons_append,
      apasses_succ delimiters _ _ _ _ _ _ (aiter_W_idle delimiters closed lw c _ hc)
        (by simp) (by simp), ih ht']
    simp

theorem obs_of_aparse (infile : FILE) (fn : Text) (delimiters : List CChar)
    (x : List (List CChar) × line_parse_t × FILE) (h : aparse infile delimiters = some x) :
    ∃ res, parse_a_line infile fn none delimiters = some res ∧ res.fields = x.1 ∧
      res.L = x.2.1 ∧ res.infile = x.2.2 := by
  have ho := parse_a_line_obs infile fn delimiters
  rw [h] at ho
  cases hp : parse_a_line infile fn none delimiters with
  | none => rw [hp] at ho; simp at ho
  | some res =>
    rw [hp] at ho
    simp only [Option.map_some', Option.some.injEq, LineResult.obs] at ho
    refine ⟨res, rfl, ?_, ?_, ?_⟩
    · rw [← ho]
    · rw [← ho]
    · rw [← ho]

/-! ## The classes of single bytes -/

theorem char_type_delimiter (delimiters : List CChar) (d : CChar) (hd : d ∈ delimiters)
    (h32 : d ≠ 32) (h9 : d ≠ 9) (h0 : d ≠ 0) : char_type delimiters d = CType.d := by
  simp [char_type, strchr, hd, h32, h9, h0]

theorem char_type_newline (delimiters : List CChar) (hnl : 10 ∉ delimiters) :
    char_type delimiters 10 = CType.n := by
  simp [char_type, strchr, hnl]

theorem char_type_white_delimiter (delimiters : List CChar) (w : CChar) (hw : w ∈ delimiters)
    (h : w = 32 ∨ w = 9) : char_type delimiters w = CType.W := by
  rcases h with h | h <;> subst h <;> simp [char_type, strchr, hw]

theorem char_type_white_plain (delimiters : List CChar) (w : CChar) (hw : w ∉ delimiters)
    (h : w = 32 ∨ w = 9) : char_type delimiters w = CType.w := by
  rcases h with h | h <;> subst h <;> simp [char_type, strchr, hw]

theorem cstr_take_regular (delimiters : List CChar) (t : List CChar)
    (h : ∀ c ∈ t, char_type delimiters c = CType.r) : cstr (t.take t.length) = t := by
  rw [List.take_length]
  exact cstr_regular delimiters t h

theorem init_eq_idle : AState.init = AState.idle [] false := rfl

/-- Statement on strings behind C2. -/
theorem aparse_repeated_hard_delimiter (delimiters : List CChar) (d : CChar)
    (a b : List CChar) (rest : FILE) (hnl : 10 ∉ delimiters)
    (hd : char_type delimiters d = CType.d)
    (ha : ∀ c ∈ a, char_type delimiters c = CType.r)
    (hb : ∀ c ∈ b, char_type delimiters c = CType.r) (hane : a ≠ []) (hbne : b ≠ []) :
    aparse (a ++ d :: d :: (b ++ 10 :: rest)) delimiters =
      some ([a, [], b], { ct := 3, eof := false }, rest) := by
  have hn := char_type_newline delimiters hnl
  have hf : (a ++ d :: d :: (b ++ 10 :: rest)).length + 1 =
      a.length + (1 + (1 + (b.length + (rest.length + 1 + 1)))) := by
    simp only [List.length_append, List.length_cons]; omega
  unfold aparse
  rw [hf, init_eq_idle,
    aloop_of_apasses _ _ _ _ _ _ _ (apasses_regular_idle delimiters a ha hane [] false _),
    Nat.add_comm 1, aloop_succ _ _ _ _ _ _ _ (aiter_d_inField delimiters _ _ _ d _ hd)
      (by simp) (by simp),
    Nat.add_comm 1, aloop_succ _ _ _ _ _ _ _ (aiter_d_idle delimiters _ _ d _ hd)
      (by simp) (by simp),
    aloop_of_apasses _ _ _ _ _ _ _ (apasses_regular_idle delimiters b hb hbne _ false _),
    aloop_last _ _ _ _ _ _ _ (aiter_n_inField delimiters _ _ _ 10 _ hn) (Or.inl rfl)]
  simp [AState.idle, cstr_regular delimiters a ha, cstr_regular delimiters b hb]

/-! ## Quotes and the backslash -/

theorem read_step_quoted (delimiters : List CChar) (inq inqq : Bool) (c : CChar) (s : FILE)
    (hbs : char_type delimiters c ≠ CType.bs) (hE : char_type delimiters c ≠ CType.E)
    (hforce : (inq = true ∧ char_type delimiters c ≠ CType.sq) ∨
      (inqq = true ∧ char_type delimiters c ≠ CType.dq)) :
    read_step delimiters inq inqq (c :: s) = ({ c := c, type := CType.r }, inq, inqq, s) := by
  have hq : (inq || inqq) = true := by
    rcases hforce with h | h <;> simp [h.1]
  simp [read_step, parse_next_char, fgetc, hbs, hE, hforce, hq]

theorem read_step_backslash (delimiters : List CChar) (inq inqq : Bool) (c b : CChar)
    (s : FILE) (hbs : char_type delimiters c = CType.bs)
    (hE : char_type delimiters b ≠ CType.E) :
    read_step delimiters inq inqq (c :: b :: s) = ({ c := b, type := CType.r }, inq, inqq, s) := by
  simp [read_step, parse_next_char, fgetc, hbs, hE]

theorem read_step_open_sq (delimiters : List CChar) (c : CChar) (s : FILE)
    (h : char_type delimiters c = CType.sq) :
    read_step delimiters false false (c :: s) =
      ({ c := c, type := CType.sq }, true, false, s) := by
  simp [read_step, parse_next_char, fgetc, h]

theorem read_step_open_dq (delimiters : List CChar) (c : CChar) (s : FILE)
    (h : char_type delimiters c = CType.dq) :
    read_step delimiters false false (c :: s) =
      ({ c := c, type := CType.dq }, false, true, s) := by
  simp [read_step, parse_next_char, fgetc, h]

theorem read_step_close_sq (delimiters : List CChar) (c : CChar) (s : FILE)
    (h : char_type delimiters c = CType.sq) :
    read_step delimiters true false (c :: s) =
      ({ c := c, type := CType.sq }, false, false, s) := by
  simp [read_step, parse_next_char, fgetc, h]

theorem read_step_close_dq (delimiters : List CChar) (c : CChar) (s : FILE)
    (h : char_type delimiters c = CType.dq) :
    read_step delimiters false true (c :: s) =
      ({ c := c, type := CType.dq }, false, false, s) := by
  simp [read_step, parse_next_char, fgetc, h]

/-- A regular character, whatever the state: a field is open afterwards and
the character is its last byte. -/
theorem afield_step_r (a : AState) (c : CChar) :
    afield_step a { c := c, type := CType.r } =
      { a with cur := (if a.infield = true then a.cur else []) ++ [c],
               lnw := (if a.infield = true then a.cur.length else 0) + 1,
               infield := true, lastwhite := false } := by
  cases hi : a.infield <;> simp [afield_step, afield_fill, aopen, aextend, hi]

/-- A quote character, whatever the state: nothing but `lastwhite` changes. -/
theorem afield_step_sq (a : AState) (c : CChar) :
    afield_step a { c := c, type := CType.sq } = { a with lastwhite := false } := by
  cases hi : a.infield <;> simp [afield_step, afield_fill, aopen, aextend, hi]

theorem afield_step_dq (a : AState) (c : CChar) :
    afield_step a { c := c, type := CType.dq } = { a with lastwhite := false } := by
  cases hi : a.infield <;> simp [afield_step, afield_fill, aopen, aextend, hi]

theorem aiter_backslash_idle (delimiters : List CChar) (closed : List (List CChar)) (lw : Bool)
    (c b : CChar) (s : FILE) (hbs : char_type delimiters c = CType.bs)
    (hE : char_type delimiters b ≠ CType.E) :
    aiter delimiters (AState.idle closed lw) (c :: b :: s) =
      (AState.inField closed [b] 1, CType.r, s) := by
  unfold aiter
  simp only [AState.idle, read_step_backslash delimiters false false c b s hbs hE, afield_step_r]
  simp [AState.inField]

theorem aiter_backslash_inField (delimiters : List CChar) (closed : List (List CChar))
    (cur : List CChar) (lnw : Nat) (c b : CChar) (s : FILE)
    (hbs : char_type delimiters c = CType.bs) (hE : char_type delimiters b ≠ CType.E) :
    aiter delimiters (AState.inField closed cur lnw) (c :: b :: s) =
      (AState.inField closed (cur ++ [b]) (cur.length + 1), CType.r, s) := by
  unfold aiter
  simp only [AState.inField, read_step_backslash delimiters false false c b s hbs hE,
    afield_step_r]
  simp

/-- Bytes read inside an open quote are appended to the field as they are. -/
theorem apasses_quoted (delimiters : List CChar) (inq inqq : Bool) (t : List CChar)
    (ht : ∀ c ∈ t, char_type delimiters c ≠ CType.bs ∧ char_type delimiters c ≠ CType.E ∧
      ((inq = true ∧ char_type delimiters c ≠ CType.sq) ∨
        (inqq = true ∧ char_type delimiters c ≠ CType.dq)))
    (closed : List (List CChar)) (cur : List CChar) (lnw : Nat) (lw : Bool) (s : FILE) :
    apasses delimiters t.length
        { closed := closed, cur := cur, lnw := lnw, inq := inq, inqq := inqq, infield := true,
          lastwhite := lw } (t ++ s) =
      some ({ closed := closed, cur := cur ++ t,
              lnw := if t = [] then lnw else (cur ++ t).length, inq := inq, inqq := inqq,
              infield := true, lastwhite := if t = [] then lw else false }, s) := by
  induction t generalizing cur lnw lw with
  | nil => simp [apasses]
  | cons c t ih =>
    obtain ⟨h1, h2, h3⟩ := ht c (by simp)
    have ht' : ∀ c ∈ t, char_type delimiters c ≠ CType.bs ∧ char_type delimiters c ≠ CType.E ∧
      ((inq = true ∧ char_type delimiters c ≠ CType.sq) ∨
        (inqq = true ∧ char_type delimiters c ≠ CType.dq)) := fun x hx => ht x (by simp [hx])
    have hstep : aiter delimiters
        { closed := closed, cur := cur, lnw := lnw, inq := inq, inqq := inqq, infield := true,
          lastwhite := lw } (c :: (t ++ s)) =
        ({ closed := closed, cur := cur ++ [c], lnw := cur.length + 1, inq := inq,
           inqq := inqq, infield := true, lastwhite := false }, CType.r, t ++ s) := by
      unfold aiter
      simp only [read_step_quoted delimiters inq inqq c _ h1 h2 h3, afield_step_r]
      simp
    rw [List.length_cons, List.cons_append,
      apasses_succ delimiters _ _ _ _ _ _ hstep (by simp) (by simp), ih ht']
    simp only [List.append_assoc, List.singleton_append, List.length_append, List.length_cons,
      List.length_nil, reduceCtorEq, if_false]
    congr 3
    · split
      · rename_i h; subst h; simp
      · omega
    · split <;> rfl

/-! ## Which byte has which class -/

theorem eq_of_char_type_bs (delimiters : List CChar) (c : CChar)
    (h : char_type delimiters c = CType.bs) : c = 92 := by
  unfold char_type at h
  simp only [] at h
  split_ifs at h
  assumption

theorem eq_of_char_type_E (delimiters : List CChar) (c : CChar)
    (h : char_type delimiters c = CType.E) : c = 255 := by
  unfold char_type at h
  simp only [] at h
  split_ifs at h
  assumption

theorem eq_of_char_type_sq (delimiters : List CChar) (c : CChar)
    (h : char_type delimiters c = CType.sq) : c = 39 := by
  unfold char_type at h
  simp only [] at h
  split_ifs at h
  assumption

theorem eq_of_char_type_dq (delimiters : List CChar) (c : CChar)
    (h : char_type delimiters c = CType.dq) : c = 34 := by
  unfold char_type at h
  simp only [] at h
  split_ifs at h
  assumption

theorem char_type_sq (delimiters : List CChar) (h : 39 ∉ delimiters) :
    char_type delimiters 39 = CType.sq := by
  simp [char_type, strchr, h]

theorem char_type_dq (delimiters : List CChar) (h : 34 ∉ delimiters) :
    char_type delimiters 34 = CType.dq := by
  simp [char_type, strchr, h]

theorem char_type_bs (delimiters : List CChar) (h : 92 ∉ delimiters) :
    char_type delimiters 92 = CType.bs := by
  simp [char_type, strchr, h]

theorem char_type_hash (delimiters : List CChar) (h : 35 ∉ delimiters) :
    char_type delimiters 35 = CType.hash := by
  simp [char_type, strchr, h, EOF]

/-! ## The statements on strings behind the claims on single lines -/

/-- A quoted field, single quotes. -/
theorem aparse_sq (delimiters : List CChar) (s : List CChar) (rest : FILE)
    (hq : 39 ∉ delimiters) (hnl : 10 ∉ delimiters) (hne : s ≠ [])
    (hs : ∀ c ∈ s, c ≠ 39 ∧ c ≠ 92 ∧ c ≠ 0 ∧ c ≠ 255) :
    aparse (39 :: (s ++ 39 :: 10 :: rest)) delimiters =
      some ([s], { ct := 1, eof := false }, rest) := by
  have hn := char_type_newline delimiters hnl
  have hsq := char_type_sq delimiters hq
  have hin : ∀ c ∈ s, char_type delimiters c ≠ CType.bs ∧ char_type delimiters c ≠ CType.E ∧
      (((true : Bool) = true ∧ char_type delimiters c ≠ CType.sq) ∨
        ((false : Bool) = true ∧ char_type delimiters c ≠ CType.dq)) := by
    intro c hc
    obtain ⟨h1, h2, _, h4⟩ := hs c hc
    exact ⟨fun h => h2 (eq_of_char_type_bs _ _ h), fun h => h4 (eq_of_char_type_E _ _ h),
      Or.inl ⟨rfl, fun h => h1 (eq_of_char_type_sq _ _ h)⟩⟩
  have hz : cstr s = s := cstr_eq_self s (fun c hc => (hs c hc).2.2.1)
  cases s with
  | nil => exact absurd rfl hne
  | cons c s =>
    obtain ⟨h1, h2, h3⟩ := hin c (by simp)
    have hin' : ∀ x ∈ s, char_type delimiters x ≠ CType.bs ∧
        char_type delimiters x ≠ CType.E ∧
        (((true : Bool) = true ∧ char_type delimiters x ≠ CType.sq) ∨
          ((false : Bool) = true ∧ char_type delimiters x ≠ CType.dq)) :=
      fun x hx => hin x (by simp [hx])
    have hf : (39 :: (c :: s ++ 39 :: 10 :: rest)).length + 1 =
        (s.length + (rest.length + 1 + 1 + 1)) + 1 + 1 := by
      simp only [List.length_append, List.length_cons]; omega
    have st1 : aiter delimiters AState.init (39 :: (c :: s ++ 39 :: 10 :: rest)) =
        ({ closed := [], cur := [], lnw := 0, inq := true, inqq := false, infield := false,
           lastwhite := false }, CType.sq, c :: s ++ 39 :: 10 :: rest) := by
      unfold aiter
      simp only [AState.init, read_step_open_sq delimiters 39 _ hsq, afield_step_sq]
    have st2 : aiter delimiters
        { closed := [], cur := [], lnw := 0, inq := true, inqq := false, infield := false,
          lastwhite := false } (c :: (s ++ 39 :: 10 :: rest)) =
        ({ closed := [], cur := [c], lnw := 1, inq := true, inqq := false, infield := true,
           lastwhite := false }, CType.r, s ++ 39 :: 10 :: rest) := by
      unfold aiter
      simp only [read_step_quoted delimiters true false c _ h1 h2 h3, afield_step_r]
      simp
    have st3 : aiter delimiters
        { closed := [], cur := [c] ++ s, lnw := if s = [] then 1 else ([c] ++ s).length,
          inq := true, inqq := false, infield := true,
          lastwhite := if s = [] then false else false } (39 :: 10 :: rest) =
        (AState.inField [] (c :: s) (c :: s).length, CType.sq, 10 :: rest) := by
      unfold aiter
      simp only [read_step_close_sq delimiters 39 _ hsq, afield_step_sq, AState.inField]
      simp only [List.singleton_append, List.length_cons, ite_self]
      congr 2
      split
      · rename_i h; subst h; rfl
      · rfl
    unfold aparse
    rw [hf, aloop_succ _ _ _ _ _ _ _ st1 (by simp) (by simp), List.cons_append,
      aloop_succ _ _ _ _ _ _ _ st2 (by simp) (by simp),
      aloop_of_apasses _ _ _ _ _ _ _ (apasses_quoted delimiters true false s hin' [] [c] 1 false _),
      aloop_succ _ _ _ _ _ _ _ st3 (by simp) (by simp),
      aloop_last _ _ _ _ _ _ _ (aiter_n_inField delimiters _ _ _ 10 _ hn) (Or.inl rfl)]
    simp [AState.idle, hz]

/-- A quoted field, double quotes. -/
theorem aparse_dq (delimiters : List CChar) (s : List CChar) (rest : FILE)
    (hq : 34 ∉ delimiters) (hnl : 10 ∉ delimiters) (hne : s ≠ [])
    (hs : ∀ c ∈ s, c ≠ 34 ∧ c ≠ 92 ∧ c ≠ 0 ∧ c ≠ 255) :
    aparse (34 :: (s ++ 34 :: 10 :: rest)) delimiters =
      some ([s], { ct := 1, eof := false }, rest) := by
  have hn := char_type_newline delimiters hnl
  have hdq := char_type_dq delimiters hq
  have hin : ∀ c ∈ s, char_type delimiters c ≠ CType.bs ∧ char_type delimiters c ≠ CType.E ∧
      (((false : Bool) = true ∧ char_type delimiters c ≠ CType.sq) ∨
        ((true : Bool) = true ∧ char_type delimiters c ≠ CType.dq)) := by
    intro c hc
    obtain ⟨h1, h2, _, h4⟩ := hs c hc
    exact ⟨fun h => h2 (eq_of_char_type_bs _ _ h), fun h => h4 (eq_of_char_type_E _ _ h),
      Or.inr ⟨rfl, fun h => h1 (eq_of_char_type_dq _ _ h)⟩⟩
  have hz : cstr s = s := cstr_eq_self s (fun c hc => (hs c hc).2.2.1)
  cases s with
  | nil => exact absurd rfl hne
  | cons c s =>
    obtain ⟨h1, h2, h3⟩ := hin c (by simp)
    have hin' : ∀ x ∈ s, char_type delimiters x ≠ CType.bs ∧
        char_type delimiters x ≠ CType.E ∧
        (((false : Bool) = true ∧ char_type delimiters x ≠ CType.sq) ∨
          ((true : Bool) = true ∧ char_type delimiters x ≠ CType.dq)) :=
      fun x hx => hin x (by simp [hx])
    have hf : (34 :: (c :: s ++ 34 :: 10 :: rest)).length + 1 =
        (s.length + (rest.length + 1 + 1 + 1)) + 1 + 1 := by
      simp only [List.length_append, List.length_cons]; omega
    have st1 : aiter delimiters AState.init (34 :: (c :: s ++ 34 :: 10 :: rest)) =
        ({ closed := [], cur := [], lnw := 0, inq := false, inqq := true, infield := false,
           lastwhite := false }, CType.dq, c :: s ++ 34 :: 10 :: rest) := by
      unfold aiter
      simp only [AState.init, read_step_open_dq delimiters 34 _ hdq, afield_step_dq]
    have st2 : aiter delimiters
        { closed := [], cur := [], lnw := 0, inq := false, inqq := true, infield := false,
          lastwhite := false } (c :: (s ++ 34 :: 10 :: rest)) =
        ({ closed := [], cur := [c], lnw := 1, inq := false, inqq := true, infield := true,
           lastwhite := false }, CType.r, s ++ 34 :: 10 :: rest) := by
      unfold aiter
      simp only [read_step_quoted delimiters false true c _ h1 h2 h3, afield_step_r]
      simp
    have st3 : aiter delimiters
        { closed := [], cur := [c] ++ s, lnw := if s = [] then 1 else ([c] ++ s).length,
          inq := false, inqq := true, infield := true,
          lastwhite := if s = [] then false else false } (34 :: 10 :: rest) =
        (AState.inField [] (c :: s) (c :: s).length, CType.dq, 10 :: rest) := by
      unfold aiter
      simp only [read_step_close_dq delimiters 34 _ hdq, afield_step_dq, AState.inField]
      simp only [List.singleton_append, List.length_cons, ite_self]
      congr 2
      split
      · rename_i h; subst h; rfl
      · rfl
    unfold aparse
    rw [hf, aloop_succ _ _ _ _ _ _ _ st1 (by simp) (by simp), List.cons_append,
      aloop_succ _ _ _ _ _ _ _ st2 (by simp) (by simp),
      aloop_of_apasses _ _ _ _ _ _ _ (apasses_quoted delimiters false true s hin' [] [c] 1 false _),
      aloop_succ _ _ _ _ _ _ _ st3 (by simp) (by simp),
      aloop_last _ _ _ _ _ _ _ (aiter_n_inField delimiters _ _ _ 10 _ hn) (Or.inl rfl)]
    simp [AState.idle, hz]

/-- An escaped byte between two regular tokens. -/
theorem aparse_backslash (delimiters : List CChar) (u v : List CChar) (b : CChar) (rest : FILE)
    (hbs : 92 ∉ delimiters) (hnl : 10 ∉ delimiters)
    (hu : ∀ c ∈ u, char_type delimiters c = CType.r)
    (hv : ∀ c ∈ v, char_type delimiters c = CType.r) (hb0 : b ≠ 0) (hbE : b ≠ 255) :
    aparse (u ++ 92 :: b :: (v ++ 10 :: rest)) delimiters =
      some ([u ++ b :: v], { ct := 1, eof := false }, rest) := by
  have hn := char_type_newline delimiters hnl
  have hbs' := char_type_bs delimiters hbs
  have hE : char_type delimiters b ≠ CType.E := fun h => hbE (eq_of_char_type_E _ _ h)
  have hz : cstr (u ++ b :: v) = u ++ b :: v := by
    apply cstr_eq_self
    intro c hc
    simp only [List.mem_append, List.mem_cons] at hc
    rcases hc with hc | hc | hc
    · exact char_type_r_ne_zero delimiters c (hu c hc)
    · rw [hc]; exact hb0
    · exact char_type_r_ne_zero delimiters c (hv c hc)
  have hf : (u ++ 92 :: b :: (v ++ 10 :: rest)).length + 1 =
      u.length + ((v.length + (rest.length + 1 + 1 + 1)) + 1) := by
    simp only [List.length_append, List.length_cons]; omega
  unfold aparse
  rw [hf, init_eq_idle]
  by_cases hue : u = []
  · subst hue
    rw [List.nil_append, List.length_nil, Nat.zero_add,
      aloop_succ _ _ _ _ _ _ _ (aiter_backslash_idle delimiters _ _ 92 b _ hbs' hE)
        (by simp) (by simp),
      aloop_of_apasses _ _ _ _ _ _ _ (apasses_regular_inField delimiters v hv _ _ _ _),
      aloop_last _ _ _ _ _ _ _ (aiter_n_inField delimiters _ _ _ 10 _ hn) (Or.inl rfl)]
    have hz' : cstr (b :: v) = b :: v := by simpa using hz
    by_cases hve : v = []
    · subst hve
      simp [AState.idle, cstr, hb0]
    · simp [AState.idle, hve, hz']
  · rw [aloop_of_apasses _ _ _ _ _ _ _ (apasses_regular_idle delimiters u hu hue [] false _),
      aloop_succ _ _ _ _ _ _ _ (aiter_backslash_inField delimiters _ _ _ 92 b _ hbs' hE)
        (by simp) (by simp),
      aloop_of_apasses _ _ _ _ _ _ _ (apasses_regular_inField delimiters v hv _ _ _ _),
      aloop_last _ _ _ _ _ _ _ (aiter_n_inField delimiters _ _ _ 10 _ hn) (Or.inl rfl)]
    have hz' : cstr (u ++ b :: v) = u ++ b :: v := hz
    by_cases hve : v = []
    · subst hve
      simp only [AState.idle, if_pos, List.append_nil, Option.map_some']
      have : cstr (List.take (u.length + 1) (u ++ [b])) = u ++ [b] := by
        rw [List.take_of_length_le (by simp)]
        simpa using hz
      simp [this]
    · simp only [AState.idle, if_neg hve, Option.map_some', List.take_length]
      simp [hz']

/-- A run of white-space delimiters between two regular tokens. -/
theorem aparse_white_run (delimiters : List CChar) (ws a b : List CChar) (rest : FILE)
    (hnl : 10 ∉ delimiters) (hws : ∀ c ∈ ws, char_type delimiters c = CType.W)
    (hwne : ws ≠ [])
    (ha : ∀ c ∈ a, char_type delimiters c = CType.r)
    (hb : ∀ c ∈ b, char_type delimiters c = CType.r) (hane : a ≠ []) (hbne : b ≠ []) :
    aparse (a ++ (ws ++ (b ++ 10 :: rest))) delimiters =
      some ([a, b], { ct := 2, eof := false }, rest) := by
  have hn := char_type_newline delimiters hnl
  cases ws with
  | nil => exact absurd rfl hwne
  | cons w ws =>
    have hw : char_type delimiters w = CType.W := hws w (by simp)
    have hws' : ∀ c ∈ ws, char_type delimiters c = CType.W := fun x hx => hws x (by simp [hx])
    have hf : (a ++ (w :: ws ++ (b ++ 10 :: rest))).length + 1 =
        a.length + ((ws.length + (b.length + (rest.length + 1 + 1))) + 1) := by
      simp only [List.length_append, List.length_cons]; omega
    unfold aparse
    rw [hf, init_eq_idle,
      aloop_of_apasses _ _ _ _ _ _ _ (apasses_regular_idle delimiters a ha hane [] false _),
      List.cons_append,
      aloop_succ _ _ _ _ _ _ _ (aiter_W_inField delimiters _ _ _ w _ hw) (by simp) (by simp),
      aloop_of_apasses _ _ _ _ _ _ _ (apasses_W_idle delimiters ws hws' _ _ _),
      aloop_of_apasses _ _ _ _ _ _ _ (apasses_regular_idle delimiters b hb hbne _ _ _),
      aloop_last _ _ _ _ _ _ _ (aiter_n_inField delimiters _ _ _ 10 _ hn) (Or.inl rfl)]
    simp [AState.idle, cstr_regular delimiters a ha, cstr_regular delimiters b hb]

/-- A white-space delimiter right after a hard delimiter. -/
theorem aparse_hard_then_white (delimiters : List CChar) (d w : CChar) (a b : List CChar)
    (rest : FILE) (hnl : 10 ∉ delimiters) (hd : char_type delimiters d = CType.d)
    (hw : char_type delimiters w = CType.W)
    (ha : ∀ c ∈ a, char_type delimiters c = CType.r)
    (hb : ∀ c ∈ b, char_type delimiters c = CType.r) (hane : a ≠ []) (hbne : b ≠ []) :
    aparse (a ++ d :: w :: (b ++ 10 :: rest)) delimiters =
      some ([a, b], { ct := 2, eof := false }, rest) := by
  have hn := char_type_newline delimiters hnl
  have hf : (a ++ d :: w :: (b ++ 10 :: rest)).length + 1 =
      a.length + (((b.length + (rest.length + 1 + 1)) + 1) + 1) := by
    simp only [List.length_append, List.length_cons]; omega
  unfold aparse
  rw [hf, init_eq_idle,
    aloop_of_apasses _ _ _ _ _ _ _ (apasses_regular_idle delimiters a ha hane [] false _),
    aloop_succ _ _ _ _ _ _ _ (aiter_d_inField delimiters _ _ _ d _ hd) (by simp) (by simp),
    aloop_succ _ _ _ _ _ _ _ (aiter_W_idle delimiters _ _ w _ hw) (by simp) (by simp),
    aloop_of_apasses _ _ _ _ _ _ _ (apasses_regular_idle delimiters b hb hbne _ _ _),
    aloop_last _ _ _ _ _ _ _ (aiter_n_inField delimiters _ _ _ 10 _ hn) (Or.inl rfl)]
  simp [AState.idle, cstr_regular delimiters a ha, cstr_regular delimiters b hb]

/-- Spaces and tabs at the start of a line open no field. -/
theorem apasses_blank (delimiters : List CChar) (ws : List CChar)
    (hws : ∀ c ∈ ws, c = 32 ∨ c = 9) (lw : Bool) (s : FILE) :
    ∃ lw', apasses delimiters ws.length (AState.idle [] lw) (ws ++ s) =
      some (AState.idle [] lw', s) := by
  induction ws generalizing lw with
  | nil => exact ⟨lw, by simp [apasses]⟩
  | cons c ws ih =>
    have hc : c = 32 ∨ c = 9 := hws c (by simp)
    have hws' : ∀ x ∈ ws, x = 32 ∨ x = 9 := fun x hx => hws x (by simp [hx])
    by_cases hmem : c ∈ delimiters
    · obtain ⟨lw', h⟩ := ih hws' true
      refine ⟨lw', ?_⟩
      rw [List.length_cons, List.cons_append,
        apasses_succ delimiters _ _ _ _ _ _
          (aiter_W_idle delimiters [] lw c _ (char_type_white_delimiter delimiters c hmem hc))
          (by simp) (by simp), h]
    · obtain ⟨lw', h⟩ := ih hws' false
      refine ⟨lw', ?_⟩
      rw [List.length_cons, List.cons_append,
        apasses_succ delimiters _ _ _ _ _ _
          (aiter_w_idle delimiters [] lw c _ (char_type_white_plain delimiters c hmem hc))
          (by simp) (by simp), h]

/-- A blank line ended by a newline has no field. -/
theorem aparse_blank_newline (delimiters : List CChar) (ws : List CChar) (rest : FILE)
    (hnl : 10 ∉ delimiters) (hws : ∀ c ∈ ws, c = 32 ∨ c = 9) :
    aparse (ws ++ 10 :: rest) delimiters = some ([], { ct := 0, eof := false }, rest) := by
  have hn := char_type_newline delimiters hnl
  obtain ⟨lw', h⟩ := apasses_blank delimiters ws hws false (10 :: rest)
  have hf : (ws ++ 10 :: rest).length + 1 = ws.length + (rest.length + 1 + 1) := by
    simp only [List.length_append, List.length_cons]; omega
  unfold aparse
  rw [hf, init_eq_idle, aloop_of_apasses _ _ _ _ _ _ _ h,
    aloop_last _ _ _ _ _ _ _ (aiter_n_idle delimiters _ _ 10 _ hn) (Or.inl rfl)]
  simp [AState.idle]

theorem char_type_EOF (delimiters : List CChar) (h : 255 ∉ delimiters) :
    char_type delimiters 255 = CType.E := by
  simp [char_type, strchr, h, EOF]

theorem aiter_E_idle (delimiters : List CChar) (closed : List (List CChar)) (lw : Bool)
    (h : 255 ∉ delimiters) :
    aiter delimiters (AState.idle closed lw) [] =
      (AState.idle (if closed = [] then [] else closed ++ [[]]) false, CType.E, []) := by
  have hE := char_type_EOF delimiters h
  unfold aiter
  have hr : read_step delimiters false false [] = ({ c := 255, type := CType.E }, false, false, []) := by
    simp [read_step, parse_next_char, fgetc, EOF, hE]
  simp only [AState.idle, hr]
  cases closed <;> simp [afield_step, afield_fill, aopen, aclose, cstr]

/-- A blank line ended by the end of the input has no field. -/
theorem aparse_blank_eof (delimiters : List CChar) (ws : List CChar)
    (hE : 255 ∉ delimiters) (hws : ∀ c ∈ ws, c = 32 ∨ c = 9) :
    aparse ws delimiters = some ([], { ct := 0, eof := true }, []) := by
  obtain ⟨lw', h⟩ := apasses_blank delimiters ws hws false []
  rw [List.append_nil] at h
  unfold aparse
  rw [init_eq_idle, aloop_of_apasses _ _ _ _ _ _ _ h,
    aloop_last _ _ _ _ _ _ _ (aiter_E_idle delimiters _ _ hE) (Or.inr rfl)]
  simp [AState.idle]

/-! ## The bound on the number of passes is never the reason for a result -/

theorem skip_comment_length (s : FILE) : (skip_comment s).length ≤ s.length := by
  induction s with
  | nil => simp [skip_comment]
  | cons c s ih =>
    unfold skip_comment
    split
    · simp
    · simp only [List.length_cons]; omega

theorem parse_next_char_length (f : FILE) (delimiters : List CChar) :
    (parse_next_char f delimiters).2.length ≤ f.length := by
  cases f <;> simp [parse_next_char, fgetc]

theorem read_step_length (delimiters : List CChar) (inq inqq : Bool) (c : CChar) (s : FILE) :
    (read_step delimiters inq inqq (c :: s)).2.2.2.length ≤ s.length := by
  have h0 : parse_next_char (c :: s) delimiters =
      ({ c := c, type := char_type delimiters c }, s) := rfl
  have h1 := skip_comment_length s
  have h2 := parse_next_char_length s delimiters
  have h3 := parse_next_char_length (skip_comment s) delimiters
  unfold read_step
  simp only [h0]
  split_ifs <;> simp only [] <;> omega

theorem aiter_length (delimiters : List CChar) (a : AState) (c : CChar) (s : FILE) :
    (aiter delimiters a (c :: s)).2.2.length ≤ s.length :=
  read_step_length delimiters a.inq a.inqq c s

theorem char_type_EOF_cases (delimiters : List CChar) :
    char_type delimiters 255 = CType.E ∨ char_type delimiters 255 = CType.d := by
  by_cases h : 255 ∈ delimiters
  · right; simp [char_type, strchr, h]
  · left; exact char_type_EOF delimiters h

theorem read_step_nil_E (delimiters : List CChar) (inq inqq : Bool)
    (h : char_type delimiters 255 = CType.E) :
    read_step delimiters inq inqq [] = ({ c := 255, type := CType.E }, inq, inqq, []) := by
  simp [read_step, parse_next_char, fgetc, EOF, h]

theorem read_step_nil_d (delimiters : List CChar) (inq inqq : Bool)
    (h : char_type delimiters 255 = CType.d) :
    (read_step delimiters inq inqq []).1.type ≠ CType.n ∧
      (read_step delimiters inq inqq []).1.type ≠ CType.E ∧
      (read_step delimiters inq inqq []).2.2.2 = [] := by
  cases inq <;> cases inqq <;> simp [read_step, parse_next_char, fgetc, EOF, h]

theorem aloop_nil_none (delimiters : List CChar) (h : char_type delimiters 255 = CType.d)
    (k : Nat) (a : AState) : aloop delimiters k a [] = none := by
  induction k generalizing a with
  | zero => rfl
  | succ k ih =>
    obtain ⟨h1, h2, h3⟩ := read_step_nil_d delimiters a.inq a.inqq h
    unfold aloop
    simp only []
    have e1 : (aiter delimiters a []).2.1 = (read_step delimiters a.inq a.inqq []).1.type := rfl
    have e2 : (aiter delimiters a []).2.2 = (read_step delimiters a.inq a.inqq []).2.2.2 := rfl
    rw [if_pos (by rw [e1]; exact ⟨h1, h2⟩), e2, h3]
    exact ih _

theorem aloop_stable (delimiters : List CChar) (n m : Nat) (a : AState) (f : FILE)
    (hn : f.length < n) (hm : f.length < m) :
    aloop delimiters n a f = aloop delimiters m a f := by
  induction n generalizing m a f with
  | zero => omega
  | succ n ih =>
    obtain ⟨m, rfl⟩ : ∃ m', m = m' + 1 := ⟨m - 1, by omega⟩
    unfold aloop
    simp only []
    split
    · rename_i hne
      cases f with
      | nil =>
        rcases char_type_EOF_cases delimiters with hE | hd
        · exfalso
          have e1 : (aiter delimiters a []).2.1 = (read_step delimiters a.inq a.inqq []).1.type :=
            rfl
          rw [e1, read_step_nil_E delimiters _ _ hE] at hne
          exact hne.2 rfl
        · have e2 : (aiter delimiters a []).2.2 = (read_step delimiters a.inq a.inqq []).2.2.2 :=
            rfl
          rw [e2, (read_step_nil_d delimiters a.inq a.inqq hd).2.2,
            aloop_nil_none delimiters hd, aloop_nil_none delimiters hd]
      | cons c s =>
        have hl := aiter_length delimiters a c s
        simp only [List.length_cons] at hn hm
        exact ih _ _ _ (by omega) (by omega)
    · rfl

/-- After passes that read exactly the prefix `p`, the loop goes on from the
state reached, on the rest of the stream. -/
theorem aloop_after_passes (delimiters : List CChar) (k : Nat) (a0 a : AState) (p t : FILE)
    (hp : apasses delimiters k a0 (p ++ t) = some (a, t)) :
    aloop delimiters ((p ++ t).length + 1) a0 (p ++ t) = aloop delimiters (t.length + 1) a t := by
  rw [aloop_stable delimiters _ (k + ((p ++ t).length + 1)) a0 (p ++ t) (by omega) (by omega),
    aloop_of_apasses delimiters k _ a0 a _ _ hp]
  exact aloop_stable delimiters _ _ a t (by simp only [List.length_append]; omega) (by omega)

/-- With the end of the input not among the delimiters the loop ends. -/
theorem aloop_isSome (delimiters : List CChar) (hE : 255 ∉ delimiters) (n : Nat) (a : AState)
    (f : FILE) (hn : f.length < n) : (aloop delimiters n a f).isSome = true := by
  induction n generalizing a f with
  | zero => omega
  | succ n ih =>
    unfold aloop
    simp only []
    split
    · rename_i hne
      cases f with
      | nil =>
        exfalso
        have e1 : (aiter delimiters a []).2.1 = (read_step delimiters a.inq a.inqq []).1.type :=
          rfl
        rw [e1, read_step_nil_E delimiters _ _ (char_type_EOF delimiters hE)] at hne
        exact hne.2 rfl
      | cons c s =>
        have hl := aiter_length delimiters a c s
        simp only [List.length_cons] at hn
        exact ih _ _ (by omega)
    · rfl

/-- The call returns whenever the byte `0xFF` is not a delimiter. -/
theorem parse_a_line_isSome (infile : FILE) (fn : Text) (delimiters : List CChar)
    (hE : 255 ∉ delimiters) : (parse_a_line infile fn none delimiters).isSome = true := by
  have h := parse_a_line_obs infile fn delimiters
  have h2 : (aparse infile delimiters).isSome = true := by
    unfold aparse
    rw [Option.isSome_map']
    exact aloop_isSome delimiters hE _ _ _ (by omega)
  rw [← h] at h2
  simpa using h2

/-! ## The invariant on strings -/

theorem agood_init : AGood AState.init := by
  simp [AGood, AState.init]

theorem agood_afield_step (a : AState) (ci : apop_char_info) (h : AGood a) :
    AGood (afield_step a ci) := by
  rcases a with ⟨closed, cur, lnw, inq, inqq, infield, lastwhite⟩
  rcases ci with ⟨c, ty⟩
  obtain ⟨h1, h2⟩ := h
  simp only at h1 h2
  cases infield
  · obtain ⟨rfl, rfl⟩ := h2 rfl
    cases ty <;> cases lastwhite <;> by_cases hc : closed.length > 0 <;>
      simp [AGood, afield_step, afield_fill, aopen, aclose, aextend, hc]
  · obtain ⟨h3, rfl⟩ := h1 rfl
    cases ty <;> simp [AGood, afield_step, afield_fill, aopen, aclose, aextend] <;> omega

theorem agood_aiter (delimiters : List CChar) (a : AState) (f : FILE) (h : AGood a) :
    AGood (aiter delimiters a f).1 := by
  unfold aiter
  exact agood_afield_step _ _ h

theorem agood_apasses (delimiters : List CChar) (k : Nat) (a a' : AState) (f f' : FILE)
    (hp : apasses delimiters k a f = some (a', f')) (h : AGood a) : AGood a' := by
  induction k generalizing a f with
  | zero =>
    simp only [apasses, Option.some.injEq, Prod.mk.injEq] at hp
    rw [← hp.1]; exact h
  | succ k ih =>
    unfold apasses at hp
    simp only [] at hp
    split at hp
    · exact ih _ _ hp (agood_aiter delimiters a f h)
    · simp at hp

theorem eq_idle (a : AState) (h : AGood a) (hq : a.inq = false) (hqq : a.inqq = false)
    (hin : a.infield = false) : a = AState.idle a.closed a.lastwhite := by
  rcases a with ⟨closed, cur, lnw, inq, inqq, infield, lastwhite⟩
  simp only at hq hqq hin
  subst hq hqq hin
  obtain ⟨h1, h2⟩ := h.2 rfl
  simp only at h1 h2
  subst h1 h2
  rfl

theorem eq_inField (a : AState) (h : AGood a) (hq : a.inq = false) (hqq : a.inqq = false)
    (hin : a.infield = true) :
    a = AState.inField a.closed a.cur a.lnw ∧ a.lnw ≤ a.cur.length := by
  rcases a with ⟨closed, cur, lnw, inq, inqq, infield, lastwhite⟩
  simp only at hq hqq hin
  subst hq hqq hin
  obtain ⟨h1, h2⟩ := h.1 rfl
  simp only at h1 h2
  subst h2
  exact ⟨rfl, h1⟩

/-! ## Comments -/

theorem skip_comment_append (c : List CChar) (r : FILE) (hc : ∀ x ∈ c, x ≠ 10 ∧ x ≠ 255) :
    skip_comment (c ++ 10 :: r) = r := by
  induction c with
  | nil => simp [skip_comment]
  | cons x c ih =>
    obtain ⟨h1, h2⟩ := hc x (by simp)
    have hc' : ∀ y ∈ c, y ≠ 10 ∧ y ≠ 255 := fun y hy => hc y (by simp [hy])
    simp only [List.cons_append, skip_comment, EOF, h1, h2, or_self, if_false]
    exact ih hc'

theorem read_step_hash (delimiters : List CChar) (c : CChar) (s : FILE)
    (h : char_type delimiters c = CType.hash) :
    read_step delimiters false false (c :: s) =
      ({ c := c, type := CType.n }, false, false, skip_comment s) := by
  simp [read_step, parse_next_char, fgetc, h]

/-- With a newline the byte itself is not used. -/
theorem afield_step_n (a : AState) (c1 c2 : CChar) :
    afield_step a { c := c1, type := CType.n } = afield_step a { c := c2, type := CType.n } := by
  simp [afield_step, afield_fill]

/-- Statement on strings behind C6. -/
theorem aparse_comment (delimiters : List CChar) (h35 : 35 ∉ delimiters)
    (hnl : 10 ∉ delimiters) (p c r : List CChar) (k : Nat) (a : AState)
    (hp1 : apasses delimiters k AState.init (p ++ 35 :: (c ++ 10 :: r)) =
      some (a, 35 :: (c ++ 10 :: r)))
    (hp2 : apasses delimiters k AState.init (p ++ 10 :: r) = some (a, 10 :: r))
    (hq : a.inq = false) (hqq : a.inqq = false) (hc : ∀ x ∈ c, x ≠ 10 ∧ x ≠ 255) :
    ∃ x, aparse (p ++ 35 :: (c ++ 10 :: r)) delimiters = some x ∧
      aparse (p ++ 10 :: r) delimiters = some x ∧ x.2.1.eof = false ∧ x.2.2 = r := by
  have hn := char_type_newline delimiters hnl
  have hh := char_type_hash delimiters h35
  have s1 : aiter delimiters a (35 :: (c ++ 10 :: r)) =
      (afield_step a { c := 10, type := CType.n }, CType.n, r) := by
    unfold aiter
    rw [hq, hqq, read_step_hash delimiters 35 _ hh, skip_comment_append c r hc]
    simp only []
    rw [afield_step_n _ 35 10]
    congr 2
    rcases a with ⟨_, _, _, inq, inqq, _, _⟩
    simp only at hq hqq
    subst hq hqq
    rfl
  have s2 : aiter delimiters a (10 :: r) =
      (afield_step a { c := 10, type := CType.n }, CType.n, r) := by
    rw [aiter_plain delimiters a 10 r hq hqq (by simp [hn]) (by simp [hn]) (by simp [hn])
      (by simp [hn]), hn]
  refine ⟨((afield_step a { c := 10, type := CType.n }).closed,
    { ct := (afield_step a { c := 10, type := CType.n }).closed.length, eof := false }, r),
    ?_, ?_, rfl, rfl⟩
  · unfold aparse
    rw [aloop_after_passes delimiters k _ _ _ _ hp1, aloop_last _ _ _ _ _ _ _ s1 (Or.inl rfl)]
    simp
  · unfold aparse
    rw [aloop_after_passes delimiters k _ _ _ _ hp2, aloop_last _ _ _ _ _ _ _ s2 (Or.inl rfl)]
    simp

/-! ## White space around a field -/

theorem afield_step_lastwhite (a : AState) (ci : apop_char_info) (hin : a.infield = false)
    (x y : Bool) :
    afield_step { a with lastwhite := x } ci = afield_step { a with lastwhite := y } ci := by
  rcases ci with ⟨c, ty⟩
  cases ty <;> cases x <;> cases y <;>
    simp [afield_step, afield_fill, aopen, aclose, aextend, hin]

theorem aloop_idle_lastwhite (delimiters : List CChar) (n : Nat) (closed : List (List CChar))
    (x y : Bool) (f : FILE) :
    aloop delimiters n (AState.idle closed x) f = aloop delimiters n (AState.idle closed y) f := by
  cases n with
  | zero => rfl
  | succ n =>
    have h : aiter delimiters (AState.idle closed x) f = aiter delimiters (AState.idle closed y) f := by
      unfold aiter
      simp only [AState.idle]
      congr 1
      exact afield_step_lastwhite
        { closed := closed, cur := [], lnw := 0,
          inq := (read_step delimiters false false f).2.1,
          inqq := (read_step delimiters false false f).2.2.1, infield := false,
          lastwhite := false } _ rfl x y
    unfold aloop
    simp only [h]

/-- Statement on strings behind C8. -/
theorem aparse_white_insert (delimiters : List CChar) (h32 : 32 ∉ delimiters)
    (h9 : 9 ∉ delimiters) (p ws t : List CChar) (k : Nat) (a : AState)
    (hp1 : apasses delimiters k AState.init (p ++ (ws ++ t)) = some (a, ws ++ t))
    (hp2 : apasses delimiters k AState.init (p ++ t) = some (a, t))
    (hq : a.inq = false) (hqq : a.inqq = false) (hws : ∀ c ∈ ws, c = 32 ∨ c = 9)
    (hpos : a.infield = false ∨ ∃ c t', t = c :: t' ∧
      (char_type delimiters c = CType.d ∨ char_type delimiters c = CType.n)) :
    aparse (p ++ (ws ++ t)) delimiters = aparse (p ++ t) delimiters := by
  have hg : AGood a := agood_apasses delimiters k _ _ _ _ hp2 agood_init
  have hw : ∀ c ∈ ws, char_type delimiters c = CType.w := by
    intro c hc
    rcases hws c hc with h | h
    · subst h; exact char_type_white_plain delimiters 32 h32 (Or.inl rfl)
    · subst h; exact char_type_white_plain delimiters 9 h9 (Or.inr rfl)
  have hf : (ws ++ t).length + 1 = ws.length + (t.length + 1) := by
    simp only [List.length_append]; omega
  unfold aparse
  rw [aloop_after_passes delimiters k _ _ _ _ hp1, aloop_after_passes delimiters k _ _ _ _ hp2, hf]
  congr 1
  cases hin : a.infield with
  | false =>
    have ha := eq_idle a hg hq hqq hin
    rw [ha, aloop_of_apasses _ _ _ _ _ _ _ (apasses_w_idle delimiters ws hw _ _ _)]
    exact aloop_idle_lastwhite delimiters _ _ _ _ _
  | true =>
    obtain ⟨ha, hl⟩ := eq_inField a hg hq hqq hin
    rcases hpos with h | ⟨c, t', rfl, hc⟩
    · rw [hin] at h; exact absurd h (by simp)
    · rw [ha, aloop_of_apasses _ _ _ _ _ _ _ (apasses_w_inField delimiters ws hw _ _ _ _)]
      have htake : List.take a.lnw (a.cur ++ ws) = List.take a.lnw a.cur :=
        List.take_append_of_le_length hl
      rcases hc with hc | hc
      · rw [List.length_cons,
          aloop_succ _ _ _ _ _ _ _ (aiter_d_inField delimiters _ _ _ c _ hc) (by simp) (by simp),
          aloop_succ _ _ _ _ _ _ _ (aiter_d_inField delimiters _ _ _ c _ hc) (by simp) (by simp),
          htake]
      · rw [List.length_cons,
          aloop_last _ _ _ _ _ _ _ (aiter_n_inField delimiters _ _ _ c _ hc) (Or.inl rfl),
          aloop_last _ _ _ _ _ _ _ (aiter_n_inField delimiters _ _ _ c _ hc) (Or.inl rfl),
          htake]

/-! ## Counting fields on a line split by one hard delimiter -/

theorem char_type_single_regular (d c : CChar) (hcd : c ≠ d) (h : c ≠ 0 ∧ c ≠ 10 ∧ c ≠ 34 ∧
    c ≠ 39 ∧ c ≠ 92 ∧ c ≠ 35 ∧ c ≠ 255) (h32 : c ≠ 32) (h9 : c ≠ 9) :
    char_type [d] c = CType.r := by
  obtain ⟨h0, h10, h34, h39, h92, h35, h255⟩ := h
  simp [char_type, strchr, EOF, hcd, h0, h10, h34, h39, h92, h35, h255, h32, h9]

/-- One byte of such a line: the pass does not end the line, a delimiter
closes exactly one field, and a byte that is not white leaves a field begun. -/
theorem count_pass (d c : CChar) (s : FILE) (a : AState)
    (hd : d ≠ 0 ∧ d ≠ 9 ∧ d ≠ 10 ∧ d ≠ 32)
    (hc : c ≠ 0 ∧ c ≠ 10 ∧ c ≠ 34 ∧ c ≠ 39 ∧ c ≠ 92 ∧ c ≠ 35 ∧ c ≠ 255)
    (hg : AGood a) (hq : a.inq = false) (hqq : a.inqq = false) :
    ∃ a' ty, aiter [d] a (c :: s) = (a', ty, s) ∧ ty ≠ CType.n ∧ ty ≠ CType.E ∧
      AGood a' ∧ a'.inq = false ∧ a'.inqq = false ∧
      a'.closed.length = a.closed.length + (if c = d then 1 else 0) ∧
      ((a.infield = true ∨ a.closed ≠ []) → (a'.infield = true ∨ a'.closed ≠ [])) ∧
      ((c ≠ 32 ∧ c ≠ 9) → (a'.infield = true ∨ a'.closed ≠ [])) := by
  obtain ⟨hd0, hd9, hd10, hd32⟩ := hd
  have hgood : ∀ x : AState, aiter [d] a (c :: s) = (x, (aiter [d] a (c :: s)).2.1, s) →
      AGood x := by
    intro x hx
    have := agood_aiter [d] a (c :: s) hg
    rw [hx] at this
    exact this
  by_cases hcd : c = d
  · subst hcd
    have ht : char_type [c] c = CType.d :=
      char_type_delimiter [c] c (by simp) hd32 hd9 hd0
    cases hin : a.infield with
    | false =>
      have ha := eq_idle a hg hq hqq hin
      have hs := aiter_d_idle [c] a.closed a.lastwhite c s ht
      rw [← ha] at hs
      refine ⟨_, _, hs, by simp, by simp, ?_, rfl, rfl, ?_, ?_, ?_⟩
      · exact hgood _ (by rw [hs])
      · simp [AState.idle]
      · intro _; right; simp [AState.idle]
      · intro _; right; simp [AState.idle]
    | true =>
      obtain ⟨ha, _⟩ := eq_inField a hg hq hqq hin
      have hs := aiter_d_inField [c] a.closed a.cur a.lnw c s ht
      rw [← ha] at hs
      refine ⟨_, _, hs, by simp, by simp, ?_, rfl, rfl, ?_, ?_, ?_⟩
      · exact hgood _ (by rw [hs])
      · simp [AState.idle]
      · intro _; right; simp [AState.idle]
      · intro _; right; simp [AState.idle]
  · by_cases hw : c = 32 ∨ c = 9
    · have ht : char_type [d] c = CType.w :=
        char_type_white_plain [d] c (by simp [hcd]) hw
      cases hin : a.infield with
      | false =>
        have ha := eq_idle a hg hq hqq hin
        have hs := aiter_w_idle [d] a.closed a.lastwhite c s ht
        rw [← ha] at hs
        refine ⟨_, _, hs, by simp, by simp, ?_, rfl, rfl, ?_, ?_, ?_⟩
        · exact hgood _ (by rw [hs])
        · simp [AState.idle, hcd]
        · intro h
          rcases h with h | h
          · simp at h
          · right; simpa [AState.idle] using h
        · intro h
          rcases hw with hw | hw
          · exact absurd hw h.1
          · exact absurd hw h.2
      | true =>
        obtain ⟨ha, _⟩ := eq_inField a hg hq hqq hin
        have hs := aiter_w_inField [d] a.closed a.cur a.lnw c s ht
        rw [← ha] at hs
        refine ⟨_, _, hs, by simp, by simp, ?_, rfl, rfl, ?_, ?_, ?_⟩
        · exact hgood _ (by rw [hs])
        · simp [AState.inField, hcd]
        · intro _; left; rfl
        · intro _; left; rfl
    · have h32 : c ≠ 32 := fun h => hw (Or.inl h)
      have h9 : c ≠ 9 := fun h => hw (Or.inr h)
      have ht : char_type [d] c = CType.r := char_type_single_regular d c hcd hc h32 h9
      cases hin : a.infield with
      | false =>
        have ha := eq_idle a hg hq hqq hin
        have hs := aiter_r_idle [d] a.closed a.lastwhite c s ht
        rw [← ha] at hs
        refine ⟨_, _, hs, by simp, by simp, ?_, rfl, rfl, ?_, ?_, ?_⟩
        · exact hgood _ (by rw [hs])
        · simp [AState.inField, hcd]
        · intro _; left; rfl
        · intro _; left; rfl
      | true =>
        obtain ⟨ha, _⟩ := eq_inField a hg hq hqq hin
        have hs := aiter_r_inField [d] a.closed a.cur a.lnw c s ht
        rw [← ha] at hs
        refine ⟨_, _, hs, by simp, by simp, ?_, rfl, rfl, ?_, ?_, ?_⟩
        · exact hgood _ (by rw [hs])
        · simp [AState.inField, hcd]
        · intro _; left; rfl
        · intro _; left; rfl

theorem count_passes (d : CChar) (line : List CChar) (s : FILE) (a : AState)
    (hd : d ≠ 0 ∧ d ≠ 9 ∧ d ≠ 10 ∧ d ≠ 32)
    (hline : ∀ c ∈ line, c ≠ 0 ∧ c ≠ 10 ∧ c ≠ 34 ∧ c ≠ 39 ∧ c ≠ 92 ∧ c ≠ 35 ∧ c ≠ 255)
    (hg : AGood a) (hq : a.inq = false) (hqq : a.inqq = false) :
    ∃ a', apasses [d] line.length a (line ++ s) = some (a', s) ∧
      AGood a' ∧ a'.inq = false ∧ a'.inqq = false ∧
      a'.closed.length = a.closed.length + line.count d ∧
      ((a.infield = true ∨ a.closed ≠ []) → (a'.infield = true ∨ a'.closed ≠ [])) ∧
      ((∃ c ∈ line, c ≠ 32 ∧ c ≠ 9) → (a'.infield = true ∨ a'.closed ≠ [])) := by
  induction line generalizing a with
  | nil =>
    refine ⟨a, by simp [apasses], hg, hq, hqq, by simp, id, ?_⟩
    rintro ⟨c, hc, _⟩
    simp at hc
  | cons c line ih =>
    have hc := hline c (by simp)
    have hline' : ∀ x ∈ line, x ≠ 0 ∧ x ≠ 10 ∧ x ≠ 34 ∧ x ≠ 39 ∧ x ≠ 92 ∧ x ≠ 35 ∧ x ≠ 255 :=
      fun x hx => hline x (by simp [hx])
    obtain ⟨a1, ty, hs, hn, hE, hg1, hq1, hqq1, hlen1, hop1, hnw1⟩ :=
      count_pass d c (line ++ s) a hd hc hg hq hqq
    obtain ⟨a2, hp, hg2, hq2, hqq2, hlen2, hop2, hnw2⟩ := ih a1 hline' hg1 hq1 hqq1
    refine ⟨a2, ?_, hg2, hq2, hqq2, ?_, ?_, ?_⟩
    · rw [List.length_cons, List.cons_append, apasses_succ [d] _ _ _ _ _ _ hs hn hE, hp]
    · rw [hlen2, hlen1, List.count_cons]
      by_cases hcd : c = d
      · simp [hcd]; omega
      · simp [hcd]
    · exact fun h => hop2 (hop1 h)
    · rintro ⟨x, hx, hx32, hx9⟩
      simp only [List.mem_cons] at hx
      rcases hx with hx | hx
      · subst hx
        exact hop2 (hnw1 ⟨hx32, hx9⟩)
      · exact hnw2 ⟨x, hx, hx32, hx9⟩

/-- Statement on strings behind the amended C9. -/
theorem aparse_count (d : CChar) (line : List CChar) (rest : FILE)
    (hd : d ≠ 0 ∧ d ≠ 9 ∧ d ≠ 10 ∧ d ≠ 32)
    (hline : ∀ c ∈ line, c ≠ 0 ∧ c ≠ 10 ∧ c ≠ 34 ∧ c ≠ 39 ∧ c ≠ 92 ∧ c ≠ 35 ∧ c ≠ 255)
    (hnb : ∃ c ∈ line, c ≠ 32 ∧ c ≠ 9) :
    ∃ x, aparse (line ++ 10 :: rest) [d] = some x ∧ x.2.1.ct = 1 + line.count d ∧
      x.2.1.eof = false ∧ x.2.2 = rest := by
  have hn : char_type [d] 10 = CType.n :=
    char_type_newline [d] (by simp; exact fun h => hd.2.2.1 h.symm)
  obtain ⟨a, hp, hg, hq, hqq, hlen, _, hop⟩ :=
    count_passes d line (10 :: rest) AState.init hd hline agood_init rfl rfl
  have hopen := hop hnb
  have hlen' : a.closed.length = line.count d := by
    rw [hlen]; simp [AState.init]
  unfold aparse
  rw [aloop_after_passes [d] _ _ _ _ _ hp]
  cases hin : a.infield with
  | false =>
    have ha := eq_idle a hg hq hqq hin
    have hne : a.closed ≠ [] := by
      rcases hopen with h | h
      · rw [hin] at h; exact absurd h (by simp)
      · exact h
    have hs := aiter_n_idle [d] a.closed a.lastwhite 10 rest hn
    rw [← ha, if_neg hne] at hs
    rw [List.length_cons, aloop_last _ _ _ _ _ _ _ hs (Or.inl rfl)]
    refine ⟨_, rfl, ?_, rfl, rfl⟩
    simp [AState.idle, hlen']
    omega
  | true =>
    obtain ⟨ha, _⟩ := eq_inField a hg hq hqq hin
    have hs := aiter_n_inField [d] a.closed a.cur a.lnw 10 rest hn
    rw [← ha] at hs
    rw [List.length_cons, aloop_last _ _ _ _ _ _ _ hs (Or.inl rfl)]
    refine ⟨_, rfl, ?_, rfl, rfl⟩
    simp [AState.idle, hlen']
    omega

/-! ## Filling one row of the matrix -/

theorem getD_append_length {α : Type} (pre : List α) (r d : α) (n : Nat) (hn : pre.length = n) :
    (pre ++ [r]).getD n d = r := by
  subst hn
  induction pre with
  | nil => rfl
  | cons x xs ih => simp

theorem set_append_length {α : Type} (pre : List α) (r r' : α) (n : Nat) (hn : pre.length = n) :
    (pre ++ [r]).set n r' = pre ++ [r'] := by
  subst hn
  induction pre with
  | nil => rfl
  | cons x xs ih => simp

theorem gsl_matrix_set_last {V : Type} (s1 s2 : Nat) (pre : List (List V)) (r : List V)
    (n j : Nat) (x : V) (hn : pre.length = n) :
    gsl_matrix_set { size1 := s1, size2 := s2, data := pre ++ [r] } n j x =
      { size1 := s1, size2 := s2, data := pre ++ [r.set j x] } := by
  simp only [gsl_matrix_set, getD_append_length pre r [] n hn, set_append_length pre r _ n hn]

theorem take_set_drop {α : Type} (r : List α) (j : Nat) (x : α) (h : j < r.length) :
    (r.set j x).take (j + 1) = r.take j ++ [x] ∧ (r.set j x).drop (j + 1) = r.drop (j + 1) := by
  refine ⟨take_succ_set r j x h, ?_⟩
  rw [set_eq_take_cons_drop r j x h]
  have hl : (r.take j).length = j := by rw [List.length_take]; omega
  have : r.take j ++ x :: r.drop (j + 1) = (r.take j ++ [x]) ++ r.drop (j + 1) := by simp
  rw [this, List.drop_append_of_le_length (by simp [hl]),
    List.drop_of_length_le (by simp [hl])]
  simp

/-- The cells written by the loop over the columns. -/
theorem foldl_set_row {V : Type} (f : Nat → V) (s1 s2 : Nat) (pre : List (List V)) (n h : Nat)
    (hn : pre.length = n) (c j : Nat) (r : List V) (hr : j + c ≤ r.length) :
    (List.range' (h + j) c).foldl (fun m col => gsl_matrix_set m n (col - h) (f col))
        { size1 := s1, size2 := s2, data := pre ++ [r] } =
      { size1 := s1, size2 := s2,
        data := pre ++ [r.take j ++ (List.range' (h + j) c).map f ++ r.drop (j + c)] } := by
  induction c generalizing j r with
  | zero => simp
  | succ c ih =>
    rw [List.range'_succ, List.foldl_cons, Nat.add_sub_cancel_left,
      gsl_matrix_set_last s1 s2 pre r n j _ hn]
    have hj : j < r.length := by omega
    have h1 := ih (j + 1) (r.set j (f (h + j))) (by rw [List.length_set]; omega)
    have e : h + j + 1 = h + (j + 1) := by omega
    rw [e, h1]
    obtain ⟨t1, t2⟩ := take_set_drop r j (f (h + j)) hj
    have e2 : j + 1 + c = j + (c + 1) := by omega
    have e3 : (r.set j (f (h + j))).drop (j + 1 + c) = r.drop (j + (c + 1)) := by
      have := congrArg (List.drop c) t2
      rw [List.drop_drop, List.drop_drop] at this
      rw [← e2]
      exact this
    rw [t1, e3]
    simp

theorem range'_map_getD (fn : Text) (g : List CChar → List CChar) (h ct : Nat)
    (hct : ct ≤ fn.length) :
    (List.range' h (ct - h)).map (fun col => g (fn.getD col [])) =
      ((fn.take ct).map g).drop h := by
  apply List.ext_getElem
  · simp only [List.length_map, List.length_range', List.length_drop, List.length_take]
    omega
  · intro i h1 h2
    simp only [List.length_map, List.length_range'] at h1
    have hi : h + i < fn.length := by omega
    simp only [List.getElem_map, List.getElem_range'_1, List.getElem_drop, List.getElem_take]
    rw [List.getD_eq_getElem fn [] hi]

/-- The loop over the columns writes the conversions of the fields that follow
the row name into the last row. -/
theorem fill_row_last {V : Type} (lib : NumLib V) (s1 : Nat) (pre : List (List V))
    (r : List V) (fn : Text) (n hasrows ct : Nat) (hn : pre.length = n)
    (hct : ct ≤ fn.length) (hr : r.length = ct - hasrows) :
    fill_row lib { size1 := s1, size2 := ct - hasrows, data := pre ++ [r] } fn (n + 1) hasrows ct =
      { size1 := s1, size2 := ct - hasrows,
        data := pre ++ [(((fn.take ct).map cstr).drop hasrows).map (convert_field lib)] } := by
  unfold fill_row
  have h := foldl_set_row (fun col => convert_field lib (cstr (fn.getD col []))) s1
    (ct - hasrows) pre n hasrows hn (ct - hasrows) 0 r (by omega)
  simp only [Nat.add_zero, Nat.add_sub_cancel] at h ⊢
  rw [h]
  have hd : r.drop (0 + (ct - hasrows)) = [] := List.drop_of_length_le (by omega)
  rw [hd, List.take_zero, List.nil_append, List.append_nil]
  have := range'_map_getD fn cstr hasrows ct hct
  rw [← this, List.map_map]
  rfl

/-! ## The body loop of `apop_text_to_data` on lines of one width -/

theorem fields_length (infile : FILE) (fn : Text) (delimiters : List CChar) (res : LineResult)
    (h : parse_a_line infile fn none delimiters = some res) :
    res.fields.length = res.L.ct := by
  have ho := parse_a_line_obs infile fn delimiters
  rw [h] at ho
  unfold aparse at ho
  cases ha : aloop delimiters (infile.length + 1) AState.init infile with
  | none => rw [ha] at ho; simp at ho
  | some r =>
    rw [ha] at ho
    simp only [Option.map_some', Option.some.injEq, LineResult.obs, Prod.mk.injEq] at ho
    rw [ho.1, ho.2.1]

theorem ct_le_length (res : LineResult) (h : res.fields.length = res.L.ct) :
    res.L.ct ≤ res.fn.length := by
  simp only [LineResult.fields, List.length_map, List.length_take] at h
  omega

theorem realloc_grow {V : Type} (lib : NumLib V) (s1 s2 k cols : Nat) (rows : List (List V))
    (hk : rows.length = k) (hrl : ∀ r ∈ rows, r.length = cols) :
    apop_matrix_realloc lib (some { size1 := s1, size2 := s2, data := rows }) (k + 1) cols =
      some { size1 := k + 1, size2 := cols, data := rows ++ [List.replicate cols lib.fresh] } := by
  subst hk
  simp only [apop_matrix_realloc, Option.some.injEq, gsl_matrix.mk.injEq, true_and]
  have h1 : List.take (rows.length + 1) rows = rows := List.take_of_length_le (by omega)
  have h2 : rows.length + 1 - rows.length = 1 := by omega
  rw [h1, h2]
  congr 1
  conv_rhs => rw [← List.map_id rows]
  apply List.map_congr_left
  intro r hr
  have := hrl r hr
  simp [this]

/-- The state of the body loop once `k` lines are stored: no set yet for
`k = 0`, else a matrix of `k` rows. -/
theorem body_loop_process {V : Type} (lib : NumLib V) (delimiters : List CChar) (hr w : Nat)
    (hw : 1 ≤ w) (k : Nat) (rows : List (List V)) (rn : List (List CChar))
    (hk : rows.length = k) (hrl : ∀ r ∈ rows, r.length = w - hr) (hrn : k = 0 → rn = [])
    (fn : Text) (inp : FILE) (hfn : w ≤ fn.length) (res : LineResult)
    (hres : parse_a_line inp fn none delimiters = some res) (fuel : Nat) :
    body_loop lib hr none delimiters (fuel + 1)
        { set := if k = 0 then none else
            some { vector := none,
                   matrix := some { size1 := k, size2 := w - hr, data := rows },
                   weights := none, names := { column := [], row := rn }, error := 0 },
          L := { ct := w, eof := false }, row := k, add_this_line := fn, infile := inp } =
      body_loop lib hr none delimiters fuel
        { set := some { vector := none,
                        matrix := some { size1 := k + 1, size2 := w - hr,
                                         data := rows ++
                                           [(((fn.take w).map cstr).drop hr).map
                                             (convert_field lib)] },
                        weights := none,
                        names := { column := [],
                                   row := if hr ≠ 0 then rn ++ [cstr (fn.getD 0 [])] else rn },
                        error := 0 },
          L := res.L, row := k + 1, add_this_line := res.fn, infile := res.infile } := by
  have hw0 : w ≠ 0 := by omega
  conv_lhs => unfold body_loop
  simp only [hw0, ne_eq, not_false_eq_true, and_self, or_true, if_true, if_false, hres]
  by_cases hk0 : k = 0
  · have hrn0 := hrn hk0
    subst hk0 hrn0
    have hrows : rows = [] := List.length_eq_zero.mp hk
    subst hrows
    simp only [if_true, apop_data_alloc]
    have hre' : apop_matrix_realloc lib
        (some { size1 := 1, size2 := w - hr,
                data := List.replicate 1 (List.replicate (w - hr) lib.fresh) }) (0 + 1) (w - hr) =
        some { size1 := 0 + 1, size2 := w - hr,
               data := [] ++ [List.replicate (w - hr) lib.fresh] } := by
      simp [apop_matrix_realloc]
    rw [hre']
    simp only [Nat.lt_irrefl, if_false, gt_iff_lt]
    rw [fill_row_last lib (0 + 1) [] _ fn 0 hr w rfl hfn (by simp)]
    by_cases hh : hr = 0
    · simp [hh, apop_name_add]
    · simp [hh, apop_name_add]
  · simp only [hk0, if_false]
    rw [realloc_grow lib k (w - hr) k (w - hr) rows hk hrl]
    simp only [Nat.lt_irrefl, if_false, gt_iff_lt]
    rw [fill_row_last lib (k + 1) rows _ fn k hr w hk hfn (by simp)]
    by_cases hh : hr = 0
    · simp [hh, apop_name_add]
    · simp [hh, apop_name_add]

theorem headD_take_map_cstr (fn : Text) (w : Nat) (hw : 1 ≤ w) :
    ((fn.take w).map cstr).headD [] = cstr (fn.getD 0 []) := by
  obtain ⟨w, rfl⟩ : ∃ v, w = v + 1 := ⟨w - 1, by omega⟩
  cases fn with
  | nil => simp [cstr]
  | cons x xs => simp

theorem parse_a_line_nil (fn : Text) (delimiters : List CChar) (h255 : 255 ∉ delimiters) :
    ∃ res, parse_a_line [] fn none delimiters = some res ∧ res.L = { ct := 0, eof := true } ∧
      res.infile = [] := by
  obtain ⟨res, h1, _, h3, h4⟩ := obs_of_aparse [] fn delimiters _
    (aparse_blank_eof delimiters [] h255 (by simp))
  exact ⟨res, h1, h3, h4⟩

theorem body_loop_lines {V : Type} (lib : NumLib V) (delimiters : List CChar) (hr w : Nat)
    (hw : 1 ≤ w) (h255 : 255 ∉ delimiters) (lines : List (List CChar × List (List CChar)))
    (hlines : ∀ l ∈ lines, ∀ rest fn, ∃ res,
      parse_a_line (l.1 ++ rest) fn none delimiters = some res ∧
        res.L = { ct := w, eof := false } ∧ res.fields = l.2 ∧ res.infile = rest)
    (k : Nat) (rows : List (List V)) (rn : List (List CChar))
    (hk : rows.length = k) (hrl : ∀ r ∈ rows, r.length = w - hr) (hrn : k = 0 → rn = [])
    (fn : Text) (hfn : w ≤ fn.length) (fuel : Nat) (hfuel : lines.length + 2 ≤ fuel) :
    body_loop lib hr none delimiters fuel
        { set := if k = 0 then none else
            some { vector := none,
                   matrix := some { size1 := k, size2 := w - hr, data := rows },
                   weights := none, names := { column := [], row := rn }, error := 0 },
          L := { ct := w, eof := false }, row := k, add_this_line := fn,
          infile := (lines.map Prod.fst).flatten } =
      some { vector := none,
             matrix := some { size1 := k + 1 + lines.length, size2 := w - hr,
                              data := rows ++ (((fn.take w).map cstr) :: lines.map Prod.snd).map
                                (fun F => (F.drop hr).map (convert_field lib)) },
             weights := none,
             names := { column := [],
                        row := if hr ≠ 0 then
                            rn ++ (((fn.take w).map cstr) :: lines.map Prod.snd).map
                              (fun F => F.headD [])
                          else rn },
             error := 0 } := by
  induction lines generalizing k rows rn fn fuel with
  | nil =>
    obtain ⟨fuel, rfl⟩ : ∃ f, fuel = f + 1 + 1 := ⟨fuel - 2, by simp at hfuel; omega⟩
    obtain ⟨res, hres, hL, hin⟩ := parse_a_line_nil fn delimiters h255
    simp only [List.map_nil, List.flatten_nil]
    rw [body_loop_process lib delimiters hr w hw k rows rn hk hrl hrn fn [] hfn res hres]
    unfold body_loop
    simp only [hL, Option.isNone_some, ne_eq, not_true_eq_false, false_and, or_self, if_false,
      List.length_nil, Nat.add_zero, List.map_cons, List.map_nil, headD_take_map_cstr fn w hw,
      Bool.false_eq_true]
  | cons l ls ih =>
    obtain ⟨fuel, rfl⟩ : ∃ f, fuel = f + 1 := ⟨fuel - 1, by simp at hfuel; omega⟩
    have hls : ∀ x ∈ ls, ∀ rest fn, ∃ res,
        parse_a_line (x.1 ++ rest) fn none delimiters = some res ∧
          res.L = { ct := w, eof := false } ∧ res.fields = x.2 ∧ res.infile = rest :=
      fun x hx => hlines x (by simp [hx])
    obtain ⟨res, hres, hL, hF, hin⟩ := hlines l (by simp) (ls.map Prod.fst).flatten fn
    have hlen := fields_length _ _ _ _ hres
    have hct := ct_le_length res hlen
    rw [hL] at hct hlen
    simp only at hct hlen
    have hF' : (res.fn.take w).map cstr = l.2 := by
      rw [← hF]; simp [LineResult.fields, hL]
    simp only [List.map_cons, List.flatten_cons]
    rw [body_loop_process lib delimiters hr w hw k rows rn hk hrl hrn fn _ hfn res hres, hL, hin]
    have hk1 : k + 1 ≠ 0 := by omega
    have hrl' : ∀ r ∈ rows ++ [(((fn.take w).map cstr).drop hr).map (convert_field lib)],
        r.length = w - hr := by
      intro r hmem
      simp only [List.mem_append, List.mem_singleton] at hmem
      rcases hmem with hmem | hmem
      · exact hrl r hmem
      · rw [hmem]; simp only [List.length_map, List.length_drop, List.length_take]; omega
    have h := ih hls (k + 1) (rows ++ [(((fn.take w).map cstr).drop hr).map (convert_field lib)])
      (if hr ≠ 0 then rn ++ [cstr (fn.getD 0 [])] else rn)
      (by simp [hk]) hrl' (fun h0 => absurd h0 hk1) res.fn hct fuel
      (by simp at hfuel ⊢; omega)
    simp only [hk1, if_false] at h
    rw [h, hF']
    simp only [List.length_cons, List.map_cons, List.append_assoc, List.singleton_append,
      headD_take_map_cstr fn w hw]
    congr 3
    · congr 1
      omega
    · split <;> simp

/-! ## The bound of `parse_a_line` on the number of passes -/

theorem parse_loop_nil_none (delimiters : List CChar) (h : char_type delimiters 255 = CType.d)
    (k : Nat) (st : PState) : parse_loop delimiters k st [] = none := by
  induction k generalizing st with
  | zero => rfl
  | succ k ih =>
    obtain ⟨h1, h2, h3⟩ := read_step_nil_d delimiters st.inq st.inqq h
    unfold parse_loop
    simp only []
    have e1 : (parse_iter delimiters st []).2.1 =
        (read_step delimiters st.inq st.inqq []).1.type := rfl
    have e2 : (parse_iter delimiters st []).2.2 =
        (read_step delimiters st.inq st.inqq []).2.2.2 := rfl
    rw [if_pos (by rw [e1]; exact ⟨h1, h2⟩), e2, h3]
    exact ih _

/-- More passes than unread bytes never change the outcome of the loop: when
the bound of `parse_a_line` is reached, no larger bound gives a result. -/
theorem parse_loop_stable (delimiters : List CChar) (n m : Nat) (st : PState) (f : FILE)
    (hn : f.length < n) (hm : f.length < m) :
    parse_loop delimiters n st f = parse_loop delimiters m st f := by
  induction n generalizing m st f with
  | zero => omega
  | succ n ih =>
    obtain ⟨m, rfl⟩ : ∃ v, m = v + 1 := ⟨m - 1, by omega⟩
    unfold parse_loop
    simp only []
    split
    · rename_i hne
      cases f with
      | nil =>
        rcases char_type_EOF_cases delimiters with hE | hd
        · exfalso
          have e1 : (parse_iter delimiters st []).2.1 =
              (read_step delimiters st.inq st.inqq []).1.type := rfl
          rw [e1, read_step_nil_E delimiters _ _ hE] at hne
          exact hne.2 rfl
        · have e2 : (parse_iter delimiters st []).2.2 =
              (read_step delimiters st.inq st.inqq []).2.2.2 := rfl
          rw [e2, (read_step_nil_d delimiters st.inq st.inqq hd).2.2,
            parse_loop_nil_none delimiters hd, parse_loop_nil_none delimiters hd]
      | cons c s =>
        have hl : (parse_iter delimiters st (c :: s)).2.2.length ≤ s.length :=
          read_step_length delimiters st.inq st.inqq c s
        simp only [List.length_cons] at hn hm
        exact ih _ _ _ (by omega) (by omega)
    · rfl

/-! ## Lemmas that link the claims to the statements on strings -/

theorem obs_eq_some (o : Option LineResult) (x : List (List CChar) × line_parse_t × FILE)
    (h : o.map LineResult.obs = some x) :
    ∃ res, o = some res ∧ res.L = x.2.1 ∧ res.fields = x.1 ∧ res.infile = x.2.2 := by
  cases o with
  | none => simp at h
  | some res =>
    simp only [Option.map_some', Option.some.injEq, LineResult.obs] at h
    refine ⟨res, rfl, ?_, ?_, ?_⟩ <;> rw [← h]

theorem apasses_of_parse_passes (delimiters : List CChar) (k : Nat) (fn : Text) (st : PState)
    (f f' : FILE) (h : parse_passes delimiters k (PState.init fn) f = some (st, f')) :
    apasses delimiters k AState.init f = some (view st, f') := by
  have hv := parse_passes_view delimiters k (PState.init fn) f (good_init fn)
  rw [h] at hv
  exact hv.symm

theorem flatten_length_ge (lines : List (List CChar × List (List CChar)))
    (h : ∀ l ∈ lines, l.1 ≠ []) : lines.length ≤ (lines.map Prod.fst).flatten.length := by
  induction lines with
  | nil => simp
  | cons l ls ih =>
    have h1 : l.1 ≠ [] := h l (by simp)
    have h2 : 1 ≤ l.1.length := by
      cases hl : l.1 with
      | nil => exact absurd hl h1
      | cons x xs => simp
    have h3 := ih (fun x hx => h x (by simp [hx]))
    simp only [List.map_cons, List.flatten_cons, List.length_append, List.length_cons]
    omega

theorem apop_text_to_data_no_header {V : Type} (lib : NumLib V) (infile : FILE)
    (has_row_names : Nat) (field_ends : Option FieldEnds) (delimiters : List CChar) :
    apop_text_to_data lib (some infile) has_row_names 110 field_ends delimiters =
      body_loop lib
        (if (if has_row_names = 1 ∨ has_row_names = 89 then 121 else has_row_names) = 121
          then 1 else 0)
        field_ends delimiters (infile.length + 2)
        { set := none, L := { ct := 0, eof := false }, row := 0, add_this_line := [],
          infile := infile } := by
  unfold apop_text_to_data
  simp only []
  rw [if_neg (by decide : ¬ ((110 : Nat) = 1 ∨ (110 : Nat) = 89))]
  rw [if_neg (by decide : ¬ ((110 : Nat) = 121))]

/-! # The claims -/

theorem convert_field_eq {V : Type} (lib : NumLib V) :
    convert_field lib = fun s =>
      if s.length ≠ 0 ∧ (lib.strtod s).2 ≠ 0 then (lib.strtod s).1 else lib.GSL_NAN := by
  funext s
  unfold convert_field
  by_cases h1 : s.length ≠ 0
  · by_cases h2 : (lib.strtod s).2 ≠ 0
    · simp [h1, h2]
    · simp [h1, h2]
  · simp [h1]

/-- C1: `apop_text_to_data` with `has_col_names = 'n'` on `n ≥ 1` lines that the
tokenizer reads as `w ≥ 1` fields each, every one ended by its newline: the
matrix has `n` rows in input order and `w - hasrows` columns, and entry
`(i, j)` is the conversion of field `j + hasrows` of line `i`: the value that
`strtod` reads when the field is not empty and `strtod` consumes at least one
byte of it, and NaN otherwise.  With row names the name of row `i` is the
first field of line `i`, which is not converted; without row names there are
no row names and the first field is converted like the others.  A line is
given as its bytes together with its fields. -/
theorem apop_text_to_data_rows_in_order {V : Type} (lib : NumLib V)
    (delimiters : List CChar) (has_row_names hasrows w : Nat)
    (lines : List (List CChar × List (List CChar)))
    (hrows : hasrows =
      if has_row_names = 1 ∨ has_row_names = 89 ∨ has_row_names = 121 then 1 else 0)
    (h255 : 255 ∉ delimiters) (hne : lines ≠ []) (hw : 1 ≤ w)
    (hlines : ∀ l ∈ lines, ∀ rest fn,
      (parse_a_line (l.1 ++ rest) fn none delimiters).map LineResult.obs =
        some (l.2, { ct := w, eof := false }, rest)) :
    apop_text_to_data lib (some (lines.map Prod.fst).flatten) has_row_names 110 none delimiters =
      some { vector := none,
             matrix := some { size1 := lines.length, size2 := w - hasrows,
                              data := lines.map
                                (fun l => (l.2.drop hasrows).map
                                  (fun s =>
                                    if s.length ≠ 0 ∧ (lib.strtod s).2 ≠ 0
                                    then (lib.strtod s).1 else lib.GSL_NAN)) },
             weights := none,
             names := { column := [],
                        row := if hasrows = 1 then lines.map (fun l => l.2.headD []) else [] },
             error := 0 } := by
  rw [← convert_field_eq lib]
  have hl' : ∀ l ∈ lines, ∀ rest fn, ∃ res,
      parse_a_line (l.1 ++ rest) fn none delimiters = some res ∧
        res.L = { ct := w, eof := false } ∧ res.fields = l.2 ∧ res.infile = rest :=
    fun l hl rest fn => obs_eq_some _ _ (hlines l hl rest fn)
  have hnonempty : ∀ l ∈ lines, l.1 ≠ [] := by
    intro l hl hnil
    obtain ⟨res, hres, hL, _, _⟩ := hl' l hl [] []
    obtain ⟨res0, hres0, hL0, _⟩ := parse_a_line_nil [] delimiters h255
    rw [hnil, List.append_nil, hres0] at hres
    cases hres
    rw [hL0] at hL
    simp at hL
  have hhr : (if (if has_row_names = 1 ∨ has_row_names = 89 then 121 else has_row_names) = 121
      then 1 else 0) = hasrows := by
    rw [hrows]
    by_cases h1 : has_row_names = 1
    · simp [h1]
    · by_cases h2 : has_row_names = 89
      · simp [h2]
      · simp [h1, h2]
  cases lines with
  | nil => exact absurd rfl hne
  | cons l ls =>
    have hlen := flatten_length_ge (l :: ls) hnonempty
    obtain ⟨res, hres, hL, hF, hin⟩ := hl' l (by simp) (ls.map Prod.fst).flatten []
    have hfl := fields_length _ _ _ _ hres
    have hct := ct_le_length res hfl
    rw [hL] at hct
    simp only at hct
    have hF' : (res.fn.take w).map cstr = l.2 := by
      rw [← hF]; simp [LineResult.fields, hL]
    rw [apop_text_to_data_no_header, hhr]
    obtain ⟨fuel, hfuel⟩ : ∃ f, ((l :: ls).map Prod.fst).flatten.length + 2 = f + 1 :=
      ⟨_, rfl⟩
    rw [hfuel]
    conv_lhs => unfold body_loop
    simp only [Option.isNone_none, true_or, if_true, List.map_cons, List.flatten_cons, hres]
    have h := body_loop_lines lib delimiters hasrows w hw h255 ls
      (fun x hx => hl' x (by simp [hx])) 0 [] [] rfl (by simp) (fun _ => rfl) res.fn hct fuel
      (by simp only [List.length_cons] at hlen; omega)
    simp only [if_true] at h
    rw [hL, hin, h, hF']
    simp only [List.nil_append, List.length_cons, List.map_cons]
    have e1 : 0 + 1 + ls.length = ls.length + 1 := by omega
    rw [e1]
    by_cases h0 : hasrows = 0
    · simp [h0]
    · have h1 : hasrows = 1 := by
        rw [hrows] at h0 ⊢
        split at h0
        · simp_all
        · exact absurd rfl h0
      simp [h1]

/-- Witness for C1: with row names, the lines `a,1,2` and `b,x,4` give the row
names `a` and `b` and the rows `1, 2` and `NaN, 4` (the example `strtod` reads
decimal digits, `none` stands for NaN); without row names, the lines `1,2` and
`3,4` give the rows `1, 2` and `3, 4` and no row names. -/
theorem apop_text_to_data_rows_in_order_witness :
    apop_text_to_data digits_lib
        (some [97, 44, 49, 44, 50, 10, 98, 44, 120, 44, 52, 10])
        121 110 none default_delimiters =
      some { vector := none,
             matrix := some { size1 := 2, size2 := 2,
                              data := [[some 1, some 2], [none, some 4]] },
             weights := none,
             names := { column := [], row := [[97], [98]] },
             error := 0 } ∧
    apop_text_to_data digits_lib (some [49, 44, 50, 10, 51, 44, 52, 10])
        110 110 none default_delimiters =
      some { vector := none,
             matrix := some { size1 := 2, size2 := 2,
                              data := [[some 1, some 2], [some 3, some 4]] },
             weights := none,
             names := { column := [], row := [] },
             error := 0 } :=
  ⟨apop_text_to_data_rows_in_order digits_lib default_delimiters 121 1 3
      [([97, 44, 49, 44, 50, 10], [[97], [49], [50]]),
        ([98, 44, 120, 44, 52, 10], [[98], [120], [52]])]
      (by decide) (by decide) (by simp) (by decide)
      (by
        intro l hl rest fn
        simp only [List.mem_cons, List.mem_singleton, List.not_mem_nil, or_false] at hl
        rcases hl with rfl | rfl
        · exact (parse_a_line_obs _ fn _).trans (by
            simp [aparse, aloop, aiter, read_step, parse_next_char, fgetc, char_type, strchr,
              default_delimiters, afield_step, afield_fill, aopen, aclose, aextend, AState.init,
              cstr, EOF])
        · exact (parse_a_line_obs _ fn _).trans (by
            simp [aparse, aloop, aiter, read_step, parse_next_char, fgetc, char_type, strchr,
              default_delimiters, afield_step, afield_fill, aopen, aclose, aextend, AState.init,
              cstr, EOF])),
    apop_text_to_data_rows_in_order digits_lib default_delimiters 110 0 2
      [([49, 44, 50, 10], [[49], [50]]), ([51, 44, 52, 10], [[51], [52]])]
      (by decide) (by decide) (by simp) (by decide)
      (by
        intro l hl rest fn
        simp only [List.mem_cons, List.mem_singleton, List.not_mem_nil, or_false] at hl
        rcases hl with rfl | rfl
        · exact (parse_a_line_obs _ fn _).trans (by
            simp [aparse, aloop, aiter, read_step, parse_next_char, fgetc, char_type, strchr,
              default_delimiters, afield_step, afield_fill, aopen, aclose, aextend, AState.init,
              cstr, EOF])
        · exact (parse_a_line_obs _ fn _).trans (by
            simp [aparse, aloop, aiter, read_step, parse_next_char, fgetc, char_type, strchr,
              default_delimiters, afield_step, afield_fill, aopen, aclose, aextend, AState.init,
              cstr, EOF]))⟩

/-- C2 (amended): for every delimiter set without the newline character, every
delimiter `d` of it that is not a space or a tab, and all non-empty tokens `a`
and `b` of regular bytes, the line `a d d b` followed by a newline yields
exactly the three fields `a`, the empty string and `b`. -/
theorem parse_a_line_repeated_hard_delimiters (delimiters : List CChar) (d : CChar)
    (a b : List CChar) (rest : FILE) (fn : Text) (hnl : 10 ∉ delimiters)
    (hd : d ∈ delimiters) (hd32 : d ≠ 32) (hd9 : d ≠ 9) (hd0 : d ≠ 0)
    (ha : ∀ c ∈ a, char_type delimiters c = CType.r)
    (hb : ∀ c ∈ b, char_type delimiters c = CType.r) (hane : a ≠ []) (hbne : b ≠ []) :
    ∃ res, parse_a_line (a ++ d :: d :: (b ++ 10 :: rest)) fn none delimiters = some res ∧
      res.fields = [a, [], b] ∧ res.L = { ct := 3, eof := false } ∧ res.infile = rest :=
  obs_of_aparse _ fn _ _
    (aparse_repeated_hard_delimiter delimiters d a b rest hnl
      (char_type_delimiter delimiters d hd hd32 hd9 hd0) ha hb hane hbne)

/-- Witness for C2: `1,,2` with the default delimiters gives `1`, the empty
field and `2`. -/
theorem parse_a_line_repeated_hard_delimiters_witness :
    10 ∉ default_delimiters ∧ 44 ∈ default_delimiters ∧
    (∀ c ∈ [49], char_type default_delimiters c = CType.r) ∧
    (∀ c ∈ [50], char_type default_delimiters c = CType.r) ∧
    ∃ res, parse_a_line ([49] ++ 44 :: 44 :: ([50] ++ 10 :: [])) [] none default_delimiters =
        some res ∧
      res.fields = [[49], [], [50]] ∧ res.L = { ct := 3, eof := false } ∧ res.infile = [] :=
  ⟨by decide, by decide, by decide, by decide,
    parse_a_line_repeated_hard_delimiters default_delimiters 44 [49] [50] [] []
      (by decide) (by decide) (by decide) (by decide) (by decide) (by decide) (by decide)
      (by decide) (by decide)⟩

/-- Counterexample to C2 as stated: with the delimiter set `",\n"` the newline
is classified as a delimiter, so the line `1,,2` followed by a newline and the
end of the input yields four fields and the end-of-input flag. -/
theorem parse_a_line_newline_delimiter_four_fields :
    44 ∈ [44, 10] ∧ 44 ≠ 32 ∧ 44 ≠ 9 ∧
    (∀ c ∈ [49], char_type [44, 10] c = CType.r) ∧
    (∀ c ∈ [50], char_type [44, 10] c = CType.r) ∧
    (parse_a_line ([49] ++ 44 :: 44 :: ([50] ++ 10 :: [])) [] none [44, 10]).map
        LineResult.obs =
      some ([[49], [], [50], []], { ct := 4, eof := true }, []) := by
  decide

/-- C3 (amended): for every delimiter set without the newline character that
holds the space or tab `w`, for all non-empty regular tokens `a` and `b` and
every `k ≥ 1`, the line `a w^k b` yields exactly the two fields `a` and `b`,
and for every hard delimiter `d` the line `a d w b` yields exactly `a` and `b`:
a space or tab delimiter right after another delimiter opens no field. -/
theorem parse_a_line_white_delimiters_collapse (delimiters : List CChar) (w : CChar) (k : Nat)
    (a b : List CChar) (rest : FILE) (fn : Text) (hnl : 10 ∉ delimiters)
    (hw : w = 32 ∨ w = 9) (hwd : w ∈ delimiters) (hk : 1 ≤ k)
    (ha : ∀ c ∈ a, char_type delimiters c = CType.r)
    (hb : ∀ c ∈ b, char_type delimiters c = CType.r) (hane : a ≠ []) (hbne : b ≠ []) :
    (∃ res, parse_a_line (a ++ (List.replicate k w ++ (b ++ 10 :: rest))) fn none delimiters =
        some res ∧
      res.fields = [a, b] ∧ res.L = { ct := 2, eof := false } ∧ res.infile = rest) ∧
    (∀ d, d ∈ delimiters → d ≠ 32 → d ≠ 9 → d ≠ 0 →
      ∃ res, parse_a_line (a ++ d :: w :: (b ++ 10 :: rest)) fn none delimiters = some res ∧
        res.fields = [a, b] ∧ res.L = { ct := 2, eof := false } ∧ res.infile = rest) := by
  have hW := char_type_white_delimiter delimiters w hwd hw
  constructor
  · exact obs_of_aparse _ fn _ _
      (aparse_white_run delimiters (List.replicate k w) a b rest hnl
        (fun c hc => by rw [(List.mem_replicate.mp hc).2]; exact hW)
        (by
          intro h
          have := congrArg List.length h
          simp at this
          omega)
        ha hb hane hbne)
  · intro d hd hd32 hd9 hd0
    exact obs_of_aparse _ fn _ _
      (aparse_hard_then_white delimiters d w a b rest hnl
        (char_type_delimiter delimiters d hd hd32 hd9 hd0) hW ha hb hane hbne)

/-- Witness for C3: `1<tab><tab>2` with the default delimiters gives two
fields. -/
theorem parse_a_line_white_delimiters_collapse_witness :
    10 ∉ default_delimiters ∧ 9 ∈ default_delimiters ∧
    (∃ res, parse_a_line ([49] ++ (List.replicate 2 9 ++ ([50] ++ 10 :: []))) [] none
        default_delimiters = some res ∧
      res.fields = [[49], [50]] ∧ res.L = { ct := 2, eof := false } ∧ res.infile = []) ∧
    (∀ d, d ∈ default_delimiters → d ≠ 32 → d ≠ 9 → d ≠ 0 →
      ∃ res, parse_a_line ([49] ++ d :: 9 :: ([50] ++ 10 :: [])) [] none default_delimiters =
          some res ∧
        res.fields = [[49], [50]] ∧ res.L = { ct := 2, eof := false } ∧ res.infile = []) :=
  ⟨by decide, by decide,
    parse_a_line_white_delimiters_collapse default_delimiters 9 2 [49] [50] [] []
      (by decide) (by decide) (by decide) (by decide) (by decide) (by decide) (by decide)
      (by decide)⟩

/-- Counterexample to C3 as stated: with the delimiter set `" \n"` the newline
is classified as a delimiter, so the line `1<space><space>2` followed by a
newline and the end of the input yields three fields. -/
theorem parse_a_line_white_run_newline_delimiter :
    32 ∈ [32, 10] ∧
    (∀ c ∈ [49], char_type [32, 10] c = CType.r) ∧
    (∀ c ∈ [50], char_type [32, 10] c = CType.r) ∧
    (parse_a_line ([49] ++ (List.replicate 2 32 ++ ([50] ++ 10 :: []))) [] none
        [32, 10]).map LineResult.obs =
      some ([[49], [50], []], { ct := 3, eof := true }, []) := by
  decide

/-- C4: for either quote character `q` and every non-empty byte string `s`
without `q`, backslash, NUL and the end-of-input byte, the line `q s q`
followed by a newline yields exactly one field, `s` with the quotes stripped;
delimiters, `#`, spaces, tabs, newlines and the other quote character inside
`s` are kept.  The quote character and the newline are not delimiters. -/
theorem parse_a_line_quoted_field (delimiters : List CChar) (q : CChar) (s : List CChar)
    (rest : FILE) (fn : Text) (hq : q = 39 ∨ q = 34) (hqd : q ∉ delimiters)
    (hnl : 10 ∉ delimiters) (hne : s ≠ [])
    (hs : ∀ c ∈ s, c ≠ q ∧ c ≠ 92 ∧ c ≠ 0 ∧ c ≠ 255) :
    ∃ res, parse_a_line (q :: (s ++ q :: 10 :: rest)) fn none delimiters = some res ∧
      res.fields = [s] ∧ res.L = { ct := 1, eof := false } ∧ res.infile = rest := by
  rcases hq with rfl | rfl
  · exact obs_of_aparse _ fn _ _ (aparse_sq delimiters s rest hqd hnl hne hs)
  · exact obs_of_aparse _ fn _ _ (aparse_dq delimiters s rest hqd hnl hne hs)

/-- Witness for C4: `'a,b'` with the default delimiters gives the single field
`a,b`. -/
theorem parse_a_line_quoted_field_witness :
    39 ∉ default_delimiters ∧ 10 ∉ default_delimiters ∧
    (∀ c ∈ [97, 44, 98], c ≠ 39 ∧ c ≠ 92 ∧ c ≠ 0 ∧ c ≠ 255) ∧
    ∃ res, parse_a_line (39 :: ([97, 44, 98] ++ 39 :: 10 :: [])) [] none default_delimiters =
        some res ∧
      res.fields = [[97, 44, 98]] ∧ res.L = { ct := 1, eof := false } ∧ res.infile = [] :=
  ⟨by decide, by decide, by decide,
    parse_a_line_quoted_field default_delimiters 39 [97, 44, 98] [] [] (by decide) (by decide)
      (by decide) (by decide) (by decide)⟩

/-- C5: the byte after a backslash is read as a regular character whatever it
is: for all regular tokens `u` and `v` and every byte `b` other than NUL and
the end-of-input byte, the line `u \ b v` followed by a newline yields exactly
one field, `u b v`, without the backslash.  The backslash and the newline are
not delimiters. -/
theorem parse_a_line_escaped_byte (delimiters : List CChar) (u v : List CChar) (b : CChar)
    (rest : FILE) (fn : Text) (hbs : 92 ∉ delimiters) (hnl : 10 ∉ delimiters)
    (hu : ∀ c ∈ u, char_type delimiters c = CType.r)
    (hv : ∀ c ∈ v, char_type delimiters c = CType.r) (hb0 : b ≠ 0) (hbE : b ≠ 255) :
    ∃ res, parse_a_line (u ++ 92 :: b :: (v ++ 10 :: rest)) fn none delimiters = some res ∧
      res.fields = [u ++ b :: v] ∧ res.L = { ct := 1, eof := false } ∧ res.infile = rest :=
  obs_of_aparse _ fn _ _ (aparse_backslash delimiters u v b rest hbs hnl hu hv hb0 hbE)

/-- Witness for C5: `a\,b` with the comma as delimiter gives the single field
`a,b`. -/
theorem parse_a_line_escaped_byte_witness :
    92 ∉ [44] ∧ 10 ∉ [44] ∧
    (∀ c ∈ [97], char_type [44] c = CType.r) ∧ (∀ c ∈ [98], char_type [44] c = CType.r) ∧
    ∃ res, parse_a_line ([97] ++ 92 :: 44 :: ([98] ++ 10 :: [])) [] none [44] = some res ∧
      res.fields = [[97] ++ 44 :: [98]] ∧ res.L = { ct := 1, eof := false } ∧
      res.infile = [] :=
  ⟨by decide, by decide, by decide, by decide,
    parse_a_line_escaped_byte [44] [97] [98] 44 [] [] (by decide) (by decide) (by decide)
      (by decide) (by decide) (by decide)⟩

theorem comment_obs (delimiters : List CChar) (h35 : 35 ∉ delimiters)
    (hnl : 10 ∉ delimiters) (fn : Text) (p c r : List CChar) (k : Nat) (st : PState)
    (hp : ∀ tail, parse_passes delimiters k (PState.init fn) (p ++ tail) = some (st, tail))
    (hq : st.inq = false) (hqq : st.inqq = false) (hc : ∀ x ∈ c, x ≠ 10 ∧ x ≠ 255) :
    ∃ x, (parse_a_line (p ++ 35 :: (c ++ 10 :: r)) fn none delimiters).map LineResult.obs =
        some x ∧
      (parse_a_line (p ++ 10 :: r) fn none delimiters).map LineResult.obs = some x ∧
      x.2.1.eof = false ∧ x.2.2 = r := by
  obtain ⟨x, h1, h2, h3, h4⟩ := aparse_comment delimiters h35 hnl p c r k (view st)
    (apasses_of_parse_passes delimiters k fn st _ _ (hp _))
    (apasses_of_parse_passes delimiters k fn st _ _ (hp _)) hq hqq hc
  exact ⟨x, by rw [parse_a_line_obs, h1], by rw [parse_a_line_obs, h2], h3, h4⟩

theorem same_of_obs (o1 o2 : Option LineResult) (x : List (List CChar) × line_parse_t × FILE)
    (r : FILE) (h1 : o1.map LineResult.obs = some x) (h2 : o2.map LineResult.obs = some x)
    (h3 : x.2.1.eof = false) (h4 : x.2.2 = r) :
    ∃ res1 res2, o1 = some res1 ∧ o2 = some res2 ∧
      res1.fields = res2.fields ∧ res1.L = res2.L ∧ res1.L.eof = false ∧
      res1.infile = r ∧ res2.infile = r := by
  obtain ⟨res1, e1, l1, f1, i1⟩ := obs_eq_some o1 x h1
  obtain ⟨res2, e2, l2, f2, i2⟩ := obs_eq_some o2 x h2
  exact ⟨res1, res2, e1, e2, by rw [f1, f2], by rw [l1, l2], by rw [l1]; exact h3,
    by rw [i1]; exact h4, by rw [i2]; exact h4⟩

/-- C6: let the tokenizer read the prefix `p` exactly, in `k` passes that do not
end the line, and leave no quote open.  For every comment text `c` without
newline and end-of-input byte and every remaining input `r`, parsing
`p # c newline r` returns the same fields, field count and end-of-input flag as
parsing `p newline r`, and leaves exactly `r` unread; the same holds for the
prefix `p # c0`, which already holds a comment.  The `#` and the newline are
not delimiters. -/
theorem parse_a_line_comment_is_newline (delimiters : List CChar) (h35 : 35 ∉ delimiters)
    (hnl : 10 ∉ delimiters) (fn : Text) (p c0 c r : List CChar) (k : Nat) (st : PState)
    (hp : ∀ tail, parse_passes delimiters k (PState.init fn) (p ++ tail) = some (st, tail))
    (hq : st.inq = false) (hqq : st.inqq = false) (hc0 : ∀ x ∈ c0, x ≠ 10 ∧ x ≠ 255)
    (hc : ∀ x ∈ c, x ≠ 10 ∧ x ≠ 255) :
    (∃ res1 res2,
      parse_a_line (p ++ 35 :: (c ++ 10 :: r)) fn none delimiters = some res1 ∧
      parse_a_line (p ++ 10 :: r) fn none delimiters = some res2 ∧
      res1.fields = res2.fields ∧ res1.L = res2.L ∧ res1.L.eof = false ∧
      res1.infile = r ∧ res2.infile = r) ∧
    (∃ res1 res2,
      parse_a_line ((p ++ 35 :: c0) ++ 35 :: (c ++ 10 :: r)) fn none delimiters = some res1 ∧
      parse_a_line ((p ++ 35 :: c0) ++ 10 :: r) fn none delimiters = some res2 ∧
      res1.fields = res2.fields ∧ res1.L = res2.L ∧ res1.L.eof = false ∧
      res1.infile = r ∧ res2.infile = r) := by
  constructor
  · obtain ⟨x, h1, h2, h3, h4⟩ := comment_obs delimiters h35 hnl fn p c r k st hp hq hqq hc
    exact same_of_obs _ _ x r h1 h2 h3 h4
  · have hcc : ∀ x ∈ c0 ++ 35 :: c, x ≠ 10 ∧ x ≠ 255 := by
      intro x hx
      simp only [List.mem_append, List.mem_cons] at hx
      rcases hx with hx | hx | hx
      · exact hc0 x hx
      · subst hx; decide
      · exact hc x hx
    obtain ⟨x, h1, h2, h3, h4⟩ :=
      comment_obs delimiters h35 hnl fn p (c0 ++ 35 :: c) r k st hp hq hqq hcc
    obtain ⟨y, g1, g2, _, _⟩ := comment_obs delimiters h35 hnl fn p c0 r k st hp hq hqq hc0
    have hxy : x = y := by
      rw [h2] at g2
      exact Option.some.inj g2
    subst hxy
    have e1 : (p ++ 35 :: c0) ++ 35 :: (c ++ 10 :: r) = p ++ 35 :: ((c0 ++ 35 :: c) ++ 10 :: r) := by
      simp
    have e2 : (p ++ 35 :: c0) ++ 10 :: r = p ++ 35 :: (c0 ++ 10 :: r) := by simp
    rw [e1, e2]
    exact same_of_obs _ _ x r h1 g1 h3 h4

/-- Witness for C6: the prefix `1,2`, the comments ` x` and `y` and the rest
`3`. -/
theorem parse_a_line_comment_is_newline_witness :
    35 ∉ default_delimiters ∧ 10 ∉ default_delimiters ∧
    (∀ x ∈ [32, 120], x ≠ 10 ∧ x ≠ 255) ∧
    ((∃ res1 res2,
      parse_a_line ([49, 44, 50] ++ 35 :: ([32, 120] ++ 10 :: [51])) [] none
        default_delimiters = some res1 ∧
      parse_a_line ([49, 44, 50] ++ 10 :: [51]) [] none default_delimiters = some res2 ∧
      res1.fields = res2.fields ∧ res1.L = res2.L ∧ res1.L.eof = false ∧
      res1.infile = [51] ∧ res2.infile = [51]) ∧
    (∃ res1 res2,
      parse_a_line (([49, 44, 50] ++ 35 :: [121]) ++ 35 :: ([32, 120] ++ 10 :: [51])) []
        none default_delimiters = some res1 ∧
      parse_a_line (([49, 44, 50] ++ 35 :: [121]) ++ 10 :: [51]) [] none
        default_delimiters = some res2 ∧
      res1.fields = res2.fields ∧ res1.L = res2.L ∧ res1.L.eof = false ∧
      res1.infile = [51] ∧ res2.infile = [51])) :=
  ⟨by decide, by decide, by decide,
    parse_a_line_comment_is_newline default_delimiters (by decide) (by decide) []
      [49, 44, 50] [121] [32, 120] [51] 3
      { fn := [[49, 0, 170, 170, 170], [50, 170, 170, 170, 170]], ct := 2, thisflen := 1,
        mlen := 5, lastnonwhite := 1, inq := false, inqq := false, infield := true,
        lastwhite := false }
      (by
        intro tail
        simp [parse_passes, parse_iter, read_step, parse_next_char, fgetc, char_type, strchr,
          default_delimiters, field_step, field_fill, open_field, close_field, extend_field,
          text_realloc, text_poke, realloc, apop_text_alloc, indeterminate, PState.init, EOF])
      rfl rfl (by decide) (by decide)⟩

/-- C7 (amended): for every delimiter set without the newline character, a
line that is empty or consists only of spaces and tabs (delimiters or not) and
is ended by a newline has a field count of 0, not one empty field; the same
holds for such a line ended by the end of the input when the byte `0xFF` is
not a delimiter. -/
theorem parse_a_line_blank_line_no_field (delimiters : List CChar) (ws : List CChar)
    (rest : FILE) (fn : Text) (hws : ∀ c ∈ ws, c = 32 ∨ c = 9) :
    (10 ∉ delimiters →
      ∃ res, parse_a_line (ws ++ 10 :: rest) fn none delimiters = some res ∧
        res.fields = [] ∧ res.L = { ct := 0, eof := false } ∧ res.infile = rest) ∧
    (255 ∉ delimiters →
      ∃ res, parse_a_line ws fn none delimiters = some res ∧
        res.fields = [] ∧ res.L = { ct := 0, eof := true } ∧ res.infile = []) :=
  ⟨fun hnl => obs_of_aparse _ fn _ _ (aparse_blank_newline delimiters ws rest hnl hws),
   fun hE => obs_of_aparse _ fn _ _ (aparse_blank_eof delimiters ws hE hws)⟩

/-- Witness for C7: a space and a tab, with the space and the comma as
delimiters. -/
theorem parse_a_line_blank_line_no_field_witness :
    (∀ c ∈ [32, 9], c = 32 ∨ c = 9) ∧
    (10 ∉ [32, 44] →
      ∃ res, parse_a_line ([32, 9] ++ 10 :: [49]) [] none [32, 44] = some res ∧
        res.fields = [] ∧ res.L = { ct := 0, eof := false } ∧ res.infile = [49]) ∧
    (255 ∉ [32, 44] →
      ∃ res, parse_a_line [32, 9] [] none [32, 44] = some res ∧
        res.fields = [] ∧ res.L = { ct := 0, eof := true } ∧ res.infile = []) :=
  ⟨by decide, parse_a_line_blank_line_no_field [32, 44] [32, 9] [49] [] (by decide)⟩

/-- Counterexample to C7 as stated: with the delimiter set `",\n"` the empty
line, a lone newline, is read as a delimiter and yields two empty fields. -/
theorem parse_a_line_empty_line_newline_delimiter :
    (parse_a_line ([] ++ 10 :: []) [] none [44, 10]).map LineResult.obs =
      some ([[], []], { ct := 2, eof := true }, []) := by
  decide

/-- C8: for every delimiter set with neither space nor tab, let the tokenizer
read the prefix `p` exactly, in `k` passes that do not end the line, and leave
no quote open.  Inserting spaces and tabs `ws` after `p` does not change what
is returned, when no field is open after `p` (the line start, or right after a
delimiter) or when a delimiter or the newline follows.  The call returns when
the byte `0xFF` is not a delimiter. -/
theorem parse_a_line_white_around_field (delimiters : List CChar) (h32 : 32 ∉ delimiters)
    (h9 : 9 ∉ delimiters) (fn : Text) (p ws t : List CChar) (k : Nat) (st : PState)
    (hp : ∀ tail, parse_passes delimiters k (PState.init fn) (p ++ tail) = some (st, tail))
    (hq : st.inq = false) (hqq : st.inqq = false) (hws : ∀ c ∈ ws, c = 32 ∨ c = 9)
    (hpos : st.infield = false ∨ ∃ c t', t = c :: t' ∧
      (char_type delimiters c = CType.d ∨ char_type delimiters c = CType.n)) :
    (parse_a_line (p ++ (ws ++ t)) fn none delimiters).map LineResult.obs =
        (parse_a_line (p ++ t) fn none delimiters).map LineResult.obs ∧
      (255 ∉ delimiters → (parse_a_line (p ++ t) fn none delimiters).isSome = true) := by
  constructor
  · rw [parse_a_line_obs, parse_a_line_obs]
    exact aparse_white_insert delimiters h32 h9 p ws t k (view st)
      (apasses_of_parse_passes delimiters k fn st _ _ (hp _))
      (apasses_of_parse_passes delimiters k fn st _ _ (hp _)) hq hqq hws hpos
  · exact fun hE => parse_a_line_isSome _ fn delimiters hE

/-- Witness for C8: in `1,2` a space and a tab are inserted after the comma;
the documented line `1, 2,3, 4 , 5, " six ",7 ` gives the same seven fields as
`1,2,3,4,5," six ",7`, the sixth with its spaces. -/
theorem parse_a_line_white_around_field_witness :
    32 ∉ [44] ∧ 9 ∉ [44] ∧ (∀ c ∈ [32, 9], c = 32 ∨ c = 9) ∧
    ((parse_a_line ([49, 44] ++ ([32, 9] ++ [50, 10])) [] none [44]).map LineResult.obs =
        (parse_a_line ([49, 44] ++ [50, 10]) [] none [44]).map LineResult.obs ∧
      (255 ∉ [44] → (parse_a_line ([49, 44] ++ [50, 10]) [] none [44]).isSome = true)) ∧
    (parse_a_line [49, 44, 32, 50, 44, 51, 44, 32, 52, 32, 44, 32, 53, 44, 32, 34, 32, 115,
        105, 120, 32, 34, 44, 55, 32, 10] [] none [44]).map LineResult.obs =
      some ([[49], [50], [51], [52], [53], [32, 115, 105, 120, 32], [55]],
        { ct := 7, eof := false }, []) ∧
    (parse_a_line [49, 44, 50, 44, 51, 44, 52, 44, 53, 44, 34, 32, 115, 105, 120, 32, 34, 44,
        55, 10] [] none [44]).map LineResult.obs =
      some ([[49], [50], [51], [52], [53], [32, 115, 105, 120, 32], [55]],
        { ct := 7, eof := false }, []) :=
  ⟨by decide, by decide, by decide,
    parse_a_line_white_around_field [44] (by decide) (by decide) [] [49, 44] [32, 9] [50, 10] 2
      { fn := [[49, 0, 170, 170, 170]], ct := 1, thisflen := 0, mlen := 5, lastnonwhite := 0,
        inq := false, inqq := false, infield := false, lastwhite := false }
      (by
        intro tail
        simp [parse_passes, parse_iter, read_step, parse_next_char, fgetc, char_type, strchr,
          field_step, field_fill, open_field, close_field, extend_field,
          text_realloc, text_poke, realloc, apop_text_alloc, indeterminate, PState.init, EOF])
      rfl rfl (by decide) (Or.inl rfl),
    by decide, by decide⟩

/-- C9 (amended): for every single delimiter character `d` other than space,
tab and newline, and every line without quotes, backslashes, `#`, NUL and the
end-of-input byte that holds at least one byte other than space and tab,
parsing the line and its newline with the delimiter set `{d}` returns a field
count of 1 + the number of occurrences of `d` in the line (a trailing
delimiter included: it is followed by one empty field). -/
theorem parse_a_line_field_count (d : CChar) (line : List CChar) (rest : FILE) (fn : Text)
    (hd : d ≠ 0 ∧ d ≠ 9 ∧ d ≠ 10 ∧ d ≠ 32)
    (hline : ∀ c ∈ line, c ≠ 0 ∧ c ≠ 10 ∧ c ≠ 34 ∧ c ≠ 39 ∧ c ≠ 92 ∧ c ≠ 35 ∧ c ≠ 255)
    (hnb : ∃ c ∈ line, c ≠ 32 ∧ c ≠ 9) :
    ∃ res, parse_a_line (line ++ 10 :: rest) fn none [d] = some res ∧
      res.L.ct = 1 + line.count d ∧ res.L.eof = false ∧ res.infile = rest := by
  obtain ⟨x, h1, h2, h3, h4⟩ := aparse_count d line rest hd hline hnb
  obtain ⟨res, e, _, l, i⟩ := obs_of_aparse _ fn _ _ h1
  exact ⟨res, e, by rw [l]; exact h2, by rw [l]; exact h3, by rw [i]; exact h4⟩

/-- Witness for C9: the line `1,,2 ,3` split at the comma has four fields. -/
theorem parse_a_line_field_count_witness :
    ((44 : CChar) ≠ 0 ∧ (44 : CChar) ≠ 9 ∧ (44 : CChar) ≠ 10 ∧ (44 : CChar) ≠ 32) ∧
    (∃ c ∈ [49, 44, 44, 50, 32, 44, 51], c ≠ 32 ∧ c ≠ 9) ∧
    ∃ res, parse_a_line ([49, 44, 44, 50, 32, 44, 51] ++ 10 :: []) [] none [44] = some res ∧
      res.L.ct = 1 + ([49, 44, 44, 50, 32, 44, 51] : List CChar).count 44 ∧
      res.L.eof = false ∧ res.infile = [] :=
  ⟨by decide, by decide,
    parse_a_line_field_count 44 [49, 44, 44, 50, 32, 44, 51] [] [] (by decide) (by decide)
      (by decide)⟩

/-- Counterexample to C9 as stated: the empty line has no quote, backslash,
`#` or trailing delimiter, yet its field count with the delimiter `,` is 0 and
not 1; with the space as the delimiter the line `a<space><space>b` has 2
fields and not 3; a NUL byte splits `a<NUL>b` in 2 fields with no comma in
it. -/
theorem parse_a_line_field_count_fails :
    ((parse_a_line ([] ++ 10 :: []) [] none [44]).map (fun r => r.L.ct) = some 0 ∧
      1 + ([] : List CChar).count 44 = 1) ∧
    ((parse_a_line ([97, 32, 32, 98] ++ 10 :: []) [] none [32]).map (fun r => r.L.ct) = some 2 ∧
      1 + ([97, 32, 32, 98] : List CChar).count 32 = 3) ∧
    ((parse_a_line ([97, 0, 98] ++ 10 :: []) [] none [44]).map (fun r => r.L.ct) = some 2 ∧
      1 + ([97, 0, 98] : List CChar).count 44 = 1) := by
  decide

/-- C10 (the code at the failing input): with `has_col_names = 'n'` the input
`1`, blank line, `2` gives a table of one row, the input `1`, `2` a table of
two rows; the same happens with a line that is only a comment. -/
theorem apop_text_to_data_blank_line_stops :
    apop_text_to_data digits_lib (some [49, 10, 10, 50, 10]) 110 110 none default_delimiters =
      some { vector := none,
             matrix := some { size1 := 1, size2 := 1, data := [[some 1]] },
             weights := none, names := { column := [], row := [] }, error := 0 } ∧
    apop_text_to_data digits_lib (some [49, 10, 35, 120, 10, 50, 10]) 110 110 none
        default_delimiters =
      some { vector := none,
             matrix := some { size1 := 1, size2 := 1, data := [[some 1]] },
             weights := none, names := { column := [], row := [] }, error := 0 } ∧
    apop_text_to_data digits_lib (some [49, 10, 50, 10]) 110 110 none default_delimiters =
      some { vector := none,
             matrix := some { size1 := 2, size2 := 1, data := [[some 1], [some 2]] },
             weights := none, names := { column := [], row := [] }, error := 0 } := by
  decide

/-! ## The fixed-width tokenizer -/

theorem realloc_set_take (cell : List CChar) (j : Nat) (x : CChar) (h : j ≤ cell.length) :
    (realloc cell (j + 1)).set j x = cell.take j ++ [x] := by
  have hl : j < (realloc cell (j + 1)).length := by rw [length_realloc]; omega
  have h1 := take_succ_set (realloc cell (j + 1)) j x hl
  rw [take_realloc cell (j + 1) j (by omega) h] at h1
  rw [← h1]
  exact (List.take_of_length_le (by rw [List.length_set, length_realloc])).symm

theorem text_poke_realloc (fn : Text) (c j : Nat) (x : CChar) (hc : c < fn.length)
    (hj : j ≤ (fn.getD c []).length) :
    text_poke (text_realloc fn c (j + 1)) c j x = fn.set c ((fn.getD c []).take j ++ [x]) := by
  unfold text_poke text_realloc
  rw [getD_set_same fn c _ [] hc, List.set_set, realloc_set_take _ j x hj]

theorem fixed_loop_cons (behind : Nat → Int) (st : FState) (c : CChar) (cs : FILE)
    (h : c ≠ 10 ∧ c ≠ EOF) :
    fixed_loop behind st (c :: cs) = fixed_loop behind (fixed_step behind st c) cs := by
  simp [fixed_loop, h]

/-- The test `posn==*field_ends` while the pointer is inside the array. -/
theorem read_field_ends_cons (behind : Nat → Int) (p e q : Nat) (es : List Nat) :
    ((p : Nat) : Int) = read_field_ends behind (e :: es) q ↔ p = e := by
  simp [read_field_ends]

/-- The bytes of a field after its first one: they are appended to the cell,
and the byte at the field end closes it. -/
theorem fixed_loop_in_field (behind : Nat → Int) (q : Nat) (t : List CChar) :
    ∀ (fn : Text) (c p j e : Nat) (es : List Nat) (s : FILE) (pre : List CChar),
      (∀ x ∈ t, x ≠ 10 ∧ x ≠ EOF) → c < fn.length → fn.getD c [] = pre → pre.length = j →
      p < e → p + t.length = e →
      fixed_loop behind { fn := fn, ct := c + 1, posn := p, thisflen := j, needfield := false,
                          field_ends := e :: es, past := q } (t ++ s) =
        fixed_loop behind { fn := fn.set c (pre ++ t ++ [0]), ct := c + 1, posn := e,
                            thisflen := 0, needfield := true, field_ends := es, past := q }
          s := by
  induction t with
  | nil => intro fn c p j e es s pre _ _ _ _ hpe hlen; simp at hlen; omega
  | cons x t ih =>
    intro fn c p j e es s pre hb hc hcell hpre hpe hlen
    have hx := hb x (by simp)
    have hbt : ∀ y ∈ t, y ≠ 10 ∧ y ≠ EOF := fun y hy => hb y (by simp [hy])
    have hpoke : text_poke (text_realloc fn c (j + 1)) c j x = fn.set c (pre ++ [x]) := by
      rw [text_poke_realloc fn c j x hc (by rw [hcell, hpre]), hcell,
        List.take_of_length_le (by omega)]
    have hc2 : c < (fn.set c (pre ++ [x])).length := by rw [List.length_set]; exact hc
    have hcell2 : (fn.set c (pre ++ [x])).getD c [] = pre ++ [x] := getD_set_same fn c _ [] hc
    rw [List.cons_append, fixed_loop_cons behind _ _ _ hx]
    by_cases hend : p + 1 = e
    · have ht : t = [] := by
        simp only [List.length_cons] at hlen
        exact List.length_eq_zero.mp (by omega)
      subst ht
      have hpoke2 : text_poke (text_realloc (fn.set c (pre ++ [x])) c (j + 1 + 1)) c (j + 1) 0 =
          fn.set c (pre ++ [x] ++ [0]) := by
        rw [text_poke_realloc _ c (j + 1) 0 hc2 (by rw [hcell2]; simp [hpre]), hcell2,
          List.take_of_length_le (by simp [hpre]), List.set_set]
      have hhit := (read_field_ends_cons behind (p + 1) e q es).mpr hend
      simp only [fixed_step, Bool.false_eq_true, if_false, Nat.add_sub_cancel, hhit, if_true,
        List.tail_cons, hpoke, hpoke2, List.nil_append, List.append_assoc,
        List.singleton_append, reduceCtorEq]
      rw [hend]
    · have hne : ¬ (((p + 1 : Nat) : Int) = read_field_ends behind (e :: es) q) :=
        fun h => hend ((read_field_ends_cons behind (p + 1) e q es).mp h)
      simp only [fixed_step, Bool.false_eq_true, if_false, Nat.add_sub_cancel, hne, hpoke]
      have h := ih (fn.set c (pre ++ [x])) c (p + 1) (j + 1) e es s (pre ++ [x]) hbt hc2 hcell2
        (by simp [hpre]) (by omega) (by simp only [List.length_cons] at hlen; omega)
      rw [h, List.set_set]
      simp
/-- The cell that a new field is written to exists after the test
`if (++ct > fn->textsize[0]) apop_text_alloc(fn, ct, 1)`. -/
theorem field_cell_exists (fn : Text) (c : Nat) (hc : c ≤ fn.length) :
    c < (if c + 1 > fn.length then apop_text_alloc fn (c + 1) else fn).length ∧
    (if c + 1 > fn.length then apop_text_alloc fn (c + 1) else fn).take c = fn.take c := by
  split
  · rw [length_apop_text_alloc, take_apop_text_alloc fn (c + 1) c hc]
    exact ⟨by omega, rfl⟩
  · exact ⟨by omega, rfl⟩

/-- One whole field: its bytes are written to the next cell, followed by the
terminator. -/
theorem fixed_loop_field (behind : Nat → Int) (q : Nat) (x : CChar) (t : List CChar)
    (fn : Text) (c p e : Nat)
    (es : List Nat) (s : FILE) (hb : ∀ y ∈ x :: t, y ≠ 10 ∧ y ≠ EOF)
    (hpe : p < e) (hlen : p + (x :: t).length = e) :
    fixed_loop behind { fn := fn, ct := c, posn := p, thisflen := 0, needfield := true,
                        field_ends := e :: es, past := q } ((x :: t) ++ s) =
      fixed_loop behind
        { fn := (if c + 1 > fn.length then apop_text_alloc fn (c + 1) else fn).set c
                  ((x :: t) ++ [0]),
          ct := c + 1, posn := e, thisflen := 0, needfield := true,
          field_ends := es, past := q } s := by
  have hx := hb x (by simp)
  have hbt : ∀ y ∈ t, y ≠ 10 ∧ y ≠ EOF := fun y hy => hb y (by simp [hy])
  generalize hfn0 : (if c + 1 > fn.length then apop_text_alloc fn (c + 1) else fn) = fn0
  have hc0 : c < fn0.length := by
    rw [← hfn0]
    split
    · rw [length_apop_text_alloc]; omega
    · omega
  have hpoke : text_poke (text_realloc fn0 c (0 + 1)) c 0 x = fn0.set c [x] := by
    rw [text_poke_realloc fn0 c 0 x hc0 (by omega)]
    simp
  have hc2 : c < (fn0.set c [x]).length := by rw [List.length_set]; exact hc0
  have hcell2 : (fn0.set c [x]).getD c [] = [x] := getD_set_same fn0 c _ [] hc0
  rw [List.cons_append, fixed_loop_cons behind _ _ _ hx]
  by_cases hend : p + 1 = e
  · have ht : t = [] := by
      simp only [List.length_cons] at hlen
      exact List.length_eq_zero.mp (by omega)
    subst ht
    have hpoke2 : text_poke (text_realloc (fn0.set c [x]) c (0 + 1 + 1)) c (0 + 1) 0 =
        fn0.set c [x, 0] := by
      rw [text_poke_realloc _ c (0 + 1) 0 hc2 (by rw [hcell2]; simp), hcell2, List.set_set]
      simp
    have hhit := (read_field_ends_cons behind (p + 1) e q es).mpr hend
    simp only [fixed_step, if_true, hfn0, Nat.add_sub_cancel, hhit, List.tail_cons, hpoke,
      hpoke2, List.nil_append, List.singleton_append, reduceCtorEq, if_false]
    rw [hend]
  · have hne : ¬ (((p + 1 : Nat) : Int) = read_field_ends behind (e :: es) q) :=
      fun h => hend ((read_field_ends_cons behind (p + 1) e q es).mp h)
    simp only [fixed_step, if_true, hfn0, Nat.add_sub_cancel, hne, if_false, hpoke]
    have h := fixed_loop_in_field behind q t (fn0.set c [x]) c (p + 1) (0 + 1) e es s [x] hbt
      hc2 hcell2
      (by simp) (by omega) (by simp only [List.length_cons] at hlen; omega)
    rw [h, List.set_set]
    simp

theorem chain_le_getLastD (ends : List Nat) :
    ∀ p, List.Chain (fun a b => a < b) p ends → p ≤ ends.getLastD p := by
  induction ends with
  | nil => intro p _; simp
  | cons e es ih =>
    intro p h
    rw [List.chain_cons] at h
    rw [List.getLastD_cons]
    have := ih e h.2
    omega

theorem field_cuts_lengths (ends : List Nat) :
    ∀ (p : Nat) (line : List CChar), List.Chain (fun a b => a < b) p ends →
      line.length = ends.getLastD p - p →
      (field_cuts p ends line).map List.length =
        List.zipWith (fun a b => a - b) ends (p :: ends) := by
  induction ends with
  | nil => intro p line _ _; simp [field_cuts]
  | cons e es ih =>
    intro p line hch hlen
    rw [List.chain_cons] at hch
    have hle := chain_le_getLastD es e hch.2
    rw [List.getLastD_cons] at hlen
    have h := ih e (line.drop (e - p)) hch.2 (by rw [List.length_drop]; omega)
    simp only [field_cuts, List.map_cons, h, List.zipWith_cons_cons, List.length_take]
    congr 1
    omega

theorem field_cuts_flatten (ends : List Nat) :
    ∀ (p : Nat) (line : List CChar), List.Chain (fun a b => a < b) p ends →
      line.length = ends.getLastD p - p → (field_cuts p ends line).flatten = line := by
  induction ends with
  | nil =>
    intro p line _ hlen
    have hl : line = [] := List.length_eq_zero.mp (by simpa using hlen)
    simp [field_cuts, hl]
  | cons e es ih =>
    intro p line hch hlen
    rw [List.chain_cons] at hch
    have hle := chain_le_getLastD es e hch.2
    rw [List.getLastD_cons] at hlen
    have h := ih e (line.drop (e - p)) hch.2 (by rw [List.length_drop]; omega)
    simp only [field_cuts, List.flatten_cons, h, List.take_append_drop]

theorem field_cuts_length (ends : List Nat) :
    ∀ (p : Nat) (line : List CChar), (field_cuts p ends line).length = ends.length := by
  induction ends with
  | nil => intro p line; rfl
  | cons e es ih => intro p line; simp [field_cuts, ih]

/-- All fields of a line that ends where the last field ends. -/
theorem fixed_loop_fields (behind : Nat → Int) (q : Nat) (ends : List Nat) :
    ∀ (p : Nat) (line : List CChar) (fn : Text) (c : Nat) (s : FILE),
      List.Chain (fun a b => a < b) p ends → line.length = ends.getLastD p - p →
      (∀ y ∈ line, y ≠ 10 ∧ y ≠ EOF) → c ≤ fn.length →
      ∃ fn1 : Text,
        fn1.take (c + ends.length) =
          fn.take c ++ (field_cuts p ends line).map (fun f => f ++ [0]) ∧
        c + ends.length ≤ fn1.length ∧
        fixed_loop behind { fn := fn, ct := c, posn := p, thisflen := 0, needfield := true,
                            field_ends := ends, past := q } (line ++ s) =
          fixed_loop behind { fn := fn1, ct := c + ends.length, posn := ends.getLastD p,
                              thisflen := 0, needfield := true, field_ends := [], past := q }
            s := by
  induction ends with
  | nil =>
    intro p line fn c s _ hlen _ hc
    have hl : line = [] := List.length_eq_zero.mp (by simpa using hlen)
    subst hl
    exact ⟨fn, by simp [field_cuts], by simpa using hc, by simp⟩
  | cons e es ih =>
    intro p line fn c s hch hlen hb hc
    rw [List.chain_cons] at hch
    obtain ⟨hpe, hch2⟩ := hch
    have hle := chain_le_getLastD es e hch2
    rw [List.getLastD_cons] at hlen
    have hsplit : line = line.take (e - p) ++ line.drop (e - p) := (List.take_append_drop _ _).symm
    have hseg : (line.take (e - p)).length = e - p := by rw [List.length_take]; omega
    have hdrop : (line.drop (e - p)).length = es.getLastD e - e := by
      rw [List.length_drop]; omega
    obtain ⟨x, t, hxt⟩ : ∃ x t, line.take (e - p) = x :: t := by
      cases h : line.take (e - p) with
      | nil => rw [h] at hseg; simp at hseg; omega
      | cons x t => exact ⟨x, t, rfl⟩
    have hbseg : ∀ y ∈ x :: t, y ≠ 10 ∧ y ≠ EOF := by
      intro y hy
      rw [← hxt] at hy
      exact hb y (List.mem_of_mem_take hy)
    have hbdrop : ∀ y ∈ line.drop (e - p), y ≠ 10 ∧ y ≠ EOF :=
      fun y hy => hb y (List.mem_of_mem_drop hy)
    obtain ⟨hc0, htk0⟩ := field_cell_exists fn c hc
    generalize hfn0 : (if c + 1 > fn.length then apop_text_alloc fn (c + 1) else fn) = fn0
      at hc0 htk0
    have hstep := fixed_loop_field behind q x t fn c p e es (line.drop (e - p) ++ s) hbseg hpe
      (by rw [← hxt, hseg]; omega)
    rw [hfn0] at hstep
    obtain ⟨fn1, h3, h4, h5⟩ := ih e (line.drop (e - p))
      (fn0.set c ((x :: t) ++ [0])) (c + 1) s hch2 hdrop hbdrop
      (by rw [List.length_set]; omega)
    have e1 : c + (e :: es).length = c + 1 + es.length := by simp; omega
    refine ⟨fn1, ?_, ?_, ?_⟩
    · rw [e1, h3, take_succ_set fn0 c _ hc0, htk0]
      simp [field_cuts, hxt]
    · simp only [List.length_cons]; omega
    · rw [List.getLastD_cons, e1, ← h5, ← hstep, ← List.append_assoc, ← hxt, ← hsplit]

/-! ## Bytes behind the last field end, and the result of `parse_a_fixed_line` -/

theorem poke_realloc_set (fn : Text) (i n j : Nat) (c : CChar) (hi : i < fn.length) :
    text_poke (text_realloc fn i n) i j c = fn.set i ((realloc (fn.getD i []) n).set j c) := by
  unfold text_poke text_realloc
  rw [getD_set_same fn i _ [] hi, List.set_set]

/-- The first byte of a field: the pass that opens a field is the pass on an
open field with no byte in it, in the next cell. -/
theorem fixed_step_open (behind : Nat → Int) (fn : Text) (ct posn t q : Nat) (fe : List Nat)
    (c : CChar) :
    fixed_step behind { fn := fn, ct := ct, posn := posn, thisflen := t, needfield := true,
                        field_ends := fe, past := q } c =
      fixed_step behind
        { fn := if ct + 1 > fn.length then apop_text_alloc fn (ct + 1) else fn,
          ct := ct + 1, posn := posn, thisflen := 0, needfield := false,
          field_ends := fe, past := q } c := by
  simp [fixed_step]

/-- A pass on an open field: the byte is written behind the bytes of the
field, and the field is closed when the position is the value read from
`*field_ends`. -/
theorem fixed_step_in (behind : Nat → Int) (fn : Text) (k posn t q : Nat) (fe : List Nat)
    (c : CChar) (hl : k < fn.length) :
    fixed_step behind { fn := fn, ct := k + 1, posn := posn, thisflen := t, needfield := false,
                        field_ends := fe, past := q } c =
      if ((posn + 1 : Nat) : Int) = read_field_ends behind fe q then
        { fn := fn.set k ((realloc ((realloc (fn.getD k []) (t + 1)).set t c) (t + 1 + 1)).set
                  (t + 1) 0),
          ct := k + 1, posn := posn + 1, thisflen := 0, needfield := true,
          field_ends := fe.tail, past := if fe = [] then q + 1 else q }
      else
        { fn := fn.set k ((realloc (fn.getD k []) (t + 1)).set t c),
          ct := k + 1, posn := posn + 1, thisflen := t + 1, needfield := false,
          field_ends := fe, past := q } := by
  have hl2 : k < (fn.set k ((realloc (fn.getD k []) (t + 1)).set t c)).length := by
    rw [List.length_set]; exact hl
  simp only [fixed_step, Bool.false_eq_true, if_false, Nat.add_sub_cancel]
  rw [poke_realloc_set fn k (t + 1) t c hl, poke_realloc_set _ k (t + 1 + 1) (t + 1) 0 hl2,
    getD_set_same fn k _ [] hl, List.set_set]

/-- Bytes of a field behind the last field end, when the value read behind
the array is none of their positions: they are appended to the cell. -/
theorem fixed_loop_open_field (behind : Nat → Int) (q : Nat) (t : List CChar) :
    ∀ (fn : Text) (c p j : Nat) (s : FILE) (pre : List CChar),
      (∀ x ∈ t, x ≠ 10 ∧ x ≠ EOF) → c < fn.length → fn.getD c [] = pre → pre.length = j →
      (∀ p', p < p' → p' ≤ p + t.length → behind q ≠ (p' : Int)) →
      fixed_loop behind { fn := fn, ct := c + 1, posn := p, thisflen := j, needfield := false,
                          field_ends := [], past := q } (t ++ s) =
        fixed_loop behind { fn := fn.set c (pre ++ t), ct := c + 1, posn := p + t.length,
                            thisflen := j + t.length, needfield := false, field_ends := [],
                            past := q } s := by
  induction t with
  | nil =>
    intro fn c p j s pre _ hc hcell _ _
    have : fn.set c pre = fn := by
      rw [← hcell]
      apply List.ext_getElem (by simp)
      intro i h1 h2
      by_cases hi : c = i
      · subst hi
        rw [List.getElem_set_self, List.getD_eq_getElem _ _ hc]
      · simp [List.getElem_set_ne hi]
    simp [this]
  | cons x t ih =>
    intro fn c p j s pre hb hc hcell hpre hno
    have hx := hb x (by simp)
    have hbt : ∀ y ∈ t, y ≠ 10 ∧ y ≠ EOF := fun y hy => hb y (by simp [hy])
    have hpoke : (realloc (fn.getD c []) (j + 1)).set j x = pre ++ [x] := by
      rw [realloc_set_take _ j x (by rw [hcell, hpre]), hcell,
        List.take_of_length_le (by omega)]
    have hc2 : c < (fn.set c (pre ++ [x])).length := by rw [List.length_set]; exact hc
    have hcell2 : (fn.set c (pre ++ [x])).getD c [] = pre ++ [x] := getD_set_same fn c _ [] hc
    have hmiss : ¬ (((p + 1 : Nat) : Int) = read_field_ends behind [] q) := by
      intro h
      exact hno (p + 1) (by omega) (by simp only [List.length_cons]; omega) h.symm
    rw [List.cons_append, fixed_loop_cons behind _ _ _ hx, fixed_step_in behind fn c p j q [] x hc,
      if_neg hmiss, hpoke]
    have h := ih (fn.set c (pre ++ [x])) c (p + 1) (j + 1) s (pre ++ [x]) hbt hc2 hcell2
      (by simp [hpre])
      (fun p' h1 h2 => hno p' (by omega) (by simp only [List.length_cons]; omega))
    have e1 : p + (x :: t).length = p + 1 + t.length := by simp; omega
    have e2 : j + (x :: t).length = j + 1 + t.length := by simp; omega
    rw [e1, e2, h, List.set_set]
    simp

/-- The bytes behind the last field end open one more field; it holds all of
them when the value read behind the array is none of their positions. -/
theorem fixed_loop_extra (behind : Nat → Int) (q : Nat) (x : CChar) (t : List CChar)
    (fn : Text) (c p : Nat) (s : FILE)
    (hb : ∀ y ∈ x :: t, y ≠ 10 ∧ y ≠ EOF)
    (hno : ∀ p', p < p' → p' ≤ p + (x :: t).length → behind q ≠ (p' : Int)) :
    fixed_loop behind { fn := fn, ct := c, posn := p, thisflen := 0, needfield := true,
                        field_ends := [], past := q } ((x :: t) ++ s) =
      fixed_loop behind
        { fn := (if c + 1 > fn.length then apop_text_alloc fn (c + 1) else fn).set c (x :: t),
          ct := c + 1, posn := p + (x :: t).length, thisflen := (x :: t).length,
          needfield := false, field_ends := [], past := q } s := by
  have hx := hb x (by simp)
  have hbt : ∀ y ∈ t, y ≠ 10 ∧ y ≠ EOF := fun y hy => hb y (by simp [hy])
  generalize hfn0 : (if c + 1 > fn.length then apop_text_alloc fn (c + 1) else fn) = fn0
  have hc0 : c < fn0.length := by
    rw [← hfn0]
    split
    · rw [length_apop_text_alloc]; omega
    · omega
  have hpoke : (realloc (fn0.getD c []) (0 + 1)).set 0 x = [x] := by
    rw [realloc_set_take _ 0 x (by omega)]
    simp
  have hc2 : c < (fn0.set c [x]).length := by rw [List.length_set]; exact hc0
  have hcell2 : (fn0.set c [x]).getD c [] = [x] := getD_set_same fn0 c _ [] hc0
  have hmiss : ¬ (((p + 1 : Nat) : Int) = read_field_ends behind [] q) := by
    intro h
    exact hno (p + 1) (by omega) (by simp only [List.length_cons]; omega) h.symm
  rw [List.cons_append, fixed_loop_cons behind _ _ _ hx, fixed_step_open, hfn0,
    fixed_step_in behind fn0 c p 0 q [] x hc0, if_neg hmiss, hpoke]
  have h := fixed_loop_open_field behind q t (fn0.set c [x]) c (p + 1) (0 + 1) s [x] hbt hc2
    hcell2 (by simp)
    (fun p' h1 h2 => hno p' (by omega) (by simp only [List.length_cons]; omega))
  have e1 : p + (x :: t).length = p + 1 + t.length := by simp; omega
  have e2 : (x :: t).length = 0 + 1 + t.length := by simp; omega
  rw [e1, e2, h, List.set_set]
  simp

theorem fixed_loop_newline (behind : Nat → Int) (st : FState) (rest : FILE) :
    fixed_loop behind st (10 :: rest) = (st, 10, rest) := by
  simp [fixed_loop]

theorem fixed_loop_nil (behind : Nat → Int) (st : FState) :
    fixed_loop behind st [] = (st, EOF, []) := rfl

theorem map_cstr_terminated (fields : List (List CChar))
    (h : ∀ f ∈ fields, ∀ c ∈ f, c ≠ 0) :
    (fields.map (fun f => f ++ [0])).map cstr = fields := by
  rw [List.map_map]
  conv_rhs => rw [← List.map_id fields]
  apply List.map_congr_left
  intro f hf
  simp only [Function.comp_apply, id_eq]
  rw [cstr_append_zero, cstr_eq_self f (h f hf)]

theorem mem_field_cuts (ends : List Nat) :
    ∀ (p : Nat) (line : List CChar), ∀ f ∈ field_cuts p ends line, ∀ c ∈ f, c ∈ line := by
  induction ends with
  | nil => intro p line f hf; simp [field_cuts] at hf
  | cons e es ih =>
    intro p line f hf c hc
    simp only [field_cuts, List.mem_cons] at hf
    rcases hf with hf | hf
    · subst hf; exact List.mem_of_mem_take hc
    · exact List.mem_of_mem_drop (ih e _ f hf c hc)

/-- The result of `parse_a_fixed_line` on a line that ends where the last
field ends; `s` is what follows the line, `b` the byte that stops the loop. -/
theorem parse_a_fixed_line_at_ends (behind : Nat → Int) (ends : List Nat) (line : List CChar)
    (fn : Text) (s : FILE) (b : CChar) (rest : FILE)
    (hch : List.Chain (fun a b => a < b) 0 ends) (hlen : line.length = ends.getLastD 0)
    (hb : ∀ y ∈ line, y ≠ 10 ∧ y ≠ EOF)
    (hstop : ∀ st, fixed_loop behind st s = (st, b, rest)) :
    (parse_a_fixed_line (line ++ s) fn { ends := ends, behind := behind }).L =
      { ct := ends.length, eof := decide (b = EOF) } ∧
    (parse_a_fixed_line (line ++ s) fn { ends := ends, behind := behind }).infile = rest ∧
    (parse_a_fixed_line (line ++ s) fn { ends := ends, behind := behind }).fn.take ends.length =
      (field_cuts 0 ends line).map (fun f => f ++ [0]) := by
  obtain ⟨fn1, h1, _, h3⟩ := fixed_loop_fields behind 0 ends 0 line fn 0 s hch
    (by simpa using hlen) hb (Nat.zero_le _)
  simp only [Nat.zero_add, List.take_zero, List.nil_append] at h1 h3
  unfold parse_a_fixed_line
  simp only []
  rw [h3, hstop]
  simp [h1]

/-- The result of `parse_a_fixed_line` on a line that goes on behind the last
field end, when the value read behind the array is none of the positions
behind the last end: the bytes behind it make one more field. -/
theorem parse_a_fixed_line_beyond_ends (behind : Nat → Int) (ends : List Nat)
    (line extra : List CChar) (fn : Text)
    (s : FILE) (b : CChar) (rest : FILE)
    (hch : List.Chain (fun a b => a < b) 0 ends) (hlen : line.length = ends.getLastD 0)
    (hb : ∀ y ∈ line ++ extra, y ≠ 10 ∧ y ≠ EOF) (hextra : extra ≠ [])
    (hno : ∀ p, ends.getLastD 0 < p → p ≤ ends.getLastD 0 + extra.length →
      behind 0 ≠ (p : Int))
    (hstop : ∀ st, fixed_loop behind st s = (st, b, rest)) :
    (parse_a_fixed_line (line ++ extra ++ s) fn { ends := ends, behind := behind }).L =
      { ct := ends.length + 1, eof := decide (b = EOF) } ∧
    (parse_a_fixed_line (line ++ extra ++ s) fn { ends := ends, behind := behind }).infile =
      rest ∧
    (parse_a_fixed_line (line ++ extra ++ s) fn { ends := ends, behind := behind }).fn.take
        (ends.length + 1) =
      (field_cuts 0 ends line).map (fun f => f ++ [0]) ++ [extra ++ [0]] := by
  obtain ⟨x, t, rfl⟩ : ∃ x t, extra = x :: t := by
    cases extra with
    | nil => exact absurd rfl hextra
    | cons x t => exact ⟨x, t, rfl⟩
  obtain ⟨fn1, h1, h2, h3⟩ := fixed_loop_fields behind 0 ends 0 line fn 0 ((x :: t) ++ s) hch
    (by simpa using hlen) (fun y hy => hb y (by simp [hy])) (Nat.zero_le _)
  simp only [Nat.zero_add, List.take_zero, List.nil_append] at h1 h2 h3
  have h4 := fixed_loop_extra behind 0 x t fn1 ends.length (ends.getLastD 0) s
    (fun y hy => hb y (List.mem_append_right _ hy)) hno
  obtain ⟨hc0, htk0⟩ := field_cell_exists fn1 ends.length h2
  generalize hfn0 : (if ends.length + 1 > fn1.length
    then apop_text_alloc fn1 (ends.length + 1) else fn1) = fn0 at hc0 htk0 h4
  have hc2 : ends.length < (fn0.set ends.length (x :: t)).length := by
    rw [List.length_set]; exact hc0
  have hcell2 : (fn0.set ends.length (x :: t)).getD ends.length [] = x :: t :=
    getD_set_same fn0 _ _ [] hc0
  have hpoke : text_poke (text_realloc (fn0.set ends.length (x :: t)) ends.length
      ((x :: t).length + 1)) ends.length (x :: t).length 0 =
      fn0.set ends.length ((x :: t) ++ [0]) := by
    rw [text_poke_realloc _ _ _ 0 hc2 (by rw [hcell2]), hcell2, List.set_set,
      List.take_of_length_le (Nat.le_refl _)]
  unfold parse_a_fixed_line
  simp only []
  rw [List.append_assoc, h3, h4, hstop]
  simp only [Nat.add_sub_cancel, if_true, hpoke, true_and]
  rw [take_succ_set fn0 _ _ hc0, htk0, h1]

theorem take_set_behind {α : Type} (l : List α) (k i : Nat) (a : α) (h : k ≤ i) :
    (l.set i a).take k = l.take k := by
  induction l generalizing k i with
  | nil => simp
  | cons y ys ih =>
    cases k with
    | zero => simp
    | succ k =>
      cases i with
      | zero => omega
      | succ i => simp [ih k i (by omega)]

/-- One pass of the loop of `parse_a_fixed_line`, whatever is read behind the
array: when `k` fields are closed before the pass, at least `k + 1` fields are
counted after it and the first `k` cells are as before. -/
theorem fixed_step_behind (behind : Nat → Int) (k : Nat) (st : FState) (c : CChar)
    (h1 : k ≤ st.ct) (h2 : st.needfield = false → k + 1 ≤ st.ct)
    (h3 : st.ct ≤ st.fn.length) :
    k + 1 ≤ (fixed_step behind st c).ct ∧
      (fixed_step behind st c).ct ≤ (fixed_step behind st c).fn.length ∧
      (fixed_step behind st c).fn.take k = st.fn.take k := by
  obtain ⟨fn, ct, posn, t, nf, fe, q⟩ := st
  simp only at h1 h2 h3
  cases nf with
  | true =>
    obtain ⟨hc0, htk0⟩ := field_cell_exists fn ct h3
    have htk : (if ct + 1 > fn.length then apop_text_alloc fn (ct + 1) else fn).take k =
        fn.take k := by
      have e := congrArg (List.take k) htk0
      rw [List.take_take, List.take_take, Nat.min_eq_left h1] at e
      exact e
    rw [fixed_step_open, fixed_step_in behind _ ct posn 0 q fe c hc0]
    split
    · simp only [List.length_set]
      exact ⟨by omega, by omega, by rw [take_set_behind _ k ct _ h1, htk]⟩
    · simp only [List.length_set]
      exact ⟨by omega, by omega, by rw [take_set_behind _ k ct _ h1, htk]⟩
  | false =>
    have hk := h2 rfl
    obtain ⟨j, rfl⟩ : ∃ j, ct = j + 1 := ⟨ct - 1, by omega⟩
    rw [fixed_step_in behind fn j posn t q fe c (by omega)]
    split
    · simp only [List.length_set]
      exact ⟨by omega, by omega, take_set_behind _ k j _ (by omega)⟩
    · simp only [List.length_set]
      exact ⟨by omega, by omega, take_set_behind _ k j _ (by omega)⟩

/-- The loop of `parse_a_fixed_line`, whatever is read behind the array: when
`k` fields are closed and the line goes on, at least `k + 1` fields are
counted at its end and the first `k` cells are as before. -/
theorem fixed_loop_behind (behind : Nat → Int) (k : Nat) (l : List CChar) (s : FILE)
    (b : CChar) (rest : FILE) (hstop : ∀ st, fixed_loop behind st s = (st, b, rest)) :
    ∀ (st : FState), (∀ y ∈ l, y ≠ 10 ∧ y ≠ EOF) → k ≤ st.ct →
      (st.needfield = false → k + 1 ≤ st.ct) → st.ct ≤ st.fn.length →
      ∃ st', fixed_loop behind st (l ++ s) = (st', b, rest) ∧ k ≤ st'.ct ∧
        (st'.needfield = false → k + 1 ≤ st'.ct) ∧ (l ≠ [] → k + 1 ≤ st'.ct) ∧
        st'.ct ≤ st'.fn.length ∧ st'.fn.take k = st.fn.take k := by
  induction l with
  | nil =>
    intro st _ h1 h2 h3
    exact ⟨st, by rw [List.nil_append, hstop], h1, h2, fun h => absurd rfl h, h3, rfl⟩
  | cons x t ih =>
    intro st hb h1 h2 h3
    have hx := hb x (by simp)
    obtain ⟨g1, g2, g3⟩ := fixed_step_behind behind k st x h1 h2 h3
    obtain ⟨st', e1, e2, e3, _, e5, e6⟩ := ih (fixed_step behind st x)
      (fun y hy => hb y (by simp [hy])) (by omega) (fun _ => g1) g2
    refine ⟨st', ?_, e2, e3, fun _ => ?_, e5, by rw [e6, g3]⟩
    · rw [List.cons_append, fixed_loop_cons behind _ _ _ hx, e1]
    · cases hn : st'.needfield with
      | false => exact e3 hn
      | true =>
        cases t with
        | nil =>
          rw [List.nil_append, hstop] at e1
          cases e1
          exact g1
        | cons y t2 =>
          obtain ⟨st2, f1, _, _, f4, _, _⟩ := ih (fixed_step behind st x)
            (fun y hy => hb y (by simp [hy])) (by omega) (fun _ => g1) g2
          rw [f1] at e1
          cases e1
          exact f4 (by simp)

/-! ## The body loop of `apop_text_to_data` on lines of any width -/

theorem realloc_keep {V : Type} (lib : NumLib V) (s1 s2 k cols : Nat) (rows : List (List V))
    (hk : rows.length = k) (hrl : ∀ r ∈ rows, r.length = cols) :
    apop_matrix_realloc lib
        (some { size1 := s1, size2 := s2, data := rows ++ [List.replicate cols lib.fresh] })
        (k + 1) cols =
      some { size1 := k + 1, size2 := cols, data := rows ++ [List.replicate cols lib.fresh] } := by
  subst hk
  simp only [apop_matrix_realloc, Option.some.injEq, gsl_matrix.mk.injEq, true_and]
  have h1 : List.take (rows.length + 1) (rows ++ [List.replicate cols lib.fresh]) =
      rows ++ [List.replicate cols lib.fresh] := List.take_of_length_le (by simp)
  have h2 : rows.length + 1 - (rows ++ [List.replicate cols lib.fresh]).length = 0 := by simp
  rw [h1, h2, List.replicate_zero, List.append_nil, List.map_append]
  congr 1
  · conv_rhs => rw [← List.map_id rows]
    apply List.map_congr_left
    intro r hr
    have := hrl r hr
    simp [this]
  · simp

/-- The loop over the columns writes the conversions of the fields that follow
the row name into the first cells of the last row. -/
theorem fill_row_part {V : Type} (lib : NumLib V) (s1 cols : Nat) (pre : List (List V))
    (fn : Text) (n hasrows ct : Nat) (hn : pre.length = n) (hct : ct ≤ fn.length)
    (hle : ct - hasrows ≤ cols) :
    fill_row lib { size1 := s1, size2 := cols,
                   data := pre ++ [List.replicate cols lib.fresh] } fn (n + 1) hasrows ct =
      { size1 := s1, size2 := cols,
        data := pre ++ [(((fn.take ct).map cstr).drop hasrows).map (convert_field lib) ++
          List.replicate (cols - (ct - hasrows)) lib.fresh] } := by
  unfold fill_row
  have h := foldl_set_row (fun col => convert_field lib (cstr (fn.getD col []))) s1
    cols pre n hasrows hn (ct - hasrows) 0 (List.replicate cols lib.fresh) (by simp; omega)
  simp only [Nat.add_zero, Nat.add_sub_cancel] at h ⊢
  rw [h]
  have hd : (List.replicate cols lib.fresh).drop (0 + (ct - hasrows)) =
      List.replicate (cols - (ct - hasrows)) lib.fresh := by simp
  rw [hd, List.take_zero, List.nil_append]
  have := range'_map_getD fn cstr hasrows ct hct
  rw [← this, List.map_map]
  rfl

/-- One pass of the body loop for a line that is not too wide: a row is added
that holds the conversions of the fields, and the next line is read. -/
theorem body_loop_store {V : Type} (lib : NumLib V) (delimiters : List CChar) (hr cols v : Nat)
    (hv : 1 ≤ v) (hle : v - hr ≤ cols) (s1 k : Nat) (data rows : List (List V))
    (cn rn : List (List CChar))
    (hk : rows.length = k) (hrl : ∀ r ∈ rows, r.length = cols)
    (hdata : data = rows ∨ data = rows ++ [List.replicate cols lib.fresh])
    (fn : Text) (inp : FILE) (hfn : v ≤ fn.length) (res : LineResult)
    (hres : parse_a_line inp fn none delimiters = some res) (fuel : Nat) :
    body_loop lib hr none delimiters (fuel + 1)
        { set := some { vector := none,
                        matrix := some { size1 := s1, size2 := cols, data := data },
                        weights := none, names := { column := cn, row := rn }, error := 0 },
          L := { ct := v, eof := false }, row := k, add_this_line := fn, infile := inp } =
      body_loop lib hr none delimiters fuel
        { set := some { vector := none,
                        matrix := some { size1 := k + 1, size2 := cols,
                                         data := rows ++
                                           [(((fn.take v).map cstr).drop hr).map
                                               (convert_field lib) ++
                                             List.replicate (cols - (v - hr)) lib.fresh] },
                        weights := none,
                        names := { column := cn,
                                   row := if hr ≠ 0 then rn ++ [cstr (fn.getD 0 [])] else rn },
                        error := 0 },
          L := res.L, row := k + 1, add_this_line := res.fn, infile := res.infile } := by
  have hv0 : v ≠ 0 := by omega
  have hre : apop_matrix_realloc lib (some { size1 := s1, size2 := cols, data := data })
      (k + 1) cols =
      some { size1 := k + 1, size2 := cols,
             data := rows ++ [List.replicate cols lib.fresh] } := by
    rcases hdata with hd | hd
    · rw [hd]; exact realloc_grow lib s1 cols k cols rows hk hrl
    · rw [hd]; exact realloc_keep lib s1 cols k cols rows hk hrl
  have hnot : ¬ (v - hr > cols) := by omega
  conv_lhs => unfold body_loop
  simp only [hv0, ne_eq, not_false_eq_true, and_self, or_true, if_true, if_false, hres, hre,
    hnot]
  rw [fill_row_part lib (k + 1) cols rows fn k hr v hk hfn hle]
  by_cases hh : hr = 0
  · simp [hh, apop_name_add]
  · simp [hh, apop_name_add]

/-- One pass of the body loop for a line that is too wide: the row for it is
already allocated, and with row names its name is already added, when the
loop stops with the error `'t'`. -/
theorem body_loop_too_wide {V : Type} (lib : NumLib V) (delimiters : List CChar)
    (hr cols v : Nat) (hwide : v - hr > cols) (s1 k : Nat) (data rows : List (List V))
    (cn rn : List (List CChar))
    (hk : rows.length = k) (hrl : ∀ r ∈ rows, r.length = cols)
    (hdata : data = rows ∨ data = rows ++ [List.replicate cols lib.fresh])
    (fn : Text) (inp : FILE) (fuel : Nat) :
    body_loop lib hr none delimiters (fuel + 1)
        { set := some { vector := none,
                        matrix := some { size1 := s1, size2 := cols, data := data },
                        weights := none, names := { column := cn, row := rn }, error := 0 },
          L := { ct := v, eof := false }, row := k, add_this_line := fn, infile := inp } =
      some { vector := none,
             matrix := some { size1 := k + 1, size2 := cols,
                              data := rows ++ [List.replicate cols lib.fresh] },
             weights := none,
             names := { column := cn,
                        row := if hr ≠ 0 then rn ++ [cstr (fn.getD 0 [])] else rn },
             error := 116 } := by
  have hv0 : v ≠ 0 := by omega
  have hre : apop_matrix_realloc lib (some { size1 := s1, size2 := cols, data := data })
      (k + 1) cols =
      some { size1 := k + 1, size2 := cols,
             data := rows ++ [List.replicate cols lib.fresh] } := by
    rcases hdata with hd | hd
    · rw [hd]; exact realloc_grow lib s1 cols k cols rows hk hrl
    · rw [hd]; exact realloc_keep lib s1 cols k cols rows hk hrl
  conv_lhs => unfold body_loop
  simp only [hv0, ne_eq, not_false_eq_true, and_self, or_true, if_true, if_false, hre, hwide]
  by_cases hh : hr = 0
  · simp [hh, apop_name_add]
  · simp [hh, apop_name_add]

/-- The body loop ends when the line read last has no field. -/
theorem body_loop_end {V : Type} (lib : NumLib V) (delimiters : List CChar) (hr : Nat)
    (set : apop_data V) (eof : Bool) (k : Nat) (fn : Text) (inp : FILE) (fuel : Nat) :
    body_loop lib hr none delimiters (fuel + 1)
        { set := some set, L := { ct := 0, eof := eof }, row := k, add_this_line := fn,
          infile := inp } = some set := by
  unfold body_loop
  simp

theorem fields_of_result (inp : FILE) (fn : Text) (delimiters : List CChar) (res : LineResult)
    (h : parse_a_line inp fn none delimiters = some res) :
    (res.fn.take res.L.ct).map cstr = res.fields ∧ res.L.ct ≤ res.fn.length :=
  ⟨rfl, ct_le_length res (fields_length _ _ _ _ h)⟩

/-- The body loop on lines none of which is too wide: one row is added for
each of them.  `fn` holds the line read last, `tail` is what follows the
lines, and the loop is followed up to the line that `tail` starts with. -/
theorem body_loop_run {V : Type} (lib : NumLib V) (delimiters : List CChar) (hr cols : Nat)
    (lines : List (List CChar × List (List CChar)))
    (tail : FILE) (Lt : line_parse_t) (Ft : List (List CChar)) (rt : FILE)
    (htail : ∀ fn, ∃ res, parse_a_line tail fn none delimiters = some res ∧
      res.L = Lt ∧ res.fields = Ft ∧ res.infile = rt)
    (cn : List (List CChar)) :
    ∀ (v : Nat) (s1 k : Nat) (data rows : List (List V)) (rn : List (List CChar))
      (fn : Text) (fuel : Nat),
      (∀ l ∈ lines, 1 ≤ l.2.length ∧ l.2.length - hr ≤ cols ∧ ∀ rest fn, ∃ res,
        parse_a_line (l.1 ++ rest) fn none delimiters = some res ∧
          res.L = { ct := l.2.length, eof := false } ∧ res.fields = l.2 ∧ res.infile = rest) →
      1 ≤ v → v - hr ≤ cols → rows.length = k → (∀ r ∈ rows, r.length = cols) →
      (data = rows ∨ data = rows ++ [List.replicate cols lib.fresh]) →
      v ≤ fn.length → lines.length + 1 ≤ fuel →
      ∃ fnT : Text, (fnT.take Lt.ct).map cstr = Ft ∧ Lt.ct ≤ fnT.length ∧
        body_loop lib hr none delimiters fuel
          { set := some { vector := none,
                          matrix := some { size1 := s1, size2 := cols, data := data },
                          weights := none, names := { column := cn, row := rn }, error := 0 },
            L := { ct := v, eof := false }, row := k, add_this_line := fn,
            infile := (lines.map Prod.fst).flatten ++ tail } =
        body_loop lib hr none delimiters (fuel - (lines.length + 1))
          { set := some { vector := none,
                          matrix := some
                            { size1 := k + lines.length + 1, size2 := cols,
                              data := rows ++
                                (((fn.take v).map cstr) :: lines.map Prod.snd).map
                                  (fun F => (F.drop hr).map (convert_field lib) ++
                                    List.replicate (cols - (F.length - hr)) lib.fresh) },
                          weights := none,
                          names := { column := cn,
                                     row := if hr ≠ 0 then
                                         rn ++ (((fn.take v).map cstr) :: lines.map Prod.snd).map
                                           (fun F => F.headD [])
                                       else rn },
                          error := 0 },
            L := Lt, row := k + lines.length + 1, add_this_line := fnT, infile := rt } := by
  induction lines with
  | nil =>
    intro v s1 k data rows rn fn fuel _ hv hle hk hrl hdata hfn hfuel
    obtain ⟨fuel, rfl⟩ : ∃ f, fuel = f + 1 := ⟨fuel - 1, by simp at hfuel; omega⟩
    obtain ⟨res, hres, hL, hF, hin⟩ := htail fn
    obtain ⟨hf1, hf2⟩ := fields_of_result _ _ _ _ hres
    refine ⟨res.fn, by rw [← hL, hf1, hF], by rw [← hL]; exact hf2, ?_⟩
    have hlen : ((fn.take v).map cstr).length = v := by
      rw [List.length_map, List.length_take]; omega
    simp only [List.map_nil, List.flatten_nil, List.nil_append, List.length_nil, Nat.zero_add,
      Nat.add_sub_cancel, Nat.add_zero, List.map_cons, hlen, headD_take_map_cstr fn v hv]
    rw [body_loop_store lib delimiters hr cols v hv hle s1 k data rows cn rn hk hrl hdata fn
      tail hfn res hres, hL, hin]
  | cons l ls ih =>
    intro v s1 k data rows rn fn fuel hlines hv hle hk hrl hdata hfn hfuel
    obtain ⟨fuel, rfl⟩ : ∃ f, fuel = f + 1 := ⟨fuel - 1, by simp at hfuel; omega⟩
    obtain ⟨hl1, hl2, hl3⟩ := hlines l (by simp)
    obtain ⟨res, hres, hL, hF, hin⟩ := hl3 ((ls.map Prod.fst).flatten ++ tail) fn
    obtain ⟨hf1, hf2⟩ := fields_of_result _ _ _ _ hres
    rw [hL] at hf1 hf2
    simp only at hf1 hf2
    rw [hF] at hf1
    have hlen : ((fn.take v).map cstr).length = v := by
      rw [List.length_map, List.length_take]; omega
    have hrl' : ∀ r ∈ rows ++ [(((fn.take v).map cstr).drop hr).map (convert_field lib) ++
        List.replicate (cols - (v - hr)) lib.fresh], r.length = cols := by
      intro r hmem
      simp only [List.mem_append, List.mem_singleton] at hmem
      rcases hmem with hmem | hmem
      · exact hrl r hmem
      · rw [hmem]
        simp only [List.length_append, List.length_map, List.length_drop, hlen,
          List.length_replicate]
        omega
    obtain ⟨fnT, h1, h2, h3⟩ := ih l.2.length (k + 1) (k + 1) _
      (rows ++ [(((fn.take v).map cstr).drop hr).map (convert_field lib) ++
        List.replicate (cols - (v - hr)) lib.fresh])
      (if hr ≠ 0 then rn ++ [cstr (fn.getD 0 [])] else rn) res.fn fuel
      (fun x hx => hlines x (by simp [hx])) hl1 hl2 (by simp [hk]) hrl' (Or.inl rfl) hf2
      (by simp at hfuel ⊢; omega)
    refine ⟨fnT, h1, h2, ?_⟩
    simp only [List.map_cons, List.flatten_cons, List.append_assoc]
    rw [body_loop_store lib delimiters hr cols v hv hle s1 k data rows cn rn hk hrl hdata fn
      _ hfn res hres, hL, hin, h3, hf1]
    have e1 : fuel + 1 - ((l :: ls).length + 1) = fuel - (ls.length + 1) := by
      simp only [List.length_cons]; omega
    have e2 : k + (l :: ls).length + 1 = k + 1 + ls.length + 1 := by
      simp only [List.length_cons]; omega
    rw [e1, e2]
    simp only [List.map_cons, hlen, List.append_assoc, List.singleton_append,
      headD_take_map_cstr fn v hv]
    by_cases hh : hr = 0
    · simp [hh]
    · simp [hh]

theorem hasrows_eq (has_row_names : Nat) :
    (if (if has_row_names = 1 ∨ has_row_names = 89 then 121 else has_row_names) = 121
      then 1 else 0) =
    (if has_row_names = 1 ∨ has_row_names = 89 ∨ has_row_names = 121 then 1 else 0) := by
  by_cases h1 : has_row_names = 1
  · simp [h1]
  · by_cases h2 : has_row_names = 89
    · simp [h2]
    · simp [h1, h2]

/-- The first pass of the body loop without a header line reads a line. -/
theorem body_loop_start {V : Type} (lib : NumLib V) (delimiters : List CChar) (hr : Nat)
    (inp : FILE) (res : LineResult) (hres : parse_a_line inp [] none delimiters = some res)
    (fuel : Nat) :
    body_loop lib hr none delimiters (fuel + 1)
        { set := none, L := { ct := 0, eof := false }, row := 0, add_this_line := [],
          infile := inp } =
      body_loop lib hr none delimiters fuel
        { set := none, L := res.L, row := 0, add_this_line := res.fn, infile := res.infile } := by
  conv_lhs => unfold body_loop
  simp only [Option.isNone_none, true_or, if_true, hres]

/-- The pass of the body loop that allocates the set goes on as if the set
had been allocated before. -/
theorem body_loop_first {V : Type} (lib : NumLib V) (delimiters : List CChar) (hr w : Nat)
    (hw : 1 ≤ w) (fn : Text) (inp : FILE) (fuel : Nat) :
    body_loop lib hr none delimiters (fuel + 1)
        { set := none, L := { ct := w, eof := false }, row := 0, add_this_line := fn,
          infile := inp } =
      body_loop lib hr none delimiters (fuel + 1)
        { set := some { vector := none,
                        matrix := some { size1 := 1, size2 := w - hr,
                                         data := [List.replicate (w - hr) lib.fresh] },
                        weights := none, names := { column := [], row := [] }, error := 0 },
          L := { ct := w, eof := false }, row := 0, add_this_line := fn, infile := inp } := by
  have hw0 : w ≠ 0 := by omega
  conv_lhs => unfold body_loop
  conv_rhs => unfold body_loop
  simp only [hw0, ne_eq, not_false_eq_true, and_self, or_true, if_true, if_false,
    apop_data_alloc, List.replicate_one]

/-- The call of `apop_text_to_data` without a header line, followed up to the
line that `tail` starts with: the lines before it, none wider than the first
one, are stored. -/
theorem apop_text_to_data_run {V : Type} (lib : NumLib V) (delimiters : List CChar)
    (has_row_names hasrows : Nat)
    (first : List CChar × List (List CChar)) (lines : List (List CChar × List (List CChar)))
    (tail : FILE) (Lt : line_parse_t) (Ft : List (List CChar)) (rt : FILE)
    (hrows : hasrows =
      if has_row_names = 1 ∨ has_row_names = 89 ∨ has_row_names = 121 then 1 else 0)
    (hfirst : 1 ≤ first.2.length ∧ ∀ rest fn, ∃ res,
      parse_a_line (first.1 ++ rest) fn none delimiters = some res ∧
        res.L = { ct := first.2.length, eof := false } ∧ res.fields = first.2 ∧
        res.infile = rest)
    (hlines : ∀ l ∈ lines, 1 ≤ l.2.length ∧ l.2.length ≤ first.2.length ∧ ∀ rest fn, ∃ res,
      parse_a_line (l.1 ++ rest) fn none delimiters = some res ∧
        res.L = { ct := l.2.length, eof := false } ∧ res.fields = l.2 ∧ res.infile = rest)
    (htail : ∀ fn, ∃ res, parse_a_line tail fn none delimiters = some res ∧
      res.L = Lt ∧ res.fields = Ft ∧ res.infile = rt)
    (hfuel : lines.length + 1 ≤ (first.1 ++ ((lines.map Prod.fst).flatten ++ tail)).length) :
    ∃ (fnT : Text) (fuel : Nat), (fnT.take Lt.ct).map cstr = Ft ∧ Lt.ct ≤ fnT.length ∧
      apop_text_to_data lib (some (first.1 ++ ((lines.map Prod.fst).flatten ++ tail)))
          has_row_names 110 none delimiters =
        body_loop lib hasrows none delimiters (fuel + 1)
          { set := some { vector := none,
                          matrix := some
                            { size1 := lines.length + 1, size2 := first.2.length - hasrows,
                              data := (first.2 :: lines.map Prod.snd).map
                                (fun F => (F.drop hasrows).map (convert_field lib) ++
                                  List.replicate
                                    (first.2.length - hasrows - (F.length - hasrows))
                                    lib.fresh) },
                          weights := none,
                          names := { column := [],
                                     row := if hasrows ≠ 0 then
                                         (first.2 :: lines.map Prod.snd).map
                                           (fun F => F.headD [])
                                       else [] },
                          error := 0 },
            L := Lt, row := lines.length + 1, add_this_line := fnT, infile := rt } := by
  obtain ⟨hw, hparse⟩ := hfirst
  obtain ⟨res, hres, hL, hF, hin⟩ := hparse ((lines.map Prod.fst).flatten ++ tail) []
  obtain ⟨hf1, hf2⟩ := fields_of_result _ _ _ _ hres
  rw [hL] at hf1 hf2
  simp only at hf1 hf2
  rw [hF] at hf1
  obtain ⟨fuel, hfuel2⟩ : ∃ f, (first.1 ++ ((lines.map Prod.fst).flatten ++ tail)).length + 2 =
      (f + 1 + lines.length) + 1 + 1 :=
    ⟨(first.1 ++ ((lines.map Prod.fst).flatten ++ tail)).length - (lines.length + 1), by omega⟩
  have hlines' : ∀ l ∈ lines, 1 ≤ l.2.length ∧
      l.2.length - hasrows ≤ first.2.length - hasrows ∧ ∀ rest fn, ∃ res,
      parse_a_line (l.1 ++ rest) fn none delimiters = some res ∧
        res.L = { ct := l.2.length, eof := false } ∧ res.fields = l.2 ∧ res.infile = rest :=
    fun l hl => ⟨(hlines l hl).1, by have := (hlines l hl).2.1; omega, (hlines l hl).2.2⟩
  obtain ⟨fnT, h1, h2, h3⟩ := body_loop_run lib delimiters hasrows (first.2.length - hasrows)
    lines tail Lt Ft rt htail [] first.2.length 1 0
    [List.replicate (first.2.length - hasrows) lib.fresh] [] [] res.fn
    ((fuel + 1 + lines.length) + 1) hlines' hw (Nat.le_refl _) rfl (by simp)
    (Or.inr (by simp)) hf2 (by omega)
  have e1 : (fuel + 1 + lines.length) + 1 - (lines.length + 1) = fuel + 1 := by omega
  rw [e1] at h3
  refine ⟨fnT, fuel, h1, h2, ?_⟩
  rw [apop_text_to_data_no_header, hasrows_eq, ← hrows, hfuel2,
    body_loop_start lib delimiters hasrows _ res hres, hL, hin,
    body_loop_first lib delimiters hasrows first.2.length hw, h3, hf1]
  simp only [Nat.zero_add, List.nil_append]

/-- A line that is read with its newline, whatever follows it, has a byte. -/
theorem line_nonempty (delimiters : List CChar) (l : List CChar) (c : Nat)
    (F : List (List CChar))
    (h : ∀ rest fn, ∃ res, parse_a_line (l ++ rest) fn none delimiters = some res ∧
      res.L = { ct := c, eof := false } ∧ res.fields = F ∧ res.infile = rest) : l ≠ [] := by
  intro hnil
  obtain ⟨res, hres, hL, _, _⟩ := h [] []
  rw [hnil, List.append_nil] at hres
  by_cases h255 : 255 ∈ delimiters
  · have hd := char_type_delimiter delimiters 255 h255 (by decide) (by decide) (by decide)
    have hn := parse_loop_nil_none delimiters hd (([] : FILE).length + 1) (PState.init [])
    simp only [parse_a_line, hn] at hres
    cases hres
  · obtain ⟨res0, hres0, hL0, _⟩ := parse_a_line_nil [] delimiters h255
    rw [hres0] at hres
    cases hres
    rw [hL0] at hL
    simp at hL

theorem lines_fuel (delimiters : List CChar) (first : List CChar × List (List CChar))
    (lines : List (List CChar × List (List CChar))) (tail : FILE)
    (hfirst : ∀ rest fn, ∃ res,
      parse_a_line (first.1 ++ rest) fn none delimiters = some res ∧
        res.L = { ct := first.2.length, eof := false } ∧ res.fields = first.2 ∧
        res.infile = rest)
    (hlines : ∀ l ∈ lines, ∀ rest fn, ∃ res,
      parse_a_line (l.1 ++ rest) fn none delimiters = some res ∧
        res.L = { ct := l.2.length, eof := false } ∧ res.fields = l.2 ∧ res.infile = rest) :
    lines.length + 1 ≤ (first.1 ++ ((lines.map Prod.fst).flatten ++ tail)).length := by
  have h1 := line_nonempty delimiters first.1 _ _ hfirst
  have h2 := flatten_length_ge lines
    (fun l hl => line_nonempty delimiters l.1 _ _ (hlines l hl))
  have h3 : 1 ≤ first.1.length := by
    cases hf : first.1 with
    | nil => exact absurd hf h1
    | cons x xs => simp
  simp only [List.length_append]
  omega

theorem hasrows_le_one (has_row_names hasrows : Nat)
    (hrows : hasrows =
      if has_row_names = 1 ∨ has_row_names = 89 ∨ has_row_names = 121 then 1 else 0) :
    hasrows = 0 ∨ hasrows = 1 := by
  rw [hrows]
  split
  · exact Or.inr rfl
  · exact Or.inl rfl

theorem row_length {V : Type} (lib : NumLib V) (hr cols : Nat) (F : List (List CChar))
    (h : F.length - hr ≤ cols) :
    ((F.drop hr).map (convert_field lib) ++
      List.replicate (cols - (F.length - hr)) lib.fresh).length = cols := by
  simp only [List.length_append, List.length_map, List.length_drop, List.length_replicate]
  omega

/-- Without a header line: lines none of which is wider than the first one,
up to the end of the input, are all stored, without an error. -/
theorem apop_text_to_data_stores {V : Type} (lib : NumLib V) (delimiters : List CChar)
    (has_row_names hasrows : Nat)
    (first : List CChar × List (List CChar)) (lines : List (List CChar × List (List CChar)))
    (hrows : hasrows =
      if has_row_names = 1 ∨ has_row_names = 89 ∨ has_row_names = 121 then 1 else 0)
    (h255 : 255 ∉ delimiters)
    (hfirst : 1 ≤ first.2.length ∧ ∀ rest fn, ∃ res,
      parse_a_line (first.1 ++ rest) fn none delimiters = some res ∧
        res.L = { ct := first.2.length, eof := false } ∧ res.fields = first.2 ∧
        res.infile = rest)
    (hlines : ∀ l ∈ lines, 1 ≤ l.2.length ∧ l.2.length ≤ first.2.length ∧ ∀ rest fn, ∃ res,
      parse_a_line (l.1 ++ rest) fn none delimiters = some res ∧
        res.L = { ct := l.2.length, eof := false } ∧ res.fields = l.2 ∧ res.infile = rest) :
    apop_text_to_data lib (some (first.1 ++ (lines.map Prod.fst).flatten))
        has_row_names 110 none delimiters =
      some { vector := none,
             matrix := some
               { size1 := lines.length + 1, size2 := first.2.length - hasrows,
                 data := (first.2 :: lines.map Prod.snd).map
                   (fun F => (F.drop hasrows).map (convert_field lib) ++
                     List.replicate (first.2.length - hasrows - (F.length - hasrows))
                       lib.fresh) },
             weights := none,
             names := { column := [],
                        row := if hasrows ≠ 0 then
                            (first.2 :: lines.map Prod.snd).map (fun F => F.headD [])
                          else [] },
             error := 0 } := by
  have htail : ∀ fn, ∃ res, parse_a_line [] fn none delimiters = some res ∧
      res.L = { ct := 0, eof := true } ∧ res.fields = [] ∧ res.infile = [] := by
    intro fn
    obtain ⟨res, h1, h2, h3, h4⟩ := obs_of_aparse [] fn delimiters _
      (aparse_blank_eof delimiters [] h255 (by simp))
    exact ⟨res, h1, h3, h2, h4⟩
  have hfuel := lines_fuel delimiters first lines [] hfirst.2 (fun l hl => (hlines l hl).2.2)
  obtain ⟨fnT, fuel, _, _, h⟩ := apop_text_to_data_run lib delimiters has_row_names hasrows
    first lines [] _ _ _ hrows hfirst hlines htail hfuel
  rw [List.append_nil] at h
  rw [h, body_loop_end]

/-- Without a header line: when a line that is wider than the first one comes
after lines that are not, the loop stops with the error `'t'`; the row for the
wide line is allocated and not written, and with row names its name is
added. -/
theorem apop_text_to_data_stops_wide {V : Type} (lib : NumLib V) (delimiters : List CChar)
    (has_row_names hasrows : Nat)
    (first : List CChar × List (List CChar)) (lines : List (List CChar × List (List CChar)))
    (wide : List CChar × List (List CChar)) (rest : FILE)
    (hrows : hasrows =
      if has_row_names = 1 ∨ has_row_names = 89 ∨ has_row_names = 121 then 1 else 0)
    (hfirst : 1 ≤ first.2.length ∧ ∀ rest fn, ∃ res,
      parse_a_line (first.1 ++ rest) fn none delimiters = some res ∧
        res.L = { ct := first.2.length, eof := false } ∧ res.fields = first.2 ∧
        res.infile = rest)
    (hlines : ∀ l ∈ lines, 1 ≤ l.2.length ∧ l.2.length ≤ first.2.length ∧ ∀ rest fn, ∃ res,
      parse_a_line (l.1 ++ rest) fn none delimiters = some res ∧
        res.L = { ct := l.2.length, eof := false } ∧ res.fields = l.2 ∧ res.infile = rest)
    (hwide : first.2.length < wide.2.length ∧ ∀ rest fn, ∃ res,
      parse_a_line (wide.1 ++ rest) fn none delimiters = some res ∧
        res.L = { ct := wide.2.length, eof := false } ∧ res.fields = wide.2 ∧
        res.infile = rest) :
    apop_text_to_data lib
        (some (first.1 ++ ((lines.map Prod.fst).flatten ++ (wide.1 ++ rest))))
        has_row_names 110 none delimiters =
      some { vector := none,
             matrix := some
               { size1 := lines.length + 2, size2 := first.2.length - hasrows,
                 data := (first.2 :: lines.map Prod.snd).map
                     (fun F => (F.drop hasrows).map (convert_field lib) ++
                       List.replicate (first.2.length - hasrows - (F.length - hasrows))
                         lib.fresh) ++
                   [List.replicate (first.2.length - hasrows) lib.fresh] },
             weights := none,
             names := { column := [],
                        row := if hasrows ≠ 0 then
                            (first.2 :: lines.map Prod.snd).map (fun F => F.headD []) ++
                              [wide.2.headD []]
                          else [] },
             error := 116 } := by
  have hfuel := lines_fuel delimiters first lines (wide.1 ++ rest) hfirst.2
    (fun l hl => (hlines l hl).2.2)
  obtain ⟨fnT, fuel, h1, h2, h⟩ := apop_text_to_data_run lib delimiters has_row_names hasrows
    first lines (wide.1 ++ rest) _ _ _ hrows hfirst hlines (hwide.2 rest) hfuel
  simp only at h1 h2
  have hhr := hasrows_le_one has_row_names hasrows hrows
  have hw1 : 1 ≤ wide.2.length := by have := hfirst.1; omega
  have hrl : ∀ r ∈ (first.2 :: lines.map Prod.snd).map
      (fun F => (F.drop hasrows).map (convert_field lib) ++
        List.replicate (first.2.length - hasrows - (F.length - hasrows)) lib.fresh),
      r.length = first.2.length - hasrows := by
    intro r hr
    rw [List.mem_map] at hr
    obtain ⟨F, hF, rfl⟩ := hr
    apply row_length
    rw [List.mem_cons] at hF
    rcases hF with hF | hF
    · rw [hF]
    · rw [List.mem_map] at hF
      obtain ⟨l, hl, rfl⟩ := hF
      have := (hlines l hl).2.1
      omega
  rw [h, body_loop_too_wide lib delimiters hasrows (first.2.length - hasrows) wide.2.length
    (by have := hwide.1; have := hfirst.1; omega) _ (lines.length + 1) _ _ [] _
    (by simp) hrl (Or.inl rfl)]
  have hhead : cstr (fnT.getD 0 []) = wide.2.headD [] := by
    rw [← headD_take_map_cstr fnT wide.2.length hw1, h1]
  rw [hhead]
  by_cases hh : hasrows = 0
  · simp [hh]
  · simp [hh]

/-! # The claims on the fixed-width tokenizer -/

/-- C14: `parse_a_fixed_line` cuts a line at the field ends.  For every
strictly increasing list of field ends `e_1 < ... < e_k` with `e_1 ≥ 1` and
every line of exactly `e_k` bytes, none of them a newline or the end-of-input
byte, the call returns the count `k`, and the first `k` cells of the row
buffer hold, each followed by its terminator, `k` pieces of the lengths
`e_1, e_2 - e_1, ..., e_k - e_(k-1)` whose concatenation is the line: quotes,
backslashes, `#` and delimiters are copied like any other byte.  This holds
for a line ended by a newline and for a line ended by the end of the input,
whatever the row buffer held before and whatever lies behind the array of
field ends; the C strings of the cells are these pieces when the line has no
NUL byte. -/
theorem parse_a_fixed_line_cuts_at_field_ends (behind : Nat → Int) (ends : List Nat)
    (line : List CChar) (rest : FILE) (fn : Text)
    (hends : List.Chain (fun a b => a < b) 0 ends) (hlen : line.length = ends.getLastD 0)
    (hline : ∀ c ∈ line, c ≠ 10 ∧ c ≠ EOF) :
    ∃ fields : List (List CChar),
      fields.map List.length = List.zipWith (fun a b => a - b) ends (0 :: ends) ∧
      fields.flatten = line ∧
      ((parse_a_fixed_line (line ++ 10 :: rest) fn { ends := ends, behind := behind }).L =
          { ct := ends.length, eof := false } ∧
        (parse_a_fixed_line (line ++ 10 :: rest) fn { ends := ends, behind := behind }).infile =
          rest ∧
        (parse_a_fixed_line (line ++ 10 :: rest) fn
            { ends := ends, behind := behind }).fn.take ends.length =
          fields.map (fun f => f ++ [0]) ∧
        ((∀ c ∈ line, c ≠ 0) →
          (parse_a_fixed_line (line ++ 10 :: rest) fn
            { ends := ends, behind := behind }).fields = fields)) ∧
      ((parse_a_fixed_line line fn { ends := ends, behind := behind }).L =
          { ct := ends.length, eof := true } ∧
        (parse_a_fixed_line line fn { ends := ends, behind := behind }).infile = [] ∧
        (parse_a_fixed_line line fn { ends := ends, behind := behind }).fn.take ends.length =
          fields.map (fun f => f ++ [0]) ∧
        ((∀ c ∈ line, c ≠ 0) →
          (parse_a_fixed_line line fn { ends := ends, behind := behind }).fields = fields)) := by
  have hcstr : (∀ c ∈ line, c ≠ 0) →
      ((field_cuts 0 ends line).map (fun f => f ++ [0])).map cstr = field_cuts 0 ends line :=
    fun h0 => map_cstr_terminated _ (fun f hf c hc => h0 c (mem_field_cuts ends 0 line f hf c hc))
  refine ⟨field_cuts 0 ends line, field_cuts_lengths ends 0 line hends (by simpa using hlen),
    field_cuts_flatten ends 0 line hends (by simpa using hlen), ?_, ?_⟩
  · obtain ⟨h1, h2, h3⟩ := parse_a_fixed_line_at_ends behind ends line fn (10 :: rest) 10 rest
      hends hlen hline (fun st => fixed_loop_newline behind st rest)
    refine ⟨h1, h2, h3, fun h0 => ?_⟩
    rw [LineResult.fields, h1, h3]
    exact hcstr h0
  · obtain ⟨h1, h2, h3⟩ := parse_a_fixed_line_at_ends behind ends line fn [] EOF [] hends
      hlen hline (fun st => fixed_loop_nil behind st)
    rw [List.append_nil] at h1 h2 h3
    refine ⟨h1, h2, h3, fun h0 => ?_⟩
    rw [LineResult.fields, h1, h3]
    exact hcstr h0

/-- Witness for C14: the lines `123AABB` and `456CCDD` with the field ends
`{3,5,7}`; the second line is read into the row buffer that the first one
left.  Each gives three fields of lengths 3, 2 and 2. -/
theorem parse_a_fixed_line_cuts_at_field_ends_witness :
    List.Chain (fun a b => a < b) 0 [3, 5, 7] ∧
    (∃ fields : List (List CChar),
      fields.map List.length = [3, 2, 2] ∧
      fields.flatten = [49, 50, 51, 65, 65, 66, 66] ∧
      ((parse_a_fixed_line ([49, 50, 51, 65, 65, 66, 66] ++ 10 :: [52, 53, 54, 67, 67, 68, 68, 10])
            [] { ends := [3, 5, 7], behind := fun _ => 0 }).L = { ct := 3, eof := false } ∧
        (parse_a_fixed_line ([49, 50, 51, 65, 65, 66, 66] ++ 10 :: [52, 53, 54, 67, 67, 68, 68, 10])
            [] { ends := [3, 5, 7], behind := fun _ => 0 }).infile =
          [52, 53, 54, 67, 67, 68, 68, 10] ∧
        (parse_a_fixed_line ([49, 50, 51, 65, 65, 66, 66] ++ 10 :: [52, 53, 54, 67, 67, 68, 68, 10])
            [] { ends := [3, 5, 7], behind := fun _ => 0 }).fn.take 3 =
          fields.map (fun f => f ++ [0]) ∧
        ((∀ c ∈ [49, 50, 51, 65, 65, 66, 66], c ≠ 0) →
          (parse_a_fixed_line
            ([49, 50, 51, 65, 65, 66, 66] ++ 10 :: [52, 53, 54, 67, 67, 68, 68, 10])
            [] { ends := [3, 5, 7], behind := fun _ => 0 }).fields = fields)) ∧
      ((parse_a_fixed_line [49, 50, 51, 65, 65, 66, 66] []
            { ends := [3, 5, 7], behind := fun _ => 0 }).L =
          { ct := 3, eof := true } ∧
        (parse_a_fixed_line [49, 50, 51, 65, 65, 66, 66] []
            { ends := [3, 5, 7], behind := fun _ => 0 }).infile = [] ∧
        (parse_a_fixed_line [49, 50, 51, 65, 65, 66, 66] []
            { ends := [3, 5, 7], behind := fun _ => 0 }).fn.take 3 =
          fields.map (fun f => f ++ [0]) ∧
        ((∀ c ∈ [49, 50, 51, 65, 65, 66, 66], c ≠ 0) →
          (parse_a_fixed_line [49, 50, 51, 65, 65, 66, 66] []
            { ends := [3, 5, 7], behind := fun _ => 0 }).fields = fields))) ∧
    (parse_a_fixed_line [49, 50, 51, 65, 65, 66, 66, 10, 52, 53, 54, 67, 67, 68, 68, 10]
        [] { ends := [3, 5, 7], behind := fun _ => 0 }).fields =
      [[49, 50, 51], [65, 65], [66, 66]] ∧
    (parse_a_fixed_line [52, 53, 54, 67, 67, 68, 68, 10]
        [[49, 50, 51, 0], [65, 65, 0], [66, 66, 0]]
        { ends := [3, 5, 7], behind := fun _ => 0 }).fields =
      [[52, 53, 54], [67, 67], [68, 68]] :=
  ⟨by simp,
    parse_a_fixed_line_cuts_at_field_ends (fun _ => 0) [3, 5, 7] [49, 50, 51, 65, 65, 66, 66]
      [52, 53, 54, 67, 67, 68, 68, 10] [] (by simp) (by decide) (by decide),
    by decide, by decide⟩

/-- C15 (refuted): for every strictly increasing list of `k` field ends with
`e_1 ≥ 1` and every line that goes on behind the last end `e_k`, the first
byte behind `e_k` opens field `k + 1`, and for every byte behind `e_k` the
position is compared with a value read behind the array of field ends.
Whatever these reads yield, the result has at least `k + 1` fields, never `k`,
and the first `k` cells hold the pieces cut at the ends.  When the value read
behind the array is none of the positions behind `e_k`, the result has exactly
`k + 1` fields and the last holds all the bytes behind `e_k`; other values cut
these bytes into more fields. -/
theorem parse_a_fixed_line_reads_behind_field_ends (behind : Nat → Int) (ends : List Nat)
    (line extra : List CChar) (rest : FILE) (fn : Text)
    (hends : List.Chain (fun a b => a < b) 0 ends) (hlen : line.length = ends.getLastD 0)
    (hbytes : ∀ c ∈ line ++ extra, c ≠ 10 ∧ c ≠ EOF) (hextra : extra ≠ []) :
    ∃ fields : List (List CChar),
      fields.map List.length = List.zipWith (fun a b => a - b) ends (0 :: ends) ∧
      fields.flatten = line ∧
      ends.length + 1 ≤
        (parse_a_fixed_line (line ++ extra ++ 10 :: rest) fn
          { ends := ends, behind := behind }).L.ct ∧
      (parse_a_fixed_line (line ++ extra ++ 10 :: rest) fn
          { ends := ends, behind := behind }).L.eof = false ∧
      (parse_a_fixed_line (line ++ extra ++ 10 :: rest) fn
          { ends := ends, behind := behind }).infile = rest ∧
      (parse_a_fixed_line (line ++ extra ++ 10 :: rest) fn
          { ends := ends, behind := behind }).fn.take ends.length =
        fields.map (fun f => f ++ [0]) ∧
      ((∀ p, ends.getLastD 0 < p → p ≤ ends.getLastD 0 + extra.length →
          behind 0 ≠ (p : Int)) →
        (parse_a_fixed_line (line ++ extra ++ 10 :: rest) fn
            { ends := ends, behind := behind }).L.ct = ends.length + 1 ∧
        (parse_a_fixed_line (line ++ extra ++ 10 :: rest) fn
            { ends := ends, behind := behind }).fn.take (ends.length + 1) =
          (fields ++ [extra]).map (fun f => f ++ [0]) ∧
        ((∀ c ∈ line ++ extra, c ≠ 0) →
          (parse_a_fixed_line (line ++ extra ++ 10 :: rest) fn
            { ends := ends, behind := behind }).fields = fields ++ [extra])) := by
  refine ⟨field_cuts 0 ends line, field_cuts_lengths ends 0 line hends (by simpa using hlen),
    field_cuts_flatten ends 0 line hends (by simpa using hlen), ?_⟩
  obtain ⟨fn1, h1, h2, h3⟩ := fixed_loop_fields behind 0 ends 0 line fn 0 (extra ++ 10 :: rest)
    hends (by simpa using hlen) (fun y hy => hbytes y (by simp [hy])) (Nat.zero_le _)
  simp only [Nat.zero_add, List.take_zero, List.nil_append] at h1 h2 h3
  obtain ⟨st', g1, _, _, g4, g5, g6⟩ := fixed_loop_behind behind ends.length extra (10 :: rest)
    10 rest (fun st => fixed_loop_newline behind st rest)
    { fn := fn1, ct := ends.length, posn := ends.getLastD 0, thisflen := 0, needfield := true,
      field_ends := [], past := 0 }
    (fun y hy => hbytes y (List.mem_append_right _ hy)) (Nat.le_refl _)
    (fun h => absurd h (by simp)) h2
  have hk := g4 hextra
  have hres : parse_a_fixed_line (line ++ extra ++ 10 :: rest) fn
      { ends := ends, behind := behind } =
      { L := { ct := st'.ct, eof := false },
        fn := if st'.needfield = false
          then text_poke (text_realloc st'.fn (st'.ct - 1) (st'.thisflen + 1)) (st'.ct - 1)
            st'.thisflen 0
          else st'.fn,
        infile := rest } := by
    unfold parse_a_fixed_line
    simp only []
    rw [List.append_assoc, h3, g1]
    simp [EOF]
  refine ⟨by rw [hres]; exact hk, by rw [hres], by rw [hres], ?_, fun hno => ?_⟩
  · rw [hres]
    simp only []
    split
    · unfold text_poke text_realloc
      rw [take_set_behind _ _ _ _ (by omega), take_set_behind _ _ _ _ (by omega), g6, h1]
    · rw [g6, h1]
  · obtain ⟨f1, _, f3⟩ := parse_a_fixed_line_beyond_ends behind ends line extra fn (10 :: rest)
      10 rest hends hlen hbytes hextra hno (fun st => fixed_loop_newline behind st rest)
    refine ⟨by rw [f1], by rw [f3]; simp, fun h0 => ?_⟩
    rw [LineResult.fields, f1, f3]
    have := map_cstr_terminated (field_cuts 0 ends line ++ [extra]) (by
      intro f hf c hc
      rw [List.mem_append, List.mem_singleton] at hf
      rcases hf with hf | hf
      · exact h0 c (List.mem_append_left _ (mem_field_cuts ends 0 line f hf c hc))
      · subst hf; exact h0 c (List.mem_append_right _ hc))
    simpa using this

/-- Witness for C15, at the failing input: the line `abcde` with the one field
end `3`.  When the reads behind the array yield 4 the result has at least two
fields and the first is `abc`, as for every other value; the fields are `abc`,
`d` and `e` then, and `abc` and `de` when the reads yield 0. -/
theorem parse_a_fixed_line_reads_behind_field_ends_witness :
    List.Chain (fun a b => a < b) 0 [3] ∧
    (∃ fields : List (List CChar),
      fields.map List.length = [3] ∧
      fields.flatten = [97, 98, 99] ∧
      1 + 1 ≤ (parse_a_fixed_line ([97, 98, 99] ++ [100, 101] ++ 10 :: []) []
          { ends := [3], behind := fun _ => 4 }).L.ct ∧
      (parse_a_fixed_line ([97, 98, 99] ++ [100, 101] ++ 10 :: []) []
          { ends := [3], behind := fun _ => 4 }).fn.take 1 = fields.map (fun f => f ++ [0])) ∧
    (parse_a_fixed_line [97, 98, 99, 100, 101, 10] []
        { ends := [3], behind := fun _ => 0 }).obs =
      ([[97, 98, 99], [100, 101]], { ct := 2, eof := false }, []) ∧
    (parse_a_fixed_line [97, 98, 99, 100, 101, 10] []
        { ends := [3], behind := fun _ => 4 }).obs =
      ([[97, 98, 99], [100], [101]], { ct := 3, eof := false }, []) := by
  refine ⟨by simp, ?_, by decide, by decide⟩
  obtain ⟨fields, h1, h2, h3, _, _, h6, _⟩ :=
    parse_a_fixed_line_reads_behind_field_ends (fun _ => 4) [3] [97, 98, 99] [100, 101] [] []
      (by simp) (by decide) (by decide) (by decide)
  exact ⟨fields, h1, h2, h3, h6⟩

/-! # The claims on the rows of `apop_text_to_data` -/

theorem pad_none {V : Type} (lib : NumLib V) (hr w : Nat) (Fs : List (List (List CChar)))
    (h : ∀ F ∈ Fs, F.length = w) :
    Fs.map (fun F => (F.drop hr).map (convert_field lib) ++
      List.replicate (w - hr - (F.length - hr)) lib.fresh) =
    Fs.map (fun F => (F.drop hr).map (convert_field lib)) := by
  apply List.map_congr_left
  intro F hF
  rw [h F hF]
  simp

/-- C11 (what the code does): `apop_text_to_data` with `has_col_names = 'n'`
on `n ≥ 1` lines of `w` fields each, at least one of them after the row name,
followed by a line with more than `w` fields and by anything else.  The set
returned has the error tag `'t'`, but its matrix has `n + 1` rows and not
`n`: the `n` rows stored before, and one more row, allocated for the
offending line and never written.  With row names the name of the offending
line has been added as well. -/
theorem apop_text_to_data_too_wide_row {V : Type} (lib : NumLib V)
    (delimiters : List CChar) (has_row_names hasrows : Nat)
    (first : List CChar × List (List CChar)) (lines : List (List CChar × List (List CChar)))
    (wide : List CChar × List (List CChar)) (rest : FILE)
    (hrows : hasrows =
      if has_row_names = 1 ∨ has_row_names = 89 ∨ has_row_names = 121 then 1 else 0)
    (hfirst : hasrows < first.2.length ∧ ∀ rest fn,
      (parse_a_line (first.1 ++ rest) fn none delimiters).map LineResult.obs =
        some (first.2, { ct := first.2.length, eof := false }, rest))
    (hlines : ∀ l ∈ lines, l.2.length = first.2.length ∧ ∀ rest fn,
      (parse_a_line (l.1 ++ rest) fn none delimiters).map LineResult.obs =
        some (l.2, { ct := l.2.length, eof := false }, rest))
    (hwide : first.2.length < wide.2.length ∧ ∀ rest fn,
      (parse_a_line (wide.1 ++ rest) fn none delimiters).map LineResult.obs =
        some (wide.2, { ct := wide.2.length, eof := false }, rest)) :
    apop_text_to_data lib
        (some (first.1 ++ ((lines.map Prod.fst).flatten ++ (wide.1 ++ rest))))
        has_row_names 110 none delimiters =
      some { vector := none,
             matrix := some
               { size1 := lines.length + 2, size2 := first.2.length - hasrows,
                 data := (first.2 :: lines.map Prod.snd).map
                     (fun F => (F.drop hasrows).map (convert_field lib)) ++
                   [List.replicate (first.2.length - hasrows) lib.fresh] },
             weights := none,
             names := { column := [],
                        row := if hasrows ≠ 0 then
                            (first.2 :: lines.map Prod.snd).map (fun F => F.headD []) ++
                              [wide.2.headD []]
                          else [] },
             error := 116 } := by
  have h := apop_text_to_data_stops_wide lib delimiters has_row_names hasrows first lines wide
    rest hrows ⟨Nat.lt_of_le_of_lt (Nat.zero_le _) hfirst.1, fun r fn => obs_eq_some _ _ (hfirst.2 r fn)⟩
    (fun l hl => ⟨by rw [(hlines l hl).1]; exact Nat.lt_of_le_of_lt (Nat.zero_le _) hfirst.1,
      Nat.le_of_eq (hlines l hl).1,
      fun r fn => obs_eq_some _ _ ((hlines l hl).2 r fn)⟩)
    ⟨hwide.1, fun r fn => obs_eq_some _ _ (hwide.2 r fn)⟩
  rw [h, pad_none lib hasrows first.2.length (first.2 :: lines.map Prod.snd)]
  intro F hF
  rw [List.mem_cons] at hF
  rcases hF with hF | hF
  · rw [hF]
  · rw [List.mem_map] at hF
    obtain ⟨l, hl, rfl⟩ := hF
    exact (hlines l hl).1

/-- Witness for C11: the line `1,2` followed by the line `3,4,5`, with the
default delimiters and no row names.  The table returned has two rows, the
second one not written (`some 170` stands for a cell that was never set). -/
theorem apop_text_to_data_too_wide_row_witness :
    apop_text_to_data digits_lib (some [49, 44, 50, 10, 51, 44, 52, 44, 53, 10])
        110 110 none default_delimiters =
      some { vector := none,
             matrix := some { size1 := 2, size2 := 2,
                              data := [[some 1, some 2], [some 170, some 170]] },
             weights := none, names := { column := [], row := [] }, error := 116 } :=
  apop_text_to_data_too_wide_row digits_lib default_delimiters 110 0
    ([49, 44, 50, 10], [[49], [50]]) [] ([51, 44, 52, 44, 53, 10], [[51], [52], [53]]) []
    (by decide)
    ⟨by decide, fun rest fn => (parse_a_line_obs _ fn _).trans (by
      simp [aparse, aloop, aiter, read_step, parse_next_char, fgetc, char_type, strchr,
        default_delimiters, afield_step, afield_fill, aopen, aclose, aextend, AState.init,
        cstr, EOF])⟩
    (by simp)
    ⟨by decide, fun rest fn => (parse_a_line_obs _ fn _).trans (by
      simp [aparse, aloop, aiter, read_step, parse_next_char, fgetc, char_type, strchr,
        default_delimiters, afield_step, afield_fill, aopen, aclose, aextend, AState.init,
        cstr, EOF])⟩

/-- C12 (refuted): the width test of `apop_text_to_data` does not stop at a
data line with fewer fields than the table width.  With `has_col_names = 'n'`
on a first line of `w` fields, at least one of them after the row name,
followed, up to the end of the input, by lines of at least one and at most `w`
fields each: the error tag stays 0 and every line gets a row, in input order;
the row of a narrow line holds the conversions of its fields (after the row
name) in its first cells, and its other cells are never written by the
loop. -/
theorem apop_text_to_data_narrow_row_stored {V : Type} (lib : NumLib V)
    (delimiters : List CChar) (has_row_names hasrows : Nat)
    (first : List CChar × List (List CChar)) (lines : List (List CChar × List (List CChar)))
    (hrows : hasrows =
      if has_row_names = 1 ∨ has_row_names = 89 ∨ has_row_names = 121 then 1 else 0)
    (h255 : 255 ∉ delimiters)
    (hfirst : hasrows < first.2.length ∧ ∀ rest fn,
      (parse_a_line (first.1 ++ rest) fn none delimiters).map LineResult.obs =
        some (first.2, { ct := first.2.length, eof := false }, rest))
    (hlines : ∀ l ∈ lines, 1 ≤ l.2.length ∧ l.2.length ≤ first.2.length ∧ ∀ rest fn,
      (parse_a_line (l.1 ++ rest) fn none delimiters).map LineResult.obs =
        some (l.2, { ct := l.2.length, eof := false }, rest)) :
    apop_text_to_data lib (some (first.1 ++ (lines.map Prod.fst).flatten))
        has_row_names 110 none delimiters =
      some { vector := none,
             matrix := some
               { size1 := lines.length + 1, size2 := first.2.length - hasrows,
                 data := (first.2 :: lines.map Prod.snd).map
                   (fun F => (F.drop hasrows).map
                       (fun s =>
                         if s.length ≠ 0 ∧ (lib.strtod s).2 ≠ 0
                         then (lib.strtod s).1 else lib.GSL_NAN) ++
                     List.replicate (first.2.length - F.length) lib.fresh) },
             weights := none,
             names := { column := [],
                        row := if hasrows ≠ 0 then
                            (first.2 :: lines.map Prod.snd).map (fun F => F.headD [])
                          else [] },
             error := 0 } := by
  rw [← convert_field_eq lib]
  have h := apop_text_to_data_stores lib delimiters has_row_names hasrows first lines hrows h255
    ⟨Nat.lt_of_le_of_lt (Nat.zero_le _) hfirst.1, fun r fn => obs_eq_some _ _ (hfirst.2 r fn)⟩
    (fun l hl => ⟨(hlines l hl).1, (hlines l hl).2.1,
      fun r fn => obs_eq_some _ _ ((hlines l hl).2.2 r fn)⟩)
  have hhr := hasrows_le_one has_row_names hasrows hrows
  rw [h]
  congr 4
  apply List.map_congr_left
  intro F hF
  have hF1 : 1 ≤ F.length := by
    rw [List.mem_cons] at hF
    rcases hF with hF | hF
    · rw [hF]; exact Nat.lt_of_le_of_lt (Nat.zero_le _) hfirst.1
    · rw [List.mem_map] at hF
      obtain ⟨l, hl, rfl⟩ := hF
      exact (hlines l hl).1
  have e : first.2.length - hasrows - (F.length - hasrows) = first.2.length - F.length := by
    omega
  rw [e]

/-- Witness for C12, at the failing input: the lines `1,2`, `3` and `5,6` with
the default delimiters and no row names give a table of three rows with error
tag 0; the second cell of the second row is not written (`some 170` stands for
a cell that was never written). -/
theorem apop_text_to_data_narrow_row_stored_witness :
    apop_text_to_data digits_lib (some [49, 44, 50, 10, 51, 10, 53, 44, 54, 10])
        110 110 none default_delimiters =
      some { vector := none,
             matrix := some { size1 := 3, size2 := 2,
                              data := [[some 1, some 2], [some 3, some 170],
                                       [some 5, some 6]] },
             weights := none, names := { column := [], row := [] }, error := 0 } :=
  apop_text_to_data_narrow_row_stored digits_lib default_delimiters 110 0
    ([49, 44, 50, 10], [[49], [50]])
    [([51, 10], [[51]]), ([53, 44, 54, 10], [[53], [54]])]
    (by decide) (by decide)
    ⟨by decide, fun rest fn => (parse_a_line_obs _ fn _).trans (by
      simp [aparse, aloop, aiter, read_step, parse_next_char, fgetc, char_type, strchr,
        default_delimiters, afield_step, afield_fill, aopen, aclose, aextend, AState.init,
        cstr, EOF])⟩
    (by
      intro l hl
      simp only [List.mem_cons, List.mem_singleton, List.not_mem_nil, or_false] at hl
      rcases hl with rfl | rfl
      · exact ⟨by decide, by decide, fun rest fn => (parse_a_line_obs _ fn _).trans (by
          simp [aparse, aloop, aiter, read_step, parse_next_char, fgetc, char_type, strchr,
            default_delimiters, afield_step, afield_fill, aopen, aclose, aextend, AState.init,
            cstr, EOF])⟩
      · exact ⟨by decide, by decide, fun rest fn => (parse_a_line_obs _ fn _).trans (by
          simp [aparse, aloop, aiter, read_step, parse_next_char, fgetc, char_type, strchr,
            default_delimiters, afield_step, afield_fill, aopen, aclose, aextend, AState.init,
            cstr, EOF])⟩)

/-- The failing input of C12 without and with row names: the table width is 2
and the second line has one field, yet reading does not stop and no error tag
is set; with row names the same happens for the line `b,3` after `a,1,2`. -/
theorem apop_text_to_data_narrow_row_no_error :
    apop_text_to_data digits_lib (some [49, 44, 50, 10, 51, 10, 53, 44, 54, 10])
        110 110 none default_delimiters =
      some { vector := none,
             matrix := some { size1 := 3, size2 := 2,
                              data := [[some 1, some 2], [some 3, some 170],
                                       [some 5, some 6]] },
             weights := none, names := { column := [], row := [] }, error := 0 } ∧
    apop_text_to_data digits_lib
        (some [97, 44, 49, 44, 50, 10, 98, 44, 51, 10, 99, 44, 53, 44, 54, 10])
        121 110 none default_delimiters =
      some { vector := none,
             matrix := some { size1 := 3, size2 := 2,
                              data := [[some 1, some 2], [some 3, some 170],
                                       [some 5, some 6]] },
             weights := none, names := { column := [], row := [[97], [98], [99]] },
             error := 0 } := by
  decide

/-- C13 (amended): the conversion of the fields in `apop_text_to_data`, with
`has_col_names = 'n'`, on lines of `w` fields each, at least one of them after
the row name, up to the end of the input.  The cell of a field holds the
number that `strtod` reads at the start of the field when the field is not
empty and `strtod` consumes at least one byte of it, whether or not it
consumes all of it; it holds NaN when the field is empty and when `strtod`
consumes nothing. -/
theorem apop_text_to_data_field_conversion {V : Type} (lib : NumLib V)
    (delimiters : List CChar) (has_row_names hasrows : Nat)
    (first : List CChar × List (List CChar)) (lines : List (List CChar × List (List CChar)))
    (hrows : hasrows =
      if has_row_names = 1 ∨ has_row_names = 89 ∨ has_row_names = 121 then 1 else 0)
    (h255 : 255 ∉ delimiters)
    (hfirst : hasrows < first.2.length ∧ ∀ rest fn,
      (parse_a_line (first.1 ++ rest) fn none delimiters).map LineResult.obs =
        some (first.2, { ct := first.2.length, eof := false }, rest))
    (hlines : ∀ l ∈ lines, l.2.length = first.2.length ∧ ∀ rest fn,
      (parse_a_line (l.1 ++ rest) fn none delimiters).map LineResult.obs =
        some (l.2, { ct := l.2.length, eof := false }, rest)) :
    apop_text_to_data lib (some (first.1 ++ (lines.map Prod.fst).flatten))
        has_row_names 110 none delimiters =
      some { vector := none,
             matrix := some
               { size1 := lines.length + 1, size2 := first.2.length - hasrows,
                 data := (first.2 :: lines.map Prod.snd).map
                   (fun F => (F.drop hasrows).map
                     (fun s => if s.length ≠ 0 ∧ (lib.strtod s).2 ≠ 0
                       then (lib.strtod s).1 else lib.GSL_NAN)) },
             weights := none,
             names := { column := [],
                        row := if hasrows ≠ 0 then
                            (first.2 :: lines.map Prod.snd).map (fun F => F.headD [])
                          else [] },
             error := 0 } := by
  have h := apop_text_to_data_stores lib delimiters has_row_names hasrows first lines hrows h255
    ⟨Nat.lt_of_le_of_lt (Nat.zero_le _) hfirst.1, fun r fn => obs_eq_some _ _ (hfirst.2 r fn)⟩
    (fun l hl => ⟨by rw [(hlines l hl).1]; exact Nat.lt_of_le_of_lt (Nat.zero_le _) hfirst.1,
      Nat.le_of_eq (hlines l hl).1,
      fun r fn => obs_eq_some _ _ ((hlines l hl).2 r fn)⟩)
  rw [h, pad_none lib hasrows first.2.length (first.2 :: lines.map Prod.snd), convert_field_eq]
  intro F hF
  rw [List.mem_cons] at hF
  rcases hF with hF | hF
  · rw [hF]
  · rw [List.mem_map] at hF
    obtain ⟨l, hl, rfl⟩ := hF
    exact (hlines l hl).1

/-- Witness for C13 (amended): the line `12abc,x,,7` gives the row
`12, NaN, NaN, 7` (`none` stands for NaN). -/
theorem apop_text_to_data_field_conversion_witness :
    apop_text_to_data digits_lib (some [49, 50, 97, 98, 99, 44, 120, 44, 44, 55, 10])
        110 110 none default_delimiters =
      some { vector := none,
             matrix := some { size1 := 1, size2 := 4,
                              data := [[some 12, none, none, some 7]] },
             weights := none, names := { column := [], row := [] }, error := 0 } :=
  apop_text_to_data_field_conversion digits_lib default_delimiters 110 0
    ([49, 50, 97, 98, 99, 44, 120, 44, 44, 55, 10], [[49, 50, 97, 98, 99], [120], [], [55]]) []
    (by decide) (by decide)
    ⟨by decide, fun rest fn => (parse_a_line_obs _ fn _).trans (by
      simp [aparse, aloop, aiter, read_step, parse_next_char, fgetc, char_type, strchr,
        default_delimiters, afield_step, afield_fill, aopen, aclose, aextend, AState.init,
        cstr, EOF])⟩
    (by simp)

/-- Counterexample to C13 as stated: of the field `12abc` the numeric parsing
consumes two bytes of five, not the whole field, yet the cell holds the
number 12 and not NaN. -/
theorem apop_text_to_data_numeric_start_stored :
    (digits_lib.strtod [49, 50, 97, 98, 99]).2 = 2 ∧
    apop_text_to_data digits_lib (some [49, 50, 97, 98, 99, 10]) 110 110 none
        default_delimiters =
      some { vector := none,
             matrix := some { size1 := 1, size2 := 1, data := [[some 12]] },
             weights := none, names := { column := [], row := [] }, error := 0 } := by
  decide

/-! ## `prep_string_for_sqlite` and `line_to_insert` -/

theorem strcasecmp_eq_zero (a : List CChar) :
    ∀ b, strcasecmp a b = 0 ↔ a.map tolower = b.map tolower := by
  induction a with
  | nil =>
    intro b
    cases b with
    | nil => simp [strcasecmp]
    | cons y t => simp [strcasecmp]
  | cons x s ih =>
    intro b
    cases b with
    | nil => simp [strcasecmp]
    | cons y t =>
      unfold strcasecmp
      by_cases h : tolower x = tolower y
      · simp [h, ih t]
      · by_cases h2 : tolower x < tolower y
        · simp [h, h2]
        · simp [h, h2]

theorem getD_zero_of_cstring (s : List CChar) (h0 : 0 ∉ s) : s.getD 0 0 = 0 ↔ s = [] := by
  cases s with
  | nil => simp
  | cons x t =>
    have hx : x ≠ 0 := fun h => h0 (by simp [h])
    simp [hx]

theorem getD_of_cstring (s : List CChar) (h0 : 0 ∉ s) (n : Nat) :
    s.getD n 0 ≠ 0 ↔ n < s.length := by
  constructor
  · intro h
    by_contra hn
    exact h (List.getD_eq_default _ _ (by omega))
  · intro hn h
    rw [List.getD_eq_getElem _ _ hn] at h
    exact h0 (h ▸ List.getElem_mem hn)

/-- The result of `prep_string_for_sqlite` is `NULL` or a string with a byte. -/
theorem prep_string_nonempty {V : Type} (lib : DbLib V) (opts : apop_opts_type) (p : Nat)
    (a : Option (List CChar)) (v : List CChar)
    (h : prep_string_for_sqlite lib opts p a = some v) : v ≠ [] := by
  cases a with
  | none => simp [prep_string_for_sqlite] at h
  | some s =>
    unfold prep_string_for_sqlite at h
    simp only [] at h
    split_ifs at h with h1 h2 h3 h4 h5 h6 h7 h8
    all_goals cases h
    all_goals first
      | (intro hnil
         apply h1
         left
         rw [hnil]
         rfl)
      | decide
      | simp [bytes]

/-- One pass of the loop of `line_to_insert` without a statement: the value
or `NULL` is appended to the query, after a blank or a comma. -/
theorem insert_col_text {V : Type} (lib : DbLib V) (opts : apop_opts_type) (addme : Text)
    (st : IState) (col : Nat) :
    insert_col lib opts addme false st col =
      { q := st.q ++ st.comma ::
          (match prep_string_for_sqlite lib opts 0 ((addme.get? col).map cstr) with
           | some v => bytes " " ++ v
           | none => bytes "NULL"),
        field := st.field, comma := 44, binds := st.binds } := by
  unfold insert_col
  simp only [Bool.false_eq_true, if_false, if_true, OfNat.one_ne_ofNat]
  generalize hp : prep_string_for_sqlite lib opts 0 ((addme.get? col).map cstr) = o
  cases o with
  | none => simp
  | some v =>
    have hv := prep_string_nonempty lib opts 0 _ v hp
    simp [hv]

/-- One pass of the loop of `line_to_insert` with a statement: the value is
bound to the parameter `field`, or nothing is bound, and `field` is counted
up. -/
theorem insert_col_prepared {V : Type} (lib : DbLib V) (opts : apop_opts_type) (addme : Text)
    (st : IState) (col : Nat) :
    insert_col lib opts addme true st col =
      { q := st.q, field := st.field + 1, comma := st.comma,
        binds := st.binds ++
          (match prep_string_for_sqlite lib opts 1 ((addme.get? col).map cstr) with
           | some v => [DbOp.bind_text st.field v]
           | none => []) } := by
  unfold insert_col
  simp only [Bool.false_eq_true, if_false, if_true, OfNat.one_ne_ofNat]
  generalize hp : prep_string_for_sqlite lib opts 1 ((addme.get? col).map cstr) = o
  cases o with
  | none => simp
  | some v =>
    have hv := prep_string_nonempty lib opts 1 _ v hp
    simp [hv]

theorem foldl_insert_col_text {V : Type} (lib : DbLib V) (opts : apop_opts_type)
    (addme : Text) (n : Nat) (st : IState) :
    (List.range n).foldl (insert_col lib opts addme false) st =
      { q := st.q ++ ((List.range n).map (fun col =>
            (if col = 0 then st.comma else 44) ::
              (match prep_string_for_sqlite lib opts 0 ((addme.get? col).map cstr) with
               | some v => bytes " " ++ v
               | none => bytes "NULL"))).flatten,
        field := st.field, comma := if n = 0 then st.comma else 44, binds := st.binds } := by
  induction n with
  | zero => simp
  | succ n ih =>
    rw [List.range_succ, List.foldl_append, ih, List.foldl_cons, List.foldl_nil,
      insert_col_text]
    by_cases hn : n = 0
    · subst hn; simp
    · simp [hn]

theorem foldl_insert_col_prepared {V : Type} (lib : DbLib V) (opts : apop_opts_type)
    (addme : Text) (n : Nat) (st : IState) :
    (List.range n).foldl (insert_col lib opts addme true) st =
      { q := st.q, field := st.field + n, comma := st.comma,
        binds := st.binds ++ ((List.range n).map (fun col =>
            (match prep_string_for_sqlite lib opts 1 ((addme.get? col).map cstr) with
             | some v => [DbOp.bind_text (st.field + col) v]
             | none => []))).flatten } := by
  induction n with
  | zero => simp
  | succ n ih =>
    rw [List.range_succ, List.foldl_append, ih, List.foldl_cons, List.foldl_nil,
      insert_col_prepared]
    simp [Nat.add_assoc]

/-- The query that `line_to_insert` sends when there is no statement. -/
theorem line_to_insert_text {V : Type} (lib : DbLib V) (opts : apop_opts_type)
    (L : line_parse_t) (addme : Text) (tabname : List CChar) (hct : L.ct ≠ 0) :
    line_to_insert lib opts L addme tabname false =
      [DbOp.query (bytes "INSERT INTO " ++ tabname ++ bytes " VALUES (" ++
        ((List.range L.ct).map (fun col =>
          (if col = 0 then 32 else 44) ::
            (match prep_string_for_sqlite lib opts 0 ((addme.get? col).map cstr) with
             | some v => bytes " " ++ v
             | none => bytes "NULL"))).flatten ++ bytes ");")] := by
  unfold line_to_insert
  simp only [foldl_insert_col_text, hct, if_false, Bool.false_eq_true]

/-- The parameters that `line_to_insert` binds when there is a statement. -/
theorem line_to_insert_prepared {V : Type} (lib : DbLib V) (opts : apop_opts_type)
    (L : line_parse_t) (addme : Text) (tabname : List CChar) :
    line_to_insert lib opts L addme tabname true =
      ((List.range L.ct).map (fun col =>
        (match prep_string_for_sqlite lib opts 1 ((addme.get? col).map cstr) with
         | some v => [DbOp.bind_text (col + 1) v]
         | none => []))).flatten := by
  unfold line_to_insert
  simp only [foldl_insert_col_prepared, if_true]
  by_cases hct : L.ct = 0
  · simp [hct]
  · simp [hct, Nat.add_comm]

/-! # The claims on the literals of the database loader -/

/-- C16: missing values in the database loader.  `prep_string_for_sqlite`
returns `NULL` for a `NULL` string, and for a C string exactly when the string
is empty or equal, ignoring case, to the marker `apop_opts.db_nan`.  For a row
of `L.ct ≥ 1` fields `line_to_insert` then builds, without a statement, the
query `INSERT INTO tab VALUES (` followed by one item for each field, in the
order of the fields, and `);`: the item of field `col` is a blank (first
field) or a comma, followed by `NULL` for a missing value and by a blank and
the literal otherwise.  With a statement it binds the literal of field `col`
to the parameter `col + 1` and binds nothing for a missing value, so that the
parameters of the other fields keep their numbers. -/
theorem line_to_insert_missing_values {V : Type} (lib : DbLib V) (opts : apop_opts_type)
    (L : line_parse_t) (addme : Text) (tabname : List CChar) (hct : L.ct ≠ 0) :
    (∀ p, prep_string_for_sqlite lib opts p none = none) ∧
    (∀ p s, 0 ∉ s →
      (prep_string_for_sqlite lib opts p (some s) = none ↔
        s = [] ∨ s.map tolower = opts.db_nan.map tolower)) ∧
    line_to_insert lib opts L addme tabname false =
      [DbOp.query (bytes "INSERT INTO " ++ tabname ++ bytes " VALUES (" ++
        ((List.range L.ct).map (fun col =>
          (if col = 0 then 32 else 44) ::
            (match prep_string_for_sqlite lib opts 0 ((addme.get? col).map cstr) with
             | some v => bytes " " ++ v
             | none => bytes "NULL"))).flatten ++ bytes ");")] ∧
    line_to_insert lib opts L addme tabname true =
      ((List.range L.ct).map (fun col =>
        (match prep_string_for_sqlite lib opts 1 ((addme.get? col).map cstr) with
         | some v => [DbOp.bind_text (col + 1) v]
         | none => []))).flatten := by
  refine ⟨fun p => rfl, fun p s h0 => ?_, line_to_insert_text lib opts L addme tabname hct,
    line_to_insert_prepared lib opts L addme tabname⟩
  constructor
  · intro h
    by_contra hcon
    rw [not_or] at hcon
    have h1 : ¬ (s.getD 0 0 = 0 ∨ strcasecmp opts.db_nan s = 0) := by
      rw [getD_zero_of_cstring s h0, strcasecmp_eq_zero, not_or]
      exact ⟨hcon.1, fun e => hcon.2 e.symm⟩
    unfold prep_string_for_sqlite at h
    simp only [h1, if_false] at h
    split_ifs at h
  · intro h
    have h1 : s.getD 0 0 = 0 ∨ strcasecmp opts.db_nan s = 0 := by
      rw [getD_zero_of_cstring s h0, strcasecmp_eq_zero]
      exact h.imp id Eq.symm
    unfold prep_string_for_sqlite
    simp only [h1, if_true]

/-- Witness for C16: the row `1`, `nan`, `x` with the marker `NaN`.  The
query is `INSERT INTO t VALUES (  1,NULL, 'x');`; with a statement the
parameters 1 and 3 are bound and the parameter 2 is not. -/
theorem line_to_insert_missing_values_witness :
    ({ ct := 3, eof := false } : line_parse_t).ct ≠ 0 ∧
    ((∀ p, prep_string_for_sqlite ex_lib default_opts p none = none) ∧
    (∀ p s, 0 ∉ s →
      (prep_string_for_sqlite ex_lib default_opts p (some s) = none ↔
        s = [] ∨ s.map tolower = default_opts.db_nan.map tolower)) ∧
    line_to_insert ex_lib default_opts { ct := 3, eof := false }
        [[49, 0], [110, 97, 110, 0], [120, 0]] (bytes "t") false =
      [DbOp.query (bytes "INSERT INTO t VALUES (  1,NULL, 'x');")] ∧
    line_to_insert ex_lib default_opts { ct := 3, eof := false }
        [[49, 0], [110, 97, 110, 0], [120, 0]] (bytes "t") true =
      [DbOp.bind_text 1 (bytes "1"), DbOp.bind_text 3 (bytes "x")]) :=
  ⟨by decide,
    line_to_insert_missing_values ex_lib default_opts { ct := 3, eof := false }
      [[49, 0], [110, 97, 110, 0], [120, 0]] (bytes "t") (by decide)⟩

/-- C17: string literals of `prep_string_for_sqlite`.  For every C string
that is not missing (not empty, and not the marker `db_nan` up to case) and of
which `strtod` does not consume every byte: without a prepared statement the
result is the string in double quotes when it has a single quote in it, and in
single quotes otherwise; with a prepared statement the result is the string
itself. -/
theorem prep_string_for_sqlite_string_literal {V : Type} (lib : DbLib V)
    (opts : apop_opts_type) (s : List CChar) (h0 : 0 ∉ s) (hne : s ≠ [])
    (hnan : s.map tolower ≠ opts.db_nan.map tolower) (hnum : (lib.strtod s).2 < s.length) :
    prep_string_for_sqlite lib opts 0 (some s) =
        some (if 39 ∈ s then [34] ++ s ++ [34] else [39] ++ s ++ [39]) ∧
      ∀ p, p ≠ 0 → prep_string_for_sqlite lib opts p (some s) = some s := by
  have h1 : ¬ (s.getD 0 0 = 0 ∨ strcasecmp opts.db_nan s = 0) := by
    rw [getD_zero_of_cstring s h0, strcasecmp_eq_zero, not_or]
    exact ⟨hne, fun e => hnan e.symm⟩
  have h2 : s.getD (lib.strtod s).2 0 ≠ 0 := (getD_of_cstring s h0 _).mpr hnum
  constructor
  · unfold prep_string_for_sqlite
    simp only [h1, if_false, h2, ne_eq, not_false_eq_true, if_true, strchr]
    by_cases h39 : 39 ∈ s
    · simp [h39]
    · simp [h39]
  · intro p hp
    unfold prep_string_for_sqlite
    simp only [h1, if_false, h2, ne_eq, not_false_eq_true, if_true, hp]

/-- Witness for C17: `it's` becomes `"it's"` and `abc` becomes `'abc'`
without a statement; both stay as they are with one. -/
theorem prep_string_for_sqlite_string_literal_witness :
    (prep_string_for_sqlite ex_lib default_opts 0 (some [105, 116, 39, 115]) =
        some [34, 105, 116, 39, 115, 34] ∧
      ∀ p, p ≠ 0 →
        prep_string_for_sqlite ex_lib default_opts p (some [105, 116, 39, 115]) =
          some [105, 116, 39, 115]) ∧
    (prep_string_for_sqlite ex_lib default_opts 0 (some [97, 98, 99]) =
        some [39, 97, 98, 99, 39] ∧
      ∀ p, p ≠ 0 →
        prep_string_for_sqlite ex_lib default_opts p (some [97, 98, 99]) = some [97, 98, 99]) :=
  ⟨prep_string_for_sqlite_string_literal ex_lib default_opts [105, 116, 39, 115]
      (by decide) (by decide) (by decide) (by decide),
    prep_string_for_sqlite_string_literal ex_lib default_opts [97, 98, 99]
      (by decide) (by decide) (by decide) (by decide)⟩

/-- C18: numeric literals of `prep_string_for_sqlite`, with or without a
prepared statement.  For every C string that is not missing and of which
`strtod` consumes every byte, with `x` the value `atof` reads: the result is
`9e9999999` when `isinf(x)` is `1` (plus infinity), `-9e9999999` when
`isinf(x)` is `-1` (minus infinity), else `0.0/0.0` when `gsl_isnan(x)` holds,
else the string with a `0` put in front when it starts with a dot, and else
the string itself. -/
theorem prep_string_for_sqlite_numeric_literal {V : Type} (lib : DbLib V)
    (opts : apop_opts_type) (p : Nat) (s : List CChar) (h0 : 0 ∉ s) (hne : s ≠ [])
    (hnan : s.map tolower ≠ opts.db_nan.map tolower) (hnum : (lib.strtod s).2 = s.length) :
    (lib.isinf (lib.atof s) = 1 →
      prep_string_for_sqlite lib opts p (some s) = some (bytes "9e9999999")) ∧
    (lib.isinf (lib.atof s) = -1 →
      prep_string_for_sqlite lib opts p (some s) = some (bytes "-9e9999999")) ∧
    (lib.isinf (lib.atof s) ≠ 1 → lib.isinf (lib.atof s) ≠ -1 →
      lib.gsl_isnan (lib.atof s) ≠ 0 →
      prep_string_for_sqlite lib opts p (some s) = some (bytes "0.0/0.0")) ∧
    (lib.isinf (lib.atof s) ≠ 1 → lib.isinf (lib.atof s) ≠ -1 →
      lib.gsl_isnan (lib.atof s) = 0 → s.head? = some 46 →
      prep_string_for_sqlite lib opts p (some s) = some (48 :: s)) ∧
    (lib.isinf (lib.atof s) ≠ 1 → lib.isinf (lib.atof s) ≠ -1 →
      lib.gsl_isnan (lib.atof s) = 0 → s.head? ≠ some 46 →
      prep_string_for_sqlite lib opts p (some s) = some s) := by
  have h1 : ¬ (s.getD 0 0 = 0 ∨ strcasecmp opts.db_nan s = 0) := by
    rw [getD_zero_of_cstring s h0, strcasecmp_eq_zero, not_or]
    exact ⟨hne, fun e => hnan e.symm⟩
  have h2 : ¬ (s.getD (lib.strtod s).2 0 ≠ 0) := by
    rw [getD_of_cstring s h0, hnum]
    exact Nat.lt_irrefl _
  have hhead : s.getD 0 0 = 46 ↔ s.head? = some 46 := by
    cases s with
    | nil => simp
    | cons x t => simp
  refine ⟨fun e1 => ?_, fun e2 => ?_, fun e1 e2 e3 => ?_, fun e1 e2 e3 e4 => ?_,
    fun e1 e2 e3 e4 => ?_⟩
  · unfold prep_string_for_sqlite
    simp only [h1, h2, if_false, e1, if_true]
  · have e1 : lib.isinf (lib.atof s) ≠ 1 := by rw [e2]; decide
    unfold prep_string_for_sqlite
    simp only [h1, h2, if_false]
    rw [if_neg e1, if_pos e2]
  · unfold prep_string_for_sqlite
    simp only [h1, h2, if_false, e1, e2, e3, ne_eq, not_false_eq_true, if_true]
  · have e5 : s.getD 0 0 = 46 := hhead.mpr e4
    have e6 : ¬ lib.gsl_isnan (lib.atof s) ≠ 0 := fun h => h e3
    unfold prep_string_for_sqlite
    simp only []
    rw [if_neg h1, if_neg h2, if_neg e1, if_neg e2, if_neg e6, if_pos e5]
    rfl
  · have e5 : ¬ s.getD 0 0 = 46 := fun h => e4 (hhead.mp h)
    unfold prep_string_for_sqlite
    simp only [h1, h2, if_false, e1, e2, e3, ne_eq, not_true_eq_false, e5]

/-- Witness for C18: `inf`, `-inf`, `.5` and `12` with the marker `NaN`, and
`nan` with the marker `NA`. -/
theorem prep_string_for_sqlite_numeric_literal_witness :
    prep_string_for_sqlite ex_lib default_opts 0 (some (bytes "inf")) =
      some (bytes "9e9999999") ∧
    prep_string_for_sqlite ex_lib default_opts 1 (some (bytes "-inf")) =
      some (bytes "-9e9999999") ∧
    prep_string_for_sqlite ex_lib { db_nan := bytes "NA" } 0 (some (bytes "nan")) =
      some (bytes "0.0/0.0") ∧
    prep_string_for_sqlite ex_lib default_opts 0 (some (bytes ".5")) = some (bytes "0.5") ∧
    prep_string_for_sqlite ex_lib default_opts 1 (some (bytes "12")) = some (bytes "12") :=
  ⟨(prep_string_for_sqlite_numeric_literal ex_lib default_opts 0 (bytes "inf")
      (by decide) (by decide) (by decide) (by decide)).1 (by decide),
    (prep_string_for_sqlite_numeric_literal ex_lib default_opts 1 (bytes "-inf")
      (by decide) (by decide) (by decide) (by decide)).2.1 (by decide),
    (prep_string_for_sqlite_numeric_literal ex_lib { db_nan := bytes "NA" } 0 (bytes "nan")
      (by decide) (by decide) (by decide) (by decide)).2.2.1 (by decide) (by decide)
      (by decide),
    (prep_string_for_sqlite_numeric_literal ex_lib default_opts 0 (bytes ".5")
      (by decide) (by decide) (by decide) (by decide)).2.2.2.1 (by decide) (by decide)
      (by decide) (by decide),
    (prep_string_for_sqlite_numeric_literal ex_lib default_opts 1 (bytes "12")
      (by decide) (by decide) (by decide) (by decide)).2.2.2.2 (by decide) (by decide)
      (by decide) (by decide)⟩

/-! ## The transactions of `apop_text_to_db` -/

theorem tx_run_append (t : TxState) (a b : List DbOp) :
    tx_run t (a ++ b) = tx_run (tx_run t a) b := by
  simp [tx_run, List.foldl_append]

theorem tx_run_nil (t : TxState) : tx_run t [] = t := rfl

theorem tx_run_cons (t : TxState) (a : DbOp) (b : List DbOp) :
    tx_run t (a :: b) = tx_run (tx_op t a) b := rfl

theorem tx_op_prepare (t : TxState) (q : List CChar) : tx_op t (DbOp.prepare q) = t := by
  simp [tx_op, is_row_insertion]

theorem tx_op_bind_text (t : TxState) (f : Nat) (s : List CChar) :
    tx_op t (DbOp.bind_text f s) = t := by
  simp [tx_op, is_row_insertion]

theorem tx_op_reset (t : TxState) : tx_op t DbOp.reset = t := by
  simp [tx_op, is_row_insertion]

theorem tx_op_clear_bindings (t : TxState) : tx_op t DbOp.clear_bindings = t := by
  simp [tx_op, is_row_insertion]

theorem tx_op_finalize (t : TxState) : tx_op t DbOp.finalize = t := by
  simp [tx_op, is_row_insertion]

theorem tx_op_step (t : TxState) :
    tx_op t DbOp.step =
      { inside := t.inside, count := t.count + 1,
        ok := t.ok && t.inside && decide (t.count + 1 ≤ batch_size) } := by
  simp [tx_op, is_row_insertion]

theorem tx_op_begin (t : TxState) :
    tx_op t (DbOp.query (bytes "begin;")) = { inside := true, count := 0, ok := t.ok } := by
  simp [tx_op]

theorem tx_op_commit_begin (t : TxState) :
    tx_op t (DbOp.query (bytes "commit; begin;")) =
      { inside := true, count := 0, ok := t.ok } := by
  simp [tx_op]

theorem tx_op_commit (t : TxState) :
    tx_op t (DbOp.query (bytes "commit;")) = { inside := false, count := 0, ok := t.ok } := by
  have h1 : ¬ (bytes "commit;" = bytes "begin;") := by decide
  have h2 : ¬ (bytes "commit;" = bytes "commit; begin;") := by decide
  simp [tx_op, h1, h2]

theorem tx_op_insert (t : TxState) (x : List CChar) :
    tx_op t (DbOp.query (bytes "INSERT INTO " ++ x)) =
      { inside := t.inside, count := t.count + 1,
        ok := t.ok && t.inside && decide (t.count + 1 ≤ batch_size) } := by
  have h1 : ¬ (bytes "INSERT INTO " ++ x = bytes "begin;") := by simp [bytes]
  have h2 : ¬ (bytes "INSERT INTO " ++ x = bytes "commit; begin;") := by simp [bytes]
  have h3 : ¬ (bytes "INSERT INTO " ++ x = bytes "commit;") := by simp [bytes]
  have h4 : (bytes "INSERT INTO " ++ x).take 12 = bytes "INSERT INTO " := by simp [bytes]
  simp [tx_op, is_row_insertion, h1, h2, h3, h4]

theorem tx_op_create (t : TxState) (x : List CChar) :
    tx_op t (DbOp.query (bytes "create table " ++ x)) = t := by
  have h1 : ¬ (bytes "create table " ++ x = bytes "begin;") := by simp [bytes]
  have h2 : ¬ (bytes "create table " ++ x = bytes "commit; begin;") := by simp [bytes]
  have h3 : ¬ (bytes "create table " ++ x = bytes "commit;") := by simp [bytes]
  have h4 : ¬ ((bytes "create table " ++ x).take 12 = bytes "INSERT INTO ") := by simp [bytes]
  simp [tx_op, is_row_insertion, h1, h2, h3, h4]

theorem tx_run_bind_ops (t : TxState) (x : List DbOp)
    (hx : ∀ op ∈ x, ∃ f s, op = DbOp.bind_text f s) : tx_run t x = t := by
  induction x with
  | nil => rfl
  | cons op ops ih =>
    obtain ⟨f, s, rfl⟩ := hx op (by simp)
    rw [tx_run_cons, tx_op_bind_text]
    exact ih (fun o ho => hx o (by simp [ho]))

theorem tx_run_binds (t : TxState) (l : List (List DbOp))
    (h : ∀ x ∈ l, ∀ op ∈ x, ∃ f s, op = DbOp.bind_text f s) : tx_run t l.flatten = t := by
  induction l with
  | nil => rfl
  | cons x xs ih =>
    rw [List.flatten_cons, tx_run_append, tx_run_bind_ops t x (h x (by simp)),
      ih (fun y hy => h y (by simp [hy]))]

/-- Binding the fields of a row changes nothing in the transactions. -/
theorem tx_run_line_prepared {V : Type} (lib : DbLib V) (opts : apop_opts_type)
    (L : line_parse_t) (addme : Text) (tabname : List CChar) (t : TxState) :
    tx_run t (line_to_insert lib opts L addme tabname true) = t := by
  rw [line_to_insert_prepared]
  apply tx_run_binds
  intro x hx op hop
  rw [List.mem_map] at hx
  obtain ⟨col, _, rfl⟩ := hx
  split at hop
  · simp only [List.mem_singleton] at hop
    exact ⟨_, _, hop⟩
  · simp at hop

/-- The query of a row is one insertion. -/
theorem tx_run_line_text {V : Type} (lib : DbLib V) (opts : apop_opts_type)
    (L : line_parse_t) (addme : Text) (tabname : List CChar) (t : TxState) (hct : L.ct ≠ 0) :
    tx_run t (line_to_insert lib opts L addme tabname false) =
      { inside := t.inside, count := t.count + 1,
        ok := t.ok && t.inside && decide (t.count + 1 ≤ batch_size) } := by
  rw [line_to_insert_text lib opts L addme tabname hct, tx_run_cons, tx_run_nil,
    List.append_assoc, List.append_assoc, List.append_assoc, tx_op_insert]

/-- One pass of the loop without a statement: the row is inserted in the open
transaction, which holds at most `batch_size` rows with it. -/
theorem tx_pass_text {V : Type} (lib : DbLib V) (opts : apop_opts_type) (L : line_parse_t)
    (addme : Text) (tabname : List CChar) (ct : Nat) (hct : L.ct ≠ 0) :
    tx_run { inside := true, count := (ct - 1) % batch_size, ok := true }
        (line_to_insert lib opts L addme tabname false ++
          (if ct % batch_size = 0 then [DbOp.query (bytes "commit; begin;")] else [])) =
      { inside := true, count := (ct + 1 - 1) % batch_size, ok := true } := by
  rw [tx_run_append, tx_run_line_text lib opts L addme tabname _ hct]
  have hb : (ct - 1) % batch_size + 1 ≤ batch_size := by
    simp only [batch_size]; omega
  by_cases h : ct % batch_size = 0
  · simp only [h, if_true, tx_run_cons, tx_run_nil, tx_op_commit_begin, Nat.add_sub_cancel,
      Bool.and_self, hb, decide_True]
  · simp only [h, if_false, tx_run_nil, Nat.add_sub_cancel, Bool.and_self, hb, decide_True,
      TxState.mk.injEq, true_and, and_true]
    simp only [batch_size] at h ⊢
    omega

/-- One pass of the loop with a statement: the row is inserted by
`sqlite3_step` in the open transaction, which holds at most `batch_size` rows
with it. -/
theorem tx_pass_prepared {V : Type} (lib : DbLib V) (opts : apop_opts_type) (L : line_parse_t)
    (addme : Text) (tabname : List CChar) (ct : Nat) (more : List DbOp)
    (hmore : more = [] ∨ more = [DbOp.clear_bindings]) :
    tx_run { inside := true, count := if ct = 0 then 0 else (ct - 1) % batch_size + 1,
             ok := true }
        (line_to_insert lib opts L addme tabname true ++
          (if ct % batch_size = 0 then [DbOp.query (bytes "commit; begin;")] else []) ++
          (DbOp.step :: DbOp.reset :: more)) =
      { inside := true, count := (ct + 1 - 1) % batch_size + 1, ok := true } := by
  rw [tx_run_append, tx_run_append, tx_run_line_prepared]
  have hmore2 : ∀ t, tx_run t (DbOp.step :: DbOp.reset :: more) = tx_op t DbOp.step := by
    intro t
    rcases hmore with h | h
    · rw [h, tx_run_cons, tx_run_cons, tx_op_reset, tx_run_nil]
    · rw [h, tx_run_cons, tx_run_cons, tx_run_cons, tx_op_reset, tx_op_clear_bindings,
        tx_run_nil]
  rw [hmore2]
  by_cases h : ct % batch_size = 0
  · have hb : 0 + 1 ≤ batch_size := by decide
    simp only [h, if_true, tx_run_cons, tx_run_nil, tx_op_commit_begin, tx_op_step,
      Nat.add_sub_cancel, Bool.and_self, hb, decide_True]
  · have h0 : ct ≠ 0 := by
      intro h0; apply h; rw [h0]; rfl
    have hb : (ct - 1) % batch_size + 1 + 1 ≤ batch_size := by
      simp only [batch_size] at h ⊢; omega
    simp only [h, if_false, tx_run_nil, tx_op_step, h0, Nat.add_sub_cancel, Bool.and_self, hb,
      decide_True, TxState.mk.injEq, true_and, and_true]
    simp only [batch_size] at h ⊢
    omega

/-- A pass of the loop without a statement, written out. -/
theorem insert_loop_pass_text {V : Type} (lib : DbLib V) (opts : apop_opts_type) (env : DbEnv)
    (tabname : List CChar) (field_ends : Option FieldEnds) (delimiters : List CChar)
    (fuel : Nat) (s : DState) (hc : s.L.ct ≠ 0 ∧ s.L.eof = false) :
    (insert_loop lib opts env tabname false field_ends delimiters (fuel + 1) s).1 =
      match skip_blank_lines field_ends delimiters (s.infile.length + 1) s.infile
          s.add_this_line s.rows with
      | none =>
        line_to_insert lib opts s.L s.add_this_line tabname false ++
          (if s.ct % batch_size = 0 then [DbOp.query (bytes "commit; begin;")] else [])
      | some r =>
        (line_to_insert lib opts s.L s.add_this_line tabname false ++
          (if s.ct % batch_size = 0 then [DbOp.query (bytes "commit; begin;")] else [])) ++
        (insert_loop lib opts env tabname false field_ends delimiters fuel
          { L := r.1.L, add_this_line := r.1.fn, infile := r.1.infile, ct := s.ct + 1,
            rows := r.2 }).1 := by
  conv_lhs => unfold insert_loop
  simp only []
  rw [if_pos hc, if_neg (by simp), if_neg (by simp)]
  cases skip_blank_lines field_ends delimiters (s.infile.length + 1) s.infile
      s.add_this_line s.rows with
  | none => simp
  | some r => simp

/-- The loop without a statement keeps every insertion in an open
transaction of at most `batch_size` rows, and leaves a transaction open. -/
theorem insert_loop_tx_text {V : Type} (lib : DbLib V) (opts : apop_opts_type) (env : DbEnv)
    (tabname : List CChar) (field_ends : Option FieldEnds) (delimiters : List CChar) :
    ∀ (fuel : Nat) (s : DState),
      tx_run { inside := true, count := (s.ct - 1) % batch_size, ok := true }
          (insert_loop lib opts env tabname false field_ends delimiters fuel s).1 =
        { inside := true,
          count := (tx_run { inside := true, count := (s.ct - 1) % batch_size, ok := true }
            (insert_loop lib opts env tabname false field_ends delimiters fuel s).1).count,
          ok := true } := by
  intro fuel
  induction fuel with
  | zero => intro s; rfl
  | succ fuel ih =>
    intro s
    by_cases hc : s.L.ct ≠ 0 ∧ s.L.eof = false
    · have hloop := insert_loop_pass_text lib opts env tabname field_ends delimiters fuel s hc
      cases hsk : skip_blank_lines field_ends delimiters (s.infile.length + 1) s.infile
          s.add_this_line s.rows with
      | none =>
        rw [hsk] at hloop
        simp only [] at hloop
        rw [hloop, tx_pass_text lib opts s.L s.add_this_line tabname s.ct hc.1]
      | some r =>
        rw [hsk] at hloop
        simp only [] at hloop
        rw [hloop, tx_run_append, tx_pass_text lib opts s.L s.add_this_line tabname s.ct hc.1]
        exact ih { L := r.1.L, add_this_line := r.1.fn, infile := r.1.infile, ct := s.ct + 1,
                   rows := r.2 }
    · unfold insert_loop
      rw [if_neg hc]
      rfl

/-- A pass of the loop with a statement, written out: the operations of the
pass, followed by those of the passes after it when the loop goes on. -/
theorem insert_loop_pass_prepared {V : Type} (lib : DbLib V) (opts : apop_opts_type)
    (env : DbEnv) (tabname : List CChar) (field_ends : Option FieldEnds)
    (delimiters : List CChar) (fuel : Nat) (s : DState)
    (hc : s.L.ct ≠ 0 ∧ s.L.eof = false) :
    ∃ (more rest : List DbOp),
      (insert_loop lib opts env tabname true field_ends delimiters (fuel + 1) s).1 =
        (line_to_insert lib opts s.L s.add_this_line tabname true ++
          (if s.ct % batch_size = 0 then [DbOp.query (bytes "commit; begin;")] else []) ++
          (DbOp.step :: DbOp.reset :: more)) ++ rest ∧
      (more = [] ∨ more = [DbOp.clear_bindings]) ∧
      (rest = [] ∨ ∃ s1 : DState, s1.ct = s.ct + 1 ∧
        rest = (insert_loop lib opts env tabname true field_ends delimiters fuel s1).1) := by
  conv => enter [1, more, 1, rest, 1, 1]; unfold insert_loop
  simp only []
  rw [if_pos hc]
  by_cases h1 : env.sqlite3_reset (s.ct + 1) ≠ 0
  · refine ⟨[], [], ?_, Or.inl rfl, Or.inl rfl⟩
    rw [if_pos ⟨trivial, h1⟩, List.append_nil]
  · by_cases h2 : env.sqlite3_clear_bindings (s.ct + 1) ≠ 0
    · refine ⟨[DbOp.clear_bindings], [], ?_, Or.inr rfl, Or.inl rfl⟩
      rw [if_neg (fun h => h1 h.2), if_pos ⟨trivial, h2⟩, List.append_nil]
    · rw [if_neg (fun h => h1 h.2), if_neg (fun h => h2 h.2)]
      cases skip_blank_lines field_ends delimiters (s.infile.length + 1) s.infile
          s.add_this_line s.rows with
      | none =>
        refine ⟨[DbOp.clear_bindings], [], ?_, Or.inr rfl, Or.inl rfl⟩
        simp
      | some r =>
        refine ⟨[DbOp.clear_bindings],
          (insert_loop lib opts env tabname true field_ends delimiters fuel
            { L := r.1.L, add_this_line := r.1.fn, infile := r.1.infile, ct := s.ct + 1,
              rows := r.2 }).1, ?_, Or.inr rfl, Or.inr ⟨_, rfl, rfl⟩⟩
        simp

/-- The loop with a statement keeps every insertion in an open transaction
of at most `batch_size` rows, and leaves a transaction open. -/
theorem insert_loop_tx_prepared {V : Type} (lib : DbLib V) (opts : apop_opts_type)
    (env : DbEnv) (tabname : List CChar) (field_ends : Option FieldEnds)
    (delimiters : List CChar) :
    ∀ (fuel : Nat) (s : DState),
      tx_run { inside := true, count := if s.ct = 0 then 0 else (s.ct - 1) % batch_size + 1,
               ok := true }
          (insert_loop lib opts env tabname true field_ends delimiters fuel s).1 =
        { inside := true,
          count := (tx_run { inside := true,
                             count := if s.ct = 0 then 0 else (s.ct - 1) % batch_size + 1,
                             ok := true }
            (insert_loop lib opts env tabname true field_ends delimiters fuel s).1).count,
          ok := true } := by
  intro fuel
  induction fuel with
  | zero => intro s; rfl
  | succ fuel ih =>
    intro s
    by_cases hc : s.L.ct ≠ 0 ∧ s.L.eof = false
    · obtain ⟨more, rest, hops, hmore, hrest⟩ :=
        insert_loop_pass_prepared lib opts env tabname field_ends delimiters fuel s hc
      rw [hops, tx_run_append,
        tx_pass_prepared lib opts s.L s.add_this_line tabname s.ct more hmore]
      rcases hrest with hrest | ⟨s1, hs1, hrest⟩
      · rw [hrest]; rfl
      · have h := ih s1
        rw [hs1] at h
        simp only [Nat.add_one_ne_zero, if_false] at h
        rw [hrest]
        exact h
    · unfold insert_loop
      rw [if_neg hc]
      rfl

theorem foldl_create_col_append {V : Type} (lib : DbLib V) (has_row_names : Nat)
    (field_params : Option (List (List CChar × List CChar))) (fn : Text) (l : List Nat) :
    ∀ q, ∃ r, l.foldl (create_col lib has_row_names field_params fn) q = q ++ r := by
  induction l with
  | nil => intro q; exact ⟨[], by simp⟩
  | cons i l ih =>
    intro q
    obtain ⟨r, hr⟩ := ih (create_col lib has_row_names field_params fn q i)
    have hq : ∃ r0, create_col lib has_row_names field_params fn q i = q ++ r0 := by
      unfold create_col
      simp only []
      by_cases h0 : i = 0
      · rw [if_pos h0]
        by_cases h1 : has_row_names ≠ 0
        · rw [if_pos h1]
          exact ⟨_, by simp only [List.append_assoc]; rfl⟩
        · rw [if_neg h1]
          exact ⟨_, by simp only [List.append_assoc]; rfl⟩
      · rw [if_neg h0]
        exact ⟨_, by simp only [List.append_assoc]; rfl⟩
    obtain ⟨r0, hr0⟩ := hq
    exact ⟨r0 ++ r, by rw [List.foldl_cons, hr, hr0, List.append_assoc]⟩

/-- The `create table` query starts with these words. -/
theorem create_query_head {V : Type} (lib : DbLib V) (tabname : List CChar)
    (has_row_names : Nat) (field_params : Option (List (List CChar × List CChar)))
    (table_params : Option (List CChar)) (fn : Text) :
    ∃ x, create_query lib tabname has_row_names field_params table_params fn =
      bytes "create table " ++ x := by
  obtain ⟨r, hr⟩ := foldl_create_col_append lib has_row_names field_params fn
    (List.range fn.length) (bytes "create table " ++ tabname)
  unfold create_query
  simp only []
  rw [hr]
  exact ⟨_, by simp only [List.append_assoc]; rfl⟩

/-- The operations of `tab_create_sqlite` open a transaction when the table
is there afterwards, and insert nothing. -/
theorem tx_run_tab_create {V : Type} (lib : DbLib V) (created : Bool) (tabname : List CChar)
    (has_row_names : Nat) (field_params : Option (List (List CChar × List CChar)))
    (table_params : Option (List CChar)) (fn : Text) :
    tx_run { inside := false, count := 0, ok := true }
        (tab_create_sqlite lib created tabname has_row_names field_params table_params fn).2 =
      { inside := created, count := 0, ok := true } ∧
    ((tab_create_sqlite lib created tabname has_row_names field_params table_params fn).1 ≠ 0 ↔
      created = false) := by
  obtain ⟨x, hx⟩ := create_query_head lib tabname has_row_names field_params table_params fn
  unfold tab_create_sqlite
  simp only []
  cases created with
  | false => simp [hx, tx_run_cons, tx_run_nil, tx_op_create]
  | true => simp [hx, tx_run_cons, tx_run_nil, tx_op_create, tx_op_begin]

/-- The loop of `apop_text_to_db`, entered with an open and empty transaction,
keeps every insertion in an open transaction of at most `batch_size` rows,
and leaves a transaction open. -/
theorem insert_loop_tx {V : Type} (lib : DbLib V) (opts : apop_opts_type) (env : DbEnv)
    (tabname : List CChar) (statement : Bool) (field_ends : Option FieldEnds)
    (delimiters : List CChar) (fuel : Nat) (L : line_parse_t) (add_this_line : Text)
    (infile : FILE) (rows : Nat) :
    ∃ c, tx_run { inside := true, count := 0, ok := true }
        (insert_loop lib opts env tabname statement field_ends delimiters fuel
          { L := L, add_this_line := add_this_line, infile := infile, ct := 0,
            rows := rows }).1 = { inside := true, count := c, ok := true } := by
  cases statement with
  | false =>
    have h := insert_loop_tx_text lib opts env tabname field_ends delimiters fuel
      { L := L, add_this_line := add_this_line, infile := infile, ct := 0, rows := rows }
    exact ⟨_, h⟩
  | true =>
    have h := insert_loop_tx_prepared lib opts env tabname field_ends delimiters fuel
      { L := L, add_this_line := add_this_line, infile := infile, ct := 0, rows := rows }
    exact ⟨_, h⟩

/-! # The claims on the transactions and the value of `apop_text_to_db` -/

theorem tx_run_prepare_ops (t : TxState) (b : Bool) (q : List CChar) :
    tx_run t (if b = true then [DbOp.prepare q] else []) = t := by
  cases b with
  | false => rfl
  | true => simp [tx_run_cons, tx_run_nil, tx_op_prepare]

/-- C20: the transactions of `apop_text_to_db` with the SQLite engine.  In
the operations issued for any input, any arguments and any answers of the
database, every row insertion (a query `INSERT INTO ...`, or `sqlite3_step` of
the prepared statement) is made while a transaction is open, after a `begin`
and before the next `commit`, and no transaction holds more than `batch_size`,
that is 10000, insertions.  When the call returns a value other than `-1`, the
last transaction has been committed. -/
theorem apop_text_to_db_batches {V : Type} (lib : DbLib V) (opts : apop_opts_type)
    (env : DbEnv) (text_file : Option FILE) (tabname : List CChar)
    (has_row_names has_col_names : Nat) (field_names : Option (List (List CChar)))
    (field_ends : Option FieldEnds) (field_params : Option (List (List CChar × List CChar)))
    (table_params : Option (List CChar)) (delimiters : List CChar) :
    (tx_run { inside := false, count := 0, ok := true }
      (apop_text_to_db lib opts env text_file tabname has_row_names has_col_names field_names
        field_ends field_params table_params delimiters).ops).ok = true ∧
    ∀ r : Int,
      (apop_text_to_db lib opts env text_file tabname has_row_names has_col_names field_names
        field_ends field_params table_params delimiters).ret = some r → r ≠ -1 →
      (tx_run { inside := false, count := 0, ok := true }
        (apop_text_to_db lib opts env text_file tabname has_row_names has_col_names field_names
          field_ends field_params table_params delimiters).ops).inside = false := by
  unfold apop_text_to_db
  simp only []
  generalize (if (if has_row_names = 1 ∨ has_row_names = 89 then 121 else has_row_names) = 121
    then 1 else 0) = hrn
  generalize (if (if has_col_names = 1 ∨ has_col_names = 89 then 121 else has_col_names) = 121
    then 1 else 0) = hcn
  split
  · exact ⟨rfl, fun r h hr => rfl⟩
  · split
    · exact ⟨rfl, fun r h hr => rfl⟩
    · split
      · exact ⟨rfl, fun r h hr => rfl⟩
      · rename_i infile r hg
        generalize hfn : r.1 = fn
        generalize hatl : r.2.1 = add_this_line
        generalize hin : r.2.2 = inp
        obtain ⟨hmade, hmade1⟩ := tx_run_tab_create lib env.created tabname
          hrn field_params table_params fn
        split
        · rename_i hfail
          rw [hmade]
          refine ⟨rfl, fun r h hr => ?_⟩
          simp only [Option.some.injEq] at h
          exact absurd h.symm hr
        · rename_i hok
          have hcreated : env.created = true := by
            cases hcr : env.created with
            | true => rfl
            | false => exact absurd (hmade1.mpr hcr) hok
          have hmade2 := hmade
          rw [hcreated] at hmade2
          split
          · rw [hmade]
            refine ⟨rfl, fun r h hr => ?_⟩
            simp only [Option.some.injEq] at h
            exact absurd h.symm hr
          · obtain ⟨c, hloop⟩ := insert_loop_tx lib opts env tabname
              (decide (env.sqlite3_libversion_number ≥ 3003009 ∧ add_this_line.length ≤ 999) &&
                env.sqlite3_prepare_v2) field_ends delimiters (inp.length + 2)
              { ct := add_this_line.length, eof := false } add_this_line inp 1
            split
            · refine ⟨?_, fun r h hr => ?_⟩
              · simp only [tx_run_append, hmade2, hcreated, tx_run_prepare_ops, tx_op_prepare, tx_run_cons, tx_run_nil, hloop]
              · simp at h
            · refine ⟨?_, fun r h hr => ?_⟩
              · simp only [tx_run_append, hmade2, hcreated, tx_run_prepare_ops, tx_op_prepare, tx_run_cons, tx_run_nil, hloop]
              · simp only [Option.some.injEq] at h
                exact absurd h.symm hr
            · split
              · split
                · refine ⟨?_, fun r h hr => ?_⟩
                  · simp only [tx_run_append, hmade2, hcreated, tx_run_prepare_ops, tx_op_prepare, hloop,
                      tx_run_cons, tx_run_nil, tx_op_commit, tx_op_finalize]
                  · simp only [Option.some.injEq] at h
                    exact absurd h.symm hr
                · refine ⟨?_, fun r h hr => ?_⟩
                  · simp only [tx_run_append, hmade2, hcreated, tx_run_prepare_ops, tx_op_prepare, hloop,
                      tx_run_cons, tx_run_nil, tx_op_commit, tx_op_finalize]
                  · simp only [tx_run_append, hmade2, hcreated, tx_run_prepare_ops, tx_op_prepare, hloop,
                      tx_run_cons, tx_run_nil, tx_op_commit, tx_op_finalize]
              · refine ⟨?_, fun r h hr => ?_⟩
                · simp only [tx_run_append, hmade2, hcreated, tx_run_prepare_ops, tx_op_prepare, hloop,
                    tx_run_cons, tx_run_nil, tx_op_commit, tx_op_finalize]
                · simp only [tx_run_append, hmade2, hcreated, tx_run_prepare_ops, tx_op_prepare, hloop,
                    tx_run_cons, tx_run_nil, tx_op_commit, tx_op_finalize]

/-! ## The rows that `apop_text_to_db` inserts and the value it returns -/

theorem rows_inserted_append (a b : List DbOp) :
    rows_inserted (a ++ b) = rows_inserted a + rows_inserted b := by
  simp [rows_inserted, List.countP_append]

theorem rows_inserted_bind_ops (x : List DbOp)
    (hx : ∀ op ∈ x, ∃ f s, op = DbOp.bind_text f s) : rows_inserted x = 0 := by
  unfold rows_inserted
  rw [List.countP_eq_zero]
  intro op hop
  obtain ⟨f, s, rfl⟩ := hx op hop
  simp [is_row_insertion]

theorem rows_inserted_line_prepared {V : Type} (lib : DbLib V) (opts : apop_opts_type)
    (L : line_parse_t) (addme : Text) (tabname : List CChar) :
    rows_inserted (line_to_insert lib opts L addme tabname true) = 0 := by
  rw [line_to_insert_prepared]
  apply rows_inserted_bind_ops
  intro op hop
  rw [List.mem_flatten] at hop
  obtain ⟨x, hx, hop⟩ := hop
  rw [List.mem_map] at hx
  obtain ⟨col, _, rfl⟩ := hx
  split at hop
  · simp only [List.mem_singleton] at hop
    exact ⟨_, _, hop⟩
  · simp at hop

theorem rows_inserted_line_text {V : Type} (lib : DbLib V) (opts : apop_opts_type)
    (L : line_parse_t) (addme : Text) (tabname : List CChar) (hct : L.ct ≠ 0) :
    rows_inserted (line_to_insert lib opts L addme tabname false) = 1 := by
  rw [line_to_insert_text lib opts L addme tabname hct, List.append_assoc, List.append_assoc,
    List.append_assoc]
  have h4 : ∀ x, (bytes "INSERT INTO " ++ x).take 12 = bytes "INSERT INTO " := by
    intro x; simp [bytes]
  simp [rows_inserted, is_row_insertion, h4]

/-- The operations of one pass of the loop insert one row. -/
theorem rows_inserted_pass {V : Type} (lib : DbLib V) (opts : apop_opts_type)
    (L : line_parse_t) (addme : Text) (tabname : List CChar) (statement : Bool) (ct : Nat)
    (hct : L.ct ≠ 0) :
    rows_inserted (line_to_insert lib opts L addme tabname statement ++
      (if ct % batch_size = 0 then [DbOp.query (bytes "commit; begin;")] else []) ++
      (if statement = true then [DbOp.step, DbOp.reset, DbOp.clear_bindings] else [])) = 1 := by
  have h2 : rows_inserted
      (if ct % batch_size = 0 then [DbOp.query (bytes "commit; begin;")] else []) = 0 := by
    split
    · decide
    · rfl
  rw [rows_inserted_append, rows_inserted_append, h2]
  cases statement with
  | false =>
    rw [rows_inserted_line_text lib opts L addme tabname hct]
    rfl
  | true =>
    rw [rows_inserted_line_prepared]
    rfl

/-- The loop that skips blank lines stops at once at a line with a field and
at the end of the input. -/
theorem skip_blank_lines_stop (field_ends : Option FieldEnds) (delimiters : List CChar)
    (fuel : Nat) (inp : FILE) (fn : Text) (rows : Nat) (res : LineResult)
    (hres : parse_a_line inp fn field_ends delimiters = some res)
    (hstop : res.L.ct ≠ 0 ∨ res.L.eof = true) :
    skip_blank_lines field_ends delimiters (fuel + 1) inp fn rows = some (res, rows + 1) := by
  unfold skip_blank_lines
  simp only [hres]
  have hc : ¬ (res.L.ct = 0 ∧ res.L.eof = false) := by
    rintro ⟨h1, h2⟩
    rcases hstop with h | h
    · exact h h1
    · rw [h] at h2; cases h2
  rw [if_neg hc]

/-- A pass of the loop in a database whose calls succeed, written out. -/
theorem insert_loop_pass {V : Type} (lib : DbLib V) (opts : apop_opts_type) (env : DbEnv)
    (tabname : List CChar) (statement : Bool) (field_ends : Option FieldEnds)
    (delimiters : List CChar) (fuel : Nat) (s : DState) (res : LineResult)
    (hreset : ∀ n, env.sqlite3_reset n = 0) (hclear : ∀ n, env.sqlite3_clear_bindings n = 0)
    (hc : s.L.ct ≠ 0 ∧ s.L.eof = false)
    (hres : parse_a_line s.infile s.add_this_line field_ends delimiters = some res)
    (hstop : res.L.ct ≠ 0 ∨ res.L.eof = true) :
    insert_loop lib opts env tabname statement field_ends delimiters (fuel + 1) s =
      ((line_to_insert lib opts s.L s.add_this_line tabname statement ++
          (if s.ct % batch_size = 0 then [DbOp.query (bytes "commit; begin;")] else []) ++
          (if statement = true then [DbOp.step, DbOp.reset, DbOp.clear_bindings] else [])) ++
        (insert_loop lib opts env tabname statement field_ends delimiters fuel
          { L := res.L, add_this_line := res.fn, infile := res.infile, ct := s.ct + 1,
            rows := s.rows + 1 }).1,
       (insert_loop lib opts env tabname statement field_ends delimiters fuel
          { L := res.L, add_this_line := res.fn, infile := res.infile, ct := s.ct + 1,
            rows := s.rows + 1 }).2) := by
  conv_lhs => unfold insert_loop
  simp only []
  rw [if_pos hc, if_neg (fun h => h.2 (hreset _)), if_neg (fun h => h.2 (hclear _)),
    skip_blank_lines_stop field_ends delimiters s.infile.length s.infile s.add_this_line s.rows
      res hres hstop]

/-- The loop of `apop_text_to_db` on lines with fields, up to the end of the
input, in a database whose calls succeed: every line is inserted, and `rows`
is counted up once for each line read and once more at the end of the
input. -/
theorem insert_loop_run {V : Type} (lib : DbLib V) (opts : apop_opts_type) (env : DbEnv)
    (tabname : List CChar) (statement : Bool) (delimiters : List CChar)
    (hreset : ∀ n, env.sqlite3_reset n = 0) (hclear : ∀ n, env.sqlite3_clear_bindings n = 0)
    (h255 : 255 ∉ delimiters) (lines : List (List CChar × List (List CChar))) :
    ∀ (L : line_parse_t) (fn : Text) (ct rows fuel : Nat),
      (∀ l ∈ lines, 1 ≤ l.2.length ∧ ∀ rest fn, ∃ res,
        parse_a_line (l.1 ++ rest) fn none delimiters = some res ∧
          res.L = { ct := l.2.length, eof := false } ∧ res.fields = l.2 ∧ res.infile = rest) →
      L.ct ≠ 0 → L.eof = false → lines.length + 2 ≤ fuel →
      (insert_loop lib opts env tabname statement none delimiters fuel
        { L := L, add_this_line := fn, infile := (lines.map Prod.fst).flatten, ct := ct,
          rows := rows }).2 = LoopEnd.done (rows + lines.length + 1) ∧
      rows_inserted (insert_loop lib opts env tabname statement none delimiters fuel
        { L := L, add_this_line := fn, infile := (lines.map Prod.fst).flatten, ct := ct,
          rows := rows }).1 = lines.length + 1 := by
  induction lines with
  | nil =>
    intro L fn ct rows fuel _ hct heof hfuel
    obtain ⟨fuel, rfl⟩ : ∃ f, fuel = f + 1 + 1 := ⟨fuel - 2, by simp at hfuel; omega⟩
    obtain ⟨res, hres, hL, hin⟩ := parse_a_line_nil fn delimiters h255
    simp only [List.map_nil, List.flatten_nil]
    rw [insert_loop_pass lib opts env tabname statement none delimiters (fuel + 1)
      { L := L, add_this_line := fn, infile := [], ct := ct, rows := rows } res hreset
      hclear ⟨hct, heof⟩ hres (Or.inr (by rw [hL]))]
    have hend : insert_loop lib opts env tabname statement none delimiters (fuel + 1)
        { L := res.L, add_this_line := res.fn, infile := res.infile, ct := ct + 1,
          rows := rows + 1 } = ([], LoopEnd.done (rows + 1)) := by
      unfold insert_loop
      simp [hL]
    rw [hend]
    refine ⟨rfl, ?_⟩
    simp only [List.append_nil, List.length_nil, Nat.zero_add]
    exact rows_inserted_pass lib opts L fn tabname statement ct hct
  | cons l ls ih =>
    intro L fn ct rows fuel hlines hct heof hfuel
    obtain ⟨fuel, rfl⟩ : ∃ f, fuel = f + 1 := ⟨fuel - 1, by simp at hfuel; omega⟩
    obtain ⟨hl1, hl2⟩ := hlines l (by simp)
    obtain ⟨res, hres, hL, hF, hin⟩ := hl2 (ls.map Prod.fst).flatten fn
    have hct2 : res.L.ct ≠ 0 := by rw [hL]; simp only; omega
    have heof2 : res.L.eof = false := by rw [hL]
    simp only [List.map_cons, List.flatten_cons]
    rw [insert_loop_pass lib opts env tabname statement none delimiters fuel
      { L := L, add_this_line := fn, infile := l.1 ++ (ls.map Prod.fst).flatten, ct := ct,
        rows := rows } res hreset hclear ⟨hct, heof⟩ hres (Or.inl hct2)]
    obtain ⟨h1, h2⟩ := ih res.L res.fn (ct + 1) (rows + 1) fuel
      (fun x hx => hlines x (by simp [hx])) hct2 heof2 (by simp at hfuel ⊢; omega)
    rw [hin]
    refine ⟨?_, ?_⟩
    · rw [h1]
      simp only [List.length_cons]
      congr 1
      omega
    · rw [rows_inserted_append, h2, rows_inserted_pass lib opts L fn tabname statement ct hct]
      simp only [List.length_cons]
      omega

theorem read_until_fields_first (delimiters : List CChar) (inp : FILE) (res : LineResult)
    (hres : parse_a_line inp [] none delimiters = some res) (hct : res.fn.length ≠ 0)
    (fuel : Nat) :
    read_until_fields none delimiters (fuel + 2) inp [] = some (res.fn, res.infile) := by
  unfold read_until_fields
  simp only [List.length_nil, if_true, hres]
  unfold read_until_fields
  simp only [hct, if_false]

/-- Without a header line `get_field_names` reads the first line with fields
into `add_this_line`. -/
theorem get_field_names_no_header (delimiters : List CChar)
    (field_names : Option (List (List CChar))) (inp : FILE) (res : LineResult)
    (hres : parse_a_line inp [] none delimiters = some res) (hct : res.fn.length ≠ 0)
    (hinp : inp ≠ []) :
    ∃ fn, get_field_names 0 field_names inp [] [] none delimiters =
      some (fn, res.fn, res.infile) := by
  obtain ⟨fuel, hfuel⟩ : ∃ f, inp.length + 1 = f + 2 := by
    cases inp with
    | nil => exact absurd rfl hinp
    | cons x xs => exact ⟨xs.length, by simp⟩
  unfold get_field_names
  simp only [ne_eq, not_true_eq_false, false_and, if_false, hfuel,
    read_until_fields_first delimiters inp res hres hct fuel]
  exact ⟨_, rfl⟩

theorem rows_inserted_tab_create {V : Type} (lib : DbLib V) (created : Bool)
    (tabname : List CChar) (has_row_names : Nat)
    (field_params : Option (List (List CChar × List CChar)))
    (table_params : Option (List CChar)) (fn : Text) :
    rows_inserted
      (tab_create_sqlite lib created tabname has_row_names field_params table_params fn).2 =
      0 := by
  obtain ⟨x, hx⟩ := create_query_head lib tabname has_row_names field_params table_params fn
  have h4 : ¬ ((bytes "create table " ++ x).take 12 = bytes "INSERT INTO ") := by simp [bytes]
  have h5 : ¬ ((bytes "begin;").take 12 = bytes "INSERT INTO ") := by decide
  unfold tab_create_sqlite
  simp only []
  cases created with
  | false => simp [hx, rows_inserted, is_row_insertion, h4]
  | true => simp [hx, rows_inserted, is_row_insertion, h4, h5]

/-- The call of `apop_text_to_db` in a database whose calls succeed, when the
loop ends: the value returned is the `rows` of the loop, and the rows
inserted are those of the loop. -/
theorem apop_text_to_db_done {V : Type} (lib : DbLib V) (opts : apop_opts_type)
    (env : DbEnv) (infile : FILE) (tabname : List CChar)
    (has_row_names has_col_names : Nat) (field_names : Option (List (List CChar)))
    (field_ends : Option FieldEnds) (field_params : Option (List (List CChar × List CChar)))
    (table_params : Option (List CChar)) (delimiters : List CChar)
    (r : Text × Text × FILE) (rows : Nat)
    (hte : env.table_exists = false) (hcr : env.created = true) (hdb : env.db = true)
    (hfin : env.sqlite3_finalize = 0)
    (hg : get_field_names
        (if (if has_col_names = 1 ∨ has_col_names = 89 then 121 else has_col_names) = 121
          then 1 else 0) field_names infile [] [] field_ends delimiters = some r)
    (hloop : (insert_loop lib opts env tabname
        (decide (env.sqlite3_libversion_number ≥ 3003009 ∧ r.2.1.length ≤ 999) &&
          env.sqlite3_prepare_v2) field_ends delimiters (r.2.2.length + 2)
        { L := { ct := r.2.1.length, eof := false }, add_this_line := r.2.1,
          infile := r.2.2, ct := 0, rows := 1 }).2 = LoopEnd.done rows) :
    (apop_text_to_db lib opts env (some infile) tabname has_row_names has_col_names field_names
      field_ends field_params table_params delimiters).ret = some (rows : Int) ∧
    rows_inserted (apop_text_to_db lib opts env (some infile) tabname has_row_names
      has_col_names field_names field_ends field_params table_params delimiters).ops =
      rows_inserted (insert_loop lib opts env tabname
        (decide (env.sqlite3_libversion_number ≥ 3003009 ∧ r.2.1.length ≤ 999) &&
          env.sqlite3_prepare_v2) field_ends delimiters (r.2.2.length + 2)
        { L := { ct := r.2.1.length, eof := false }, add_this_line := r.2.1,
          infile := r.2.2, ct := 0, rows := 1 }).1 := by
  have hmade := tx_run_tab_create lib env.created tabname
    (if (if has_row_names = 1 ∨ has_row_names = 89 then 121 else has_row_names) = 121
      then 1 else 0) field_params table_params r.1
  have hmade0 := rows_inserted_tab_create lib env.created tabname
    (if (if has_row_names = 1 ∨ has_row_names = 89 then 121 else has_row_names) = 121
      then 1 else 0) field_params table_params r.1
  have hnot : ¬ ((tab_create_sqlite lib env.created tabname
      (if (if has_row_names = 1 ∨ has_row_names = 89 then 121 else has_row_names) = 121
        then 1 else 0) field_params table_params r.1).1 ≠ 0) := by
    rw [hmade.2, hcr]; decide
  have hnodb : ¬ (decide (env.sqlite3_libversion_number ≥ 3003009 ∧ r.2.1.length ≤ 999) = true ∧
      env.db = false) := by
    rw [hdb]; simp
  have hfin2 : ¬ (env.sqlite3_finalize ≠ 0) := fun h => h hfin
  have hprep : ∀ (b : Bool) (q : List CChar),
      rows_inserted (if b = true then [DbOp.prepare q] else []) = 0 := by
    intro b q
    cases b with
    | false => rfl
    | true => rfl
  unfold apop_text_to_db
  simp only []
  rw [if_neg (by rw [hte]; decide), hg]
  simp only []
  rw [if_neg hnot, if_neg hnodb, hloop]
  simp only []
  have hc1 : rows_inserted [DbOp.query (bytes "commit;")] = 0 := by decide
  have hc2 : rows_inserted [DbOp.finalize] = 0 := rfl
  have hc3 : rows_inserted ([] : List DbOp) = 0 := rfl
  have hc4 : ∀ q, rows_inserted [DbOp.prepare q] = 0 := fun q => rfl
  split
  · simp only [hfin2, if_false]
    refine ⟨trivial, ?_⟩
    simp only [rows_inserted_append, hmade0, hprep, hc1, hc2, hc3, hc4, Nat.zero_add,
      Nat.add_zero]
  · refine ⟨rfl, ?_⟩
    simp only [rows_inserted_append, hmade0, hprep, hc1, hc2, hc3, hc4, Nat.zero_add,
      Nat.add_zero]

/-- C19 (what the code does): the value that `apop_text_to_db` returns is not
the number of rows inserted.  Without a header line, on `n ≥ 1` lines with at
least one field each, every one ended by its newline, in a database whose
calls succeed: `n` rows are inserted and the value returned is `n + 1`.  The
variable `rows` starts at 1 and is counted up for every line read after the
first one, the read that finds the end of the input included.  (`lines` are
the lines after the first one.) -/
theorem apop_text_to_db_return_value {V : Type} (lib : DbLib V) (opts : apop_opts_type)
    (env : DbEnv) (tabname : List CChar) (has_row_names : Nat)
    (field_names : Option (List (List CChar)))
    (field_params : Option (List (List CChar × List CChar)))
    (table_params : Option (List CChar)) (delimiters : List CChar)
    (first : List CChar × List (List CChar)) (lines : List (List CChar × List (List CChar)))
    (hte : env.table_exists = false) (hcr : env.created = true) (hdb : env.db = true)
    (hfin : env.sqlite3_finalize = 0) (hreset : ∀ n, env.sqlite3_reset n = 0)
    (hclear : ∀ n, env.sqlite3_clear_bindings n = 0) (h255 : 255 ∉ delimiters)
    (hfirst : 1 ≤ first.2.length ∧ ∀ rest fn,
      (parse_a_line (first.1 ++ rest) fn none delimiters).map LineResult.obs =
        some (first.2, { ct := first.2.length, eof := false }, rest))
    (hlines : ∀ l ∈ lines, 1 ≤ l.2.length ∧ ∀ rest fn,
      (parse_a_line (l.1 ++ rest) fn none delimiters).map LineResult.obs =
        some (l.2, { ct := l.2.length, eof := false }, rest)) :
    (apop_text_to_db lib opts env (some (first.1 ++ (lines.map Prod.fst).flatten)) tabname
      has_row_names 110 field_names none field_params table_params delimiters).ret =
      some ((lines.length : Int) + 2) ∧
    rows_inserted (apop_text_to_db lib opts env
      (some (first.1 ++ (lines.map Prod.fst).flatten)) tabname has_row_names 110 field_names
      none field_params table_params delimiters).ops = lines.length + 1 := by
  have hfirst2 : ∀ rest fn, ∃ res,
      parse_a_line (first.1 ++ rest) fn none delimiters = some res ∧
        res.L = { ct := first.2.length, eof := false } ∧ res.fields = first.2 ∧
        res.infile = rest := fun r fn => obs_eq_some _ _ (hfirst.2 r fn)
  have hlines2 : ∀ l ∈ lines, 1 ≤ l.2.length ∧ ∀ rest fn, ∃ res,
      parse_a_line (l.1 ++ rest) fn none delimiters = some res ∧
        res.L = { ct := l.2.length, eof := false } ∧ res.fields = l.2 ∧ res.infile = rest :=
    fun l hl => ⟨(hlines l hl).1, fun r fn => obs_eq_some _ _ ((hlines l hl).2 r fn)⟩
  obtain ⟨res, hres, hL, hF, hin⟩ := hfirst2 (lines.map Prod.fst).flatten []
  obtain ⟨_, hf2⟩ := fields_of_result _ _ _ _ hres
  rw [hL] at hf2
  simp only at hf2
  have hlen : res.fn.length ≠ 0 := by have := hfirst.1; omega
  have hne : first.1 ++ (lines.map Prod.fst).flatten ≠ [] := by
    have := line_nonempty delimiters first.1 _ _ hfirst2
    simp [this]
  obtain ⟨fn, hg⟩ := get_field_names_no_header delimiters field_names _ res hres hlen hne
  have hflat := flatten_length_ge lines
    (fun l hl => line_nonempty delimiters l.1 _ _ (hlines2 l hl).2)
  obtain ⟨h1, h2⟩ := insert_loop_run lib opts env tabname
    (decide (env.sqlite3_libversion_number ≥ 3003009 ∧ res.fn.length ≤ 999) &&
      env.sqlite3_prepare_v2) delimiters hreset hclear h255 lines
    { ct := res.fn.length, eof := false } res.fn 0 1 ((lines.map Prod.fst).flatten.length + 2)
    hlines2 hlen rfl (by omega)
  have hdone := apop_text_to_db_done lib opts env (first.1 ++ (lines.map Prod.fst).flatten)
    tabname has_row_names 110 field_names none field_params table_params delimiters
    (fn, res.fn, res.infile) (1 + lines.length + 1) hte hcr hdb hfin
    (by
      rw [if_neg (by decide : ¬ ((110 : Nat) = 1 ∨ (110 : Nat) = 89)),
        if_neg (by decide : ¬ ((110 : Nat) = 121))]
      exact hg)
    (by simp only [hin]; exact h1)
  simp only [hin] at hdone
  refine ⟨?_, ?_⟩
  · rw [hdone.1]
    congr 1
    push_cast
    omega
  · rw [hdone.2, h2]

/-- Witness for C19: the two lines `1` and `2` give two rows and the value 3,
with a prepared statement (`sqlite_ok`) and, evaluated, without one
(`sqlite_old`); the one line `1` gives one row and the value 2; `1`, a blank
line and `2` give two rows and the value 4; the header line `a` before `1` and
`2` gives two rows and the value 3. -/
theorem apop_text_to_db_return_value_witness :
    ((apop_text_to_db ex_lib default_opts sqlite_ok (some [49, 10, 50, 10]) (bytes "t") 110 110
        none none none none default_delimiters).ret = some 3 ∧
      rows_inserted (apop_text_to_db ex_lib default_opts sqlite_ok (some [49, 10, 50, 10])
        (bytes "t") 110 110 none none none none default_delimiters).ops = 2) ∧
    apop_text_to_db ex_lib default_opts sqlite_old (some [49, 10, 50, 10]) (bytes "t") 110 110
        none none none none default_delimiters =
      { ops := [DbOp.query (bytes "create table t ( 'col_0' numeric);"),
                DbOp.query (bytes "begin;"),
                DbOp.query (bytes "INSERT INTO t VALUES (  1);"),
                DbOp.query (bytes "commit; begin;"),
                DbOp.query (bytes "INSERT INTO t VALUES (  2);"),
                DbOp.query (bytes "commit;")],
        ret := some 3 } ∧
    ((apop_text_to_db ex_lib default_opts sqlite_ok (some [49, 10]) (bytes "t") 110 110
        none none none none default_delimiters).ret = some 2 ∧
      rows_inserted (apop_text_to_db ex_lib default_opts sqlite_ok (some [49, 10])
        (bytes "t") 110 110 none none none none default_delimiters).ops = 1) ∧
    ((apop_text_to_db ex_lib default_opts sqlite_ok (some [49, 10, 10, 50, 10]) (bytes "t")
        110 110 none none none none default_delimiters).ret = some 4 ∧
      rows_inserted (apop_text_to_db ex_lib default_opts sqlite_ok (some [49, 10, 10, 50, 10])
        (bytes "t") 110 110 none none none none default_delimiters).ops = 2) ∧
    ((apop_text_to_db ex_lib default_opts sqlite_ok (some [97, 10, 49, 10, 50, 10]) (bytes "t")
        110 121 none none none none default_delimiters).ret = some 3 ∧
      rows_inserted (apop_text_to_db ex_lib default_opts sqlite_ok
        (some [97, 10, 49, 10, 50, 10]) (bytes "t") 110 121 none none none none
        default_delimiters).ops = 2) :=
  ⟨apop_text_to_db_return_value ex_lib default_opts sqlite_ok (bytes "t") 110 none none none
      default_delimiters ([49, 10], [[49]]) [([50, 10], [[50]])]
      rfl rfl rfl rfl (fun _ => rfl) (fun _ => rfl) (by decide)
      ⟨by decide, fun rest fn => (parse_a_line_obs _ fn _).trans (by
        simp [aparse, aloop, aiter, read_step, parse_next_char, fgetc, char_type, strchr,
          default_delimiters, afield_step, afield_fill, aopen, aclose, aextend, AState.init,
          cstr, EOF])⟩
      (by
        intro l hl
        simp only [List.mem_singleton] at hl
        subst hl
        exact ⟨by decide, fun rest fn => (parse_a_line_obs _ fn _).trans (by
          simp [aparse, aloop, aiter, read_step, parse_next_char, fgetc, char_type, strchr,
            default_delimiters, afield_step, afield_fill, aopen, aclose, aextend, AState.init,
            cstr, EOF])⟩),
    by decide, by decide, by decide, by decide⟩

/-! ## The classifier and the reference classifier (C24) -/

theorem char_type_delimiter_first (delimiters : List CChar) (c : CChar) (h0 : c ≠ 0) :
    char_type delimiters c = delimiter_first_classifier delimiters c := by
  unfold char_type delimiter_first_classifier strchr
  by_cases hm : c ∈ delimiters
  · simp [h0, hm]
  · simp [h0, hm]

theorem delimiter_first_member (delimiters : List CChar) (c : CChar) (hm : c ∈ delimiters)
    (h32 : c ≠ 32) (h9 : c ≠ 9) : delimiter_first_classifier delimiters c = CType.d := by
  unfold delimiter_first_classifier
  simp [hm, h32, h9]

theorem delimiter_first_not_member (delimiters : List CChar) (c : CChar) (h0 : c ≠ 0)
    (hm : c ∉ delimiters) :
    delimiter_first_classifier delimiters c = reference_classifier delimiters c := by
  unfold delimiter_first_classifier reference_classifier EOF
  by_cases h1 : c = 255
  · subst h1; simp [hm]
  · by_cases h2 : c = 35
    · subst h2; simp [hm]
    · by_cases h3 : c = 92
      · subst h3; simp [hm]
      · by_cases h4 : c = 39
        · subst h4; simp [hm]
        · by_cases h5 : c = 34
          · subst h5; simp [hm]
          · by_cases h6 : c = 32
            · subst h6; simp [hm]
            · by_cases h7 : c = 9
              · subst h7; simp [hm]
              · by_cases h8 : c = 10
                · subst h8; simp [hm]
                · simp [hm, h0, h1, h2, h3, h4, h5, h6, h7, h8]

theorem delimiter_first_member_reference (delimiters : List CChar) (c : CChar) (h0 : c ≠ 0)
    (hm : c ∈ delimiters) :
    delimiter_first_classifier delimiters c = reference_classifier delimiters c ↔
      ¬ (c = 255 ∨ c = 35 ∨ c = 92 ∨ c = 39 ∨ c = 34) := by
  unfold delimiter_first_classifier reference_classifier EOF
  by_cases h1 : c = 255
  · subst h1; simp [hm]
  · by_cases h2 : c = 35
    · subst h2; simp [hm]
    · by_cases h3 : c = 92
      · subst h3; simp [hm]
      · by_cases h4 : c = 39
        · subst h4; simp [hm]
        · by_cases h5 : c = 34
          · subst h5; simp [hm]
          · by_cases h6 : c = 32
            · subst h6; simp [hm]
            · by_cases h7 : c = 9
              · subst h7; simp [hm]
              · simp [hm, h0, h1, h2, h3, h4, h5, h6, h7]

/-- C24 (amended): for every stream whose next byte is not a NUL and every
delimiter set, the category `parse_next_char` gives to the byte it reads is
decided by the first matching rule in the order: space or tab (white-space
delimiter when in the delimiter set, plain white space otherwise), member of
the delimiter set (delimiter), newline, double quote, single quote, backslash,
end of input, comment sign, regular.  So a member of the delimiter set other
than space and tab is classified delimiter, whatever else it is; a byte outside
the delimiter set has the category of the reference classifier of the
specification; and the two classifiers agree exactly when the byte is not one
of the end-of-input byte, `#`, the backslash and the two quotes that is in the
delimiter set. -/
theorem parse_next_char_reference_classifier (delimiters : List CChar) (f : FILE)
    (h0 : (fgetc f).1 ≠ 0) :
    (parse_next_char f delimiters).1.type =
      delimiter_first_classifier delimiters (fgetc f).1 ∧
    ((fgetc f).1 ∈ delimiters → (fgetc f).1 ≠ 32 → (fgetc f).1 ≠ 9 →
      (parse_next_char f delimiters).1.type = CType.d) ∧
    ((fgetc f).1 ∉ delimiters →
      (parse_next_char f delimiters).1.type = reference_classifier delimiters (fgetc f).1) ∧
    ((parse_next_char f delimiters).1.type = reference_classifier delimiters (fgetc f).1 ↔
      ¬ ((fgetc f).1 ∈ delimiters ∧
          ((fgetc f).1 = 255 ∨ (fgetc f).1 = 35 ∨ (fgetc f).1 = 92 ∨ (fgetc f).1 = 39 ∨
            (fgetc f).1 = 34))) := by
  have e : (parse_next_char f delimiters).1.type = char_type delimiters (fgetc f).1 := rfl
  rw [e, char_type_delimiter_first delimiters _ h0]
  generalize (fgetc f).1 = c at h0
  refine ⟨rfl, delimiter_first_member delimiters c,
    delimiter_first_not_member delimiters c h0, ?_⟩
  by_cases hm : c ∈ delimiters
  · rw [delimiter_first_member_reference delimiters c h0 hm]
    simp [hm]
  · simp [hm, delimiter_first_not_member delimiters c h0 hm]

/-- Witness for C24: the byte `#` with the delimiter set `#,` is classified
delimiter, where the reference classifier gives the comment sign; the byte `x`
has the category regular in both. -/
theorem parse_next_char_reference_classifier_witness :
    ((fgetc [35]).1 ≠ 0 ∧
      (parse_next_char [35] [35, 44]).1.type = CType.d ∧
      ¬ ((parse_next_char [35] [35, 44]).1.type = reference_classifier [35, 44] (fgetc [35]).1)) ∧
    ((fgetc [120]).1 ≠ 0 ∧
      (parse_next_char [120] [35, 44]).1.type = CType.r ∧
      (parse_next_char [120] [35, 44]).1.type =
        reference_classifier [35, 44] (fgetc [120]).1) := by
  have h1 := parse_next_char_reference_classifier [35, 44] [35] (by decide)
  have h2 := parse_next_char_reference_classifier [35, 44] [120] (by decide)
  refine ⟨⟨by decide, h1.2.1 (by decide) (by decide) (by decide), ?_⟩,
    ⟨by decide, h2.1.trans (by decide), h2.2.2.1 (by decide)⟩⟩
  intro h
  exact (h1.2.2.2.mp h) ⟨by decide, by decide⟩

/-- Counterexample for C24: with the delimiter set `#"'` followed by the
backslash, each of these four bytes is a delimiter for `parse_next_char` and
keeps its special category in the reference classifier; with the end-of-input
byte in the delimiter set, the end of the input is a delimiter too. -/
theorem parse_next_char_special_bytes_are_delimiters :
    (parse_next_char [35] [35, 34, 39, 92]).1.type = CType.d ∧
    reference_classifier [35, 34, 39, 92] 35 = CType.hash ∧
    (parse_next_char [34] [35, 34, 39, 92]).1.type = CType.d ∧
    reference_classifier [35, 34, 39, 92] 34 = CType.dq ∧
    (parse_next_char [39] [35, 34, 39, 92]).1.type = CType.d ∧
    reference_classifier [35, 34, 39, 92] 39 = CType.sq ∧
    (parse_next_char [92] [35, 34, 39, 92]).1.type = CType.d ∧
    reference_classifier [35, 34, 39, 92] 92 = CType.bs ∧
    (parse_next_char [] [255]).1.type = CType.d ∧
    reference_classifier [255] 255 = CType.E := by
  decide

/-! ## NUL bytes (C23) -/

/-- The search of `strchr` finds the terminator of the delimiter string: a NUL
is a white-space delimiter for every delimiter set. -/
theorem char_type_nul (delimiters : List CChar) : char_type delimiters 0 = CType.W := by
  simp [char_type, strchr]

theorem char_type_nuls (delimiters : List CChar) (ws : List CChar) (hws : ∀ c ∈ ws, c = 0) :
    ∀ c ∈ ws, char_type delimiters c = CType.W := by
  intro c hc
  rw [hws c hc]
  exact char_type_nul delimiters

/-- Two fields with a hard delimiter between them. -/
theorem aparse_two_fields (delimiters : List CChar) (d : CChar) (a b : List CChar)
    (rest : FILE) (hnl : 10 ∉ delimiters) (hd : char_type delimiters d = CType.d)
    (ha : ∀ c ∈ a, char_type delimiters c = CType.r)
    (hb : ∀ c ∈ b, char_type delimiters c = CType.r) (hane : a ≠ []) (hbne : b ≠ []) :
    aparse (a ++ d :: (b ++ 10 :: rest)) delimiters =
      some ([a, b], { ct := 2, eof := false }, rest) := by
  have hn := char_type_newline delimiters hnl
  have hf : (a ++ d :: (b ++ 10 :: rest)).length + 1 =
      a.length + ((b.length + (rest.length + 1 + 1)) + 1) := by
    simp only [List.length_append, List.length_cons]; omega
  unfold aparse
  rw [hf, init_eq_idle,
    aloop_of_apasses _ _ _ _ _ _ _ (apasses_regular_idle delimiters a ha hane [] false _),
    aloop_succ _ _ _ _ _ _ _ (aiter_d_inField delimiters _ _ _ d _ hd) (by simp) (by simp),
    aloop_of_apasses _ _ _ _ _ _ _ (apasses_regular_idle delimiters b hb hbne _ _ _),
    aloop_last _ _ _ _ _ _ _ (aiter_n_inField delimiters _ _ _ 10 _ hn) (Or.inl rfl)]
  simp [AState.idle, cstr_regular delimiters a ha, cstr_regular delimiters b hb]

/-- White-space delimiters between the text of a field and the hard delimiter
behind it: the hard delimiter opens an empty field. -/
theorem aparse_white_then_hard (delimiters : List CChar) (d : CChar) (ws a b : List CChar)
    (rest : FILE) (hnl : 10 ∉ delimiters) (hd : char_type delimiters d = CType.d)
    (hws : ∀ c ∈ ws, char_type delimiters c = CType.W) (hwne : ws ≠ [])
    (ha : ∀ c ∈ a, char_type delimiters c = CType.r)
    (hb : ∀ c ∈ b, char_type delimiters c = CType.r) (hane : a ≠ []) (hbne : b ≠ []) :
    aparse (a ++ (ws ++ d :: (b ++ 10 :: rest))) delimiters =
      some ([a, [], b], { ct := 3, eof := false }, rest) := by
  have hn := char_type_newline delimiters hnl
  cases ws with
  | nil => exact absurd rfl hwne
  | cons w ws =>
    have hw : char_type delimiters w = CType.W := hws w (by simp)
    have hws' : ∀ c ∈ ws, char_type delimiters c = CType.W := fun x hx => hws x (by simp [hx])
    have hf : (a ++ (w :: ws ++ d :: (b ++ 10 :: rest))).length + 1 =
        a.length + ((ws.length + ((b.length + (rest.length + 1 + 1)) + 1)) + 1) := by
      simp only [List.length_append, List.length_cons]; omega
    unfold aparse
    rw [hf, init_eq_idle,
      aloop_of_apasses _ _ _ _ _ _ _ (apasses_regular_idle delimiters a ha hane [] false _),
      List.cons_append,
      aloop_succ _ _ _ _ _ _ _ (aiter_W_inField delimiters _ _ _ w _ hw) (by simp) (by simp),
      aloop_of_apasses _ _ _ _ _ _ _ (apasses_W_idle delimiters ws hws' _ _ _),
      aloop_succ _ _ _ _ _ _ _ (aiter_d_idle delimiters _ _ d _ hd) (by simp) (by simp),
      aloop_of_apasses _ _ _ _ _ _ _ (apasses_regular_idle delimiters b hb hbne _ _ _),
      aloop_last _ _ _ _ _ _ _ (aiter_n_inField delimiters _ _ _ 10 _ hn) (Or.inl rfl)]
    simp [AState.idle, cstr_regular delimiters a ha, cstr_regular delimiters b hb]

/-- White-space delimiters between a hard delimiter and the text of the field
behind it, and at the start of the line, are passed over. -/
theorem aparse_white_before_text (delimiters : List CChar) (d : CChar)
    (ws1 ws2 a b : List CChar)
    (rest : FILE) (hnl : 10 ∉ delimiters) (hd : char_type delimiters d = CType.d)
    (hws1 : ∀ c ∈ ws1, char_type delimiters c = CType.W)
    (hws2 : ∀ c ∈ ws2, char_type delimiters c = CType.W)
    (ha : ∀ c ∈ a, char_type delimiters c = CType.r)
    (hb : ∀ c ∈ b, char_type delimiters c = CType.r) (hane : a ≠ []) (hbne : b ≠ []) :
    aparse (ws1 ++ (a ++ d :: (ws2 ++ (b ++ 10 :: rest)))) delimiters =
      some ([a, b], { ct := 2, eof := false }, rest) := by
  have hn := char_type_newline delimiters hnl
  have hf : (ws1 ++ (a ++ d :: (ws2 ++ (b ++ 10 :: rest)))).length + 1 =
      ws1.length + (a.length + ((ws2.length + (b.length + (rest.length + 1 + 1))) + 1)) := by
    simp only [List.length_append, List.length_cons]; omega
  unfold aparse
  rw [hf, init_eq_idle,
    aloop_of_apasses _ _ _ _ _ _ _ (apasses_W_idle delimiters ws1 hws1 _ _ _),
    aloop_of_apasses _ _ _ _ _ _ _ (apasses_regular_idle delimiters a ha hane [] _ _),
    aloop_succ _ _ _ _ _ _ _ (aiter_d_inField delimiters _ _ _ d _ hd) (by simp) (by simp),
    aloop_of_apasses _ _ _ _ _ _ _ (apasses_W_idle delimiters ws2 hws2 _ _ _),
    aloop_of_apasses _ _ _ _ _ _ _ (apasses_regular_idle delimiters b hb hbne _ _ _),
    aloop_last _ _ _ _ _ _ _ (aiter_n_inField delimiters _ _ _ 10 _ hn) (Or.inl rfl)]
  simp [AState.idle, cstr_regular delimiters a ha, cstr_regular delimiters b hb]

/-- White-space delimiters between the text of the last field and the newline:
the newline opens an empty field. -/
theorem aparse_white_then_newline (delimiters : List CChar) (d : CChar) (ws a b : List CChar)
    (rest : FILE) (hnl : 10 ∉ delimiters) (hd : char_type delimiters d = CType.d)
    (hws : ∀ c ∈ ws, char_type delimiters c = CType.W) (hwne : ws ≠ [])
    (ha : ∀ c ∈ a, char_type delimiters c = CType.r)
    (hb : ∀ c ∈ b, char_type delimiters c = CType.r) (hane : a ≠ []) (hbne : b ≠ []) :
    aparse (a ++ d :: (b ++ (ws ++ 10 :: rest))) delimiters =
      some ([a, b, []], { ct := 3, eof := false }, rest) := by
  have hn := char_type_newline delimiters hnl
  cases ws with
  | nil => exact absurd rfl hwne
  | cons w ws =>
    have hw : char_type delimiters w = CType.W := hws w (by simp)
    have hws' : ∀ c ∈ ws, char_type delimiters c = CType.W := fun x hx => hws x (by simp [hx])
    have hf : (a ++ d :: (b ++ (w :: ws ++ 10 :: rest))).length + 1 =
        a.length + ((b.length + ((ws.length + (rest.length + 1 + 1)) + 1)) + 1) := by
      simp only [List.length_append, List.length_cons]; omega
    unfold aparse
    rw [hf, init_eq_idle,
      aloop_of_apasses _ _ _ _ _ _ _ (apasses_regular_idle delimiters a ha hane [] false _),
      aloop_succ _ _ _ _ _ _ _ (aiter_d_inField delimiters _ _ _ d _ hd) (by simp) (by simp),
      aloop_of_apasses _ _ _ _ _ _ _ (apasses_regular_idle delimiters b hb hbne _ _ _),
      List.cons_append,
      aloop_succ _ _ _ _ _ _ _ (aiter_W_inField delimiters _ _ _ w _ hw) (by simp) (by simp),
      aloop_of_apasses _ _ _ _ _ _ _ (apasses_W_idle delimiters ws hws' _ _ _),
      aloop_last _ _ _ _ _ _ _ (aiter_n_idle delimiters _ _ 10 _ hn) (Or.inl rfl)]
    simp [AState.idle, cstr_regular delimiters a ha, cstr_regular delimiters b hb]

/-- C23: for every delimiter set `parse_next_char` gives a NUL the category of
a white-space delimiter, never the one of plain white space.  For fields `a`
and `b` of regular bytes with a hard delimiter `d` between them: NUL padding
at the start of the line and between `d` and the text of `b` leaves the two
fields `a` and `b`; NUL padding between the text of `a` and `d` gives the
three fields `a`, empty, `b`; NUL padding between the text of `b` and the
newline gives the three fields `a`, `b`, empty. -/
theorem parse_a_line_nul_padding (delimiters : List CChar) (d : CChar)
    (z1 z2 a b : List CChar) (rest : FILE) (fn : Text) (hnl : 10 ∉ delimiters)
    (hd : char_type delimiters d = CType.d) (hz1 : ∀ c ∈ z1, c = 0) (hz2 : ∀ c ∈ z2, c = 0)
    (hz : z2 ≠ []) (ha : ∀ c ∈ a, char_type delimiters c = CType.r)
    (hb : ∀ c ∈ b, char_type delimiters c = CType.r) (hane : a ≠ []) (hbne : b ≠ []) :
    (∀ f, (parse_next_char (0 :: f) delimiters).1.type = CType.W) ∧
    (parse_a_line (a ++ d :: (b ++ 10 :: rest)) fn none delimiters).map LineResult.obs =
      some ([a, b], { ct := 2, eof := false }, rest) ∧
    (parse_a_line (z1 ++ (a ++ d :: (z2 ++ (b ++ 10 :: rest)))) fn none delimiters).map
        LineResult.obs = some ([a, b], { ct := 2, eof := false }, rest) ∧
    (parse_a_line (a ++ (z2 ++ d :: (b ++ 10 :: rest))) fn none delimiters).map
        LineResult.obs = some ([a, [], b], { ct := 3, eof := false }, rest) ∧
    (parse_a_line (a ++ d :: (b ++ (z2 ++ 10 :: rest))) fn none delimiters).map
        LineResult.obs = some ([a, b, []], { ct := 3, eof := false }, rest) := by
  refine ⟨fun f => char_type_nul delimiters, ?_, ?_, ?_, ?_⟩
  · rw [parse_a_line_obs]
    exact aparse_two_fields delimiters d a b rest hnl hd ha hb hane hbne
  · rw [parse_a_line_obs]
    exact aparse_white_before_text delimiters d z1 z2 a b rest hnl hd
      (char_type_nuls delimiters z1 hz1) (char_type_nuls delimiters z2 hz2) ha hb hane hbne
  · rw [parse_a_line_obs]
    exact aparse_white_then_hard delimiters d z2 a b rest hnl hd
      (char_type_nuls delimiters z2 hz2) hz ha hb hane hbne
  · rw [parse_a_line_obs]
    exact aparse_white_then_newline delimiters d z2 a b rest hnl hd
      (char_type_nuls delimiters z2 hz2) hz ha hb hane hbne

/-- Witness for C23: the delimiter set `,` and the fields `a` and `b`; the
line `a NUL NUL , b` has the three fields `a`, empty and `b`, the line `a,b`
the two fields `a` and `b`. -/
theorem parse_a_line_nul_padding_witness :
    (∀ f, (parse_next_char (0 :: f) [44]).1.type = CType.W) ∧
    (parse_a_line ([97] ++ 44 :: ([98] ++ 10 :: [])) [] none [44]).map LineResult.obs =
      some ([[97], [98]], { ct := 2, eof := false }, []) ∧
    (parse_a_line ([0] ++ ([97] ++ 44 :: ([0, 0] ++ ([98] ++ 10 :: [])))) [] none [44]).map
        LineResult.obs = some ([[97], [98]], { ct := 2, eof := false }, []) ∧
    (parse_a_line ([97] ++ ([0, 0] ++ 44 :: ([98] ++ 10 :: []))) [] none [44]).map
        LineResult.obs = some ([[97], [], [98]], { ct := 3, eof := false }, []) ∧
    (parse_a_line ([97] ++ 44 :: ([98] ++ ([0, 0] ++ 10 :: []))) [] none [44]).map
        LineResult.obs = some ([[97], [98], []], { ct := 3, eof := false }, []) :=
  parse_a_line_nul_padding [44] 44 [0] [0, 0] [97] [98] [] [] (by decide) (by decide)
    (by decide) (by decide) (by decide) (by decide) (by decide) (by decide) (by decide)

/-! ## The number of cells of the row buffer

A call of `parse_a_line` grows the row buffer to the number of fields of the
line when it had fewer cells, and never shrinks it. -/

theorem open_field_cells (st : PState) :
    (open_field st).fn.length = max st.fn.length (st.ct + 1) ∧
      (open_field st).ct = st.ct + 1 := by
  unfold open_field
  simp only [length_text_realloc]
  refine ⟨?_, trivial⟩
  split
  · rw [length_apop_text_alloc]
  · omega

theorem close_field_cells (st : PState) :
    (close_field st).fn.length = st.fn.length ∧ (close_field st).ct = st.ct := by
  unfold close_field
  simp only [length_text_poke]
  exact ⟨trivial, trivial⟩

theorem extend_field_cells (st : PState) (ci : apop_char_info) :
    (extend_field st ci).fn.length = st.fn.length ∧ (extend_field st ci).ct = st.ct := by
  unfold extend_field
  simp only [length_text_poke]
  refine ⟨?_, trivial⟩
  split
  · rw [length_text_realloc]
  · rfl

theorem field_fill_cells (n : Nat) (st : PState) (ci : apop_char_info)
    (h : st.fn.length = max n st.ct) :
    (field_fill st ci).fn.length = max n (field_fill st ci).ct := by
  have ho := open_field_cells st
  have hco := close_field_cells (open_field st)
  have heo := extend_field_cells (open_field st) ci
  have hc := close_field_cells st
  have he := extend_field_cells st ci
  unfold field_fill
  simp only []
  split
  · exact h
  · split
    · split
      · split
        · rw [hco.1, hco.2, ho.1, ho.2]; omega
        · split
          · rw [heo.1, heo.2, ho.1, ho.2]; omega
          · rw [ho.1, ho.2]; omega
      · rw [ho.1, ho.2]; omega
    · split
      · split
        · rw [hc.1, hc.2]; exact h
        · split
          · rw [he.1, he.2]; exact h
          · exact h
      · exact h

theorem field_step_cells (n : Nat) (st : PState) (ci : apop_char_info)
    (h : st.fn.length = max n st.ct) :
    (field_step st ci).fn.length = max n (field_step st ci).ct := by
  unfold field_step
  split
  · exact h
  · exact field_fill_cells n _ ci h

theorem parse_iter_cells (n : Nat) (delimiters : List CChar) (st : PState) (infile : FILE)
    (h : st.fn.length = max n st.ct) :
    (parse_iter delimiters st infile).1.fn.length =
      max n (parse_iter delimiters st infile).1.ct := by
  unfold parse_iter
  exact field_step_cells n _ _ h

theorem parse_loop_cells (n : Nat) (delimiters : List CChar) (k : Nat) (st : PState)
    (infile : FILE) (h : st.fn.length = max n st.ct) (r : PState × CType × FILE)
    (hr : parse_loop delimiters k st infile = some r) :
    r.1.fn.length = max n r.1.ct := by
  induction k generalizing st infile with
  | zero => simp [parse_loop] at hr
  | succ k ih =>
    have h1 := parse_iter_cells n delimiters st infile h
    unfold parse_loop at hr
    simp only [] at hr
    split at hr
    · exact ih _ _ h1 hr
    · cases hr; exact h1

/-- After a call of `parse_a_line` the row buffer has as many cells as before
or as the line has fields, whichever is more. -/
theorem parse_a_line_cells (infile : FILE) (fn : Text) (delimiters : List CChar)
    (res : LineResult) (h : parse_a_line infile fn none delimiters = some res) :
    res.fn.length = max fn.length res.L.ct := by
  unfold parse_a_line at h
  simp only [] at h
  cases hp : parse_loop delimiters (infile.length + 1) (PState.init fn) infile with
  | none => rw [hp] at h; simp at h
  | some r =>
    rw [hp] at h
    simp only [Option.some.injEq] at h
    subst h
    exact parse_loop_cells fn.length delimiters _ _ _ (by simp [PState.init]) r hp

/-! ## The lines `get_field_names` reads -/

/-- With the names in the file, `get_field_names` reads the first line with
fields into `fn` and the line behind it into `add_this_line`. -/
theorem get_field_names_header (delimiters : List CChar) (has_col_names : Nat)
    (hcn : has_col_names ≠ 0) (inp : FILE) (res1 res2 : LineResult)
    (hres1 : parse_a_line inp [] none delimiters = some res1) (hct : res1.fn.length ≠ 0)
    (hinp : inp ≠ [])
    (hres2 : parse_a_line res1.infile [] none delimiters = some res2) :
    get_field_names has_col_names none inp [] [] none delimiters =
      some (res1.fn, res2.fn, res2.infile) := by
  obtain ⟨fuel, hfuel⟩ : ∃ f, inp.length + 1 = f + 2 := by
    cases inp with
    | nil => exact absurd rfl hinp
    | cons x xs => exact ⟨xs.length, by simp⟩
  unfold get_field_names
  simp only [ne_eq, hcn, not_false_eq_true, Option.isNone_none, and_self, if_true, hfuel,
    read_until_fields_first delimiters inp res1 hres1 hct fuel, hres2]

/-- With a list of names, or without names, `get_field_names` reads the first
line with fields into `add_this_line`, and `fn` gets one cell for each of its
cells. -/
theorem get_field_names_data_line (delimiters : List CChar) (has_col_names : Nat)
    (field_names : Option (List (List CChar)))
    (hmode : has_col_names = 0 ∨ field_names.isNone = false) (inp : FILE) (res : LineResult)
    (hres : parse_a_line inp [] none delimiters = some res) (hct : res.fn.length ≠ 0)
    (hinp : inp ≠ []) :
    ∃ fn, get_field_names has_col_names field_names inp [] [] none delimiters =
      some (fn, res.fn, res.infile) := by
  obtain ⟨fuel, hfuel⟩ : ∃ f, inp.length + 1 = f + 2 := by
    cases inp with
    | nil => exact absurd rfl hinp
    | cons x xs => exact ⟨xs.length, by simp⟩
  have hc : ¬ (has_col_names ≠ 0 ∧ field_names.isNone = true) := by
    rintro ⟨h1, h2⟩
    rcases hmode with h | h
    · exact h1 h
    · rw [h2] at h; cases h
  unfold get_field_names
  rw [if_neg hc]
  simp only [hfuel, read_until_fields_first delimiters inp res hres hct fuel]
  exact ⟨_, rfl⟩

/-- A line with fields read into an empty row buffer: the buffer has one cell
for each field, and the C strings of the cells are the fields. -/
theorem line_into_empty_buffer (delimiters : List CChar) (l : List CChar)
    (F : List (List CChar)) (rest : FILE)
    (h : (parse_a_line (l ++ rest) [] none delimiters).map LineResult.obs =
      some (F, { ct := F.length, eof := false }, rest)) :
    ∃ res, parse_a_line (l ++ rest) [] none delimiters = some res ∧
      res.L = { ct := F.length, eof := false } ∧ res.infile = rest ∧
      res.fn.length = F.length ∧ res.fn.map cstr = F := by
  obtain ⟨res, h1, h2, h3, h4⟩ := obs_eq_some _ _ h
  have hc := parse_a_line_cells _ _ _ _ h1
  simp only [List.length_nil, Nat.zero_max] at hc
  simp only at h2 h3 h4
  have hl : res.fn.length = F.length := by rw [hc, h2]
  refine ⟨res, h1, h2, h4, hl, ?_⟩
  rw [← h3, LineResult.fields, h2, ← hl, List.take_length]

/-- C22 (amended): let the input start with two lines with fields, each read
by one call of the tokenizer.  When the names are read from the file
(`has_col_names` set and no list of names), `get_field_names` consumes both
lines: the first gives the names in `fn`, the second is the first data line
and is returned in `add_this_line`.  In the other two modes it consumes the
first line only, which is the first data line and is returned in
`add_this_line`. -/
theorem get_field_names_lines_consumed (delimiters : List CChar) (has_col_names : Nat)
    (field_names : Option (List (List CChar)))
    (l1 l2 : List CChar × List (List CChar)) (rest : FILE)
    (h1 : l1.2 ≠ [] ∧ ∀ rest, (parse_a_line (l1.1 ++ rest) [] none delimiters).map
      LineResult.obs = some (l1.2, { ct := l1.2.length, eof := false }, rest))
    (h2 : ∀ rest, (parse_a_line (l2.1 ++ rest) [] none delimiters).map
      LineResult.obs = some (l2.2, { ct := l2.2.length, eof := false }, rest)) :
    (has_col_names ≠ 0 ∧ field_names = none →
      ∃ fn add_this_line,
        get_field_names has_col_names field_names (l1.1 ++ (l2.1 ++ rest)) [] [] none
            delimiters = some (fn, add_this_line, rest) ∧
          fn.map cstr = l1.2 ∧ add_this_line.map cstr = l2.2) ∧
    (has_col_names = 0 ∨ field_names ≠ none →
      ∃ fn add_this_line,
        get_field_names has_col_names field_names (l1.1 ++ (l2.1 ++ rest)) [] [] none
            delimiters = some (fn, add_this_line, l2.1 ++ rest) ∧
          add_this_line.map cstr = l1.2) := by
  obtain ⟨hne, hp1⟩ := h1
  obtain ⟨res1, hres1, _, hin1, hlen1, hf1⟩ :=
    line_into_empty_buffer delimiters l1.1 l1.2 (l2.1 ++ rest) (hp1 _)
  obtain ⟨res2, hres2, _, hin2, _, hf2⟩ :=
    line_into_empty_buffer delimiters l2.1 l2.2 rest (h2 _)
  have hct : res1.fn.length ≠ 0 := by
    rw [hlen1]
    intro h0
    exact hne (List.length_eq_zero.mp h0)
  have hl1 : l1.1 ≠ [] :=
    line_nonempty delimiters l1.1 l1.2.length l1.2 (fun rest fn => by
      obtain ⟨res, e1, e2, e3, e4⟩ := obs_eq_some _ _
        ((parse_a_line_obs _ fn _).trans ((parse_a_line_obs _ [] _).symm.trans (hp1 rest)))
      exact ⟨res, e1, e2, e3, e4⟩)
  have hinp : l1.1 ++ (l2.1 ++ rest) ≠ [] := by
    intro h
    exact hl1 (List.append_eq_nil.mp h).1
  constructor
  · rintro ⟨hcn, hnone⟩
    subst hnone
    rw [← hin1] at hres2
    refine ⟨res1.fn, res2.fn, ?_, hf1, hf2⟩
    rw [get_field_names_header delimiters has_col_names hcn _ res1 res2 hres1 hct hinp hres2,
      hin2]
  · intro hmode
    have hm : has_col_names = 0 ∨ field_names.isNone = false := by
      rcases hmode with h | h
      · exact Or.inl h
      · right
        cases field_names with
        | none => exact absurd rfl h
        | some x => rfl
    obtain ⟨fn, hfn⟩ := get_field_names_data_line delimiters has_col_names field_names hm _
      res1 hres1 hct hinp
    exact ⟨fn, res1.fn, by rw [hfn, hin1], hf1⟩

/-- Witness for C22: the lines `a,b` and `1,2` before the line `3,4`, with the
default delimiters and the names read from the file. -/
theorem get_field_names_lines_consumed_witness :
    (1 ≠ 0 ∧ (none : Option (List (List CChar))) = none →
      ∃ fn add_this_line,
        get_field_names 1 none ([97, 44, 98, 10] ++ ([49, 44, 50, 10] ++ [51, 44, 52, 10]))
            [] [] none default_delimiters = some (fn, add_this_line, [51, 44, 52, 10]) ∧
          fn.map cstr = [[97], [98]] ∧ add_this_line.map cstr = [[49], [50]]) ∧
    (1 = 0 ∨ (none : Option (List (List CChar))) ≠ none →
      ∃ fn add_this_line,
        get_field_names 1 none ([97, 44, 98, 10] ++ ([49, 44, 50, 10] ++ [51, 44, 52, 10]))
            [] [] none default_delimiters =
            some (fn, add_this_line, [49, 44, 50, 10] ++ [51, 44, 52, 10]) ∧
          add_this_line.map cstr = [[97], [98]]) :=
  get_field_names_lines_consumed default_delimiters 1 none
    ([97, 44, 98, 10], [[97], [98]]) ([49, 44, 50, 10], [[49], [50]]) [51, 44, 52, 10]
    ⟨by decide, fun rest => (parse_a_line_obs _ [] _).trans (by
      simp [aparse, aloop, aiter, read_step, parse_next_char, fgetc, char_type, strchr,
        default_delimiters, afield_step, afield_fill, aopen, aclose, aextend, AState.init,
        cstr, EOF])⟩
    (fun rest => (parse_a_line_obs _ [] _).trans (by
      simp [aparse, aloop, aiter, read_step, parse_next_char, fgetc, char_type, strchr,
        default_delimiters, afield_step, afield_fill, aopen, aclose, aextend, AState.init,
        cstr, EOF]))

/-- Counterexample for C22: on the three lines `a,b`, `1,2`, `3,4` the call
that reads the names from the file leaves the third line only (two lines are
consumed, not one); the call without names and the call with the list of names
`x`, `y` leave the second and third lines (one line is consumed, not none). -/
theorem get_field_names_reads_first_data_line :
    (get_field_names 1 none [97, 44, 98, 10, 49, 44, 50, 10, 51, 44, 52, 10] [] [] none
        default_delimiters).map (fun r => r.2.2) = some [51, 44, 52, 10] ∧
    (get_field_names 0 none [97, 44, 98, 10, 49, 44, 50, 10, 51, 44, 52, 10] [] [] none
        default_delimiters).map (fun r => r.2.2) = some [49, 44, 50, 10, 51, 44, 52, 10] ∧
    (get_field_names 1 (some [[120], [121]])
        [97, 44, 98, 10, 49, 44, 50, 10, 51, 44, 52, 10] [] [] none
        default_delimiters).map (fun r => r.2.2) = some [49, 44, 50, 10, 51, 44, 52, 10] := by
  decide

/-! ## The call of `apop_text_to_data` with a header line -/

theorem hascols_eq (has_col_names : Nat)
    (h : has_col_names = 1 ∨ has_col_names = 89 ∨ has_col_names = 121) :
    (if has_col_names = 1 ∨ has_col_names = 89 then 121 else has_col_names) = 121 := by
  rcases h with h | h | h <;> simp [h]

theorem apop_text_to_data_header {V : Type} (lib : NumLib V) (infile : FILE)
    (has_row_names has_col_names : Nat)
    (hcol : has_col_names = 1 ∨ has_col_names = 89 ∨ has_col_names = 121)
    (delimiters : List CChar) (fn atl : Text) (rest : FILE)
    (hg : get_field_names 1 none infile [] [] none delimiters = some (fn, atl, rest)) :
    apop_text_to_data lib (some infile) has_row_names has_col_names none delimiters =
      body_loop lib
        (if (if has_row_names = 1 ∨ has_row_names = 89 then 121 else has_row_names) = 121
          then 1 else 0)
        none delimiters (rest.length + 2)
        { set := some
            { apop_data_alloc lib 1
                (int_to_size_t ((atl.length : Int) -
                  ((if (if has_row_names = 1 ∨ has_row_names = 89 then 121
                      else has_row_names) = 121 then 1 else 0 : Nat) : Int))) with
              names := (List.range (atl.length -
                  (if (if has_row_names = 1 ∨ has_row_names = 89 then 121
                      else has_row_names) = 121 then 1 else 0))).foldl
                (fun n j => apop_name_add n (cstr (fn.getD j [])) 99)
                (apop_data_alloc lib 1
                  (int_to_size_t ((atl.length : Int) -
                    ((if (if has_row_names = 1 ∨ has_row_names = 89 then 121
                        else has_row_names) = 121 then 1 else 0 : Nat) : Int)))).names },
          L := { ct := atl.length, eof := false }, row := 0, add_this_line := atl,
          infile := rest } := by
  unfold apop_text_to_data
  simp only []
  rw [hascols_eq has_col_names hcol, if_pos rfl, hg]

theorem foldl_apop_name_add (g : Nat → List CChar) (n : Nat) (c0 r0 : List (List CChar)) :
    (List.range n).foldl (fun nm j => apop_name_add nm (g j) 99) { column := c0, row := r0 } =
      { column := c0 ++ (List.range n).map g, row := r0 } := by
  induction n with
  | zero => simp
  | succ n ih =>
    rw [List.range_succ, List.foldl_append, ih]
    simp [apop_name_add]

theorem int_to_size_t_sub (a b : Nat) (hb : b ≤ a) (ha : a - b < 2 ^ 64) :
    int_to_size_t ((a : Int) - (b : Int)) = a - b := by
  unfold int_to_size_t
  have h1 : ((a : Int) - (b : Int)) = ((a - b : Nat) : Int) := by omega
  rw [h1]
  have h2 : (((a - b : Nat) : Int) % (2 ^ 64 : Int)) = ((a - b : Nat) : Int) := by
    apply Int.emod_eq_of_lt
    · omega
    · have : ((2 : Int) ^ 64) = ((2 ^ 64 : Nat) : Int) := by norm_num
      rw [this]
      exact_mod_cast ha
  rw [h2]
  simp

/-- The cells of a row buffer and the fields read from it. -/
theorem cstr_getD_of_map (fn : Text) (H : List (List CChar)) (h : fn.map cstr = H) (j : Nat) :
    cstr (fn.getD j []) = H.getD j [] := by
  subst h
  by_cases hj : j < fn.length
  · simp [List.getD_eq_getElem?_getD, List.getElem?_eq_getElem hj]
  · have hj2 : fn.length ≤ j := by omega
    simp [List.getD_eq_getElem?_getD, List.getElem?_eq_none hj2, cstr]

/-- With a header line: the column names are the first fields of the header
line, as many as the first data line has data fields (a field that the header
line does not have is read as the empty string); the data lines, none wider
than the first, are all stored. -/
theorem apop_text_to_data_header_stores {V : Type} (lib : NumLib V)
    (delimiters : List CChar) (has_row_names has_col_names hasrows : Nat)
    (header first : List CChar × List (List CChar))
    (lines : List (List CChar × List (List CChar)))
    (hcol : has_col_names = 1 ∨ has_col_names = 89 ∨ has_col_names = 121)
    (hrows : hasrows =
      if has_row_names = 1 ∨ has_row_names = 89 ∨ has_row_names = 121 then 1 else 0)
    (h255 : 255 ∉ delimiters)
    (hheader : header.2 ≠ [] ∧ ∀ rest, (parse_a_line (header.1 ++ rest) [] none delimiters).map
      LineResult.obs = some (header.2, { ct := header.2.length, eof := false }, rest))
    (hfirst : 1 ≤ first.2.length ∧ ∀ rest, (parse_a_line (first.1 ++ rest) [] none
      delimiters).map LineResult.obs =
        some (first.2, { ct := first.2.length, eof := false }, rest))
    (hsize : first.2.length - hasrows < 2 ^ 64)
    (hlines : ∀ l ∈ lines, 1 ≤ l.2.length ∧ l.2.length ≤ first.2.length ∧ ∀ rest fn, ∃ res,
      parse_a_line (l.1 ++ rest) fn none delimiters = some res ∧
        res.L = { ct := l.2.length, eof := false } ∧ res.fields = l.2 ∧ res.infile = rest) :
    apop_text_to_data lib (some (header.1 ++ (first.1 ++ (lines.map Prod.fst).flatten)))
        has_row_names has_col_names none delimiters =
      some { vector := none,
             matrix := some
               { size1 := lines.length + 1, size2 := first.2.length - hasrows,
                 data := (first.2 :: lines.map Prod.snd).map
                   (fun F => (F.drop hasrows).map (convert_field lib) ++
                     List.replicate (first.2.length - hasrows - (F.length - hasrows))
                       lib.fresh) },
             weights := none,
             names := { column := (List.range (first.2.length - hasrows)).map
                          (fun j => header.2.getD j []),
                        row := if hasrows ≠ 0 then
                            (first.2 :: lines.map Prod.snd).map (fun F => F.headD [])
                          else [] },
             error := 0 } := by
  obtain ⟨hHne, hHp⟩ := hheader
  obtain ⟨hw, hFp⟩ := hfirst
  obtain ⟨resH, hresH, _, hinH, hlenH, hfH⟩ :=
    line_into_empty_buffer delimiters header.1 header.2
      (first.1 ++ (lines.map Prod.fst).flatten) (hHp _)
  obtain ⟨res1, hres1, _, hin1, hlen1, hf1⟩ :=
    line_into_empty_buffer delimiters first.1 first.2 ((lines.map Prod.fst).flatten) (hFp _)
  have hct : resH.fn.length ≠ 0 := by
    rw [hlenH]
    intro h0
    exact hHne (List.length_eq_zero.mp h0)
  have hl1 : header.1 ≠ [] :=
    line_nonempty delimiters header.1 header.2.length header.2 (fun rest fn => by
      obtain ⟨res, e1, e2, e3, e4⟩ := obs_eq_some _ _
        ((parse_a_line_obs _ fn _).trans ((parse_a_line_obs _ [] _).symm.trans (hHp rest)))
      exact ⟨res, e1, e2, e3, e4⟩)
  have hinp : header.1 ++ (first.1 ++ (lines.map Prod.fst).flatten) ≠ [] := by
    intro h
    exact hl1 (List.append_eq_nil.mp h).1
  rw [← hinH] at hres1
  have hg := get_field_names_header delimiters 1 (by decide) _ resH res1 hresH hct hinp hres1
  have hhr := hasrows_le_one has_row_names hasrows hrows
  have hflat := flatten_length_ge lines
    (fun l hl => line_nonempty delimiters l.1 _ _ (hlines l hl).2.2)
  have htail : ∀ fn, ∃ res, parse_a_line [] fn none delimiters = some res ∧
      res.L = { ct := 0, eof := true } ∧ res.fields = [] ∧ res.infile = [] := by
    intro fn
    obtain ⟨res, h1, h2, h3, h4⟩ := obs_of_aparse [] fn delimiters _
      (aparse_blank_eof delimiters [] h255 (by simp))
    exact ⟨res, h1, h3, h2, h4⟩
  have hlines' : ∀ l ∈ lines, 1 ≤ l.2.length ∧
      l.2.length - hasrows ≤ first.2.length - hasrows ∧ ∀ rest fn, ∃ res,
      parse_a_line (l.1 ++ rest) fn none delimiters = some res ∧
        res.L = { ct := l.2.length, eof := false } ∧ res.fields = l.2 ∧ res.infile = rest :=
    fun l hl => ⟨(hlines l hl).1, by have := (hlines l hl).2.1; omega, (hlines l hl).2.2⟩
  obtain ⟨fuel, hfuel⟩ : ∃ f, ((lines.map Prod.fst).flatten).length + 2 =
      (f + 1) + (lines.length + 1) :=
    ⟨((lines.map Prod.fst).flatten).length - lines.length, by omega⟩
  obtain ⟨fnT, _, _, h3⟩ := body_loop_run lib delimiters hasrows (first.2.length - hasrows)
    lines [] { ct := 0, eof := true } [] [] htail
    ((List.range (first.2.length - hasrows)).map (fun j => header.2.getD j []))
    first.2.length 1 0
    [List.replicate (first.2.length - hasrows) lib.fresh] [] [] res1.fn
    ((fuel + 1) + (lines.length + 1)) hlines' hw (Nat.le_refl _) rfl (by simp)
    (Or.inr (by simp)) (by omega) (by omega)
  have e1 : (fuel + 1) + (lines.length + 1) - (lines.length + 1) = fuel + 1 := by omega
  rw [e1, body_loop_end, List.append_nil, List.take_of_length_le (by omega), hf1] at h3
  rw [apop_text_to_data_header lib _ has_row_names has_col_names hcol delimiters _ _ _ hg,
    hasrows_eq, ← hrows, hin1, hlen1, int_to_size_t_sub _ _ (by omega) hsize, hfuel]
  simp only [apop_data_alloc, foldl_apop_name_add, cstr_getD_of_map resH.fn header.2 hfH,
    List.nil_append, List.replicate_one]
  rw [h3]
  simp only [Nat.zero_add, List.nil_append]

theorem range_map_getD_take (H : List (List CChar)) (n : Nat) (h : n ≤ H.length) :
    (List.range n).map (fun j => H.getD j []) = H.take n := by
  apply List.ext_getElem
  · simp [h]
  · intro i h1 h2
    simp only [List.length_map, List.length_range] at h1
    simp [List.getD_eq_getElem?_getD, List.getElem?_eq_getElem (by omega : i < H.length)]

/-- C21 (amended): `apop_text_to_data` with `has_col_names = 'y'` on a header
line with the fields `h_0 .. h_m`, a first data line with `w` fields and
further data lines none of which is wider, up to the end of the input: the
table has `n = w - hasrows` columns and its column names are `h_0 .. h_(n-1)`,
the first `n` fields of the header line, with and without row names (the
header line has at least `n` fields; none of them is skipped for the row
names). -/
theorem apop_text_to_data_column_names {V : Type} (lib : NumLib V)
    (delimiters : List CChar) (has_row_names has_col_names hasrows : Nat)
    (header first : List CChar × List (List CChar))
    (lines : List (List CChar × List (List CChar)))
    (hcol : has_col_names = 1 ∨ has_col_names = 89 ∨ has_col_names = 121)
    (hrows : hasrows =
      if has_row_names = 1 ∨ has_row_names = 89 ∨ has_row_names = 121 then 1 else 0)
    (h255 : 255 ∉ delimiters)
    (hheader : first.2.length - hasrows ≤ header.2.length ∧
      ∀ rest fn, (parse_a_line (header.1 ++ rest) fn none delimiters).map
        LineResult.obs = some (header.2, { ct := header.2.length, eof := false }, rest))
    (hfirst : hasrows < first.2.length ∧ first.2.length - hasrows < 2 ^ 64 ∧
      ∀ rest fn, (parse_a_line (first.1 ++ rest) fn none delimiters).map
        LineResult.obs = some (first.2, { ct := first.2.length, eof := false }, rest))
    (hlines : ∀ l ∈ lines, 1 ≤ l.2.length ∧ l.2.length ≤ first.2.length ∧
      ∀ rest fn, (parse_a_line (l.1 ++ rest) fn none delimiters).map
        LineResult.obs = some (l.2, { ct := l.2.length, eof := false }, rest)) :
    (apop_text_to_data lib (some (header.1 ++ (first.1 ++ (lines.map Prod.fst).flatten)))
        has_row_names has_col_names none delimiters).map
        (fun d => (d.names.column, d.matrix.map (fun m => m.size2), d.error)) =
      some (header.2.take (first.2.length - hasrows), some (first.2.length - hasrows), 0) := by
  obtain ⟨hn, hHp⟩ := hheader
  obtain ⟨hw, hsize, hFp⟩ := hfirst
  have hHne : header.2 ≠ [] := by
    intro h
    rw [h] at hn
    simp only [List.length_nil] at hn
    omega
  rw [apop_text_to_data_header_stores lib delimiters has_row_names has_col_names hasrows
    header first lines hcol hrows h255 ⟨hHne, fun rest => hHp rest []⟩
    ⟨by omega, fun rest => hFp rest []⟩ hsize
    (fun l hl => ⟨(hlines l hl).1, (hlines l hl).2.1, fun rest fn => by
      obtain ⟨res, e1, e2, e3, e4⟩ := obs_eq_some _ _ ((hlines l hl).2.2 rest fn)
      exact ⟨res, e1, e2, e3, e4⟩⟩)]
  simp only [Option.map_some', range_map_getD_take header.2 _ hn]

/-- Witness for C21: the header line `a,b,c`, the data lines `r,1,2` and
`s,3,4` and row names: two columns, named `a` and `b`. -/
theorem apop_text_to_data_column_names_witness :
    (apop_text_to_data digits_lib
        (some ([97, 44, 98, 44, 99, 10] ++ ([114, 44, 49, 44, 50, 10] ++
          ([([115, 44, 51, 44, 52, 10], [[115], [51], [52]])].map Prod.fst).flatten)))
        121 121 none default_delimiters).map
        (fun d => (d.names.column, d.matrix.map (fun m => m.size2), d.error)) =
      some ([[97], [98], [99]].take ([[114], [49], [50]].length - 1),
        some ([[114], [49], [50]].length - 1), 0) :=
  apop_text_to_data_column_names digits_lib default_delimiters 121 121 1
    ([97, 44, 98, 44, 99, 10], [[97], [98], [99]])
    ([114, 44, 49, 44, 50, 10], [[114], [49], [50]])
    [([115, 44, 51, 44, 52, 10], [[115], [51], [52]])]
    (by decide) (by decide) (by decide)
    ⟨by decide, fun rest fn => (parse_a_line_obs _ fn _).trans (by
      simp [aparse, aloop, aiter, read_step, parse_next_char, fgetc, char_type, strchr,
        default_delimiters, afield_step, afield_fill, aopen, aclose, aextend, AState.init,
        cstr, EOF])⟩
    ⟨by decide, by norm_num, fun rest fn => (parse_a_line_obs _ fn _).trans (by
      simp [aparse, aloop, aiter, read_step, parse_next_char, fgetc, char_type, strchr,
        default_delimiters, afield_step, afield_fill, aopen, aclose, aextend, AState.init,
        cstr, EOF])⟩
    (by
      intro l hl
      simp only [List.mem_singleton] at hl
      subst hl
      exact ⟨by decide, by decide, fun rest fn => (parse_a_line_obs _ fn _).trans (by
        simp [aparse, aloop, aiter, read_step, parse_next_char, fgetc, char_type, strchr,
          default_delimiters, afield_step, afield_fill, aopen, aclose, aextend, AState.init,
          cstr, EOF])⟩)

/-- Counterexample for C21: with row names, the header line `a,b,c` and the
data line `r,1,2` give the column names `a`, `b` (not `b`, `c`), and the
header line `a,b` gives `a`, `b` (not `b`); without row names, the header line
`a,b,c` and the data line `1,2` give the column names `a`, `b` (not `a`, `b`,
`c`): the width of the first data line decides how many names are taken. -/
theorem apop_text_to_data_column_names_from_data_width :
    (apop_text_to_data digits_lib
        (some [97, 44, 98, 44, 99, 10, 114, 44, 49, 44, 50, 10]) 121 121 none
        default_delimiters).map (fun d => d.names.column) = some [[97], [98]] ∧
    (apop_text_to_data digits_lib
        (some [97, 44, 98, 10, 114, 44, 49, 44, 50, 10]) 121 121 none
        default_delimiters).map (fun d => d.names.column) = some [[97], [98]] ∧
    (apop_text_to_data digits_lib
        (some [97, 44, 98, 44, 99, 10, 49, 44, 50, 10]) 110 121 none
        default_delimiters).map (fun d => d.names.column) = some [[97], [98]] := by
  decide

/-! ## The loops of `apop_data_fill_base` -/

theorem int_to_size_t_natCast (n : Nat) (h : n < 2 ^ 64) : int_to_size_t (n : Int) = n := by
  have := int_to_size_t_sub n 0 (Nat.zero_le _) (by simpa using h)
  simpa using this

theorem gsl_matrix_set_mid {V : Type} (s1 s2 : Nat) (pre post : List (List V)) (r : List V)
    (n j : Nat) (x : V) (hn : pre.length = n) :
    gsl_matrix_set { size1 := s1, size2 := s2, data := pre ++ r :: post } n j x =
      { size1 := s1, size2 := s2, data := pre ++ r.set j x :: post } := by
  subst hn
  simp [gsl_matrix_set, List.getD_eq_getElem?_getD, List.getElem_append_right]

/-- The cells written by a loop over the columns of a row in the middle of
the matrix. -/
theorem foldl_set_row_mid {V : Type} (f : Nat → V) (s1 s2 : Nat) (pre post : List (List V))
    (n : Nat) (hn : pre.length = n) (c j : Nat) (r : List V) (hr : j + c ≤ r.length) :
    (List.range' j c).foldl (fun m col => gsl_matrix_set m n col (f col))
        { size1 := s1, size2 := s2, data := pre ++ r :: post } =
      { size1 := s1, size2 := s2,
        data := pre ++ (r.take j ++ (List.range' j c).map f ++ r.drop (j + c)) :: post } := by
  induction c generalizing j r with
  | zero => simp
  | succ c ih =>
    rw [List.range'_succ, List.foldl_cons, gsl_matrix_set_mid s1 s2 pre post r n j _ hn]
    have hj : j < r.length := by omega
    have h1 := ih (j + 1) (r.set j (f j)) (by rw [List.length_set]; omega)
    rw [h1]
    obtain ⟨t1, t2⟩ := take_set_drop r j (f j) hj
    have e2 : j + 1 + c = j + (c + 1) := by omega
    have e3 : (r.set j (f j)).drop (j + 1 + c) = r.drop (j + (c + 1)) := by
      have := congrArg (List.drop c) t2
      rw [List.drop_drop, List.drop_drop] at this
      rw [← e2]
      exact this
    rw [t1, e3]
    simp

/-- The loop over the matrix columns of one row, with the counter. -/
theorem foldl_fill_cols {V : Type} (lib : NumLib V) (ap : List V) (i c : Nat)
    (v : Option (List V)) (m : gsl_matrix V) (w : Option (List V)) (nm : apop_name)
    (e : CChar) (k : Nat) :
    ((List.range c).map (fun t => ((t : Nat) : Int))).foldl
        (fun s j => (apop_data_set s.1 i j (array_get lib ap s.2), s.2 + 1))
        (({ vector := v, matrix := some m, weights := w, names := nm, error := e } :
          apop_data V), k) =
      ({ vector := v,
         matrix := some ((List.range' 0 c).foldl
           (fun m col => gsl_matrix_set m i col (array_get lib ap (k + col))) m),
         weights := w, names := nm, error := e }, k + c) := by
  induction c with
  | zero => simp
  | succ c ih =>
    rw [List.range_succ, List.map_append, List.foldl_append, ih, List.range'_concat,
      List.foldl_append]
    simp [apop_data_set]
    omega

theorem fill_base_columns (c : Nat) :
    (List.range (((c : Nat) : Int) - (-1)).toNat).map (fun t => (-1 : Int) + ((t : Nat) : Int)) =
      (-1 : Int) :: (List.range c).map (fun t => ((t : Nat) : Int)) := by
  have h : (((c : Nat) : Int) - (-1)).toNat = c + 1 := by omega
  rw [h, List.range_succ_eq_map, List.map_cons, List.map_map]
  simp only [Nat.cast_zero, add_zero, List.cons.injEq, true_and]
  apply List.map_congr_left
  intro t _
  simp only [Function.comp, Nat.cast_succ]
  omega

/-- One pass of the outer loop of `apop_data_fill_base` on a set with a vector
and a matrix: the vector cell and the matrix row are written from the array,
in this order. -/
theorem fill_base_row_both {V : Type} (lib : NumLib V) (ap : List V) (i c : Nat)
    (v : List V) (s1 s2 : Nat) (pre post : List (List V)) (r : List V)
    (w : Option (List V)) (nm : apop_name) (e : CChar) (k : Nat)
    (hi : pre.length = i) (hr : r.length = c) :
    fill_base_row lib ap (-1) (c : Int) i
        (({ vector := some v,
            matrix := some { size1 := s1, size2 := s2, data := pre ++ r :: post },
            weights := w, names := nm, error := e } : apop_data V), k) =
      ({ vector := some (v.set i (array_get lib ap k)),
         matrix := some { size1 := s1, size2 := s2,
                          data := pre ++
                            (List.range c).map (fun j => array_get lib ap (k + 1 + j)) :: post },
         weights := w, names := nm, error := e }, k + 1 + c) := by
  unfold fill_base_row
  rw [fill_base_columns, List.foldl_cons]
  have h1 : apop_data_set
      ({ vector := some v,
         matrix := some { size1 := s1, size2 := s2, data := pre ++ r :: post },
         weights := w, names := nm, error := e } : apop_data V) i (-1)
      (array_get lib ap k) =
      { vector := some (v.set i (array_get lib ap k)),
        matrix := some { size1 := s1, size2 := s2, data := pre ++ r :: post },
        weights := w, names := nm, error := e } := by
    simp [apop_data_set]
  simp only [h1]
  rw [foldl_fill_cols, foldl_set_row_mid _ s1 s2 pre post i hi c 0 r (by omega)]
  have hd : r.drop (0 + c) = [] := List.drop_of_length_le (by omega)
  rw [hd, List.take_zero, List.nil_append, List.append_nil, List.range_eq_range']

/-- The outer loop of `apop_data_fill_base` after `n` passes, on a set with a
vector of `r` cells and a matrix of `r` by `c` cells. -/
theorem fill_base_rows {V : Type} (lib : NumLib V) (ap : List V) (r c : Nat)
    (w : Option (List V)) (nm : apop_name) (e : CChar) (n : Nat) (hn : n ≤ r) :
    (List.range n).foldl (fun s i => fill_base_row lib ap (-1) (c : Int) i s)
        (({ vector := some (List.replicate r lib.fresh),
            matrix := some { size1 := r, size2 := c,
                             data := List.replicate r (List.replicate c lib.fresh) },
            weights := w, names := nm, error := e } : apop_data V), 0) =
      ({ vector := some ((List.range n).map (fun i => array_get lib ap (i * (c + 1))) ++
           List.replicate (r - n) lib.fresh),
         matrix := some { size1 := r, size2 := c,
                          data := (List.range n).map (fun i =>
                              (List.range c).map (fun j => array_get lib ap (i * (c + 1) + 1 + j))) ++
                            List.replicate (r - n) (List.replicate c lib.fresh) },
         weights := w, names := nm, error := e }, n * (c + 1)) := by
  induction n with
  | zero => simp
  | succ n ih =>
    have hrep : ∀ (α : Type) (x : α), List.replicate (r - n) x =
        x :: List.replicate (r - (n + 1)) x := by
      intro α x
      have : r - n = (r - (n + 1)) + 1 := by omega
      rw [this, List.replicate_succ]
    rw [List.range_succ, List.foldl_append, ih (by omega), List.foldl_cons, List.foldl_nil,
      hrep (List V), fill_base_row_both lib ap n c _ r c _ _ _ w nm e _ (by simp) (by simp),
      hrep V]
    have hset : ((List.range n).map (fun i => array_get lib ap (i * (c + 1))) ++
        lib.fresh :: List.replicate (r - (n + 1)) lib.fresh).set n
          (array_get lib ap (n * (c + 1))) =
        (List.range n).map (fun i => array_get lib ap (i * (c + 1))) ++
          array_get lib ap (n * (c + 1)) :: List.replicate (r - (n + 1)) lib.fresh := by
      rw [List.set_append_right _ _ (by simp)]
      simp
    rw [hset]
    simp only [List.map_append, List.map_cons, List.map_nil, List.append_assoc,
      List.singleton_append]
    congr 1
    ring

/-- C30: for `r > 0`, `c > 0` (both in the range of `int`) and an array `inp`
of `r * (c + 1)` numbers, `apop_line_to_data(inp, r, r, c)` returns a set
without an error whose vector element `i` is `inp[i * (c + 1)]` and whose
matrix entry `(i, j)` is `inp[i * (c + 1) + 1 + j]`, every index read being
inside the array; and when a vector and a matrix are both asked for with
`vsize ≠ rows`, the set returned is empty and carries the error `'d'`. -/
theorem apop_line_to_data_layout {V : Type} (lib : NumLib V) (inp : List V) (r c : Nat)
    (hr : 0 < r ∧ r < 2 ^ 31) (hc : 0 < c ∧ c < 2 ^ 31) (hlen : inp.length = r * (c + 1)) :
    apop_line_to_data lib inp (r : Int) (r : Int) (c : Int) =
      some { vector := some ((List.range r).map (fun i => inp.getD (i * (c + 1)) lib.fresh)),
             matrix := some
               { size1 := r, size2 := c,
                 data := (List.range r).map (fun i =>
                   (List.range c).map (fun j => inp.getD (i * (c + 1) + 1 + j) lib.fresh)) },
             weights := none, names := { column := [], row := [] }, error := 0 } ∧
    (∀ i j, i < r → j < c → i * (c + 1) + 1 + j < inp.length) ∧
    (∀ vsize rows cols : Int, 0 < vsize → 0 < rows → 0 < cols → vsize ≠ rows →
      apop_line_to_data lib inp vsize rows cols =
        some { vector := none, matrix := none, weights := none,
               names := { column := [], row := [] }, error := 100 }) := by
  obtain ⟨hr0, hr31⟩ := hr
  obtain ⟨hc0, hc31⟩ := hc
  refine ⟨?_, ?_, ?_⟩
  · have e1 : ¬ ((r : Int) = 0 ∧ ((r : Int) > 0 ∧ (c : Int) > 0)) := by omega
    have e2 : ¬ (((r : Int) = 0 ∨ (c : Int) = 0) ∧ (r : Int) > 0) := by omega
    have e3 : ¬ ((r : Int) ≠ (r : Int)) := by simp
    have hc1 : (c : Int) ≠ 0 := by omega
    have hc2 : (c : Int) > 0 ∧ r > 0 := ⟨by omega, hr0⟩
    have hr1 : r ≠ 0 := by omega
    have h := fill_base_rows lib inp r c none { column := [], row := [] } 0 r (Nat.le_refl _)
    unfold apop_line_to_data
    rw [if_neg e1, if_neg e2, if_neg e3, int_to_size_t_natCast r (by omega)]
    unfold apop_data_fill_base apop_data_alloc_base
    simp only [hc1, hr1, hc2, ne_eq, not_false_eq_true, if_true, and_self, Int.toNat_ofNat,
      Option.isSome_some, List.length_replicate]
    rw [h]
    simp only [Nat.sub_self, List.replicate_zero, List.append_nil, array_get]
  · intro i j hi hj
    rw [hlen]
    have h1 : (i + 1) * (c + 1) ≤ r * (c + 1) := Nat.mul_le_mul_right _ (by omega)
    have h2 : (i + 1) * (c + 1) = i * (c + 1) + (c + 1) := by ring
    omega
  · intro vsize rows cols hv hrw hcl hne
    have e1 : ¬ (vsize = 0 ∧ (rows > 0 ∧ cols > 0)) := by omega
    have e2 : ¬ ((rows = 0 ∨ cols = 0) ∧ vsize > 0) := by omega
    unfold apop_line_to_data
    rw [if_neg e1, if_neg e2, if_pos hne]

/-- Witness for C30: the array `0, 1, 2, 3, 4, 5` with the sizes `(2, 2, 2)`
gives the vector `0, 3` and the matrix with the rows `1, 2` and `4, 5`. -/
theorem apop_line_to_data_layout_witness :
    apop_line_to_data digits_lib [some 0, some 1, some 2, some 3, some 4, some 5]
        ((2 : Nat) : Int) ((2 : Nat) : Int) ((2 : Nat) : Int) =
      some { vector := some [some 0, some 3],
             matrix := some { size1 := 2, size2 := 2,
                              data := [[some 1, some 2], [some 4, some 5]] },
             weights := none, names := { column := [], row := [] }, error := 0 } ∧
    (∀ i j, i < 2 → j < 2 → i * (2 + 1) + 1 + j <
      [some 0, some 1, some 2, some 3, some 4, some 5].length) ∧
    (∀ vsize rows cols : Int, 0 < vsize → 0 < rows → 0 < cols → vsize ≠ rows →
      apop_line_to_data digits_lib [some 0, some 1, some 2, some 3, some 4, some 5]
          vsize rows cols =
        some { vector := none, matrix := none, weights := none,
               names := { column := [], row := [] }, error := 100 }) :=
  apop_line_to_data_layout digits_lib [some 0, some 1, some 2, some 3, some 4, some 5] 2 2
    ⟨by decide, by norm_num⟩ ⟨by decide, by norm_num⟩ (by decide)

/-! ## The loops of `apop_data_rank_compress` -/

theorem foldl_max_le (m : Int) (xs : List Int) (x : Int) (hx : x ≤ m)
    (hxs : ∀ e ∈ xs, e ≤ m) : xs.foldl max x ≤ m := by
  induction xs generalizing x with
  | nil => exact hx
  | cons y ys ih =>
    rw [List.foldl_cons]
    exact ih _ (max_le hx (hxs y (by simp))) (fun e he => hxs e (by simp [he]))

theorem le_foldl_max (xs : List Int) (x : Int) : x ≤ xs.foldl max x := by
  induction xs generalizing x with
  | nil => exact le_refl _
  | cons y ys ih =>
    rw [List.foldl_cons]
    exact le_trans (le_max_left _ _) (ih _)

theorem mem_le_foldl_max (xs : List Int) (x e : Int) (he : e ∈ xs) : e ≤ xs.foldl max x := by
  induction xs generalizing x with
  | nil => simp at he
  | cons y ys ih =>
    rw [List.foldl_cons]
    rcases List.mem_cons.mp he with h | h
    · rw [h]
      exact le_trans (le_max_right _ _) (le_foldl_max _ _)
    · exact ih _ h

/-- The largest entry of a list of entries between `0` and `m`, as
`gsl_matrix_max` and `gsl_vector_max` compute it. -/
theorem list_max_bounds (m : Int) (hm : 0 ≤ m) (l : List Int) (hl : ∀ e ∈ l, 0 ≤ e ∧ e ≤ m) :
    (0 ≤ gsl_vector_max l ∧ gsl_vector_max l ≤ m) ∧ (m ∈ l → gsl_vector_max l = m) := by
  unfold gsl_vector_max
  cases l with
  | nil => simp [hm]
  | cons x xs =>
    have h1 : xs.foldl max x ≤ m :=
      foldl_max_le m xs x (hl x (by simp)).2 (fun e he => (hl e (by simp [he])).2)
    have h2 : x ≤ xs.foldl max x := le_foldl_max xs x
    refine ⟨⟨le_trans (hl x (by simp)).1 h2, h1⟩, ?_⟩
    intro hmem
    apply le_antisymm h1
    rcases List.mem_cons.mp hmem with h | h
    · rw [h]; exact h2
    · exact mem_le_foldl_max xs x m h

theorem gsl_matrix_max_eq (x : gsl_matrix Int) :
    gsl_matrix_max x = gsl_vector_max x.data.flatten := rfl

/-- The loop over the indices of a row reads the row. -/
theorem foldl_range_getD {α : Type} (f : α → Int → α) (row : List Int) (n : Nat)
    (hn : row.length = n) (s : α) :
    (List.range n).foldl (fun s j => f s (row.getD j 0)) s = row.foldl f s := by
  have h : (List.range n).map (fun j => row.getD j 0) = row := by
    apply List.ext_getElem
    · simp [hn]
    · intro i h1 h2
      simp [List.getD_eq_getElem?_getD, List.getElem?_eq_getElem h2]
  conv_rhs => rw [← h]
  rw [List.foldl_map]

/-- The two loops over the indices of a matrix read its entries row by row. -/
theorem foldl_range_rows {α : Type} (f : α → Int → α) (rows : List (List Int)) (n c : Nat)
    (hn : rows.length = n) (hc : ∀ r ∈ rows, r.length = c) (s : α) :
    (List.range n).foldl (fun s i => (List.range c).foldl
        (fun s j => f s ((rows.getD i []).getD j 0)) s) s = rows.flatten.foldl f s := by
  have h : ∀ (l : List (List Int)) (s : α), (∀ r ∈ l, r.length = c) →
      l.foldl (fun s r => (List.range c).foldl (fun s j => f s (r.getD j 0)) s) s =
        l.flatten.foldl f s := by
    intro l
    induction l with
    | nil => intro s _; rfl
    | cons r rs ih =>
      intro s hl
      rw [List.foldl_cons, List.flatten_cons, List.foldl_append,
        foldl_range_getD f r c (hl r (by simp)), ih _ (fun x hx => hl x (by simp [hx]))]
  have hm : (List.range n).map (fun i => rows.getD i []) = rows := by
    apply List.ext_getElem
    · simp [hn]
    · intro i h1 h2
      simp [List.getD_eq_getElem?_getD, List.getElem?_eq_getElem h2]
  rw [← h rows s hc]
  conv_rhs => rw [← hm]
  rw [List.foldl_map]

/-- One increment of a cell of the row of counts. -/
theorem increment_out_row (n : Nat) (row : List Int) (x : Int)
    (hx : 0 ≤ x ∧ x < (n : Int)) :
    increment_out (some (some { size1 := 1, size2 := n, data := [row] })) x =
      some (some { size1 := 1, size2 := n,
                   data := [row.set x.toNat (row.getD x.toNat 0 + 1)] }) := by
  have hc : (0 : Nat) < 1 ∧ 0 ≤ x ∧ x < (n : Int) := ⟨by decide, hx.1, hx.2⟩
  simp only [increment_out, apop_matrix_increment, if_pos hc, Option.map_some']
  simp [gsl_matrix_set]

/-- The increments for a list of entries add, in each cell `k` of the row of
counts, the number of entries equal to `k`. -/
theorem foldl_increment_out (n : Nat) (E : List Int) (row : List Int) (hrow : row.length = n)
    (hE : ∀ e ∈ E, 0 ≤ e ∧ e < (n : Int)) :
    E.foldl increment_out (some (some { size1 := 1, size2 := n, data := [row] })) =
      some (some { size1 := 1, size2 := n,
                   data := [(List.range n).map
                     (fun k => row.getD k 0 + ((E.count (k : Int) : Nat) : Int))] }) := by
  induction E generalizing row with
  | nil =>
    simp only [List.foldl_nil, List.count_nil, Nat.cast_zero, add_zero]
    congr 4
    apply List.ext_getElem
    · simp [hrow]
    · intro i h1 h2
      simp [List.getD_eq_getElem?_getD, List.getElem?_eq_getElem h1]
  | cons x E ih =>
    have hx := hE x (by simp)
    rw [List.foldl_cons, increment_out_row n row x hx,
      ih _ (by rw [List.length_set]; exact hrow) (fun e he => hE e (by simp [he]))]
    congr 4
    apply List.map_congr_left
    intro k hk
    have hk' : k < n := List.mem_range.mp hk
    have hxn : x.toNat < n := by omega
    rw [List.count_cons]
    by_cases hkx : x.toNat = k
    · have hxk : x = (k : Int) := by omega
      rw [hkx, List.getD_eq_getElem?_getD, List.getElem?_set_self (by omega)]
      subst hxk
      simp only [Option.getD_some, beq_self_eq_true, if_true, Nat.cast_add, Nat.cast_one]
      omega
    · have hxk : ¬ (x = (k : Int)) := by omega
      rw [List.getD_eq_getElem?_getD, List.getElem?_set_ne hkx]
      simp [hxk, List.getD_eq_getElem?_getD]

theorem apop_data_get_matrix (v : Option (List Int)) (x : gsl_matrix Int)
    (w : Option (List Int)) (nm : apop_name) (e : CChar) (i j : Nat) :
    apop_data_get { vector := v, matrix := some x, weights := w, names := nm, error := e } i
        ((j : Nat) : Int) = (x.data.getD i []).getD j 0 := by
  have h : ¬ (((j : Nat) : Int) = -1) := by omega
  simp only [apop_data_get, if_neg h, Int.toNat_ofNat]

theorem apop_data_get_vector (v : List Int) (mat : Option (gsl_matrix Int))
    (w : Option (List Int)) (nm : apop_name) (e : CChar) (i : Nat) :
    apop_data_get { vector := some v, matrix := mat, weights := w, names := nm, error := e } i
        (-1) = v.getD i 0 := by
  simp only [apop_data_get, if_true]

/-- The matrix that `apop_data_rank_compress` starts from. -/
theorem apop_data_calloc_row (lib : NumLib Int) (m : Nat) (hm : m + 1 < 2 ^ 64) :
    apop_data_calloc lib 1 (int_to_size_t ((m : Int) + 1)) 0 =
      { vector := none,
        matrix := some { size1 := 1, size2 := m + 1, data := [List.replicate (m + 1) 0] },
        weights := none, names := { column := [], row := [] }, error := 0 } := by
  have h1 : ((m : Int) + 1) = ((m + 1 : Nat) : Int) := by push_cast; rfl
  rw [h1, int_to_size_t_natCast _ hm]
  simp [apop_data_calloc, apop_data_alloc_base]

/-- The two loops of `apop_data_rank_compress` read the entries of the matrix
row by row and then those of the vector. -/
theorem rank_compress_loops (d : apop_data Int)
    (hwf : ∀ x, d.matrix = some x → x.data.length = x.size1 ∧ ∀ r ∈ x.data, r.length = x.size2)
    (s : Option (Option (gsl_matrix Int))) :
    (List.range (Get_vmsizes d).1).foldl
      (fun s i => increment_out s (apop_data_get d i (-1)))
      ((List.range (Get_vmsizes d).2.1).foldl
        (fun s i => (List.range (Get_vmsizes d).2.2).foldl
          (fun s (j : Nat) => increment_out s (apop_data_get d i (j : Int))) s) s) =
      (entries d).foldl increment_out s := by
  obtain ⟨vec, mat, w, nm, e⟩ := d
  simp only [entries]
  rw [List.foldl_append]
  cases mat with
  | none =>
    cases vec with
    | none => simp [Get_vmsizes]
    | some v =>
      simp only [Get_vmsizes, List.range_zero, List.foldl_nil, apop_data_get_vector]
      exact foldl_range_getD increment_out v _ rfl _
  | some x =>
    obtain ⟨h1, h2⟩ := hwf x rfl
    cases vec with
    | none =>
      simp only [Get_vmsizes, List.range_zero, List.foldl_nil, apop_data_get_matrix]
      exact foldl_range_rows increment_out x.data _ _ h1 h2 _
    | some v =>
      simp only [Get_vmsizes, apop_data_get_vector, apop_data_get_matrix]
      rw [foldl_range_rows increment_out x.data _ _ h1 h2 _]
      exact foldl_range_getD increment_out v _ rfl _

/-- The bound `upper_bound` of `apop_data_rank_compress` is the largest entry
when the entries are not negative. -/
theorem rank_compress_upper_bound (d : apop_data Int) (m : Nat)
    (hb : ∀ x ∈ entries d, 0 ≤ x ∧ x ≤ (m : Int)) (hmax : (m : Int) ∈ entries d) :
    GSL_MAX (match d.matrix with
             | some x => gsl_matrix_max x
             | none => 0)
            (match d.vector with
             | some v => gsl_vector_max v
             | none => 0) = (m : Int) := by
  have hm0 : (0 : Int) ≤ (m : Int) := by omega
  obtain ⟨vec, mat, w, nm, e⟩ := d
  unfold GSL_MAX
  cases mat with
  | none =>
    cases vec with
    | none => simp [entries] at hmax
    | some v =>
      simp only [entries, List.nil_append] at hb hmax
      obtain ⟨h1, h2⟩ := list_max_bounds m hm0 v hb
      have := h2 hmax
      simp only []
      split <;> omega
  | some x =>
    cases vec with
    | none =>
      simp only [entries, List.append_nil] at hb hmax
      obtain ⟨h1, h2⟩ := list_max_bounds m hm0 _ hb
      have := h2 hmax
      simp only [gsl_matrix_max_eq]
      split <;> omega
    | some v =>
      simp only [entries] at hb hmax
      obtain ⟨h1, h2⟩ := list_max_bounds m hm0 _ (fun y hy => hb y (List.mem_append_left _ hy))
      obtain ⟨h3, h4⟩ := list_max_bounds m hm0 _ (fun y hy => hb y (List.mem_append_right _ hy))
      simp only [gsl_matrix_max_eq]
      rcases List.mem_append.mp hmax with h | h
      · have := h2 h
        split <;> omega
      · have := h4 h
        split <;> omega

/-- The call of `apop_data_rank_compress` on a set whose entries lie between
`0` and `m`, with `m` among them: one row of `m + 1` counts. -/
theorem apop_data_rank_compress_run (lib : NumLib Int) (d : apop_data Int) (m : Nat)
    (hwf : ∀ x, d.matrix = some x → x.data.length = x.size1 ∧ ∀ r ∈ x.data, r.length = x.size2)
    (hb : ∀ x ∈ entries d, 0 ≤ x ∧ x ≤ (m : Int)) (hmax : (m : Int) ∈ entries d)
    (hm : m + 1 < 2 ^ 64) :
    apop_data_rank_compress lib d =
      some { vector := none,
             matrix := some
               { size1 := 1, size2 := m + 1,
                 data := [(List.range (m + 1)).map (fun (k : Nat) =>
                   (((entries d).count (k : Int) : Nat) : Int))] },
             weights := none, names := { column := [], row := [] }, error := 0 } := by
  unfold apop_data_rank_compress
  simp only []
  erw [rank_compress_upper_bound d m hb hmax]
  rw [apop_data_calloc_row lib m hm, rank_compress_loops d hwf,
    foldl_increment_out (m + 1) _ (List.replicate (m + 1) 0) (by simp)
      (fun x hx => ⟨(hb x hx).1, by have := (hb x hx).2; omega⟩)]
  simp only [Option.some.injEq]
  congr 4
  apply List.map_congr_left
  intro k hk
  have hk' : k < m + 1 := List.mem_range.mp hk
  simp [List.getD_eq_getElem?_getD, List.getElem?_replicate, hk']

/-- C28: let the entries of the matrix and of the vector of the input be
integers between `0` and `m`, with `m` among them (the maximum, in the range
of `int`), the matrix holding `size1` rows of `size2` entries.  Then
`apop_data_rank_compress` returns a set whose matrix has one row of `m + 1`
cells, cell `k` holding the number of entries of the input, those of the
matrix and of the vector together, that are equal to `k`. -/
theorem apop_data_rank_compress_counts (lib : NumLib Int) (d : apop_data Int) (m : Nat)
    (hwf : ∀ x, d.matrix = some x → x.data.length = x.size1 ∧ ∀ r ∈ x.data, r.length = x.size2)
    (hb : ∀ x ∈ entries d, 0 ≤ x ∧ x ≤ (m : Int)) (hmax : (m : Int) ∈ entries d)
    (hm : m + 1 < 2 ^ 31) :
    apop_data_rank_compress lib d =
      some { vector := none,
             matrix := some
               { size1 := 1, size2 := m + 1,
                 data := [(List.range (m + 1)).map (fun (k : Nat) =>
                   (((entries d).count (k : Int) : Nat) : Int))] },
             weights := none, names := { column := [], row := [] }, error := 0 } :=
  apop_data_rank_compress_run lib d m hwf hb hmax (by omega)

/-- Witness for C28: the observations `2 3 3 2 1 1 2 1 1 2 1 1`, given as a
vector, are compressed to the row `0 6 4 2`. -/
theorem apop_data_rank_compress_counts_witness :
    apop_data_rank_compress { strtod := fun _ => (0, 0), GSL_NAN := 0, fresh := 170 }
        (apop_vector_to_data [2, 3, 3, 2, 1, 1, 2, 1, 1, 2, 1, 1]) =
      some { vector := none,
             matrix := some { size1 := 1, size2 := 3 + 1, data := [[0, 6, 4, 2]] },
             weights := none, names := { column := [], row := [] }, error := 0 } :=
  apop_data_rank_compress_counts { strtod := fun _ => (0, 0), GSL_NAN := 0, fresh := 170 }
    (apop_vector_to_data [2, 3, 3, 2, 1, 1, 2, 1, 1, 2, 1, 1]) 3
    (fun x h => by cases h) (by decide) (by decide) (by norm_num)

/-! ## The expansion of a row of counts -/

theorem expansion_succ (c : List Nat) (j : Nat) :
    ((List.range (j + 1)).map
        (fun (k : Nat) => List.replicate (c.getD k 0) (k : Int))).flatten =
      ((List.range j).map (fun (k : Nat) => List.replicate (c.getD k 0) (k : Int))).flatten ++
        List.replicate (c.getD j 0) (j : Int) := by
  rw [List.range_succ, List.map_append, List.flatten_append]
  simp

theorem expansion_mem (c : List Nat) (j : Nat) (x : Int)
    (hx : x ∈ ((List.range j).map
      (fun (k : Nat) => List.replicate (c.getD k 0) (k : Int))).flatten) :
    0 ≤ x ∧ x < (j : Int) := by
  induction j with
  | zero => simp at hx
  | succ j ih =>
    rw [expansion_succ, List.mem_append] at hx
    rcases hx with h | h
    · have := ih h
      omega
    · have := (List.mem_replicate.mp h).2
      omega

theorem expansion_length (c : List Nat) (j : Nat) :
    (((List.range j).map
      (fun (k : Nat) => List.replicate (c.getD k 0) (k : Int))).flatten).length =
      ((List.range j).map (fun k => c.getD k 0)).sum := by
  induction j with
  | zero => simp
  | succ j ih =>
    rw [expansion_succ, List.length_append, ih, List.range_succ, List.map_append,
      List.sum_append]
    simp

theorem expansion_count (c : List Nat) (j k : Nat) :
    (((List.range j).map
      (fun (k : Nat) => List.replicate (c.getD k 0) (k : Int))).flatten).count (k : Int) =
      if k < j then c.getD k 0 else 0 := by
  induction j with
  | zero => simp
  | succ j ih =>
    rw [expansion_succ, List.count_append, ih, List.count_replicate]
    by_cases h1 : k < j
    · have h2 : ¬ ((j : Int) == (k : Int)) = true := by
        simp only [beq_iff_eq]; omega
      simp [h1, h2, Nat.lt_succ_of_lt h1]
    · by_cases h3 : k = j
      · subst h3
        simp
      · have h2 : ¬ ((j : Int) == (k : Int)) = true := by
          simp only [beq_iff_eq]; omega
        have h4 : ¬ k < j + 1 := by omega
        simp [h1, h2, h4]

theorem expansion_sorted (c : List Nat) (j : Nat) :
    List.Pairwise (fun a b => a ≤ b) (((List.range j).map
      (fun (k : Nat) => List.replicate (c.getD k 0) (k : Int))).flatten) := by
  induction j with
  | zero => simp
  | succ j ih =>
    rw [expansion_succ, List.pairwise_append]
    refine ⟨ih, ?_, ?_⟩
    · rw [List.pairwise_replicate]
      right
      exact le_refl _
    · intro a ha b hb
      have h1 := expansion_mem c j a ha
      have h2 := (List.mem_replicate.mp hb).2
      omega

theorem range_map_getD_self (c : List Nat) :
    (List.range c.length).map (fun k => c.getD k 0) = c := by
  apply List.ext_getElem
  · simp
  · intro i h1 h2
    simp [List.getD_eq_getElem?_getD, List.getElem?_eq_getElem h2]

/-! ## The loops of `apop_data_rank_expand` -/

theorem prefix_sum_mono (c : List Nat) (j n : Nat) (h : j ≤ n) :
    ((List.range j).map (fun k => c.getD k 0)).sum ≤
      ((List.range n).map (fun k => c.getD k 0)).sum := by
  induction n with
  | zero =>
    have : j = 0 := by omega
    subst this
    exact le_refl _
  | succ n ih =>
    by_cases hj : j = n + 1
    · subst hj; exact le_refl _
    · have := ih (by omega)
      rw [List.range_succ, List.map_append, List.sum_append]
      omega

/-- The innermost loop writes `t` copies of `x` behind what is written. -/
theorem foldl_write_copies (x fresh : Int) (t : Nat) (pre : List Int) (r : Nat) (ht : t ≤ r) :
    (List.range t).foldl (fun (s : List Int × Nat) _ => (s.1.set s.2 x, s.2 + 1))
        (pre ++ List.replicate r fresh, pre.length) =
      (pre ++ List.replicate t x ++ List.replicate (r - t) fresh, pre.length + t) := by
  induction t with
  | zero => simp
  | succ t ih =>
    rw [List.range_succ, List.foldl_append, ih (by omega), List.foldl_cons, List.foldl_nil]
    have h1 : r - t = (r - (t + 1)) + 1 := by omega
    have h2 : (pre ++ List.replicate t x).length = pre.length + t := by simp
    simp only []
    rw [h1, List.replicate_succ, List.set_append_right _ _ (by omega), h2, Nat.sub_self,
      List.set_cons_zero, List.replicate_succ', Nat.add_assoc]
    simp

/-- The loop over the columns of the row of counts, after `j` columns. -/
theorem foldl_expand_columns (c : List Nat) (fresh : Int) (j : Nat) (hj : j ≤ c.length) :
    (List.range j).foldl
        (fun s (k : Nat) => (List.range ((c.getD k 0 : Nat) : Int).toNat).foldl
          (fun (s : List Int × Nat) _ => (s.1.set s.2 (k : Int), s.2 + 1)) s)
        (List.replicate c.sum fresh, 0) =
      (((List.range j).map
          (fun (k : Nat) => List.replicate (c.getD k 0) (k : Int))).flatten ++
        List.replicate (c.sum - ((List.range j).map (fun k => c.getD k 0)).sum) fresh,
       ((List.range j).map (fun k => c.getD k 0)).sum) := by
  induction j with
  | zero => simp
  | succ j ih =>
    have hle := prefix_sum_mono c (j + 1) c.length hj
    rw [range_map_getD_self] at hle
    rw [List.range_succ, List.map_append, List.sum_append] at hle
    simp only [List.map_cons, List.map_nil, List.sum_cons, List.sum_nil, Nat.add_zero] at hle
    rw [List.range_succ, List.foldl_append, ih (by omega), List.foldl_cons, List.foldl_nil,
      Int.toNat_ofNat, ← expansion_length c j,
      foldl_write_copies (j : Int) fresh (c.getD j 0) _ _
        (by rw [expansion_length]; omega),
      ← List.range_succ, expansion_succ]
    simp only [List.map_append, List.sum_append, List.map_cons, List.map_nil, List.sum_cons,
      List.sum_nil, Nat.add_zero, Prod.mk.injEq, expansion_length, List.range_succ]
    refine ⟨?_, trivial⟩
    congr 2
    omega

theorem sum_map_cast (c : List Nat) :
    (c.map (fun (k : Nat) => (k : Int))).sum = ((c.sum : Nat) : Int) := by
  induction c with
  | nil => rfl
  | cons x xs ih =>
    rw [List.map_cons, List.sum_cons, ih, List.sum_cons]
    push_cast
    rfl

theorem getD_map_cast (c : List Nat) (k : Nat) :
    (c.map (fun (k : Nat) => (k : Int))).getD k 0 = ((c.getD k 0 : Nat) : Int) := by
  by_cases h : k < c.length
  · simp [List.getD_eq_getElem?_getD, List.getElem?_eq_getElem h]
  · have h2 : c.length ≤ k := by omega
    simp [List.getD_eq_getElem?_getD, List.getElem?_eq_none h2]

/-- The call of `apop_data_rank_expand` on one row of counts that are not all
zero. -/
theorem apop_data_rank_expand_run (lib : NumLib Int) (c : List Nat) (hsum : c.sum ≠ 0)
    (h64 : c.sum < 2 ^ 64) :
    apop_data_rank_expand lib
        (apop_matrix_to_data
          { size1 := 1, size2 := c.length, data := [c.map (fun (k : Nat) => (k : Int))] }) =
      some (some (apop_vector_to_data (rank_expansion c))) := by
  have htot : apop_matrix_sum
      { size1 := 1, size2 := c.length, data := [c.map (fun (k : Nat) => (k : Int))] } =
      ((c.sum : Nat) : Int) := by
    simp only [apop_matrix_sum, List.flatten_cons, List.flatten_nil, List.append_nil]
    exact sum_map_cast c
  have hne : ¬ (((c.sum : Nat) : Int) = 0) := by omega
  have hcols := foldl_expand_columns c lib.fresh c.length (Nat.le_refl _)
  rw [range_map_getD_self, Nat.sub_self, List.replicate_zero, List.append_nil] at hcols
  have hr1 : List.range 1 = [0] := rfl
  unfold apop_data_rank_expand apop_matrix_to_data
  simp only [htot, if_neg hne, int_to_size_t_natCast _ h64]
  simp only [apop_data_alloc_base, ne_eq, not_true_eq_false, if_false, hsum,
    not_false_eq_true, if_true, hr1, List.foldl_cons, List.foldl_nil,
    List.getD_cons_zero, getD_map_cast, Option.map_some', gt_iff_lt, lt_self_iff_false,
    false_and]
  rw [hcols]
  rfl

/-- C29: for a matrix of one row of `n` counts `c` (natural numbers, `n` and
their sum in the range of `int`) with `c[n-1] > 0`, `apop_data_rank_expand`
returns a set that holds only a vector; the vector has `sum(c)` entries,
holds exactly `c[k]` copies of each `k`, and is in non-decreasing order; and
`apop_data_rank_compress` of that set returns the row of counts `c`. -/
theorem apop_data_rank_expand_complement (lib : NumLib Int) (c : List Nat)
    (hlast : 0 < c.getD (c.length - 1) 0) (hlen : c.length < 2 ^ 31) (hsum : c.sum < 2 ^ 31) :
    apop_data_rank_expand lib
        (apop_matrix_to_data
          { size1 := 1, size2 := c.length, data := [c.map (fun (k : Nat) => (k : Int))] }) =
      some (some (apop_vector_to_data (rank_expansion c))) ∧
    (rank_expansion c).length = c.sum ∧
    (∀ k : Nat, (rank_expansion c).count (k : Int) = c.getD k 0) ∧
    List.Pairwise (fun a b => a ≤ b) (rank_expansion c) ∧
    apop_data_rank_compress lib (apop_vector_to_data (rank_expansion c)) =
      some (apop_matrix_to_data
        { size1 := 1, size2 := c.length, data := [c.map (fun (k : Nat) => (k : Int))] }) := by
  have hn : 0 < c.length := by
    cases c with
    | nil => simp at hlast
    | cons x xs => simp
  have hcount : ∀ k : Nat, (rank_expansion c).count (k : Int) = c.getD k 0 := by
    intro k
    unfold rank_expansion
    rw [expansion_count]
    split
    · rfl
    · rename_i h
      have h2 : c.length ≤ k := by omega
      simp [List.getD_eq_getElem?_getD, List.getElem?_eq_none h2]
  have hlength : (rank_expansion c).length = c.sum := by
    unfold rank_expansion
    rw [expansion_length, range_map_getD_self]
  have hpos : c.sum ≠ 0 := by
    rw [← hlength]
    have h1 := hcount (c.length - 1)
    have h2 : 0 < (rank_expansion c).count ((c.length - 1 : Nat) : Int) := by omega
    have h3 := List.count_pos_iff.mp h2
    intro h0
    rw [List.length_eq_zero] at h0
    rw [h0] at h3
    simp at h3
  refine ⟨apop_data_rank_expand_run lib c hpos (by omega), hlength, hcount, ?_, ?_⟩
  · exact expansion_sorted c c.length
  · have hrun := apop_data_rank_compress_run lib (apop_vector_to_data (rank_expansion c))
      (c.length - 1) (fun x h => by simp [apop_vector_to_data] at h)
      (by
        intro x hx
        simp only [entries, apop_vector_to_data, List.nil_append] at hx
        have := expansion_mem c c.length x hx
        omega)
      (by
        simp only [entries, apop_vector_to_data, List.nil_append]
        have h1 := hcount (c.length - 1)
        have h2 : 0 < (rank_expansion c).count ((c.length - 1 : Nat) : Int) := by omega
        exact List.count_pos_iff.mp h2)
      (by omega)
    rw [hrun]
    have e : c.length - 1 + 1 = c.length := by omega
    rw [e]
    simp only [apop_matrix_to_data, entries, apop_vector_to_data, List.nil_append,
      Option.some.injEq]
    congr 4
    apply List.ext_getElem
    · simp
    · intro i h1 h2
      simp only [List.length_map, List.length_range] at h1
      simp only [List.getElem_map, List.getElem_range, hcount i]
      simp [List.getD_eq_getElem?_getD, List.getElem?_eq_getElem h1]

/-- Witness for C29: the row of counts `0 6 4 2`. -/
theorem apop_data_rank_expand_complement_witness :
    apop_data_rank_expand { strtod := fun _ => (0, 0), GSL_NAN := 0, fresh := 170 }
        (apop_matrix_to_data
          { size1 := 1, size2 := [0, 6, 4, 2].length,
            data := [[0, 6, 4, 2].map (fun (k : Nat) => (k : Int))] }) =
      some (some (apop_vector_to_data (rank_expansion [0, 6, 4, 2]))) ∧
    (rank_expansion [0, 6, 4, 2]).length = [0, 6, 4, 2].sum ∧
    (∀ k : Nat, (rank_expansion [0, 6, 4, 2]).count (k : Int) = [0, 6, 4, 2].getD k 0) ∧
    List.Pairwise (fun a b => a ≤ b) (rank_expansion [0, 6, 4, 2]) ∧
    apop_data_rank_compress { strtod := fun _ => (0, 0), GSL_NAN := 0, fresh := 170 }
        (apop_vector_to_data (rank_expansion [0, 6, 4, 2])) =
      some (apop_matrix_to_data
        { size1 := 1, size2 := [0, 6, 4, 2].length,
          data := [[0, 6, 4, 2].map (fun (k : Nat) => (k : Int))] }) :=
  apop_data_rank_expand_complement { strtod := fun _ => (0, 0), GSL_NAN := 0, fresh := 170 }
    [0, 6, 4, 2] (by decide) (by norm_num) (by norm_num)

/-! ## Writing into and reading from a vector -/

theorem length_subvector_write {V : Type} (out : List V) (offset n : Nat) (src : List V) :
    (subvector_write out offset n src).length = out.length := by
  unfold subvector_write
  split
  · rename_i h
    simp only [List.length_append, List.length_take, List.length_drop]
    omega
  · rfl

/-- A write right behind the part `pre` of the vector. -/
theorem subvector_write_append {V : Type} (pre rest src : List V) (n : Nat)
    (hn : src.length = n) (hr : n ≤ rest.length) :
    subvector_write (pre ++ rest) pre.length n src = (pre ++ src) ++ rest.drop n := by
  unfold subvector_write
  rw [if_pos ⟨by simp only [List.length_append]; omega, hn⟩]
  simp [List.take_append_eq_append_take, List.drop_append_eq_append_drop]

/-- A read right behind the part `pre` of the vector. -/
theorem subvector_read_append {V : Type} (pre src post dest : List V) (n : Nat)
    (hn : src.length = n) (hd : dest.length = n) :
    subvector_read (pre ++ (src ++ post)) pre.length n dest = src := by
  unfold subvector_read
  rw [if_pos ⟨by simp only [List.length_append]; omega, hd⟩]
  subst hn
  simp

theorem foldl_range_getD_gen {α β : Type} (g : α → β → α) (l : List β) (dflt : β) (n : Nat)
    (hn : l.length = n) (s : α) :
    (List.range n).foldl (fun s i => g s (l.getD i dflt)) s = l.foldl g s := by
  have h : (List.range n).map (fun i => l.getD i dflt) = l := by
    apply List.ext_getElem
    · simp [hn]
    · intro i h1 h2
      simp [List.getD_eq_getElem?_getD, List.getElem?_eq_getElem h2]
  conv_rhs => rw [← h]
  rw [List.foldl_map]

/-- The loop of `apop_data_pack` over the rows of the matrix writes the rows
one behind the other. -/
theorem foldl_write_rows {V : Type} (c : Nat) (rows : List (List V))
    (hrows : ∀ r ∈ rows, r.length = c) (pre rest : List V)
    (hrest : rows.length * c ≤ rest.length) :
    rows.foldl (fun (s : List V × Nat) row => (subvector_write s.1 s.2 c row, s.2 + c))
        (pre ++ rest, pre.length) =
      ((pre ++ rows.flatten) ++ rest.drop (rows.length * c), pre.length + rows.length * c) := by
  induction rows generalizing pre rest with
  | nil => simp
  | cons r rs ih =>
    have hr : r.length = c := hrows r (by simp)
    have hlen : (rs.length + 1) * c = c + rs.length * c := by ring
    simp only [List.length_cons] at hrest
    rw [hlen] at hrest
    rw [List.foldl_cons]
    simp only []
    rw [subvector_write_append pre rest r c hr (by omega)]
    have hpl : pre.length + c = (pre ++ r).length := by simp [hr]
    rw [hpl, ih (fun x hx => hrows x (by simp [hx])) (pre ++ r) (rest.drop c)
      (by rw [List.length_drop]; omega)]
    simp only [List.length_cons, List.flatten_cons, List.append_assoc, List.length_append,
      List.drop_drop, hr, hlen, Prod.mk.injEq]
    exact ⟨trivial, by omega⟩

/-! ## One page packed into a vector -/

theorem subvector_write_zero {V : Type} (out src : List V) (hr : src.length ≤ out.length) :
    subvector_write out 0 src.length src = src ++ out.drop src.length := by
  have h := subvector_write_append [] out src src.length rfl hr
  simpa using h

/-- The loop over the rows of the matrix, stated with the indices of the rows
as `pack_page` has it. -/
theorem foldl_write_matrix {V : Type} (m : gsl_matrix V)
    (hwf : m.data.length = m.size1 ∧ ∀ r ∈ m.data, r.length = m.size2) (pre rest : List V)
    (hrest : m.size1 * m.size2 ≤ rest.length) :
    (List.range m.size1).foldl
        (fun (s : List V × Nat) i =>
          (subvector_write s.1 s.2 m.size2 (m.data.getD i []), s.2 + m.size2))
        (pre ++ rest, pre.length) =
      ((pre ++ m.data.flatten) ++ rest.drop (m.size1 * m.size2),
        pre.length + m.size1 * m.size2) := by
  obtain ⟨h1, h2⟩ := hwf
  rw [foldl_range_getD_gen
      (fun (s : List V × Nat) row => (subvector_write s.1 s.2 m.size2 row, s.2 + m.size2))
      m.data [] m.size1 h1,
    foldl_write_rows m.size2 m.data h2 pre rest (by rw [h1]; exact hrest), h1]

theorem length_flatten_rows {V : Type} (rows : List (List V)) (c : Nat)
    (h : ∀ r ∈ rows, r.length = c) : rows.flatten.length = rows.length * c := by
  induction rows with
  | nil => simp
  | cons r rs ih =>
    rw [List.flatten_cons, List.length_append, h r (by simp),
      ih (fun x hx => h x (by simp [hx])), List.length_cons]
    ring

/-- The number of elements of a page whose matrix holds `size1` rows of
`size2` entries. -/
theorem length_packed {V : Type} (d : apop_data V)
    (hwf : ∀ m, d.matrix = some m → m.data.length = m.size1 ∧ ∀ r ∈ m.data, r.length = m.size2) :
    (packed d).length = page_size d := by
  obtain ⟨vec, mat, w, nm, e⟩ := d
  cases mat with
  | none => cases vec <;> cases w <;> simp [packed, page_size]
  | some m =>
    obtain ⟨h1, h2⟩ := hwf m rfl
    have := length_flatten_rows m.data m.size2 h2
    rw [h1] at this
    cases vec <;> cases w <;> simp [packed, page_size, this] <;> omega

/-- The vector block and the weights block of `pack_page`: a write right
behind the part `pre`. -/
theorem write_block {V : Type} (pre rest src : List V) (hr : src.length ≤ rest.length) :
    (subvector_write (pre ++ rest) pre.length src.length src, pre.length + src.length) =
      ((pre ++ src) ++ rest.drop src.length, (pre ++ src).length) := by
  rw [subvector_write_append pre rest src src.length rfl hr, List.length_append]

/-- The three blocks of `apop_data_pack` write the elements of the page at the
start of `out`, when the matrix holds `size1` rows of `size2` entries and `out`
is long enough. -/
theorem pack_page_eq {V : Type} (d : apop_data V) (out : List V)
    (hwf : ∀ m, d.matrix = some m → m.data.length = m.size1 ∧ ∀ r ∈ m.data, r.length = m.size2)
    (hsize : page_size d ≤ out.length) :
    pack_page d out = (packed d ++ out.drop (page_size d), page_size d) := by
  obtain ⟨vec, mat, w, nm, e⟩ := d
  have h0 : (out, 0) = (([] : List V) ++ out, ([] : List V).length) := rfl
  cases vec with
  | none =>
    cases mat with
    | none =>
      cases w with
      | none => simp [pack_page, packed, page_size]
      | some ws =>
        simp only [page_size, Nat.zero_add] at hsize
        simp only [pack_page, packed, page_size, Nat.zero_add, List.nil_append]
        rw [subvector_write_zero out ws hsize]
    | some m =>
      have hm := hwf m rfl
      have hfl := length_flatten_rows m.data m.size2 hm.2
      rw [hm.1] at hfl
      cases w with
      | none =>
        simp only [page_size, Nat.zero_add, Nat.add_zero] at hsize
        simp only [pack_page, packed, page_size, Nat.zero_add, Nat.add_zero, List.nil_append,
          List.append_nil]
        rw [h0, foldl_write_matrix m hm [] out hsize]
        simp
      | some ws =>
        simp only [page_size, Nat.zero_add] at hsize
        simp only [pack_page, packed, page_size, Nat.zero_add, List.nil_append]
        rw [h0, foldl_write_matrix m hm [] out (by omega)]
        simp only [List.nil_append, List.length_nil, Nat.zero_add]
        rw [← hfl, write_block m.data.flatten _ ws (by rw [List.length_drop]; omega)]
        simp [List.drop_drop, Nat.add_comm]
  | some v =>
    cases mat with
    | none =>
      cases w with
      | none =>
        simp only [page_size, Nat.add_zero] at hsize
        simp only [pack_page, packed, page_size, Nat.zero_add, Nat.add_zero, List.append_nil]
        rw [subvector_write_zero out v hsize]
      | some ws =>
        simp only [page_size, Nat.add_zero] at hsize
        simp only [pack_page, packed, page_size, Nat.zero_add, Nat.add_zero, List.append_nil]
        rw [subvector_write_zero out v (by omega),
          write_block v _ ws (by rw [List.length_drop]; omega)]
        simp [List.drop_drop, Nat.add_comm]
    | some m =>
      have hm := hwf m rfl
      have hfl := length_flatten_rows m.data m.size2 hm.2
      rw [hm.1] at hfl
      cases w with
      | none =>
        simp only [page_size, Nat.add_zero] at hsize
        simp only [pack_page, packed, page_size, Nat.zero_add, Nat.add_zero, List.append_nil]
        rw [subvector_write_zero out v (by omega),
          foldl_write_matrix m hm v _ (by rw [List.length_drop]; omega)]
        simp [List.drop_drop, Nat.add_comm]
      | some ws =>
        simp only [page_size] at hsize
        simp only [pack_page, packed, page_size, Nat.zero_add]
        rw [subvector_write_zero out v (by omega),
          foldl_write_matrix m hm v _ (by rw [List.length_drop]; omega)]
        have hl : v.length + m.size1 * m.size2 = (v ++ m.data.flatten).length := by
          rw [List.length_append, hfl]
        rw [hl, write_block (v ++ m.data.flatten) _ ws
          (by rw [List.length_drop, List.length_drop]; omega)]
        simp only [List.drop_drop, List.length_append, hfl, Prod.mk.injEq]

/-! ## One page filled from a vector -/

/-- The loop of `apop_data_unpack` over the rows of the matrix: the rows `M`
that follow `pre` in the vector replace the rows `T` of the matrix; `D` holds
the rows done. -/
theorem foldl_read_rows {V : Type} (c s1 s2 : Nat) (M : List (List V))
    (hM : ∀ r ∈ M, r.length = c) :
    ∀ (T D : List (List V)) (pre post : List V), T.map List.length = M.map List.length →
    (List.range' D.length M.length).foldl
        (fun (t : gsl_matrix V × Nat) i =>
          ({ t.1 with
               data := t.1.data.set i
                 (subvector_read (pre ++ (M.flatten ++ post)) t.2 c (t.1.data.getD i [])) },
           t.2 + c))
        ({ size1 := s1, size2 := s2, data := D ++ T }, pre.length) =
      ({ size1 := s1, size2 := s2, data := D ++ M }, pre.length + M.length * c) := by
  induction M with
  | nil =>
    intro T D pre post hT
    have : T = [] := by
      cases T with
      | nil => rfl
      | cons t ts => simp at hT
    subst this
    simp
  | cons r rs ih =>
    intro T D pre post hT
    cases T with
    | nil => simp at hT
    | cons t ts =>
      simp only [List.map_cons, List.cons.injEq] at hT
      obtain ⟨ht, hts⟩ := hT
      have hr : r.length = c := hM r (by simp)
      rw [hr] at ht
      have hget : (D ++ t :: ts).getD D.length [] = t := by
        simp [List.getD_eq_getElem?_getD, List.getElem_append_right]
      have hset : (D ++ t :: ts).set D.length r = (D ++ [r]) ++ ts := by
        rw [List.set_append_right _ _ (Nat.le_refl _)]
        simp
      have hread : subvector_read (pre ++ ((r :: rs).flatten ++ post)) pre.length c t = r := by
        rw [List.flatten_cons, List.append_assoc]
        exact subvector_read_append pre r _ t c hr ht
      have hinp : pre ++ ((r :: rs).flatten ++ post) = (pre ++ r) ++ (rs.flatten ++ post) := by
        simp
      have hl : (D ++ [r]).length = D.length + 1 := by simp
      have hp : pre.length + c = (pre ++ r).length := by simp [hr]
      rw [List.length_cons, List.range'_succ, List.foldl_cons]
      simp only [hget, hread, hset]
      rw [hinp, hp, ← hl, ih (fun x hx => hM x (by simp [hx])) ts (D ++ [r]) (pre ++ r) post hts]
      simp only [List.append_assoc, List.singleton_append, List.length_append, hr,
        Prod.mk.injEq, true_and]
      ring

/-- The loop over the rows of the matrix as `unpack_page` has it. -/
theorem foldl_read_matrix {V : Type} (m t : gsl_matrix V)
    (hwf : m.data.length = m.size1 ∧ ∀ r ∈ m.data, r.length = m.size2)
    (hshape : t.size1 = m.size1 ∧ t.size2 = m.size2 ∧
      t.data.map List.length = m.data.map List.length) (pre post : List V) :
    (List.range t.size1).foldl
        (fun (s : gsl_matrix V × Nat) i =>
          ({ s.1 with
               data := s.1.data.set i
                 (subvector_read (pre ++ (m.data.flatten ++ post)) s.2 t.size2
                   (s.1.data.getD i [])) },
           s.2 + t.size2))
        (t, pre.length) =
      (m, pre.length + m.size1 * m.size2) := by
  obtain ⟨ms1, ms2, md⟩ := m
  obtain ⟨ts1, ts2, td⟩ := t
  obtain ⟨h1, h2⟩ := hwf
  obtain ⟨e1, e2, e3⟩ := hshape
  simp only at e1 e2 e3 h1 h2
  subst e1 e2 h1
  have h := foldl_read_rows ts2 md.length ts2 md h2 td [] pre post e3
  simp only [List.length_nil, List.nil_append] at h
  rw [List.range_eq_range']
  exact h

theorem subvector_read_of_eq {V : Type} (inp pre src post dest : List V) (off n : Nat)
    (h : inp = pre ++ (src ++ post)) (hoff : off = pre.length) (hn : src.length = n)
    (hd : dest.length = n) : subvector_read inp off n dest = src := by
  subst h hoff
  exact subvector_read_append pre src post dest n hn hd

theorem foldl_read_matrix_of_eq {V : Type} (m t : gsl_matrix V)
    (hwf : m.data.length = m.size1 ∧ ∀ r ∈ m.data, r.length = m.size2)
    (hshape : t.size1 = m.size1 ∧ t.size2 = m.size2 ∧
      t.data.map List.length = m.data.map List.length) (inp pre post : List V) (off : Nat)
    (h : inp = pre ++ (m.data.flatten ++ post)) (hoff : off = pre.length) :
    (List.range t.size1).foldl
        (fun (s : gsl_matrix V × Nat) i =>
          ({ s.1 with
               data := s.1.data.set i (subvector_read inp s.2 t.size2 (s.1.data.getD i [])) },
           s.2 + t.size2))
        (t, off) =
      (m, pre.length + m.size1 * m.size2) := by
  subst h hoff
  exact foldl_read_matrix m t hwf hshape pre post

/-- The three blocks of `apop_data_unpack` fill a page of the same shape with
the elements of the page `p`, read from the start of the vector. -/
theorem unpack_page_eq {V : Type} (p q : apop_data V) (post : List V)
    (hwf : ∀ m, p.matrix = some m → m.data.length = m.size1 ∧ ∀ r ∈ m.data, r.length = m.size2)
    (hshape : shape q = shape p) :
    unpack_page (packed p ++ post) q =
      ({ q with vector := p.vector, matrix := p.matrix, weights := p.weights },
        page_size p) := by
  obtain ⟨pv, pm, pw, pn, pe⟩ := p
  obtain ⟨qv, qm, qw, qn, qe⟩ := q
  simp only [shape, Prod.mk.injEq] at hshape
  obtain ⟨hv, hm, hw⟩ := hshape
  cases pv with
  | none =>
    cases qv with
    | some v' => simp at hv
    | none =>
      cases pm with
      | none =>
        cases qm with
        | some m' => simp at hm
        | none =>
          cases pw with
          | none =>
            cases qw with
            | some w' => simp at hw
            | none => simp [unpack_page, page_size]
          | some w =>
            cases qw with
            | none => simp at hw
            | some w' =>
              simp only [Option.map_some', Option.some.injEq] at hw
              simp only [unpack_page, packed, page_size, Nat.zero_add, List.nil_append]
              rw [subvector_read_of_eq _ [] w post w' 0 w'.length (by simp) rfl hw.symm rfl,
                hw]
      | some m =>
        cases qm with
        | none => simp at hm
        | some m' =>
          simp only [Option.map_some', Option.some.injEq, Prod.mk.injEq] at hm
          have hm0 := hwf m rfl
          have hfl := length_flatten_rows m.data m.size2 hm0.2
          rw [hm0.1] at hfl
          cases pw with
          | none =>
            cases qw with
            | some w' => simp at hw
            | none =>
              simp only [unpack_page, packed, page_size, Nat.zero_add, Nat.add_zero,
                List.nil_append, List.append_nil]
              rw [foldl_read_matrix_of_eq m m' hm0 hm _ [] post 0 (by simp) rfl]
              simp
          | some w =>
            cases qw with
            | none => simp at hw
            | some w' =>
              simp only [Option.map_some', Option.some.injEq] at hw
              simp only [unpack_page, packed, page_size, Nat.zero_add, List.nil_append]
              rw [foldl_read_matrix_of_eq m m' hm0 hm _ [] (w ++ post) 0 (by simp) rfl]
              simp only [List.length_nil, Nat.zero_add]
              rw [subvector_read_of_eq _ m.data.flatten w post w' _ w'.length
                  (by simp) hfl.symm hw.symm rfl, hw]
  | some v =>
    cases qv with
    | none => simp at hv
    | some v' =>
      simp only [Option.map_some', Option.some.injEq] at hv
      cases pm with
      | none =>
        cases qm with
        | some m' => simp at hm
        | none =>
          cases pw with
          | none =>
            cases qw with
            | some w' => simp at hw
            | none =>
              simp only [unpack_page, packed, page_size, Nat.zero_add, Nat.add_zero,
                List.append_nil]
              rw [subvector_read_of_eq _ [] v post v' 0 v'.length (by simp) rfl hv.symm rfl,
                hv]
          | some w =>
            cases qw with
            | none => simp at hw
            | some w' =>
              simp only [Option.map_some', Option.some.injEq] at hw
              simp only [unpack_page, packed, page_size, Nat.zero_add, Nat.add_zero,
                List.append_nil]
              rw [subvector_read_of_eq _ [] v (w ++ post) v' 0 v'.length (by simp) rfl
                  hv.symm rfl,
                subvector_read_of_eq _ v w post w' _ w'.length (by simp) hv hw.symm rfl,
                hv, hw]
      | some m =>
        cases qm with
        | none => simp at hm
        | some m' =>
          simp only [Option.map_some', Option.some.injEq, Prod.mk.injEq] at hm
          have hm0 := hwf m rfl
          have hfl := length_flatten_rows m.data m.size2 hm0.2
          rw [hm0.1] at hfl
          cases pw with
          | none =>
            cases qw with
            | some w' => simp at hw
            | none =>
              simp only [unpack_page, packed, page_size, Nat.zero_add, Nat.add_zero,
                List.append_nil]
              rw [subvector_read_of_eq _ [] v (m.data.flatten ++ post) v' 0 v'.length
                  (by simp) rfl hv.symm rfl,
                foldl_read_matrix_of_eq m m' hm0 hm _ v post _ (by simp) hv]
          | some w =>
            cases qw with
            | none => simp at hw
            | some w' =>
              simp only [Option.map_some', Option.some.injEq] at hw
              simp only [unpack_page, packed, page_size, Nat.zero_add]
              rw [subvector_read_of_eq _ [] v (m.data.flatten ++ w ++ post) v' 0 v'.length
                  (by simp) rfl hv.symm rfl,
                foldl_read_matrix_of_eq m m' hm0 hm _ v (w ++ post) _ (by simp) hv]
              simp only []
              rw [subvector_read_of_eq _ (v ++ m.data.flatten) w post w' _ w'.length
                  (by simp) (by rw [List.length_append, hfl]) hw.symm rfl, hw]

/-- The third argument that `apop_data_pack` gives to `sizecount` is `0` or
`1` and so is never `'n'`. -/
theorem use_info_pp_ne (use_info_pages : CChar) :
    ¬ ((if use_info_pages = 110 then 1 else 0 : Nat) = 110) := by
  split <;> decide

theorem sizecount_one {V : Type} (p : apop_page V) (all_pp : Nat) (use_info_pages : CChar) :
    sizecount [p] all_pp (if use_info_pages = 110 then 1 else 0) = page_size p.set := by
  have h := use_info_pp_ne use_info_pages
  simp only [sizecount, h, false_and, if_false, ite_self, Nat.add_zero]

/-- C25: for every page `p` with at least one element, whose matrix holds
`size1` rows of `size2` entries, and every setting of `all_pages` and
`use_info_pages`: `apop_data_pack` of the one-page set returns a new vector
that holds the elements of the vector, then those of the matrix row by row,
then the weights; and `apop_data_unpack` of that vector into a one-page set
`q` of the same shape leaves in `q` the vector, the matrix and the weights of
`p`, and the rest of `q` as it was. -/
theorem apop_data_pack_unpack_one_page {V : Type} (lib : NumLib V) (p q : apop_page V)
    (all_pages use_info_pages unpack_info_pages : CChar)
    (hwf : ∀ m, p.set.matrix = some m →
      m.data.length = m.size1 ∧ ∀ r ∈ m.data, r.length = m.size2)
    (hne : page_size p.set ≠ 0) (hshape : shape q.set = shape p.set) :
    apop_data_pack lib [p] none all_pages use_info_pages = some (some (packed p.set)) ∧
    apop_data_unpack (packed p.set) [q] unpack_info_pages =
      some [{ q with set := { q.set with vector := p.set.vector, matrix := p.set.matrix,
                                         weights := p.set.weights } }] := by
  constructor
  · have hp := pack_page_eq p.set (List.replicate (page_size p.set) lib.fresh) hwf (by simp)
    have hd : List.drop (page_size p.set) (List.replicate (page_size p.set) lib.fresh) = [] :=
      List.drop_of_length_le (by simp)
    rw [hd, List.append_nil] at hp
    simp only [apop_data_pack, apop_data_pack_base, sizecount_one, hne, if_false,
      decide_False, Bool.false_eq_true, hp, List.length_nil, ne_eq, not_true_eq_false,
      and_false]
  · have hu := unpack_page_eq p.set q.set [] hwf hshape
    rw [List.append_nil] at hu
    simp only [apop_data_unpack, apop_data_unpack_base, hu, List.length_nil, ne_eq,
      not_true_eq_false, and_false, if_false]

/-- Witness for C25: the page with the vector `1, 2`, the matrix with the rows
`3, 4` and `5, 6` and the weights `7, 8` is packed to `1, 2, 3, 4, 5, 6, 7, 8`,
and unpacking fills a page of zeros that has a title and a column name of its
own. -/
theorem apop_data_pack_unpack_one_page_witness :
    apop_data_pack ({ strtod := fun _ => (0, 0), GSL_NAN := 0, fresh := 170 } : NumLib Int)
        [(
          { title := [97],
            set := { vector := some [1, 2],
                     matrix := some { size1 := 2, size2 := 2, data := [[3, 4], [5, 6]] },
                     weights := some [7, 8], names := { column := [], row := [] },
                     error := 0 },
            text := [] } : apop_page Int)] none 110 110 =
      some (some [1, 2, 3, 4, 5, 6, 7, 8]) ∧
    apop_data_unpack [1, 2, 3, 4, 5, 6, 7, 8]
        [(
          { title := [98],
            set := { vector := some [0, 0],
                     matrix := some { size1 := 2, size2 := 2, data := [[0, 0], [0, 0]] },
                     weights := some [0, 0], names := { column := [[120]], row := [] },
                     error := 0 },
            text := [] } : apop_page Int)] 110 =
      some [
          { title := [98],
            set := { vector := some [1, 2],
                     matrix := some { size1 := 2, size2 := 2, data := [[3, 4], [5, 6]] },
                     weights := some [7, 8], names := { column := [[120]], row := [] },
                     error := 0 },
            text := [] }] :=
  apop_data_pack_unpack_one_page
    ({ strtod := fun _ => (0, 0), GSL_NAN := 0, fresh := 170 } : NumLib Int)
    { title := [97],
      set := { vector := some [1, 2],
               matrix := some { size1 := 2, size2 := 2, data := [[3, 4], [5, 6]] },
               weights := some [7, 8], names := { column := [], row := [] },
               error := 0 },
      text := [] }
    { title := [98],
      set := { vector := some [0, 0],
               matrix := some { size1 := 2, size2 := 2, data := [[0, 0], [0, 0]] },
               weights := some [0, 0], names := { column := [[120]], row := [] },
               error := 0 },
      text := [] }
    110 110 110
    (fun m h => by
      simp only [Option.some.injEq] at h
      subst h
      exact ⟨rfl, by decide⟩)
    (by decide) (by decide)

/-! ## Several pages packed into a vector -/

/-- With a flag that is `0` or `1`, `sizecount` counts the elements of every
page of the chain, whatever its title. -/
theorem sizecount_all {V : Type} (pages : List (apop_page V)) (b : Nat) (hb : b ≠ 110) :
    sizecount pages 1 b = (pages.map (fun q => page_size q.set)).sum := by
  induction pages with
  | nil => rfl
  | cons p more ih =>
    simp only [sizecount, hb, false_and, if_false, ne_eq, one_ne_zero, not_false_eq_true,
      if_true, ih, List.map_cons, List.sum_cons]

theorem length_foldl_write {V : Type} (c : Nat) (g : Nat → List V) (l : List Nat)
    (s : List V × Nat) :
    (l.foldl (fun (s : List V × Nat) i => (subvector_write s.1 s.2 c (g i), s.2 + c)) s).1.length =
      s.1.length := by
  induction l generalizing s with
  | nil => rfl
  | cons x xs ih =>
    rw [List.foldl_cons, ih, length_subvector_write]

/-- The three blocks of `apop_data_pack` do not change the size of `out`. -/
theorem length_pack_page {V : Type} (d : apop_data V) (out : List V) :
    (pack_page d out).1.length = out.length := by
  obtain ⟨vec, mat, w, nm, e⟩ := d
  cases vec <;> cases mat <;> cases w <;>
    simp [pack_page, length_subvector_write, length_foldl_write]

/-- The loop over the informational pages does not make the chain longer. -/
theorem length_skip_info_pages {V : Type} (u : CChar) (more : List (apop_page V)) :
    (skip_info_pages u more).length ≤ more.length := by
  induction more with
  | nil => simp [skip_info_pages]
  | cons q rest ih =>
    unfold skip_info_pages
    split
    · simp only [List.length_cons]; omega
    · exact Nat.le_refl _

/-- A call of `apop_data_pack` on a chain with a first page stops with `NULL`
when the vector to fill has the wrong size. -/
theorem pack_base_bad_size {V : Type} (lib : NumLib V) (fuel : Nat) (p : apop_page V)
    (more : List (apop_page V)) (o : List V) (a u : CChar)
    (h : o.length ≠ sizecount (p :: more) (if a = 121 ∨ a = 89 then 1 else 0)
      (if u = 110 then 1 else 0)) :
    apop_data_pack_base lib (fuel + 1) (p :: more) (some o) a u = some none := by
  unfold apop_data_pack_base
  simp only []
  rw [if_pos (by simp only [decide_eq_true_eq]; exact h)]

/-- A call of `apop_data_pack` that passes the checks of the size: the first
page is copied into the vector `O` and the pages behind it are left to the
nested call. -/
theorem pack_base_step {V : Type} (lib : NumLib V) (fuel : Nat) (p : apop_page V)
    (more : List (apop_page V)) (out : Option (List V)) (a u : CChar) (O : List V)
    (hO : O = match out with
      | some o => o
      | none => List.replicate (sizecount (p :: more) (if a = 121 ∨ a = 89 then 1 else 0)
          (if u = 110 then 1 else 0)) lib.fresh)
    (hsize : ∀ o, out = some o → o.length =
      sizecount (p :: more) (if a = 121 ∨ a = 89 then 1 else 0) (if u = 110 then 1 else 0))
    (hT0 : sizecount (p :: more) (if a = 121 ∨ a = 89 then 1 else 0)
      (if u = 110 then 1 else 0) ≠ 0) :
    apop_data_pack_base lib (fuel + 1) (p :: more) out a u =
      if (if a = 121 ∨ a = 89 then 1 else 0 : Nat) ≠ 0 ∧ more.length ≠ 0 then
        match apop_data_pack_base lib fuel (skip_info_pages u more)
            (some ((pack_page p.set O).1.drop (pack_page p.set O).2)) 121 110 with
        | none => none
        | some none => some (some (pack_page p.set O).1)
        | some (some v) => some (some ((pack_page p.set O).1.take (pack_page p.set O).2 ++ v))
      else some (some (pack_page p.set O).1) := by
  subst hO
  cases out with
  | none =>
    conv_lhs => unfold apop_data_pack_base
    simp only []
    rw [if_neg (by decide), if_neg hT0]
  | some o =>
    have ho := hsize o rfl
    conv_lhs => unfold apop_data_pack_base
    simp only []
    rw [if_neg (by simp only [decide_eq_true_eq]; exact fun h => h ho), if_neg hT0]

/-- A call of `apop_data_pack` on a chain without elements stops with
`NULL`. -/
theorem pack_base_zero {V : Type} (lib : NumLib V) (fuel : Nat) (p : apop_page V)
    (more : List (apop_page V)) (out : Option (List V)) (a u : CChar)
    (hT0 : sizecount (p :: more) (if a = 121 ∨ a = 89 then 1 else 0)
      (if u = 110 then 1 else 0) = 0) :
    apop_data_pack_base lib (fuel + 1) (p :: more) out a u = some none := by
  conv_lhs => unfold apop_data_pack_base
  simp only []
  rw [if_pos hT0]
  simp only [ite_self]

/-- One nested call for each page of the chain is enough: the call
returns. -/
theorem pack_base_isSome {V : Type} (lib : NumLib V) (fuel : Nat) :
    ∀ (pages : List (apop_page V)) (out : Option (List V)) (a u : CChar),
      pages.length < fuel → (apop_data_pack_base lib fuel pages out a u).isSome = true := by
  induction fuel with
  | zero => intro pages out a u h; omega
  | succ fuel ih =>
    intro pages out a u h
    cases pages with
    | nil => rfl
    | cons p more =>
      simp only [List.length_cons] at h
      have hlen := length_skip_info_pages u more
      by_cases hT0 : sizecount (p :: more) (if a = 121 ∨ a = 89 then 1 else 0)
          (if u = 110 then 1 else 0) = 0
      · rw [pack_base_zero lib fuel p more out a u hT0]; rfl
      · have key : ∀ (O : List V) (r : Option (Option (List V))), r.isSome = true →
            (if (if a = 121 ∨ a = 89 then 1 else 0 : Nat) ≠ 0 ∧ more.length ≠ 0 then
              match r with
              | none => none
              | some none => some (some (pack_page p.set O).1)
              | some (some v) =>
                some (some ((pack_page p.set O).1.take (pack_page p.set O).2 ++ v))
            else some (some (pack_page p.set O).1)).isSome = true := by
          intro O r hr
          by_cases hc : (if a = 121 ∨ a = 89 then 1 else 0 : Nat) ≠ 0 ∧ more.length ≠ 0
          · rw [if_pos hc]
            cases r with
            | none => cases hr
            | some x => cases x <;> rfl
          · rw [if_neg hc]; rfl
        cases out with
        | none =>
          rw [pack_base_step lib fuel p more none a u _ rfl (fun o ho => by cases ho) hT0]
          exact key _ _ (ih (skip_info_pages u more) _ 121 110 (by omega))
        | some o =>
          by_cases hne : o.length = sizecount (p :: more) (if a = 121 ∨ a = 89 then 1 else 0)
              (if u = 110 then 1 else 0)
          · rw [pack_base_step lib fuel p more (some o) a u o rfl
              (fun o2 ho2 => by cases ho2; exact hne) hT0]
            exact key _ _ (ih (skip_info_pages u more) _ 121 110 (by omega))
          · rw [pack_base_bad_size lib fuel p more o a u hne]; rfl

/-- When a vector to fill is given, the vector returned has its size. -/
theorem pack_base_length {V : Type} (lib : NumLib V) (fuel : Nat) :
    ∀ (pages : List (apop_page V)) (o : List V) (a u : CChar) (v : List V),
      apop_data_pack_base lib fuel pages (some o) a u = some (some v) → v.length = o.length := by
  induction fuel with
  | zero => intro pages o a u v h; simp [apop_data_pack_base] at h
  | succ fuel ih =>
    intro pages o a u v h
    cases pages with
    | nil => simp [apop_data_pack_base] at h
    | cons p more =>
      by_cases hT0 : sizecount (p :: more) (if a = 121 ∨ a = 89 then 1 else 0)
          (if u = 110 then 1 else 0) = 0
      · rw [pack_base_zero lib fuel p more (some o) a u hT0] at h; cases h
      · by_cases hne : o.length = sizecount (p :: more) (if a = 121 ∨ a = 89 then 1 else 0)
            (if u = 110 then 1 else 0)
        · have hl := length_pack_page p.set o
          rw [pack_base_step lib fuel p more (some o) a u o rfl
            (fun o2 ho2 => by cases ho2; exact hne) hT0] at h
          by_cases hc : (if a = 121 ∨ a = 89 then 1 else 0 : Nat) ≠ 0 ∧ more.length ≠ 0
          · rw [if_pos hc] at h
            generalize hrec : apop_data_pack_base lib fuel (skip_info_pages u more)
              (some ((pack_page p.set o).1.drop (pack_page p.set o).2)) 121 110 = r at h
            cases r with
            | none => cases h
            | some x =>
              cases x with
              | none =>
                simp only [Option.some.injEq] at h
                rw [← h]; exact hl
              | some v2 =>
                simp only [Option.some.injEq] at h
                have h3 := ih _ _ _ _ _ hrec
                rw [← h, List.length_append, h3, List.length_take, List.length_drop]
                omega
          · rw [if_neg hc] at h
            simp only [Option.some.injEq] at h
            rw [← h]; exact hl
        · rw [pack_base_bad_size lib fuel p more o a u hne] at h; cases h

/-- C26: for every chain of pages that holds at least one element and every
setting of `use_info_pages`, `apop_data_pack` with `all_pages` set to `'y'` or
`'Y'` returns a new vector whose size is the number of elements of all the
pages, the informational ones included, and returns `NULL` for a vector to
fill of any other size: `sizecount` gets the flag `use_info_pages == 'n'`,
which is `0` or `1`, and compares it with `'n'`. -/
theorem apop_data_pack_counts_info_pages {V : Type} (lib : NumLib V) (p : apop_page V)
    (more : List (apop_page V)) (all_pages use_info_pages : CChar) (out : List V)
    (hall : all_pages = 121 ∨ all_pages = 89)
    (htotal : ((p :: more).map (fun q => page_size q.set)).sum ≠ 0)
    (hout : out.length ≠ ((p :: more).map (fun q => page_size q.set)).sum) :
    (∃ v, apop_data_pack lib (p :: more) none all_pages use_info_pages = some (some v) ∧
      v.length = ((p :: more).map (fun q => page_size q.set)).sum) ∧
    apop_data_pack lib (p :: more) (some out) all_pages use_info_pages = some none := by
  have hT : sizecount (p :: more) (if all_pages = 121 ∨ all_pages = 89 then 1 else 0)
      (if use_info_pages = 110 then 1 else 0) =
      ((p :: more).map (fun q => page_size q.set)).sum := by
    rw [if_pos hall]
    exact sizecount_all (p :: more) _ (use_info_pp_ne use_info_pages)
  constructor
  · unfold apop_data_pack
    rw [List.length_cons,
      pack_base_step lib (more.length + 1) p more none all_pages use_info_pages _ rfl
        (fun o ho => by cases ho) (by rw [hT]; exact htotal)]
    simp only []
    rw [hT]
    have hl := length_pack_page p.set (List.replicate
      ((p :: more).map (fun q => page_size q.set)).sum lib.fresh)
    rw [List.length_replicate] at hl
    by_cases hc : (if all_pages = 121 ∨ all_pages = 89 then 1 else 0 : Nat) ≠ 0 ∧
        more.length ≠ 0
    · rw [if_pos hc]
      have hsome := pack_base_isSome lib (more.length + 1) (skip_info_pages use_info_pages more)
        (some ((pack_page p.set (List.replicate
          ((p :: more).map (fun q => page_size q.set)).sum lib.fresh)).1.drop
          (pack_page p.set (List.replicate
          ((p :: more).map (fun q => page_size q.set)).sum lib.fresh)).2)) 121 110
        (by have := length_skip_info_pages use_info_pages more; omega)
      generalize hrec : apop_data_pack_base lib (more.length + 1)
        (skip_info_pages use_info_pages more)
        (some ((pack_page p.set (List.replicate
          ((p :: more).map (fun q => page_size q.set)).sum lib.fresh)).1.drop
          (pack_page p.set (List.replicate
          ((p :: more).map (fun q => page_size q.set)).sum lib.fresh)).2)) 121 110 = r at hsome ⊢
      cases r with
      | none => cases hsome
      | some x =>
        cases x with
        | none => exact ⟨_, rfl, hl⟩
        | some v2 =>
          refine ⟨_, rfl, ?_⟩
          have h3 := pack_base_length lib _ _ _ _ _ _ hrec
          rw [List.length_append, h3, List.length_take, List.length_drop]
          omega
    · rw [if_neg hc]
      exact ⟨_, rfl, hl⟩
  · unfold apop_data_pack
    rw [List.length_cons]
    exact pack_base_bad_size lib _ p more out all_pages use_info_pages
      (by rw [hT]; exact hout)

/-- Witness for C26: the page `a` with the vector `1`, the informational page
`<i>` with the vector `2` and the page `b` with the vector `3`, with
`all_pages = 'y'` and `use_info_pages = 'n'`.  The vector returned has three
cells, of which only the first is written, where the two pages that are not
informational hold the two elements `1, 3`; a vector to fill of size two is
answered with `NULL`. -/
theorem apop_data_pack_counts_info_pages_witness :
    ((∃ v, apop_data_pack int_lib
          (vector_page [97] [1] :: [vector_page [60, 105, 62] [2], vector_page [98] [3]])
          none 121 110 = some (some v) ∧
        v.length = ((vector_page [97] [1] ::
          [vector_page [60, 105, 62] [2], vector_page [98] [3]]).map
            (fun q => page_size q.set)).sum) ∧
      apop_data_pack int_lib
          (vector_page [97] [1] :: [vector_page [60, 105, 62] [2], vector_page [98] [3]])
          (some [0, 0]) 121 110 = some none) ∧
    apop_data_pack int_lib
        [vector_page [97] [1], vector_page [60, 105, 62] [2], vector_page [98] [3]]
        none 121 110 = some (some [1, 170, 170]) ∧
    apop_regex_info [60, 105, 62] = true :=
  ⟨apop_data_pack_counts_info_pages int_lib (vector_page [97] [1])
      [vector_page [60, 105, 62] [2], vector_page [98] [3]] 121 110 [0, 0]
      (by decide) (by decide) (by decide),
    by decide, by decide⟩

/-! ## The rows that `apop_data_listwise_delete` marks -/

theorem any_range_get {α : Type} (row : List α) (P : α → Bool) (c : Nat)
    (hc : row.length = c) :
    (List.range c).any (fun j => (row.get? j).any P) = row.any P := by
  subst hc
  rw [Bool.eq_iff_iff]
  simp only [List.any_eq_true, List.mem_range]
  constructor
  · rintro ⟨j, _, hp⟩
    cases hx : row.get? j with
    | none => rw [hx] at hp; exact absurd hp (by simp [Option.any])
    | some x =>
      rw [hx] at hp
      rw [List.get?_eq_getElem?] at hx
      obtain ⟨hj, hx2⟩ := List.getElem?_eq_some_iff.mp hx
      exact ⟨x, hx2 ▸ List.getElem_mem hj, hp⟩
  · rintro ⟨x, hx, hp⟩
    obtain ⟨j, hj, hget⟩ := List.getElem_of_mem hx
    refine ⟨j, hj, ?_⟩
    rw [List.get?_eq_getElem?, List.getElem?_eq_getElem hj, hget]
    exact hp

theorem nan_cell_matrix {V : Type} (gsl_isnan : V → Int) (dv : Option (List V))
    (m : gsl_matrix V) (dw : Option (List V)) (nm : apop_name) (e : CChar) (i j : Nat) :
    nan_cell gsl_isnan
        { vector := dv, matrix := some m, weights := dw, names := nm, error := e } i
        ((j : Nat) : Int) =
      ((m.data.getD i []).get? j).any (fun x => decide (gsl_isnan x ≠ 0)) := by
  have h : ¬ (((j : Nat) : Int) = -1) := by omega
  simp only [nan_cell, apop_data_cell, if_neg h, Int.toNat_ofNat]
  cases (m.data.getD i []).get? j <;> rfl

theorem nan_cell_vector {V : Type} (gsl_isnan : V → Int) (v : List V)
    (dm : Option (gsl_matrix V)) (dw : Option (List V)) (nm : apop_name) (e : CChar) (i : Nat) :
    nan_cell gsl_isnan
        { vector := some v, matrix := dm, weights := dw, names := nm, error := e } i (-1) =
      (v.get? i).any (fun x => decide (gsl_isnan x ≠ 0)) := by
  simp only [nan_cell, apop_data_cell, if_true]
  cases v.get? i <;> rfl

/-- The loop over the weights sets the mark of the rows whose weight the test
`P` finds. -/
theorem foldl_mark {P : Nat → Prop} [DecidablePred P] (n : Nat) (mk : List Nat)
    (hn : n ≤ mk.length) :
    (List.range n).foldl (fun (mk : List Nat) i => if P i then mk.set i 1 else mk) mk =
      (List.range mk.length).map (fun i => if i < n ∧ P i then 1 else mk.getD i 0) := by
  induction n with
  | zero =>
    simp only [List.range_zero, List.foldl_nil, Nat.not_lt_zero, false_and, if_false]
    apply List.ext_getElem
    · simp
    · intro i h1 h2
      simp [List.getD_eq_getElem?_getD, List.getElem?_eq_getElem h1]
  | succ n ih =>
    rw [List.range_succ, List.foldl_append, ih (by omega), List.foldl_cons, List.foldl_nil]
    have e1 : ∀ i, i ≠ n → ((i < n ∧ P i) ↔ (i < n + 1 ∧ P i)) := by
      intro i hi
      constructor
      · rintro ⟨a, b⟩; exact ⟨by omega, b⟩
      · rintro ⟨a, b⟩; exact ⟨by omega, b⟩
    by_cases hp : P n
    · rw [if_pos hp]
      apply List.ext_getElem
      · simp
      · intro i h1 h2
        simp only [List.length_map, List.length_range] at h2
        simp only [List.getElem_set, List.getElem_map, List.getElem_range]
        by_cases hi : n = i
        · subst hi
          simp [hp]
        · rw [if_neg hi]
          simp only [e1 i (fun h => hi h.symm)]
    · rw [if_neg hp]
      apply List.ext_getElem
      · simp
      · intro i h1 h2
        simp only [List.length_map, List.length_range] at h2
        simp only [List.getElem_map, List.getElem_range]
        by_cases hi : n = i
        · subst hi
          simp [hp]
        · simp only [e1 i (fun h => hi h.symm)]

theorem any_map_fun {α β : Type} (f : α → β) (p : β → Bool) (l : List α) :
    (l.map f).any p = l.any (fun x => p (f x)) := by
  induction l with
  | nil => rfl
  | cons a l ih => simp only [List.map_cons, List.any_cons, ih]

/-- The first loop on a set without a vector: row `i` is found when its row of
the matrix holds a NaN. -/
theorem first_loop_matrix {V : Type} (gsl_isnan : V → Int) (m : gsl_matrix V)
    (dw : Option (List V)) (nm : apop_name) (e : CChar) (i : Nat)
    (hc : (m.data.getD i []).length = m.size2) :
    ((List.range (((m.size2 : Nat) : Int) - 0).toNat).map
        (fun (t : Nat) => (0 : Int) + (t : Int))).any
      (fun j => nan_cell gsl_isnan
        { vector := none, matrix := some m, weights := dw, names := nm, error := e } i j) =
      (m.data.getD i []).any (fun x => decide (gsl_isnan x ≠ 0)) := by
  have h : (((m.size2 : Nat) : Int) - 0).toNat = m.size2 := by omega
  rw [h, any_map_fun, ← any_range_get _ _ m.size2 hc]
  congr 1
  funext j
  simp only [zero_add]
  exact nan_cell_matrix gsl_isnan none m dw nm e i j

/-- The first loop on a set with a vector: row `i` is found when its element
of the vector or its row of the matrix holds a NaN. -/
theorem first_loop_both {V : Type} (gsl_isnan : V → Int) (v : List V) (m : gsl_matrix V)
    (dw : Option (List V)) (nm : apop_name) (e : CChar) (i : Nat)
    (hc : (m.data.getD i []).length = m.size2) :
    ((List.range (((m.size2 : Nat) : Int) - (-1)).toNat).map
        (fun (t : Nat) => (-1 : Int) + (t : Int))).any
      (fun j => nan_cell gsl_isnan
        { vector := some v, matrix := some m, weights := dw, names := nm, error := e } i j) =
      ((v.get? i).any (fun x => decide (gsl_isnan x ≠ 0)) ||
        (m.data.getD i []).any (fun x => decide (gsl_isnan x ≠ 0))) := by
  rw [fill_base_columns, List.any_cons, any_map_fun, nan_cell_vector,
    ← any_range_get _ _ m.size2 hc]
  congr 2

/-- The marks of the first loop, row by row. -/
theorem first_loop_marks {V : Type} (gsl_isnan : V → Int) (dv : Option (List V))
    (m : gsl_matrix V) (dw : Option (List V)) (nm : apop_name) (e : CChar) (i : Nat)
    (hc : (m.data.getD i []).length = m.size2) :
    ((List.range (((m.size2 : Nat) : Int) - (if dv.isSome then -1 else 0)).toNat).map
        (fun (t : Nat) => (if dv.isSome then (-1 : Int) else 0) + (t : Int))).any
      (fun j => nan_cell gsl_isnan
        { vector := dv, matrix := some m, weights := dw, names := nm, error := e } i j) =
      ((m.data.getD i []).any (fun x => decide (gsl_isnan x ≠ 0)) ||
        (match dv with
          | some v => (v.get? i).any (fun x => decide (gsl_isnan x ≠ 0))
          | none => false)) := by
  cases dv with
  | none =>
    simp only [Option.isSome_none, Bool.false_eq_true, if_false, Bool.or_false]
    exact first_loop_matrix gsl_isnan m dw nm e i hc
  | some v =>
    simp only [Option.isSome_some, if_true]
    rw [Bool.or_comm]
    exact first_loop_both gsl_isnan v m dw nm e i hc

theorem mark_of_bool (b : Bool) :
    (if b = true then 1 else 0 : Nat) = if (!b) = true then 0 else 1 := by
  cases b <;> rfl

theorem mark_of_bools (P : Prop) [Decidable P] (b : Bool) :
    (if P then 1 else (if b = true then 1 else 0 : Nat)) =
      if (!(b || decide P)) = true then 0 else 1 := by
  by_cases hp : P <;> cases b <;> simp [hp]

/-- The vector `marked` of `apop_data_listwise_delete` holds a 1 exactly for
the rows that hold a NaN. -/
theorem listwise_marked_eq {V : Type} (lib : NumLib V) (gsl_isnan : V → Int)
    (dv : Option (List V)) (m : gsl_matrix V) (dw : Option (List V)) (nm : apop_name)
    (e : CChar)
    (hcols : ∀ i, i < m.size1 → (m.data.getD i []).length = m.size2)
    (hw : ∀ w, dw = some w → w.length = m.size1) :
    listwise_marked lib gsl_isnan
        { vector := dv, matrix := some m, weights := dw, names := nm, error := e } =
      (List.range m.size1).map (fun i =>
        if row_ok gsl_isnan
            { vector := dv, matrix := some m, weights := dw, names := nm, error := e } i
        then 0 else 1) := by
  have h1 : (List.range m.size1).map (fun i =>
        if ((List.range (((m.size2 : Nat) : Int) - (if dv.isSome then -1 else 0)).toNat).map
            (fun (t : Nat) => (if dv.isSome then (-1 : Int) else 0) + (t : Int))).any
          (fun j => nan_cell gsl_isnan
            { vector := dv, matrix := some m, weights := dw, names := nm, error := e } i j)
        then 1 else 0) =
      (List.range m.size1).map (fun i =>
        if (row_ok gsl_isnan
            { vector := dv, matrix := some m, weights := none, names := nm, error := e } i)
        then 0 else 1) := by
    apply List.map_congr_left
    intro i hi
    rw [first_loop_marks gsl_isnan dv m dw nm e i (hcols i (List.mem_range.mp hi)),
      mark_of_bool]
    simp only [row_ok, Bool.or_false]
  simp only [listwise_marked, Get_vmsizes]
  erw [h1]
  cases dw with
  | none => simp only [List.range_zero, List.foldl_nil]
  | some w =>
    have hwl := hw w rfl
    simp only []
    rw [foldl_mark w.length _ (by simp [hwl])]
    simp only [List.length_map, List.length_range]
    apply List.map_congr_left
    intro i hi
    have hi2 : i < w.length := by rw [hwl]; exact List.mem_range.mp hi
    have hi3 : i < m.size1 := List.mem_range.mp hi
    have hg : w.get? i = some (w.get ⟨i, hi2⟩) := by
      rw [List.get?_eq_getElem?, List.getElem?_eq_getElem hi2]
      rfl
    simp only [hi2, true_and, List.getD_eq_getElem?_getD, List.getElem?_map,
      List.getElem?_range hi3, List.getElem?_eq_getElem hi2, Option.map_some',
      Option.getD_some]
    simp only [row_ok, hg, Option.any, Bool.or_false]
    have hwi : w[i] = w.get ⟨i, hi2⟩ := rfl
    rw [hwi]
    generalize gsl_isnan (w.get ⟨i, hi2⟩) = x
    generalize ((m.data.getD i []).any (fun a => decide (gsl_isnan a ≠ 0)) ||
      (match dv with
        | some v =>
          match v.get? i with
          | some a => decide (gsl_isnan a ≠ 0)
          | none => false
        | none => false)) = b
    by_cases hx : x = 0 <;> cases b <;> simp [hx]

/-! ## The copy loop of `apop_data_listwise_delete` -/

theorem marks_sum (ok : Nat → Bool) (l : List Nat) :
    (l.map (fun i => if ok i then 0 else 1)).sum + (l.filter ok).length = l.length := by
  induction l with
  | nil => rfl
  | cons a l ih =>
    cases h : ok a
    · simp only [List.map_cons, h, Bool.false_eq_true, if_false, List.sum_cons,
        List.filter_cons_of_neg, not_false_eq_true, List.length_cons]
      omega
    · simp only [List.map_cons, h, if_true, List.sum_cons, List.filter_cons_of_pos,
        List.length_cons]
      omega

theorem marks_getD (ok : Nat → Bool) (n i : Nat) (hi : i < n) :
    ((List.range n).map (fun i => if ok i then 0 else 1)).getD i 0 = 0 ↔ ok i = true := by
  simp only [List.getD_eq_getElem?_getD, List.getElem?_map, List.getElem?_range hi,
    Option.map_some', Option.getD_some]
  cases ok i <;> simp

theorem filter_range_succ (ok : Nat → Bool) (n : Nat) :
    (List.range (n + 1)).filter ok =
      (List.range n).filter ok ++ (if ok n then [n] else []) := by
  rw [List.range_succ, List.filter_append]
  cases h : ok n <;> simp [h]

theorem filter_range_length_mono (ok : Nat → Bool) (n k : Nat) :
    ((List.range n).filter ok).length ≤ ((List.range (n + k)).filter ok).length := by
  induction k with
  | zero => exact Nat.le_refl _
  | succ k ih =>
    rw [← Nat.add_assoc, filter_range_succ, List.length_append]
    omega

theorem filter_range_lt (ok : Nat → Bool) (n r : Nat)
    (h : r ∈ (List.range n).filter ok) : r < n :=
  List.mem_range.mp (List.mem_filter.mp h).1

/-- Writing cell `j` of a frame whose first `j` cells are written. -/
theorem set_frame {α : Type} (pre : List α) (K j : Nat) (a x : α)
    (hj : pre.length = j) (hK : j < K) :
    (pre ++ List.replicate (K - j) a).set j x =
      (pre ++ [x]) ++ List.replicate (K - (j + 1)) a := by
  subst hj
  have h : K - pre.length = (K - (pre.length + 1)) + 1 := by omega
  rw [h, List.replicate_succ, List.set_append_right _ _ (Nat.le_refl _)]
  simp

/-- The rows at the front of a list of ascending indices below `t` all pass
the test `i < t`. -/
theorem filter_all_lt (rows : List Nat) (i t : Nat) (h : ∀ r, r ∈ rows → r < i)
    (hi : i < t) : rows.filter (fun r => decide (r < t)) = rows := by
  apply List.filter_eq_self.mpr
  intro r hr
  have := h r hr
  simp only [decide_eq_true_eq]
  omega

theorem text_add_row_full (text : List (List (List CChar))) (j : Nat)
    (row : List (List CChar)) (h : text.length = j) :
    text_add_row text j row = text ++ [row] := by
  subst h
  simp only [text_add_row]
  have h1 : text.length + 1 - text.length = 1 := by omega
  rw [h1, List.take_of_length_le (by omega)]
  have h2 : List.replicate 1 ([] : List (List CChar)) = [[]] := rfl
  rw [h2, List.set_append_right _ _ (Nat.le_refl _)]
  simp

/-- One pass of the copy loop on a row that is not marked: the row is added to
the rows that the frame holds. -/
theorem listwise_copy_row_good {V : Type} (lib : NumLib V) (title : List CChar)
    (dv : Option (List V)) (m : gsl_matrix V) (dw : Option (List V)) (nm : apop_name)
    (e : CChar) (text : List (List (List CChar))) (marked : List Nat) (K i : Nat)
    (rows : List Nat)
    (hm : 0 < m.size1)
    (hv : ∀ v, dv = some v → v.length = m.size1)
    (hw : ∀ w, dw = some w → w.length = m.size1)
    (hmark : marked.getD i 0 = 0) (hrows : ∀ r, r ∈ rows → r < i) (hK : rows.length < K) :
    listwise_copy_row lib
        { title := title,
          set := { vector := dv, matrix := some m, weights := dw, names := nm, error := e },
          text := text } marked
        (rows_in_frame lib
          { title := title,
            set := { vector := dv, matrix := some m, weights := dw, names := nm, error := e },
            text := text } K rows, rows.length) i =
      (rows_in_frame lib
          { title := title,
            set := { vector := dv, matrix := some m, weights := dw, names := nm, error := e },
            text := text } K (rows ++ [i]), rows.length + 1) := by
  have hm0 : m.size1 ≠ 0 := by omega
  have htext : i < text.length →
      (rows.filter (fun r => decide (r < text.length))).length = rows.length := by
    intro h
    rw [filter_all_lt rows i _ hrows h]
  have hnames : nm.row.length > i →
      (rows.filter (fun r => decide (r < nm.row.length))) = rows := by
    intro h
    exact filter_all_lt rows i _ hrows h
  have hlen : (rows ++ [i]).length = rows.length + 1 := by simp
  have sf : ∀ {α : Type} (f : Nat → α) (a x : α),
      (rows.map f ++ List.replicate (K - rows.length) a).set rows.length x =
        rows.map f ++ [x] ++ List.replicate (K - (rows.length + 1)) a :=
    fun f a x => set_frame _ K _ a x (by simp) hK
  have hfs : ∀ t : Nat, List.filter (fun r => decide (r < t)) [i] = if i < t then [i] else [] := by
    intro t
    by_cases h : i < t <;> simp [h]
  have hta : i < text.length →
      text_add_row ((rows.filter (fun r => decide (r < text.length))).map
          (fun i => text.getD i [])) rows.length (text.getD i []) =
        (rows.filter (fun r => decide (r < text.length))).map (fun i => text.getD i []) ++
          [text.getD i []] := by
    intro h
    exact text_add_row_full _ _ _ (by rw [List.length_map]; exact htext h)
  simp only [listwise_copy_row, Get_vmsizes, hmark, if_true, rows_in_frame, hlen]
  rw [if_pos hm0]
  cases dv with
  | none =>
    cases dw with
    | none =>
      simp only [Option.map_none', ne_eq, not_true_eq_false, if_false, Option.map_some',
        List.filter_append, List.map_append, Prod.mk.injEq, and_true, sf, hfs]
      by_cases ht : i < text.length
      · rw [if_pos ht, hta ht]
        by_cases hn : nm.row.length > i
        · simp only [hn, if_true, if_false, Option.map_some', sf]
          simp [ht, hn, apop_name_add]
        · simp only [hn, if_true, if_false, Option.map_some', sf]
          simp [ht, hn, apop_name_add]
      · rw [if_neg ht]
        by_cases hn : nm.row.length > i
        · simp only [hn, if_true, if_false, Option.map_some', sf]
          simp [ht, hn, apop_name_add]
        · simp only [hn, if_true, if_false, Option.map_some', sf]
          simp [ht, hn, apop_name_add]
    | some w =>
      have hwl := hw w rfl
      have hw0 : w.length ≠ 0 := by omega
      simp only [Option.map_none', ne_eq, not_true_eq_false, if_false, Option.map_some',
        List.filter_append, List.map_append, Prod.mk.injEq, and_true, sf, hfs, hw0,
        not_false_eq_true, if_true]
      by_cases ht : i < text.length
      · rw [if_pos ht, hta ht]
        by_cases hn : nm.row.length > i
        · simp only [hn, if_true, if_false, Option.map_some', sf]
          simp [ht, hn, apop_name_add]
        · simp only [hn, if_true, if_false, Option.map_some', sf]
          simp [ht, hn, apop_name_add]
      · rw [if_neg ht]
        by_cases hn : nm.row.length > i
        · simp only [hn, if_true, if_false, Option.map_some', sf]
          simp [ht, hn, apop_name_add]
        · simp only [hn, if_true, if_false, Option.map_some', sf]
          simp [ht, hn, apop_name_add]
  | some v =>
    have hvl := hv v rfl
    have hv0 : v.length ≠ 0 := by omega
    cases dw with
    | none =>
      simp only [Option.map_none', ne_eq, not_true_eq_false, if_false, Option.map_some',
        List.filter_append, List.map_append, Prod.mk.injEq, and_true, sf, hfs, hv0,
        not_false_eq_true, if_true]
      by_cases ht : i < text.length
      · rw [if_pos ht, hta ht]
        by_cases hn : nm.row.length > i
        · simp only [hn, if_true, if_false, Option.map_some', sf]
          simp [ht, hn, apop_name_add]
        · simp only [hn, if_true, if_false, Option.map_some', sf]
          simp [ht, hn, apop_name_add]
      · rw [if_neg ht]
        by_cases hn : nm.row.length > i
        · simp only [hn, if_true, if_false, Option.map_some', sf]
          simp [ht, hn, apop_name_add]
        · simp only [hn, if_true, if_false, Option.map_some', sf]
          simp [ht, hn, apop_name_add]
    | some w =>
      have hwl := hw w rfl
      have hw0 : w.length ≠ 0 := by omega
      simp only [Option.map_none', ne_eq, not_true_eq_false, if_false, Option.map_some',
        List.filter_append, List.map_append, Prod.mk.injEq, and_true, sf, hfs, hv0, hw0,
        not_false_eq_true, if_true]
      by_cases ht : i < text.length
      · rw [if_pos ht, hta ht]
        by_cases hn : nm.row.length > i
        · simp only [hn, if_true, if_false, Option.map_some', sf]
          simp [ht, hn, apop_name_add]
        · simp only [hn, if_true, if_false, Option.map_some', sf]
          simp [ht, hn, apop_name_add]
      · rw [if_neg ht]
        by_cases hn : nm.row.length > i
        · simp only [hn, if_true, if_false, Option.map_some', sf]
          simp [ht, hn, apop_name_add]
        · simp only [hn, if_true, if_false, Option.map_some', sf]
          simp [ht, hn, apop_name_add]

theorem listwise_copy_row_marked {V : Type} (lib : NumLib V) (d : apop_page V)
    (marked : List Nat) (s : apop_page V × Nat) (i : Nat) (h : marked.getD i 0 ≠ 0) :
    listwise_copy_row lib d marked s i = s := by
  simp only [listwise_copy_row, h, if_false]

/-- The copy loop of `apop_data_listwise_delete` after `n` rows: the frame
holds the good rows among the first `n`. -/
theorem listwise_copy_loop {V : Type} (lib : NumLib V) (title : List CChar)
    (dv : Option (List V)) (m : gsl_matrix V) (dw : Option (List V)) (nm : apop_name)
    (e : CChar) (text : List (List (List CChar))) (ok : Nat → Bool) (n : Nat)
    (hm : 0 < m.size1)
    (hv : ∀ v, dv = some v → v.length = m.size1)
    (hw : ∀ w, dw = some w → w.length = m.size1)
    (hn : n ≤ m.size1) :
    (List.range n).foldl
        (listwise_copy_row lib
          { title := title,
            set := { vector := dv, matrix := some m, weights := dw, names := nm, error := e },
            text := text }
          ((List.range m.size1).map (fun i => if ok i then 0 else 1)))
        (rows_in_frame lib
          { title := title,
            set := { vector := dv, matrix := some m, weights := dw, names := nm, error := e },
            text := text } ((List.range m.size1).filter ok).length [], 0) =
      (rows_in_frame lib
          { title := title,
            set := { vector := dv, matrix := some m, weights := dw, names := nm, error := e },
            text := text } ((List.range m.size1).filter ok).length ((List.range n).filter ok),
        ((List.range n).filter ok).length) := by
  induction n with
  | zero => rfl
  | succ n ih =>
    rw [List.range_succ, List.foldl_append, ih (by omega), List.foldl_cons, List.foldl_nil,
      ← List.range_succ, filter_range_succ]
    cases hok : ok n
    · rw [listwise_copy_row_marked]
      · simp
      · intro h
        have := (marks_getD ok m.size1 n (by omega)).mp h
        rw [hok] at this
        exact Bool.noConfusion this
    · have hK : ((List.range n).filter ok).length < ((List.range m.size1).filter ok).length := by
        have h1 := filter_range_length_mono ok (n + 1) (m.size1 - (n + 1))
        have h2 : n + 1 + (m.size1 - (n + 1)) = m.size1 := by omega
        rw [h2, filter_range_succ, hok] at h1
        simp only [if_true, List.length_append, List.length_singleton] at h1
        omega
      rw [listwise_copy_row_good lib title dv m dw nm e text _ _ n _ hm hv hw
        ((marks_getD ok m.size1 n (by omega)).mpr hok) (filter_range_lt ok n) hK]
      simp

/-- The set that `apop_data_listwise_delete` allocates for `K` rows is the
frame without a row. -/
theorem listwise_frame_empty {V : Type} (lib : NumLib V) (title : List CChar)
    (dv : Option (List V)) (m : gsl_matrix V) (dw : Option (List V)) (nm : apop_name)
    (e : CChar) (text : List (List (List CChar))) (K t : Nat)
    (hm : 0 < m.size1) (hc : 0 < m.size2) (hK : 0 < K)
    (hv : ∀ v, dv = some v → v.length = m.size1)
    (hw : ∀ w, dw = some w → w.length = m.size1)
    (ht : m.size1 - t = K) :
    ({ title := title,
       set := listwise_alloc lib
         { vector := dv, matrix := some m, weights := dw, names := nm, error := e } t,
       text := [] } : apop_page V) =
      rows_in_frame lib
        { title := title,
          set := { vector := dv, matrix := some m, weights := dw, names := nm, error := e },
          text := text } K [] := by
  have hm0 : m.size1 ≠ 0 := by omega
  have hc0 : ((m.size2 : Nat) : Int) ≠ 0 := by omega
  have hc1 : ((m.size2 : Nat) : Int) > 0 := by omega
  have hK0 : K ≠ 0 := by omega
  simp only [listwise_alloc, Get_vmsizes, apop_data_alloc_base, rows_in_frame, if_pos hm0,
    hc0, ne_eq, not_false_eq_true,
    if_true, not_true_eq_false, if_false, ht, hK0, hc1, hK, and_self, gt_iff_lt,
    Int.toNat_ofNat, List.map_nil, List.nil_append, List.length_nil, Nat.sub_zero,
    List.filter_nil, Option.map_some', and_true]
  cases dv with
  | none =>
    cases dw with
    | none => simp
    | some w =>
      have hwl := hw w rfl
      have hw0 : w.length ≠ 0 := by omega
      simp [hw0, hwl, ht, hm0]
  | some v =>
    have hvl := hv v rfl
    have hv0 : v.length ≠ 0 := by omega
    cases dw with
    | none => simp [hv0, hvl, hm0]
    | some w =>
      have hwl := hw w rfl
      have hw0 : w.length ≠ 0 := by omega
      simp [hw0, hwl, ht, hv0, hvl, hm0]

/-- The run of `apop_data_listwise_delete` with `inplace = 'n'` on a set with
a matrix. -/
theorem apop_data_listwise_delete_run {V : Type} (lib : NumLib V) (gsl_isnan : V → Int)
    (title : List CChar) (dv : Option (List V)) (m : gsl_matrix V) (dw : Option (List V))
    (nm : apop_name) (e : CChar) (text : List (List (List CChar)))
    (hm : 0 < m.size1) (hc : 0 < m.size2)
    (hcols : ∀ i, i < m.size1 → (m.data.getD i []).length = m.size2)
    (hv : ∀ v, dv = some v → v.length = m.size1)
    (hw : ∀ w, dw = some w → w.length = m.size1) :
    apop_data_listwise_delete lib gsl_isnan
        (some { title := title,
                set := { vector := dv, matrix := some m, weights := dw, names := nm,
                         error := e },
                text := text }) 110 =
      (if (List.range m.size1).filter (row_ok gsl_isnan
            { vector := dv, matrix := some m, weights := dw, names := nm, error := e }) = []
        then none
        else some (selected_rows lib
          { title := title,
            set := { vector := dv, matrix := some m, weights := dw, names := nm, error := e },
            text := text }
          ((List.range m.size1).filter (row_ok gsl_isnan
            { vector := dv, matrix := some m, weights := dw, names := nm, error := e }))),
       some { title := title,
              set := { vector := dv, matrix := some m, weights := dw, names := nm,
                       error := e },
              text := text }) := by
  have hm0 : m.size1 ≠ 0 := by omega
  have hsum := marks_sum (row_ok gsl_isnan
    { vector := dv, matrix := some m, weights := dw, names := nm, error := e })
    (List.range m.size1)
  rw [List.length_range] at hsum
  simp only [apop_data_listwise_delete, Get_vmsizes, hm0, false_and, if_false,
    listwise_marked_eq lib gsl_isnan dv m dw nm e hcols hw]
  by_cases hk : (List.range m.size1).filter (row_ok gsl_isnan
      { vector := dv, matrix := some m, weights := dw, names := nm, error := e }) = []
  · rw [hk] at hsum
    simp only [List.length_nil, Nat.add_zero] at hsum
    rw [if_pos hsum, if_pos hk]
  · have hlen : 0 < ((List.range m.size1).filter (row_ok gsl_isnan
        { vector := dv, matrix := some m, weights := dw, names := nm, error := e })).length :=
      List.length_pos.mpr hk
    rw [if_neg (by omega), if_neg hk]
    simp only [if_true]
    rw [listwise_frame_empty lib title dv m dw nm e text _ _ hm hc hlen hv hw
      (show m.size1 - ((List.range m.size1).map (fun i => if row_ok gsl_isnan
        { vector := dv, matrix := some m, weights := dw, names := nm, error := e } i
        then 0 else 1)).sum = _ by omega)]
    rw [listwise_copy_loop lib title dv m dw nm e text _ m.size1 hm hv hw (Nat.le_refl _)]
    rfl

/-- C27: `apop_data_listwise_delete` with `inplace = 'n'` on a set with a
matrix (of at least one row and one column, with a vector and weights, where
present, of as many elements as the matrix has rows) returns the set of
exactly the rows without a NaN in the matrix row, the vector element and the
weight, in their order, with the names and the text of these rows; it returns
`NULL` when no row is without a NaN; the set given is not changed. -/
theorem apop_data_listwise_delete_keeps_clean_rows {V : Type} (lib : NumLib V)
    (gsl_isnan : V → Int) (d : apop_page V) (m : gsl_matrix V)
    (hmat : d.set.matrix = some m) (hm : 0 < m.size1) (hc : 0 < m.size2)
    (hcols : ∀ i, i < m.size1 → (m.data.getD i []).length = m.size2)
    (hv : ∀ v, d.set.vector = some v → v.length = m.size1)
    (hw : ∀ w, d.set.weights = some w → w.length = m.size1) :
    apop_data_listwise_delete lib gsl_isnan (some d) 110 =
      (if (List.range m.size1).filter (row_ok gsl_isnan d.set) = [] then none
        else some (selected_rows lib d
          ((List.range m.size1).filter (row_ok gsl_isnan d.set))),
       some d) := by
  obtain ⟨title, ⟨dv, dm, dw, nm, e⟩, text⟩ := d
  simp only at hmat hv hw
  subst hmat
  exact apop_data_listwise_delete_run lib gsl_isnan title dv m dw nm e text hm hc hcols hv hw

/-- Witness for C27: of three rows the second holds a NaN in the matrix; the
set returned holds the first and the third row with their names and text. -/
theorem apop_data_listwise_delete_keeps_clean_rows_witness :
    apop_data_listwise_delete digits_lib (fun x => if x.isNone then 1 else 0)
        (some { title := [97],
                set := { vector := some [some 1, some 2, some 3],
                         matrix := some { size1 := 3, size2 := 2,
                                          data := [[some 1, some 2], [none, some 3],
                                                   [some 4, some 5]] },
                         weights := some [some 7, some 8, some 9],
                         names := { column := [[120], [121]],
                                    row := [[114, 48], [114, 49], [114, 50]] },
                         error := 0 },
                text := [[[116, 48]], [[116, 49]], [[116, 50]]] }) 110 =
      (some { title := [97],
              set := { vector := some [some 1, some 3],
                       matrix := some { size1 := 2, size2 := 2,
                                        data := [[some 1, some 2], [some 4, some 5]] },
                       weights := some [some 7, some 9],
                       names := { column := [[120], [121]],
                                  row := [[114, 48], [114, 50]] },
                       error := 0 },
              text := [[[116, 48]], [[116, 50]]] },
       some { title := [97],
              set := { vector := some [some 1, some 2, some 3],
                       matrix := some { size1 := 3, size2 := 2,
                                        data := [[some 1, some 2], [none, some 3],
                                                 [some 4, some 5]] },
                       weights := some [some 7, some 8, some 9],
                       names := { column := [[120], [121]],
                                  row := [[114, 48], [114, 49], [114, 50]] },
                       error := 0 },
              text := [[[116, 48]], [[116, 49]], [[116, 50]]] }) :=
  apop_data_listwise_delete_keeps_clean_rows digits_lib (fun x => if x.isNone then 1 else 0)
    _ { size1 := 3, size2 := 2,
        data := [[some 1, some 2], [none, some 3], [some 4, some 5]] }
    rfl (by decide) (by decide) (by decide)
    (fun v h => by cases h; rfl) (fun w h => by cases h; rfl)

/-! ## A delimiter at the end of a line -/

theorem parse_passes_good (delimiters : List CChar) (k : Nat) (st st' : PState) (f f' : FILE)
    (hg : Good st) (h : parse_passes delimiters k st f = some (st', f')) : Good st' := by
  induction k generalizing st f with
  | zero =>
    simp only [parse_passes, Option.some.injEq, Prod.mk.injEq] at h
    rw [← h.1]; exact hg
  | succ k ih =>
    obtain ⟨h1, _⟩ := good_parse_iter delimiters st f hg
    unfold parse_passes at h
    simp only [] at h
    split at h
    · exact ih _ _ h1 h
    · simp at h

/-- Between two fields, with a field already closed: plain white space and
then the newline give one more field, which is empty. -/
theorem aloop_idle_newline (delimiters : List CChar) (hnl : 10 ∉ delimiters)
    (ws rest : List CChar) (hws : ∀ c ∈ ws, char_type delimiters c = CType.w)
    (F : List (List CChar)) (hF : F ≠ []) (lw : Bool) :
    aloop delimiters ((ws ++ 10 :: rest).length + 1) (AState.idle F lw) (ws ++ 10 :: rest) =
      some (AState.idle (F ++ [[]]) false, CType.n, rest) := by
  have hn := char_type_newline delimiters hnl
  have hf : (ws ++ 10 :: rest).length + 1 = ws.length + (rest.length + 1 + 1) := by
    simp only [List.length_append, List.length_cons]; omega
  rw [hf, aloop_of_apasses _ _ _ _ _ _ _ (apasses_w_idle delimiters ws hws F lw _),
    aloop_last _ _ _ _ _ _ _ (aiter_n_idle delimiters _ _ 10 _ hn) (Or.inl rfl), if_neg hF]

/-- Between two fields, with a field already closed: plain white space and
then the end of the input give one more field, which is empty. -/
theorem aloop_idle_eof (delimiters : List CChar) (hE : 255 ∉ delimiters)
    (ws : List CChar) (hws : ∀ c ∈ ws, char_type delimiters c = CType.w)
    (F : List (List CChar)) (hF : F ≠ []) (lw : Bool) :
    aloop delimiters (ws.length + 1) (AState.idle F lw) ws =
      some (AState.idle (F ++ [[]]) false, CType.E, []) := by
  have h := apasses_w_idle delimiters ws hws F lw []
  rw [List.append_nil] at h
  rw [aloop_of_apasses _ _ _ _ _ _ _ h,
    aloop_last _ _ _ _ _ _ _ (aiter_E_idle delimiters _ _ hE) (Or.inr rfl), if_neg hF]

/-- A delimiter read outside quotes leaves the tokenizer between two fields. -/
theorem aiter_delimiter (delimiters : List CChar) (d : CChar)
    (hd : char_type delimiters d = CType.d ∨ char_type delimiters d = CType.W)
    (a : AState) (hg : AGood a) (hq : a.inq = false) (hqq : a.inqq = false)
    (hpos : a.infield = false → a.closed ≠ []) :
    ∃ F lw, F ≠ [] ∧ ∀ tail, aiter delimiters a (d :: tail) =
      (AState.idle F lw, char_type delimiters d, tail) := by
  cases hin : a.infield with
  | false =>
    have e := eq_idle a hg hq hqq hin
    rcases hd with hd | hd
    · refine ⟨a.closed ++ [[]], false, by simp, fun tail => ?_⟩
      rw [e, aiter_d_idle delimiters _ _ d tail hd, hd]
      rfl
    · refine ⟨a.closed, true, hpos hin, fun tail => ?_⟩
      rw [e, aiter_W_idle delimiters _ _ d tail hd, hd]
      rfl
  | true =>
    obtain ⟨e, _⟩ := eq_inField a hg hq hqq hin
    rcases hd with hd | hd
    · refine ⟨a.closed ++ [cstr (a.cur.take a.lnw)], false, by simp, fun tail => ?_⟩
      rw [e, aiter_d_inField delimiters _ _ _ d tail hd, hd]
      rfl
    · refine ⟨a.closed ++ [cstr (a.cur.take a.lnw)], true, by simp, fun tail => ?_⟩
      rw [e, aiter_W_inField delimiters _ _ _ d tail hd, hd]
      rfl

/-- Statement on strings behind C31. -/
theorem aparse_trailing_delimiter (delimiters : List CChar) (hnl : 10 ∉ delimiters)
    (hE : 255 ∉ delimiters) (body ws rest : List CChar) (d : CChar) (k : Nat) (a : AState)
    (F : List (List CChar)) (lw : Bool)
    (hd : char_type delimiters d = CType.d ∨ char_type delimiters d = CType.W)
    (hws : ∀ c ∈ ws, char_type delimiters c = CType.w)
    (hp : ∀ tail, apasses delimiters k AState.init (body ++ tail) = some (a, tail))
    (hF : F ≠ [])
    (hit : ∀ tail, aiter delimiters a (d :: tail) =
      (AState.idle F lw, char_type delimiters d, tail)) :
    aparse (body ++ d :: (ws ++ 10 :: rest)) delimiters =
        some (F ++ [[]], { ct := F.length + 1, eof := false }, rest) ∧
      aparse (body ++ d :: ws) delimiters =
        some (F ++ [[]], { ct := F.length + 1, eof := true }, []) := by
  have hne : char_type delimiters d ≠ CType.n ∧ char_type delimiters d ≠ CType.E := by
    rcases hd with hd | hd <;> simp [hd]
  constructor
  · unfold aparse
    rw [aloop_after_passes delimiters k _ _ _ _ (hp _), List.length_cons,
      aloop_succ delimiters _ _ _ _ _ _ (hit _) hne.1 hne.2,
      aloop_idle_newline delimiters hnl ws rest hws F hF lw]
    simp [AState.idle]
  · unfold aparse
    rw [aloop_after_passes delimiters k _ _ _ _ (hp _), List.length_cons,
      aloop_succ delimiters _ _ _ _ _ _ (hit _) hne.1 hne.2,
      aloop_idle_eof delimiters hE ws hws F hF lw]
    simp [AState.idle]

/-- C31: let the tokenizer read the prefix `body` exactly, in `k` passes that
do not end the line, and then have at least one field and no quote open; let
`d` be a delimiter, hard or a space, tab or NUL of the delimiter set, and `ws`
plain white space.  The delimiter leaves the tokenizer between two fields, and
the line `body d ws` ended by a newline or by the end of the input has the
fields closed when `d` has been read, followed by exactly one more field, which
is empty.  The newline and the byte `0xFF` are not delimiters. -/
theorem parse_a_line_trailing_delimiter (delimiters : List CChar) (hnl : 10 ∉ delimiters)
    (hE : 255 ∉ delimiters) (fn : Text) (body ws rest : List CChar) (d : CChar) (k : Nat)
    (st : PState)
    (hd : char_type delimiters d = CType.d ∨ char_type delimiters d = CType.W)
    (hws : ∀ c ∈ ws, char_type delimiters c = CType.w)
    (hp : ∀ tail, parse_passes delimiters k (PState.init fn) (body ++ tail) = some (st, tail))
    (hq : st.inq = false) (hqq : st.inqq = false) (hct : 0 < st.ct) :
    (parse_iter delimiters st [d]).1.infield = false ∧
    0 < (parse_iter delimiters st [d]).1.ct ∧
    (parse_a_line (body ++ d :: (ws ++ 10 :: rest)) fn none delimiters).map LineResult.obs =
      some (((parse_iter delimiters st [d]).1.fn.take (parse_iter delimiters st [d]).1.ct).map
              cstr ++ [[]],
            { ct := (parse_iter delimiters st [d]).1.ct + 1, eof := false }, rest) ∧
    (parse_a_line (body ++ d :: ws) fn none delimiters).map LineResult.obs =
      some (((parse_iter delimiters st [d]).1.fn.take (parse_iter delimiters st [d]).1.ct).map
              cstr ++ [[]],
            { ct := (parse_iter delimiters st [d]).1.ct + 1, eof := true }, []) := by
  have hgood : Good st := parse_passes_good delimiters k _ st _ _ (good_init fn) (hp [])
  have hap : ∀ tail, apasses delimiters k AState.init (body ++ tail) = some (view st, tail) :=
    fun tail => apasses_of_parse_passes delimiters k fn st _ _ (hp tail)
  have hag : AGood (view st) := agood_apasses delimiters k _ _ _ _ (hap []) agood_init
  have hpos : (view st).infield = false → (view st).closed ≠ [] := by
    intro hin
    have hl := view_closed_length st hgood hin
    intro h0
    rw [h0] at hl
    simp only [List.length_nil] at hl
    omega
  obtain ⟨F, lw, hF, hit⟩ := aiter_delimiter delimiters d hd (view st) hag hq hqq hpos
  obtain ⟨hg2, hv2⟩ := good_parse_iter delimiters st [d] hgood
  rw [hit []] at hv2
  have hview : view (parse_iter delimiters st [d]).1 = AState.idle F lw :=
    congrArg Prod.fst hv2
  have hin2 : (parse_iter delimiters st [d]).1.infield = false := by
    have := congrArg AState.infield hview
    exact this
  have hcl : ((parse_iter delimiters st [d]).1.fn.take (parse_iter delimiters st [d]).1.ct).map
      cstr = F := by
    have := congrArg AState.closed hview
    simp only [view, hin2, Bool.false_eq_true, if_false] at this
    exact this
  have hlen : F.length = (parse_iter delimiters st [d]).1.ct := by
    have := view_closed_length _ hg2 hin2
    rw [hview] at this
    exact this
  have hctpos : 0 < (parse_iter delimiters st [d]).1.ct := by
    rw [← hlen]
    exact List.length_pos.mpr hF
  obtain ⟨h1, h2⟩ := aparse_trailing_delimiter delimiters hnl hE body ws rest d k (view st) F lw
    hd hws hap hF hit
  refine ⟨hin2, hctpos, ?_, ?_⟩
  · rw [parse_a_line_obs, h1, hcl, hlen]
  · rw [parse_a_line_obs, h2, hcl, hlen]

/-- Witness for C31: the line `1,2,` followed by a space, with the default
delimiters, has the three fields `1`, `2` and the empty one, whether a newline
or the end of the input ends it. -/
theorem parse_a_line_trailing_delimiter_witness :
    (parse_a_line ([49, 44, 50] ++ 44 :: ([32] ++ 10 :: [51])) [] none
        default_delimiters).map LineResult.obs =
      some ([[49], [50], []], { ct := 3, eof := false }, [51]) ∧
    (parse_a_line ([49, 44, 50] ++ 44 :: [32]) [] none default_delimiters).map
        LineResult.obs =
      some ([[49], [50], []], { ct := 3, eof := true }, []) :=
  (parse_a_line_trailing_delimiter default_delimiters (by decide) (by decide) []
      [49, 44, 50] [32] [51] 44 3
      { fn := [[49, 0, 170, 170, 170], [50, 170, 170, 170, 170]], ct := 2, thisflen := 1,
        mlen := 5, lastnonwhite := 1, inq := false, inqq := false, infield := true,
        lastwhite := false }
      (by decide) (by decide)
      (by
        intro tail
        simp [parse_passes, parse_iter, read_step, parse_next_char, fgetc, char_type, strchr,
          default_delimiters, field_step, field_fill, open_field, close_field, extend_field,
          text_realloc, text_poke, realloc, apop_text_alloc, indeterminate, PState.init, EOF])
      rfl rfl (by decide)).2.2

/-! ## How a line ends -/

theorem capacity_open_field (st : PState) : Capacity (open_field st) :=
  fun _ => ⟨⟨0, rfl⟩, by simp [open_field]⟩

theorem capacity_close_field (st : PState) : Capacity (close_field st) :=
  fun h => by simp [close_field] at h

theorem capacity_extend_field (st : PState) (ci : apop_char_info) (hc : Capacity st)
    (hin : st.infield = true) (hg : st.thisflen + 2 ≤ st.mlen) :
    Capacity (extend_field st ci) ∧
      ((extend_field st ci).mlen = st.mlen ∨ (extend_field st ci).mlen = 2 * st.mlen) := by
  obtain ⟨⟨j, hj⟩, hle⟩ := hc hin
  have hm : (extend_field st ci).mlen =
      if st.thisflen + 1 + 2 > st.mlen then st.mlen * 2 else st.mlen := by
    simp only [extend_field]
    by_cases h : st.thisflen + 1 + 2 > st.mlen <;> simp [h]
  have ht : (extend_field st ci).thisflen = st.thisflen + 1 := rfl
  by_cases h : st.thisflen + 1 + 2 > st.mlen
  · rw [if_pos h] at hm
    refine ⟨fun _ => ⟨⟨j + 1, ?_⟩, ?_⟩, Or.inr (by omega)⟩
    · rw [hm, hj, pow_succ]; ring
    · rw [hm, ht]; omega
  · rw [if_neg h] at hm
    refine ⟨fun _ => ⟨⟨j, by rw [hm, hj]⟩, ?_⟩, Or.inl hm⟩
    rw [hm, ht]; omega

theorem capacity_field_fill (st : PState) (ci : apop_char_info) (hc : Capacity st)
    (hg : Good st) : Capacity (field_fill st ci) ∧ Doubles st (field_fill st ci) := by
  unfold field_fill
  simp only []
  cases hin : st.infield with
  | false =>
    refine ⟨?_, fun h => by rw [hin] at h; exact Bool.noConfusion h⟩
    by_cases hw : ci.type = CType.w
    · simp only [hw, and_self, if_true]
      exact hc
    · simp only [hw, and_false, if_false, true_and]
      by_cases hopen : ci.type = CType.r ∨ ci.type = CType.d ∨
            ((ci.type = CType.n ∨ ci.type = CType.E) ∧ st.ct > 0)
      · simp only [if_pos hopen]
        have hin2 : (open_field st).infield = true := rfl
        rw [if_pos hin2]
        by_cases hclose : ci.type = CType.d ∨ ci.type = CType.n ∨ ci.type = CType.E ∨
            ci.type = CType.W
        · rw [if_pos hclose]
          exact capacity_close_field _
        · rw [if_neg hclose]
          by_cases hr : False ∨ ci.type = CType.r
          · rw [if_pos hr]
            exact (capacity_extend_field _ ci (capacity_open_field st) hin2
              (by simp [open_field])).1
          · rw [if_neg hr]
            exact capacity_open_field st
      · simp only [if_neg hopen]
        simp only [hin, Bool.false_eq_true, if_false]
        exact hc
  | true =>
    simp only [Bool.true_eq_false, false_and, if_false, if_true]
    rw [if_pos hin]
    by_cases hclose : ci.type = CType.d ∨ ci.type = CType.n ∨ ci.type = CType.E ∨
        ci.type = CType.W
    · rw [if_pos hclose]
      exact ⟨capacity_close_field _, fun _ h => by simp [close_field] at h⟩
    · rw [if_neg hclose]
      by_cases hr : ci.type = CType.w ∨ ci.type = CType.r
      · rw [if_pos hr]
        obtain ⟨h1, h2⟩ := capacity_extend_field st ci hc hin (hg.2.1 hin).2.2.1
        exact ⟨h1, fun _ _ => h2⟩
      · rw [if_neg hr]
        exact ⟨hc, fun _ _ => Or.inl rfl⟩

theorem capacity_field_step (st : PState) (ci : apop_char_info) (hc : Capacity st)
    (hg : Good st) : Capacity (field_step st ci) ∧ Doubles st (field_step st ci) := by
  unfold field_step
  by_cases hW : ci.type = CType.W ∧ st.lastwhite = true
  · rw [if_pos hW]
    exact ⟨hc, fun _ _ => Or.inl rfl⟩
  · rw [if_neg hW]
    exact capacity_field_fill { st with lastwhite := decide (ci.type = CType.W) } ci hc hg

theorem capacity_parse_iter (delimiters : List CChar) (st : PState) (infile : FILE)
    (hc : Capacity st) (hg : Good st) :
    Capacity (parse_iter delimiters st infile).1 ∧
      Doubles st (parse_iter delimiters st infile).1 := by
  unfold parse_iter
  exact capacity_field_step
    { st with inq := (read_step delimiters st.inq st.inqq infile).2.1,
              inqq := (read_step delimiters st.inq st.inqq infile).2.2.1 }
    (read_step delimiters st.inq st.inqq infile).1 hc hg

theorem capacity_init (fn : Text) : Capacity (PState.init fn) :=
  fun h => by simp [PState.init] at h

theorem capacity_parse_passes (delimiters : List CChar) (k : Nat) (st st2 : PState)
    (f f2 : FILE) (hc : Capacity st) (hg : Good st)
    (h : parse_passes delimiters k st f = some (st2, f2)) : Capacity st2 := by
  induction k generalizing st f with
  | zero =>
    simp only [parse_passes, Option.some.injEq, Prod.mk.injEq] at h
    rw [← h.1]; exact hc
  | succ k ih =>
    obtain ⟨h1, _⟩ := good_parse_iter delimiters st f hg
    obtain ⟨c1, _⟩ := capacity_parse_iter delimiters st f hc hg
    unfold parse_passes at h
    simp only [] at h
    split at h
    · exact ih _ _ c1 h1 h
    · simp at h

/-- C33: in every state that `parse_a_line` reaches at the end of a pass of
its loop, while a field is open the capacity `mlen` is 5 times a power of two,
it is the number of bytes of the cell of the field, `thisflen + 2 <= mlen` and
`lastnonwhite <= thisflen`, so that the index `thisflen` of the next byte
written and the index `lastnonwhite` of the terminator are inside the cell;
`mlen` is at most `2 * thisflen + 5`; with no field open `lastnonwhite` is 0;
and over one more pass the capacity of a field that stays open is kept or
doubled. -/
theorem parse_a_line_buffer_growth (delimiters : List CChar) (fn : Text) (k : Nat)
    (f f2 : FILE) (st : PState)
    (h : parse_passes delimiters k (PState.init fn) f = some (st, f2)) :
    (st.infield = true →
      (∃ j, st.mlen = 5 * 2 ^ j) ∧ 1 ≤ st.ct ∧ st.ct ≤ st.fn.length ∧
      (st.fn.getD (st.ct - 1) []).length = st.mlen ∧
      st.thisflen + 2 ≤ st.mlen ∧ st.lastnonwhite ≤ st.thisflen ∧
      st.mlen ≤ 2 * st.thisflen + 5) ∧
    (st.infield = false → st.lastnonwhite = 0) ∧
    (∀ g, st.infield = true → (parse_iter delimiters st g).1.infield = true →
      (parse_iter delimiters st g).1.mlen = st.mlen ∨
        (parse_iter delimiters st g).1.mlen = 2 * st.mlen) := by
  have hg : Good st := parse_passes_good delimiters k _ st _ _ (good_init fn) h
  have hc : Capacity st :=
    capacity_parse_passes delimiters k _ st _ _ (capacity_init fn) (good_init fn) h
  refine ⟨fun hin => ?_, hg.2.2, fun g => (capacity_parse_iter delimiters st g hc hg).2⟩
  obtain ⟨h1, h2, h3, h4⟩ := hg.2.1 hin
  obtain ⟨c1, c2⟩ := hc hin
  exact ⟨c1, h1, hg.1, h2, h3, h4, c2⟩

/-- Witness for C33: after the three bytes `1,2` of the line `1,2` the second
field is open with one byte written and a capacity of 5. -/
theorem parse_a_line_buffer_growth_witness :
    ((true = true →
      (∃ j, 5 = 5 * 2 ^ j) ∧ 1 ≤ 2 ∧
      2 ≤ [[49, 0, 170, 170, 170], [50, 170, 170, 170, 170]].length ∧
      (([[49, 0, 170, 170, 170], [50, 170, 170, 170, 170]] : Text).getD (2 - 1) []).length = 5 ∧
      1 + 2 ≤ 5 ∧ 1 ≤ 1 ∧ 5 ≤ 2 * 1 + 5) ∧
    (true = false → 1 = 0) ∧
    (∀ g, true = true →
      (parse_iter default_delimiters
        { fn := [[49, 0, 170, 170, 170], [50, 170, 170, 170, 170]], ct := 2, thisflen := 1,
          mlen := 5, lastnonwhite := 1, inq := false, inqq := false, infield := true,
          lastwhite := false } g).1.infield = true →
      (parse_iter default_delimiters
        { fn := [[49, 0, 170, 170, 170], [50, 170, 170, 170, 170]], ct := 2, thisflen := 1,
          mlen := 5, lastnonwhite := 1, inq := false, inqq := false, infield := true,
          lastwhite := false } g).1.mlen = 5 ∨
      (parse_iter default_delimiters
        { fn := [[49, 0, 170, 170, 170], [50, 170, 170, 170, 170]], ct := 2, thisflen := 1,
          mlen := 5, lastnonwhite := 1, inq := false, inqq := false, infield := true,
          lastwhite := false } g).1.mlen = 2 * 5)) :=
  parse_a_line_buffer_growth default_delimiters [] 3 [49, 44, 50, 10] [10]
    { fn := [[49, 0, 170, 170, 170], [50, 170, 170, 170, 170]], ct := 2, thisflen := 1,
      mlen := 5, lastnonwhite := 1, inq := false, inqq := false, infield := true,
      lastwhite := false }
    (by
      simp [parse_passes, parse_iter, read_step, parse_next_char, fgetc, char_type, strchr,
        default_delimiters, field_step, field_fill, open_field, close_field, extend_field,
        text_realloc, text_poke, realloc, apop_text_alloc, indeterminate, PState.init, EOF])

/-! ## Inputs without a field -/

/-- A call of `parse_a_line` on an input of blank lines, with an empty row
buffer: it does not return, or it returns no field, leaves the row buffer
empty and the rest of the blank lines unread. -/
theorem blank_line_step (delimiters : List CChar) (hnl : 10 ∉ delimiters)
    (blank : List (List CChar)) (hb : ∀ ws ∈ blank, ∀ c ∈ ws, c = 32 ∨ c = 9) :
    parse_a_line (blank.map (fun ws => ws ++ [10])).flatten [] none delimiters = none ∨
    ∃ res, parse_a_line (blank.map (fun ws => ws ++ [10])).flatten [] none delimiters =
        some res ∧ res.L.ct = 0 ∧ res.fn = [] ∧
      res.infile = (blank.tail.map (fun ws => ws ++ [10])).flatten := by
  cases blank with
  | nil =>
    simp only [List.map_nil, List.flatten_nil, List.tail_nil]
    by_cases h255 : 255 ∈ delimiters
    · left
      have hd : char_type delimiters 255 = CType.d := by simp [char_type, strchr, h255]
      unfold parse_a_line
      simp only []
      rw [parse_loop_nil_none delimiters hd]
    · right
      obtain ⟨res, h1, h2, h3⟩ := parse_a_line_nil [] delimiters h255
      have hct : res.L.ct = 0 := by rw [h2]
      have hc := parse_a_line_cells _ _ _ _ h1
      rw [hct] at hc
      simp only [List.length_nil, Nat.max_self] at hc
      exact ⟨res, h1, hct, List.eq_nil_of_length_eq_zero hc, h3⟩
  | cons ws rest =>
    right
    have hws : ∀ c ∈ ws, c = 32 ∨ c = 9 := hb ws (by simp)
    have ha := aparse_blank_newline delimiters ws
      (rest.map (fun ws => ws ++ [10])).flatten hnl hws
    obtain ⟨res, h1, _, h3, h4⟩ := obs_of_aparse _ [] delimiters _ ha
    have hin : (List.map (fun ws => ws ++ [10]) (ws :: rest)).flatten =
        ws ++ 10 :: (rest.map (fun ws => ws ++ [10])).flatten := by simp
    rw [hin]
    have hct : res.L.ct = 0 := by rw [h3]
    have hc := parse_a_line_cells _ _ _ _ h1
    rw [hct] at hc
    simp only [List.length_nil, Nat.max_self] at hc
    exact ⟨res, h1, hct, List.eq_nil_of_length_eq_zero hc, h4⟩

theorem tail_blank (blank : List (List CChar)) (hb : ∀ ws ∈ blank, ∀ c ∈ ws, c = 32 ∨ c = 9) :
    ∀ ws ∈ blank.tail, ∀ c ∈ ws, c = 32 ∨ c = 9 :=
  fun ws hws => hb ws (List.mem_of_mem_tail hws)

/-- The loop of `get_field_names` on blank lines: no bound on the number of
lines read lets it end. -/
theorem read_until_fields_blank (delimiters : List CChar) (hnl : 10 ∉ delimiters)
    (fuel : Nat) (blank : List (List CChar)) (hb : ∀ ws ∈ blank, ∀ c ∈ ws, c = 32 ∨ c = 9) :
    read_until_fields none delimiters fuel (blank.map (fun ws => ws ++ [10])).flatten [] =
      none := by
  induction fuel generalizing blank with
  | zero => rfl
  | succ fuel ih =>
    unfold read_until_fields
    rw [if_pos (List.length_nil)]
    rcases blank_line_step delimiters hnl blank hb with h | ⟨res, h, _, hfn, hin⟩
    · rw [h]
    · rw [h]
      simp only []
      rw [hfn, hin]
      exact ih blank.tail (tail_blank blank hb)

/-- The body loop of `apop_text_to_data` on blank lines, before a set is
allocated: no bound on the number of passes lets it end. -/
theorem body_loop_blank {V : Type} (lib : NumLib V) (hasrows : Nat) (delimiters : List CChar)
    (hnl : 10 ∉ delimiters) (fuel : Nat) (blank : List (List CChar))
    (hb : ∀ ws ∈ blank, ∀ c ∈ ws, c = 32 ∨ c = 9) (eof : Bool) (row : Nat) :
    body_loop lib hasrows none delimiters fuel
        { set := none, L := { ct := 0, eof := eof }, row := row, add_this_line := [],
          infile := (blank.map (fun ws => ws ++ [10])).flatten } = none := by
  induction fuel generalizing blank eof with
  | zero => rfl
  | succ fuel ih =>
    unfold body_loop
    simp only [Option.isNone_none, true_or, if_true]
    rcases blank_line_step delimiters hnl blank hb with h | ⟨res, h, hct, hfn, hin⟩
    · rw [h]
    · rw [h]
      simp only []
      have hL : res.L = { ct := 0, eof := res.L.eof } := by
        rcases hl : res.L with ⟨c, e⟩
        rw [hl] at hct
        simp only at hct
        subst hct
        rfl
      rw [hL, hfn, hin]
      exact ih blank.tail (tail_blank blank hb) _

theorem get_field_names_blank (delimiters : List CChar) (hnl : 10 ∉ delimiters)
    (blank : List (List CChar)) (hb : ∀ ws ∈ blank, ∀ c ∈ ws, c = 32 ∨ c = 9)
    (has_col_names : Nat) (field_names : Option (List (List CChar))) :
    get_field_names has_col_names field_names (blank.map (fun ws => ws ++ [10])).flatten [] []
      none delimiters = none := by
  unfold get_field_names
  simp only [read_until_fields_blank delimiters hnl _ blank hb]
  split <;> rfl

/-- C35 (refuted): on an input that holds only blank lines (spaces and tabs,
each line ended by its newline), the empty input included, the text readers do
not return.  The loop `while (fn->textsize[0] == 0)` of `get_field_names` and
the body loop of `apop_text_to_data` before a set is allocated do not end
within any number of passes, because every further read returns no field; so
`get_field_names`, `apop_text_to_data` (with and without a header line) and
`apop_text_to_db` (when the table does not exist yet) have no result.  The
newline is not a delimiter. -/
theorem text_readers_loop_on_blank_input {V W : Type} (lib : NumLib V) (dlib : DbLib W)
    (opts : apop_opts_type) (env : DbEnv) (delimiters : List CChar) (hnl : 10 ∉ delimiters)
    (blank : List (List CChar)) (hb : ∀ ws ∈ blank, ∀ c ∈ ws, c = 32 ∨ c = 9) :
    (∀ fuel, read_until_fields none delimiters fuel
      (blank.map (fun ws => ws ++ [10])).flatten [] = none) ∧
    (∀ fuel hasrows, body_loop lib hasrows none delimiters fuel
      { set := none, L := { ct := 0, eof := false }, row := 0, add_this_line := [],
        infile := (blank.map (fun ws => ws ++ [10])).flatten } = none) ∧
    (∀ has_col_names field_names, get_field_names has_col_names field_names
      (blank.map (fun ws => ws ++ [10])).flatten [] [] none delimiters = none) ∧
    (∀ has_row_names has_col_names, apop_text_to_data lib
      (some (blank.map (fun ws => ws ++ [10])).flatten) has_row_names has_col_names none
      delimiters = none) ∧
    (env.table_exists = false →
      ∀ tabname has_row_names has_col_names field_names field_params table_params,
        (apop_text_to_db dlib opts env (some (blank.map (fun ws => ws ++ [10])).flatten)
          tabname has_row_names has_col_names field_names none field_params table_params
          delimiters).ret = none) := by
  refine ⟨fun fuel => read_until_fields_blank delimiters hnl fuel blank hb,
    fun fuel hasrows => body_loop_blank lib hasrows delimiters hnl fuel blank hb false 0,
    fun h names => get_field_names_blank delimiters hnl blank hb h names, ?_, ?_⟩
  · intro has_row_names has_col_names
    unfold apop_text_to_data
    simp only []
    by_cases hc : (if has_col_names = 1 ∨ has_col_names = 89 then 121 else has_col_names) = 121
    · rw [if_pos hc, get_field_names_blank delimiters hnl blank hb]
    · rw [if_neg hc]
      exact body_loop_blank lib _ delimiters hnl _ blank hb false 0
  · intro hte tabname has_row_names has_col_names field_names field_params table_params
    unfold apop_text_to_db
    simp only [hte, Bool.false_eq_true, if_false]
    rw [get_field_names_blank delimiters hnl blank hb]

/-- Witness for C35: the input of a line of a space and a tab and an empty
line, with the default delimiters. -/
theorem text_readers_loop_on_blank_input_witness :
    (∀ fuel, read_until_fields none default_delimiters fuel
      (([[32, 9], []] : List (List CChar)).map (fun ws => ws ++ [10])).flatten [] = none) ∧
    (∀ fuel hasrows, body_loop digits_lib hasrows none default_delimiters fuel
      { set := none, L := { ct := 0, eof := false }, row := 0, add_this_line := [],
        infile := (([[32, 9], []] : List (List CChar)).map (fun ws => ws ++ [10])).flatten } =
      none) ∧
    (∀ has_col_names field_names, get_field_names has_col_names field_names
      (([[32, 9], []] : List (List CChar)).map (fun ws => ws ++ [10])).flatten [] [] none
      default_delimiters = none) ∧
    (∀ has_row_names has_col_names, apop_text_to_data digits_lib
      (some (([[32, 9], []] : List (List CChar)).map (fun ws => ws ++ [10])).flatten)
      has_row_names has_col_names none default_delimiters = none) ∧
    (sqlite_ok.table_exists = false →
      ∀ tabname has_row_names has_col_names field_names field_params table_params,
        (apop_text_to_db ex_lib default_opts sqlite_ok
          (some (([[32, 9], []] : List (List CChar)).map (fun ws => ws ++ [10])).flatten)
          tabname has_row_names has_col_names field_names none field_params table_params
          default_delimiters).ret = none) :=
  text_readers_loop_on_blank_input digits_lib ex_lib default_opts sqlite_ok default_delimiters
    (by decide) [[32, 9], []] (by decide)

/-! ## Two runs of a reader on row buffers that hold the same fields -/

theorem same_fields_getD (fn1 fn2 : Text) (ct : Nat)
    (hF : (fn1.take ct).map cstr = (fn2.take ct).map cstr)
    (h1 : ct ≤ fn1.length) (h2 : ct ≤ fn2.length) (col : Nat) (hc : col < ct) :
    cstr (fn1.getD col []) = cstr (fn2.getD col []) := by
  have h := congrArg (fun l => l[col]?) hF
  simp only [List.getElem?_map, List.getElem?_take_of_lt hc] at h
  rw [List.getElem?_eq_getElem (by omega), List.getElem?_eq_getElem (by omega)] at h
  simp only [Option.map_some', Option.some.injEq] at h
  rw [List.getD_eq_getElem?_getD, List.getD_eq_getElem?_getD,
    List.getElem?_eq_getElem (by omega), List.getElem?_eq_getElem (by omega)]
  exact h

theorem same_fields_get? (fn1 fn2 : Text) (ct : Nat)
    (hF : (fn1.take ct).map cstr = (fn2.take ct).map cstr) (col : Nat) (hc : col < ct) :
    (fn1.get? col).map cstr = (fn2.get? col).map cstr := by
  have h := congrArg (fun l => l[col]?) hF
  simp only [List.getElem?_map, List.getElem?_take_of_lt hc] at h
  rw [List.get?_eq_getElem?, List.get?_eq_getElem?]
  exact h

theorem fill_row_congr {V : Type} (lib : NumLib V) (m : gsl_matrix V) (fn1 fn2 : Text)
    (row hr ct : Nat) (hF : (fn1.take ct).map cstr = (fn2.take ct).map cstr)
    (h1 : ct ≤ fn1.length) (h2 : ct ≤ fn2.length) :
    fill_row lib m fn1 row hr ct = fill_row lib m fn2 row hr ct := by
  unfold fill_row
  apply List.foldl_ext
  intro a col hcol
  have hc := (List.mem_range'_1.mp hcol)
  rw [same_fields_getD fn1 fn2 ct hF h1 h2 col (by omega)]

/-- One pass of the body loop of `apop_text_to_data` on a line with fields, in
two runs whose row buffers hold the same fields: both runs return the same set
at once, or both go on with the same set and the line that each of them reads
next. -/
theorem body_loop_pass_sim {V : Type} (lib : NumLib V) (hr : Nat) (delimiters : List CChar)
    (set : Option (apop_data V)) (ct : Nat) (eof : Bool) (row : Nat) (fn1 fn2 : Text)
    (inp1 inp2 : FILE) (fuel1 fuel2 : Nat) (r1 r2 : LineResult)
    (hct : ct ≠ 0) (hcond : set.isNone ∨ eof = false)
    (hF : (fn1.take ct).map cstr = (fn2.take ct).map cstr)
    (h1 : ct ≤ fn1.length) (h2 : ct ≤ fn2.length)
    (hp1 : parse_a_line inp1 fn1 none delimiters = some r1)
    (hp2 : parse_a_line inp2 fn2 none delimiters = some r2) :
    (∃ x,
      body_loop lib hr none delimiters (fuel1 + 1)
        { set := set, L := { ct := ct, eof := eof }, row := row, add_this_line := fn1,
          infile := inp1 } = some x ∧
      body_loop lib hr none delimiters (fuel2 + 1)
        { set := set, L := { ct := ct, eof := eof }, row := row, add_this_line := fn2,
          infile := inp2 } = some x) ∨
    (∃ set2 : apop_data V,
      body_loop lib hr none delimiters (fuel1 + 1)
        { set := set, L := { ct := ct, eof := eof }, row := row, add_this_line := fn1,
          infile := inp1 } =
        body_loop lib hr none delimiters fuel1
          { set := some set2, L := r1.L, row := row + 1, add_this_line := r1.fn,
            infile := r1.infile } ∧
      body_loop lib hr none delimiters (fuel2 + 1)
        { set := set, L := { ct := ct, eof := eof }, row := row, add_this_line := fn2,
          infile := inp2 } =
        body_loop lib hr none delimiters fuel2
          { set := some set2, L := r2.L, row := row + 1, add_this_line := r2.fn,
            infile := r2.infile }) := by
  have hc : set.isNone = true ∨ (ct ≠ 0 ∧ eof = false) := by
    rcases hcond with h | h
    · exact Or.inl h
    · exact Or.inr ⟨hct, h⟩
  have e0 : cstr (fn1.getD 0 []) = cstr (fn2.getD 0 []) :=
    same_fields_getD fn1 fn2 ct hF h1 h2 0 (by omega)
  have e1 : ∀ m row, fill_row lib m fn1 row hr ct = fill_row lib m fn2 row hr ct :=
    fun m row => fill_row_congr lib m fn1 fn2 row hr ct hF h1 h2
  simp only [body_loop, if_pos hc, if_neg hct, hp1, hp2, e0, e1, apop_matrix_realloc]
  split_ifs <;>
    first
      | exact Or.inl ⟨_, rfl, rfl⟩
      | exact Or.inr ⟨_, rfl, rfl⟩

/-- The body loop ends when a set is allocated and the line read last has no
field or was ended by the end of the input. -/
theorem body_loop_stop {V : Type} (lib : NumLib V) (hr : Nat) (delimiters : List CChar)
    (set : apop_data V) (L : line_parse_t) (k : Nat) (fn : Text) (inp : FILE) (fuel : Nat)
    (h : L.ct = 0 ∨ L.eof = true) :
    body_loop lib hr none delimiters (fuel + 1)
        { set := some set, L := L, row := k, add_this_line := fn, infile := inp } =
      some set := by
  unfold body_loop
  have hc : ¬ ((some set).isNone = true ∨ (L.ct ≠ 0 ∧ L.eof = false)) := by
    rintro (h1 | ⟨h1, h2⟩)
    · simp at h1
    · rcases h with h | h
      · exact h1 h
      · rw [h] at h2; cases h2
  simp only [if_neg hc]

/-- A pass of the body loop before a set is allocated, on a line without a
field: the next line is read. -/
theorem body_loop_skip {V : Type} (lib : NumLib V) (hr : Nat) (delimiters : List CChar)
    (eof : Bool) (k : Nat) (fn : Text) (inp : FILE) (res : LineResult)
    (hres : parse_a_line inp fn none delimiters = some res) (fuel : Nat) :
    body_loop lib hr none delimiters (fuel + 1)
        { set := none, L := { ct := 0, eof := eof }, row := k, add_this_line := fn,
          infile := inp } =
      body_loop lib hr none delimiters fuel
        { set := none, L := res.L, row := k, add_this_line := res.fn, infile := res.infile } := by
  conv_lhs => unfold body_loop
  simp only [Option.isNone_none, true_or, if_true, hres]

/-- Two runs of the body loop of `apop_text_to_data` on the same complete
lines, followed by two different last lines that are both ended by the end of
the input, return the same set: the last line is not stored.  The runs start
with row buffers that hold the same fields; a set is allocated or one of the
lines has a field. -/
theorem body_loop_sim {V : Type} (lib : NumLib V) (hr : Nat) (delimiters : List CChar)
    (tail1 tail2 : FILE)
    (ht1 : ∀ fn, ∃ res, parse_a_line tail1 fn none delimiters = some res ∧ res.L.eof = true)
    (ht2 : ∀ fn, ∃ res, parse_a_line tail2 fn none delimiters = some res ∧ res.L.eof = true)
    (lines : List (List CChar × List (List CChar))) :
    ∀ (set : Option (apop_data V)) (F : List (List CChar)) (row : Nat) (fn1 fn2 : Text)
      (fuel1 fuel2 : Nat),
      (∀ l ∈ lines, ∀ rest fn, ∃ res,
        parse_a_line (l.1 ++ rest) fn none delimiters = some res ∧
          res.L = { ct := l.2.length, eof := false } ∧ res.fields = l.2 ∧ res.infile = rest) →
      (fn1.take F.length).map cstr = F → F.length ≤ fn1.length →
      (fn2.take F.length).map cstr = F → F.length ≤ fn2.length →
      (set.isSome = true ∨ F ≠ [] ∨ ∃ l ∈ lines, l.2 ≠ []) →
      lines.length + 2 ≤ fuel1 → lines.length + 2 ≤ fuel2 →
      body_loop lib hr none delimiters fuel1
          { set := set, L := { ct := F.length, eof := false }, row := row,
            add_this_line := fn1, infile := (lines.map Prod.fst).flatten ++ tail1 } =
        body_loop lib hr none delimiters fuel2
          { set := set, L := { ct := F.length, eof := false }, row := row,
            add_this_line := fn2, infile := (lines.map Prod.fst).flatten ++ tail2 } := by
  induction lines with
  | nil =>
    intro set F row fn1 fn2 fuel1 fuel2 _ hF1 hl1 hF2 hl2 hset hf1 hf2
    obtain ⟨f1, rfl⟩ : ∃ f, fuel1 = f + 1 + 1 := ⟨fuel1 - 2, by simp at hf1; omega⟩
    obtain ⟨f2, rfl⟩ : ∃ f, fuel2 = f + 1 + 1 := ⟨fuel2 - 2, by simp at hf2; omega⟩
    simp only [List.map_nil, List.flatten_nil, List.nil_append]
    by_cases hct : F.length = 0
    · cases set with
      | none =>
        exfalso
        rcases hset with h | h | ⟨l, hl, _⟩
        · simp at h
        · exact h (List.length_eq_zero.mp hct)
        · simp at hl
      | some x =>
        rw [body_loop_stop lib hr delimiters x _ row fn1 tail1 _ (Or.inl hct),
          body_loop_stop lib hr delimiters x _ row fn2 tail2 _ (Or.inl hct)]
    · obtain ⟨r1, hp1, he1⟩ := ht1 fn1
      obtain ⟨r2, hp2, he2⟩ := ht2 fn2
      rcases body_loop_pass_sim lib hr delimiters set F.length false row fn1 fn2 tail1 tail2
        (f1 + 1) (f2 + 1) r1 r2 hct (Or.inr rfl) (hF1.trans hF2.symm) hl1 hl2 hp1 hp2 with
        ⟨x, e1, e2⟩ | ⟨set2, e1, e2⟩
      · rw [e1, e2]
      · rw [e1, e2, body_loop_stop lib hr delimiters set2 _ _ _ _ _ (Or.inr he1),
          body_loop_stop lib hr delimiters set2 _ _ _ _ _ (Or.inr he2)]
  | cons l ls ih =>
    intro set F row fn1 fn2 fuel1 fuel2 hlines hF1 hl1 hF2 hl2 hset hf1 hf2
    obtain ⟨f1, rfl⟩ : ∃ f, fuel1 = f + 1 := ⟨fuel1 - 1, by simp at hf1; omega⟩
    obtain ⟨f2, rfl⟩ : ∃ f, fuel2 = f + 1 := ⟨fuel2 - 1, by simp at hf2; omega⟩
    have hls : ∀ x ∈ ls, ∀ rest fn, ∃ res,
        parse_a_line (x.1 ++ rest) fn none delimiters = some res ∧
          res.L = { ct := x.2.length, eof := false } ∧ res.fields = x.2 ∧ res.infile = rest :=
      fun x hx => hlines x (by simp [hx])
    have hin : ∀ t : FILE, ((l :: ls).map Prod.fst).flatten ++ t =
        l.1 ++ ((ls.map Prod.fst).flatten ++ t) := by
      intro t; simp
    rw [hin, hin]
    obtain ⟨r1, hp1, hL1, hFr1, hi1⟩ := hlines l (by simp) ((ls.map Prod.fst).flatten ++ tail1) fn1
    obtain ⟨r2, hp2, hL2, hFr2, hi2⟩ := hlines l (by simp) ((ls.map Prod.fst).flatten ++ tail2) fn2
    obtain ⟨ha1, hb1⟩ := fields_of_result _ _ _ _ hp1
    obtain ⟨ha2, hb2⟩ := fields_of_result _ _ _ _ hp2
    rw [hL1] at ha1 hb1
    rw [hL2] at ha2 hb2
    simp only at ha1 hb1 ha2 hb2
    rw [hFr1] at ha1
    rw [hFr2] at ha2
    simp only [List.length_cons] at hf1 hf2
    by_cases hct : F.length = 0
    · cases set with
      | none =>
        rw [hct, body_loop_skip lib hr delimiters false row fn1 _ r1 hp1,
          body_loop_skip lib hr delimiters false row fn2 _ r2 hp2, hL1, hL2, hi1, hi2]
        refine ih none l.2 row r1.fn r2.fn f1 f2 hls ha1 hb1 ha2 hb2 ?_ (by omega) (by omega)
        rcases hset with h | h | ⟨x, hx, hne⟩
        · simp at h
        · exact absurd (List.length_eq_zero.mp hct) h
        · rcases List.mem_cons.mp hx with hx | hx
          · subst hx; exact Or.inr (Or.inl hne)
          · exact Or.inr (Or.inr ⟨x, hx, hne⟩)
      | some x =>
        rw [body_loop_stop lib hr delimiters x _ row fn1 _ _ (Or.inl hct),
          body_loop_stop lib hr delimiters x _ row fn2 _ _ (Or.inl hct)]
    · rcases body_loop_pass_sim lib hr delimiters set F.length false row fn1 fn2 _ _
        f1 f2 r1 r2 hct (Or.inr rfl) (hF1.trans hF2.symm) hl1 hl2 hp1 hp2 with
        ⟨x, e1, e2⟩ | ⟨set2, e1, e2⟩
      · rw [e1, e2]
      · rw [e1, e2, hL1, hL2, hi1, hi2]
        exact ih (some set2) l.2 (row + 1) r1.fn r2.fn f1 f2 hls ha1 hb1 ha2 hb2 (Or.inl rfl)
          (by omega) (by omega)

/-- A complete line read into an empty row buffer: the buffer holds exactly
the fields of the line. -/
theorem complete_line_into_empty (delimiters : List CChar)
    (l : List CChar × List (List CChar))
    (hl : ∀ rest fn, ∃ res, parse_a_line (l.1 ++ rest) fn none delimiters = some res ∧
      res.L = { ct := l.2.length, eof := false } ∧ res.fields = l.2 ∧ res.infile = rest)
    (rest : FILE) :
    ∃ res, parse_a_line (l.1 ++ rest) [] none delimiters = some res ∧
      res.L = { ct := l.2.length, eof := false } ∧ res.infile = rest ∧
      res.fn.length = l.2.length ∧ res.fn.map cstr = l.2 := by
  obtain ⟨res, h1, h2, h3, h4⟩ := hl rest []
  have hc := parse_a_line_cells _ _ _ _ h1
  rw [h2] at hc
  simp only [List.length_nil, Nat.zero_max] at hc
  refine ⟨res, h1, h2, h4, hc, ?_⟩
  rw [← h3, LineResult.fields, h2, ← hc, List.take_length]

/-- The loop of `get_field_names` passes over blank lines and stops behind
the first line with fields, which the row buffer then holds. -/
theorem read_until_fields_lines (delimiters : List CChar)
    (blanks : List (List CChar × List (List CChar)))
    (first : List CChar × List (List CChar)) (rest : FILE)
    (hfirst : ∀ rest fn, ∃ res, parse_a_line (first.1 ++ rest) fn none delimiters = some res ∧
      res.L = { ct := first.2.length, eof := false } ∧ res.fields = first.2 ∧
      res.infile = rest)
    (hne : first.2 ≠ []) :
    ∀ fuel, (∀ l ∈ blanks, l.2 = [] ∧ ∀ rest fn, ∃ res,
        parse_a_line (l.1 ++ rest) fn none delimiters = some res ∧
          res.L = { ct := l.2.length, eof := false } ∧ res.fields = l.2 ∧ res.infile = rest) →
      blanks.length + 2 ≤ fuel →
      ∃ fn, read_until_fields none delimiters fuel
          ((blanks.map Prod.fst).flatten ++ (first.1 ++ rest)) [] = some (fn, rest) ∧
        fn.length = first.2.length ∧ fn.map cstr = first.2 := by
  induction blanks with
  | nil =>
    intro fuel _ hf
    obtain ⟨f, rfl⟩ : ∃ f, fuel = f + 2 := ⟨fuel - 2, by simp at hf; omega⟩
    obtain ⟨res, h1, _, h3, h4, h5⟩ := complete_line_into_empty delimiters first hfirst rest
    have hct : res.fn.length ≠ 0 := by
      rw [h4]
      exact fun h => hne (List.length_eq_zero.mp h)
    refine ⟨res.fn, ?_, h4, h5⟩
    simp only [List.map_nil, List.flatten_nil, List.nil_append]
    rw [read_until_fields_first delimiters _ res h1 hct f, h3]
  | cons b bs ih =>
    intro fuel hb hf
    obtain ⟨f, rfl⟩ : ∃ f, fuel = f + 1 := ⟨fuel - 1, by simp at hf; omega⟩
    obtain ⟨hb0, hbl⟩ := hb b (by simp)
    obtain ⟨res, h1, _, h3, h4, _⟩ := complete_line_into_empty delimiters b hbl
      ((bs.map Prod.fst).flatten ++ (first.1 ++ rest))
    rw [hb0] at h4
    have hfn : res.fn = [] := List.eq_nil_of_length_eq_zero h4
    obtain ⟨fn, e1, e2, e3⟩ := ih f (fun l hl => hb l (by simp [hl]))
      (by simp only [List.length_cons] at hf; omega)
    refine ⟨fn, ?_, e2, e3⟩
    have hin : ((b :: bs).map Prod.fst).flatten ++ (first.1 ++ rest) =
        b.1 ++ ((bs.map Prod.fst).flatten ++ (first.1 ++ rest)) := by simp
    rw [hin]
    unfold read_until_fields
    simp only [List.length_nil, if_true, h1]
    rw [hfn, h3]
    exact e1

theorem complete_lines_length (delimiters : List CChar)
    (lines : List (List CChar × List (List CChar)))
    (hlines : ∀ l ∈ lines, ∀ rest fn, ∃ res,
      parse_a_line (l.1 ++ rest) fn none delimiters = some res ∧
        res.L = { ct := l.2.length, eof := false } ∧ res.fields = l.2 ∧ res.infile = rest) :
    lines.length ≤ (lines.map Prod.fst).flatten.length :=
  flatten_length_ge lines (fun l hl => line_nonempty delimiters l.1 _ _ (hlines l hl))

/-- With the names in the file, `get_field_names` passes over blank lines,
reads the first line with fields into `fn` and the line behind it into
`add_this_line`. -/
theorem get_field_names_header_lines (delimiters : List CChar) (has_col_names : Nat)
    (hcn : has_col_names ≠ 0)
    (blanks : List (List CChar × List (List CChar)))
    (first second : List CChar × List (List CChar)) (rest : FILE)
    (hb : ∀ l ∈ blanks, l.2 = [] ∧ ∀ rest fn, ∃ res,
        parse_a_line (l.1 ++ rest) fn none delimiters = some res ∧
          res.L = { ct := l.2.length, eof := false } ∧ res.fields = l.2 ∧ res.infile = rest)
    (hfirst : ∀ rest fn, ∃ res, parse_a_line (first.1 ++ rest) fn none delimiters = some res ∧
      res.L = { ct := first.2.length, eof := false } ∧ res.fields = first.2 ∧
      res.infile = rest)
    (hne : first.2 ≠ [])
    (hsecond : ∀ rest fn, ∃ res,
      parse_a_line (second.1 ++ rest) fn none delimiters = some res ∧
      res.L = { ct := second.2.length, eof := false } ∧ res.fields = second.2 ∧
      res.infile = rest) :
    ∃ fn atl, get_field_names has_col_names none
        ((blanks.map Prod.fst).flatten ++ (first.1 ++ (second.1 ++ rest))) [] [] none
        delimiters = some (fn, atl, rest) ∧
      fn.map cstr = first.2 ∧ atl.length = second.2.length ∧ atl.map cstr = second.2 := by
  have hbl := complete_lines_length delimiters blanks (fun l hl => (hb l hl).2)
  have h1 := line_nonempty delimiters first.1 _ _ hfirst
  have h2 := line_nonempty delimiters second.1 _ _ hsecond
  have hl1 : 1 ≤ first.1.length := List.length_pos.mpr h1
  have hl2 : 1 ≤ second.1.length := List.length_pos.mpr h2
  obtain ⟨fn, e1, _, e3⟩ := read_until_fields_lines delimiters blanks first
    (second.1 ++ rest) hfirst hne
    (((blanks.map Prod.fst).flatten ++ (first.1 ++ (second.1 ++ rest))).length + 1) hb
    (by simp only [List.length_append]; omega)
  obtain ⟨res, g1, _, g3, g4, g5⟩ := complete_line_into_empty delimiters second hsecond rest
  refine ⟨fn, res.fn, ?_, e3, g4, g5⟩
  unfold get_field_names
  simp only [ne_eq, hcn, not_false_eq_true, Option.isNone_none, and_self, if_true, e1, g1, g3]

theorem apop_text_to_data_tails_header {V : Type} (lib : NumLib V) (delimiters : List CChar)
    (has_row_names has_col_names : Nat)
    (blanks : List (List CChar × List (List CChar)))
    (first : List CChar × List (List CChar))
    (rest : List (List CChar × List (List CChar))) (tail1 tail2 : FILE)
    (hb : ∀ l ∈ blanks, l.2 = [] ∧ ∀ rest fn, ∃ res,
        parse_a_line (l.1 ++ rest) fn none delimiters = some res ∧
          res.L = { ct := l.2.length, eof := false } ∧ res.fields = l.2 ∧ res.infile = rest)
    (hfirst : ∀ rest fn, ∃ res, parse_a_line (first.1 ++ rest) fn none delimiters = some res ∧
      res.L = { ct := first.2.length, eof := false } ∧ res.fields = first.2 ∧
      res.infile = rest)
    (hne : first.2 ≠ [])
    (hrest : ∀ l ∈ rest, ∀ rest fn, ∃ res,
        parse_a_line (l.1 ++ rest) fn none delimiters = some res ∧
          res.L = { ct := l.2.length, eof := false } ∧ res.fields = l.2 ∧ res.infile = rest)
    (ht1 : ∀ fn, ∃ res, parse_a_line tail1 fn none delimiters = some res ∧ res.L.eof = true)
    (ht2 : ∀ fn, ∃ res, parse_a_line tail2 fn none delimiters = some res ∧ res.L.eof = true)
    (hc : has_col_names = 1 ∨ has_col_names = 89 ∨ has_col_names = 121) (hhdr : rest ≠ []) :
    apop_text_to_data lib
        (some (((blanks ++ first :: rest).map Prod.fst).flatten ++ tail1))
        has_row_names has_col_names none delimiters =
      apop_text_to_data lib
        (some (((blanks ++ first :: rest).map Prod.fst).flatten ++ tail2))
        has_row_names has_col_names none delimiters := by
  have hall : ∀ l ∈ blanks ++ first :: rest, ∀ rest fn, ∃ res,
      parse_a_line (l.1 ++ rest) fn none delimiters = some res ∧
        res.L = { ct := l.2.length, eof := false } ∧ res.fields = l.2 ∧ res.infile = rest := by
    intro l hl
    rcases List.mem_append.mp hl with h | h
    · exact (hb l h).2
    · rcases List.mem_cons.mp h with h | h
      · subst h; exact hfirst
      · exact hrest l h
  have hlen := complete_lines_length delimiters _ hall
  obtain ⟨second, rest2, rfl⟩ : ∃ s r, rest = s :: r := by
    cases hr : rest with
    | nil => exact absurd hr hhdr
    | cons s r => exact ⟨s, r, rfl⟩
  have hsecond := hrest second (by simp)
  have hrest2 : ∀ l ∈ rest2, ∀ rest fn, ∃ res,
      parse_a_line (l.1 ++ rest) fn none delimiters = some res ∧
        res.L = { ct := l.2.length, eof := false } ∧ res.fields = l.2 ∧ res.infile = rest :=
    fun l hl => hrest l (by simp [hl])
  have hlen2 := complete_lines_length delimiters _ hrest2
  have hin : ∀ t : FILE, ((blanks ++ first :: second :: rest2).map Prod.fst).flatten ++ t =
      (blanks.map Prod.fst).flatten ++
        (first.1 ++ (second.1 ++ ((rest2.map Prod.fst).flatten ++ t))) := by
    intro t; simp
  obtain ⟨fn1, atl1, g1, a1, b1, c1⟩ := get_field_names_header_lines delimiters 1 (by decide)
    blanks first second ((rest2.map Prod.fst).flatten ++ tail1) hb hfirst hne hsecond
  obtain ⟨fn2, atl2, g2, a2, b2, c2⟩ := get_field_names_header_lines delimiters 1 (by decide)
    blanks first second ((rest2.map Prod.fst).flatten ++ tail2) hb hfirst hne hsecond
  rw [hin, hin,
    apop_text_to_data_header lib _ has_row_names has_col_names hc delimiters fn1 atl1 _ g1,
    apop_text_to_data_header lib _ has_row_names has_col_names hc delimiters fn2 atl2 _ g2]
  have hn1 : (fun (n : apop_name) (j : Nat) => apop_name_add n (cstr (fn1.getD j [])) 99) =
      (fun n j => apop_name_add n (first.2.getD j []) 99) := by
    funext n j
    rw [cstr_getD_of_map fn1 first.2 a1 j]
  have hn2 : (fun (n : apop_name) (j : Nat) => apop_name_add n (cstr (fn2.getD j [])) 99) =
      (fun n j => apop_name_add n (first.2.getD j []) 99) := by
    funext n j
    rw [cstr_getD_of_map fn2 first.2 a2 j]
  rw [hn1, hn2, b1, b2]
  have hF1 : (atl1.take second.2.length).map cstr = second.2 := by
    rw [← b1, List.take_length, c1]
  have hF2 : (atl2.take second.2.length).map cstr = second.2 := by
    rw [← b2, List.take_length, c2]
  have hf1 : rest2.length + 2 ≤ ((rest2.map Prod.fst).flatten ++ tail1).length + 2 := by
    rw [List.length_append]; omega
  have hf2 : rest2.length + 2 ≤ ((rest2.map Prod.fst).flatten ++ tail2).length + 2 := by
    rw [List.length_append]; omega
  exact body_loop_sim lib _ delimiters tail1 tail2 ht1 ht2 rest2 _ second.2 0 atl1 atl2 _ _
    hrest2 hF1 (by omega) hF2 (by omega) (Or.inl rfl) hf1 hf2

theorem apop_text_to_data_plain {V : Type} (lib : NumLib V) (infile : FILE)
    (has_row_names has_col_names : Nat) (delimiters : List CChar)
    (hc : ¬ (has_col_names = 1 ∨ has_col_names = 89 ∨ has_col_names = 121)) :
    apop_text_to_data lib (some infile) has_row_names has_col_names none delimiters =
      body_loop lib
        (if (if has_row_names = 1 ∨ has_row_names = 89 then 121 else has_row_names) = 121
          then 1 else 0)
        none delimiters (infile.length + 2)
        { set := none, L := { ct := 0, eof := false }, row := 0, add_this_line := [],
          infile := infile } := by
  have hc2 : ¬ ((if has_col_names = 1 ∨ has_col_names = 89 then 121 else has_col_names) =
      121) := by
    intro h
    apply hc
    by_cases h1 : has_col_names = 1 ∨ has_col_names = 89
    · rcases h1 with h1 | h1
      · exact Or.inl h1
      · exact Or.inr (Or.inl h1)
    · rw [if_neg h1] at h
      exact Or.inr (Or.inr h)
  unfold apop_text_to_data
  simp only []
  rw [if_neg hc2]

theorem apop_text_to_data_tails_plain {V : Type} (lib : NumLib V) (delimiters : List CChar)
    (has_row_names has_col_names : Nat)
    (blanks : List (List CChar × List (List CChar)))
    (first : List CChar × List (List CChar))
    (rest : List (List CChar × List (List CChar))) (tail1 tail2 : FILE)
    (hb : ∀ l ∈ blanks, l.2 = [] ∧ ∀ rest fn, ∃ res,
        parse_a_line (l.1 ++ rest) fn none delimiters = some res ∧
          res.L = { ct := l.2.length, eof := false } ∧ res.fields = l.2 ∧ res.infile = rest)
    (hfirst : ∀ rest fn, ∃ res, parse_a_line (first.1 ++ rest) fn none delimiters = some res ∧
      res.L = { ct := first.2.length, eof := false } ∧ res.fields = first.2 ∧
      res.infile = rest)
    (hne : first.2 ≠ [])
    (hrest : ∀ l ∈ rest, ∀ rest fn, ∃ res,
        parse_a_line (l.1 ++ rest) fn none delimiters = some res ∧
          res.L = { ct := l.2.length, eof := false } ∧ res.fields = l.2 ∧ res.infile = rest)
    (ht1 : ∀ fn, ∃ res, parse_a_line tail1 fn none delimiters = some res ∧ res.L.eof = true)
    (ht2 : ∀ fn, ∃ res, parse_a_line tail2 fn none delimiters = some res ∧ res.L.eof = true)
    (hc : ¬ (has_col_names = 1 ∨ has_col_names = 89 ∨ has_col_names = 121)) :
    apop_text_to_data lib
        (some (((blanks ++ first :: rest).map Prod.fst).flatten ++ tail1))
        has_row_names has_col_names none delimiters =
      apop_text_to_data lib
        (some (((blanks ++ first :: rest).map Prod.fst).flatten ++ tail2))
        has_row_names has_col_names none delimiters := by
  have hall : ∀ l ∈ blanks ++ first :: rest, ∀ rest fn, ∃ res,
      parse_a_line (l.1 ++ rest) fn none delimiters = some res ∧
        res.L = { ct := l.2.length, eof := false } ∧ res.fields = l.2 ∧ res.infile = rest := by
    intro l hl
    rcases List.mem_append.mp hl with h | h
    · exact (hb l h).2
    · rcases List.mem_cons.mp h with h | h
      · subst h; exact hfirst
      · exact hrest l h
  have hlen := complete_lines_length delimiters _ hall
  have hf1 : (blanks ++ first :: rest).length + 2 ≤
      (((blanks ++ first :: rest).map Prod.fst).flatten ++ tail1).length + 2 := by
    have e := List.length_append ((blanks ++ first :: rest).map Prod.fst).flatten tail1
    omega
  have hf2 : (blanks ++ first :: rest).length + 2 ≤
      (((blanks ++ first :: rest).map Prod.fst).flatten ++ tail2).length + 2 := by
    have e := List.length_append ((blanks ++ first :: rest).map Prod.fst).flatten tail2
    omega
  have hmem : ∃ l ∈ blanks ++ first :: rest, l.2 ≠ [] := ⟨first, by simp, hne⟩
  have key := body_loop_sim lib
    (if (if has_row_names = 1 ∨ has_row_names = 89 then 121 else has_row_names) = 121
      then 1 else 0)
    delimiters tail1 tail2 ht1 ht2 (blanks ++ first :: rest) none []
    0 [] []
    ((((blanks ++ first :: rest).map Prod.fst).flatten ++ tail1).length + 2)
    ((((blanks ++ first :: rest).map Prod.fst).flatten ++ tail2).length + 2)
    hall rfl (Nat.le_refl _) rfl (Nat.le_refl _)
    (Or.inr (Or.inr hmem)) hf1 hf2
  simp only [List.length_nil] at key
  rw [apop_text_to_data_plain lib _ has_row_names has_col_names delimiters hc,
    apop_text_to_data_plain lib _ has_row_names has_col_names delimiters hc]
  exact key


/-- Two calls of `apop_text_to_data` on the same complete lines, of which one
has fields (and, with a header line, is followed by another one), followed by
two different last lines that are both ended by the end of the input, return
the same set. -/
theorem apop_text_to_data_tails {V : Type} (lib : NumLib V) (delimiters : List CChar)
    (has_row_names has_col_names : Nat)
    (blanks : List (List CChar × List (List CChar)))
    (first : List CChar × List (List CChar))
    (rest : List (List CChar × List (List CChar))) (tail1 tail2 : FILE)
    (hb : ∀ l ∈ blanks, l.2 = [] ∧ ∀ rest fn, ∃ res,
        parse_a_line (l.1 ++ rest) fn none delimiters = some res ∧
          res.L = { ct := l.2.length, eof := false } ∧ res.fields = l.2 ∧ res.infile = rest)
    (hfirst : ∀ rest fn, ∃ res, parse_a_line (first.1 ++ rest) fn none delimiters = some res ∧
      res.L = { ct := first.2.length, eof := false } ∧ res.fields = first.2 ∧
      res.infile = rest)
    (hne : first.2 ≠ [])
    (hrest : ∀ l ∈ rest, ∀ rest fn, ∃ res,
        parse_a_line (l.1 ++ rest) fn none delimiters = some res ∧
          res.L = { ct := l.2.length, eof := false } ∧ res.fields = l.2 ∧ res.infile = rest)
    (ht1 : ∀ fn, ∃ res, parse_a_line tail1 fn none delimiters = some res ∧ res.L.eof = true)
    (ht2 : ∀ fn, ∃ res, parse_a_line tail2 fn none delimiters = some res ∧ res.L.eof = true)
    (hhdr : (has_col_names = 1 ∨ has_col_names = 89 ∨ has_col_names = 121) → rest ≠ []) :
    apop_text_to_data lib
        (some (((blanks ++ first :: rest).map Prod.fst).flatten ++ tail1))
        has_row_names has_col_names none delimiters =
      apop_text_to_data lib
        (some (((blanks ++ first :: rest).map Prod.fst).flatten ++ tail2))
        has_row_names has_col_names none delimiters := by
  by_cases hc : has_col_names = 1 ∨ has_col_names = 89 ∨ has_col_names = 121
  · exact apop_text_to_data_tails_header lib delimiters has_row_names has_col_names blanks
      first rest tail1 tail2 hb hfirst hne hrest ht1 ht2 hc (hhdr hc)
  · exact apop_text_to_data_tails_plain lib delimiters has_row_names has_col_names blanks
      first rest tail1 tail2 hb hfirst hne hrest ht1 ht2 hc

/-! ## Two runs of the database loader -/

theorem line_to_insert_congr {V : Type} (lib : DbLib V) (opts : apop_opts_type)
    (L : line_parse_t) (fn1 fn2 : Text) (tabname : List CChar) (p_stmt : Bool)
    (hF : (fn1.take L.ct).map cstr = (fn2.take L.ct).map cstr) :
    line_to_insert lib opts L fn1 tabname p_stmt = line_to_insert lib opts L fn2 tabname p_stmt := by
  unfold line_to_insert
  have h : ∀ st, (List.range L.ct).foldl (insert_col lib opts fn1 p_stmt) st =
      (List.range L.ct).foldl (insert_col lib opts fn2 p_stmt) st := by
    intro st
    apply List.foldl_ext
    intro a col hcol
    unfold insert_col
    rw [same_fields_get? fn1 fn2 L.ct hF col (List.mem_range.mp hcol)]
  simp only [h]

theorem create_query_congr {V : Type} (lib : DbLib V) (tabname : List CChar)
    (has_row_names : Nat) (field_params : Option (List (List CChar × List CChar)))
    (table_params : Option (List CChar)) (fn1 fn2 : Text)
    (h : fn1.map cstr = fn2.map cstr) :
    create_query lib tabname has_row_names field_params table_params fn1 =
      create_query lib tabname has_row_names field_params table_params fn2 := by
  have hlen : fn1.length = fn2.length := by
    have := congrArg List.length h
    simpa using this
  have hg : ∀ j, cstr (fn1.getD j []) = cstr (fn2.getD j []) := by
    intro j
    rw [cstr_getD_of_map fn1 _ h j, cstr_getD_of_map fn2 _ rfl j]
  have hcol : create_col lib has_row_names field_params fn1 =
      create_col lib has_row_names field_params fn2 := by
    funext q i
    unfold create_col
    simp only [hg]
  unfold create_query
  simp only [hcol, hlen, hg]

theorem tab_create_sqlite_congr {V : Type} (lib : DbLib V) (created : Bool)
    (tabname : List CChar) (has_row_names : Nat)
    (field_params : Option (List (List CChar × List CChar)))
    (table_params : Option (List CChar)) (fn1 fn2 : Text)
    (h : fn1.map cstr = fn2.map cstr) :
    tab_create_sqlite lib created tabname has_row_names field_params table_params fn1 =
      tab_create_sqlite lib created tabname has_row_names field_params table_params fn2 := by
  unfold tab_create_sqlite
  rw [create_query_congr lib tabname has_row_names field_params table_params fn1 fn2 h]

/-- Lines without a field up to the first line with one, if there is one. -/
theorem lines_split (lines : List (List CChar × List (List CChar))) :
    (∀ l ∈ lines, l.2 = []) ∨
    ∃ bl l ls, lines = bl ++ l :: ls ∧ (∀ b ∈ bl, b.2 = []) ∧ l.2 ≠ [] := by
  induction lines with
  | nil => exact Or.inl (fun l hl => by simp at hl)
  | cons x xs ih =>
    by_cases hx : x.2 = []
    · rcases ih with h | ⟨bl, l, ls, h1, h2, h3⟩
      · left
        intro l hl
        rcases List.mem_cons.mp hl with h' | h'
        · rw [h']; exact hx
        · exact h l h'
      · right
        refine ⟨x :: bl, l, ls, by rw [h1]; rfl, ?_, h3⟩
        intro b hb
        rcases List.mem_cons.mp hb with h' | h'
        · rw [h']; exact hx
        · exact h2 b h'
    · exact Or.inr ⟨[], x, xs, rfl, fun b hb => by simp at hb, hx⟩

/-- The loop that skips blank lines, on blank lines only: it stops at the
line behind them, which is ended by the end of the input. -/
theorem skip_blank_lines_all (delimiters : List CChar) (tail : FILE)
    (ht : ∀ fn, ∃ res, parse_a_line tail fn none delimiters = some res ∧ res.L.eof = true)
    (lines : List (List CChar × List (List CChar))) :
    ∀ (fuel : Nat) (fn : Text) (rows : Nat),
      (∀ l ∈ lines, l.2 = [] ∧ ∀ rest fn, ∃ res,
        parse_a_line (l.1 ++ rest) fn none delimiters = some res ∧
          res.L = { ct := l.2.length, eof := false } ∧ res.fields = l.2 ∧ res.infile = rest) →
      lines.length + 1 ≤ fuel →
      ∃ res, skip_blank_lines none delimiters fuel ((lines.map Prod.fst).flatten ++ tail) fn
          rows = some (res, rows + lines.length + 1) ∧ res.L.eof = true := by
  induction lines with
  | nil =>
    intro fuel fn rows _ hf
    obtain ⟨f, rfl⟩ : ∃ f, fuel = f + 1 := ⟨fuel - 1, by simp at hf; omega⟩
    obtain ⟨res, h1, h2⟩ := ht fn
    refine ⟨res, ?_, h2⟩
    simp only [List.map_nil, List.flatten_nil, List.nil_append, List.length_nil, Nat.add_zero]
    exact skip_blank_lines_stop none delimiters f tail fn rows res h1 (Or.inr h2)
  | cons b bs ih =>
    intro fuel fn rows hb hf
    obtain ⟨f, rfl⟩ : ∃ f, fuel = f + 1 := ⟨fuel - 1, by simp at hf; omega⟩
    obtain ⟨hb0, hbl⟩ := hb b (by simp)
    obtain ⟨r, h1, h2, _, h4⟩ := hbl ((bs.map Prod.fst).flatten ++ tail) fn
    obtain ⟨res, e1, e2⟩ := ih f r.fn (rows + 1) (fun l hl => hb l (by simp [hl]))
      (by simp only [List.length_cons] at hf; omega)
    refine ⟨res, ?_, e2⟩
    have hin : ((b :: bs).map Prod.fst).flatten ++ tail =
        b.1 ++ ((bs.map Prod.fst).flatten ++ tail) := by simp
    rw [hin]
    unfold skip_blank_lines
    simp only [h1]
    have hc : r.L.ct = 0 ∧ r.L.eof = false := by
      rw [h2, hb0]
      exact ⟨rfl, rfl⟩
    rw [if_pos hc, h4, e1]
    simp only [List.length_cons]
    congr 2
    omega

/-- The loop that skips blank lines stops behind the first line with fields,
which the row buffer then holds. -/
theorem skip_blank_lines_to_line (delimiters : List CChar)
    (l : List CChar × List (List CChar)) (rest : FILE)
    (hl : ∀ rest fn, ∃ res, parse_a_line (l.1 ++ rest) fn none delimiters = some res ∧
      res.L = { ct := l.2.length, eof := false } ∧ res.fields = l.2 ∧ res.infile = rest)
    (hne : l.2 ≠ [])
    (blanks : List (List CChar × List (List CChar))) :
    ∀ (fuel : Nat) (fn : Text) (rows : Nat),
      (∀ b ∈ blanks, b.2 = [] ∧ ∀ rest fn, ∃ res,
        parse_a_line (b.1 ++ rest) fn none delimiters = some res ∧
          res.L = { ct := b.2.length, eof := false } ∧ res.fields = b.2 ∧ res.infile = rest) →
      blanks.length + 1 ≤ fuel →
      ∃ res, skip_blank_lines none delimiters fuel
          ((blanks.map Prod.fst).flatten ++ (l.1 ++ rest)) fn rows =
            some (res, rows + blanks.length + 1) ∧
        res.L = { ct := l.2.length, eof := false } ∧ res.infile = rest ∧
        (res.fn.take l.2.length).map cstr = l.2 ∧ l.2.length ≤ res.fn.length := by
  induction blanks with
  | nil =>
    intro fuel fn rows _ hf
    obtain ⟨f, rfl⟩ : ∃ f, fuel = f + 1 := ⟨fuel - 1, by simp at hf; omega⟩
    obtain ⟨res, h1, h2, h3, h4⟩ := hl rest fn
    obtain ⟨ha, hb⟩ := fields_of_result _ _ _ _ h1
    rw [h2] at ha hb
    simp only at ha hb
    rw [h3] at ha
    refine ⟨res, ?_, h2, h4, ha, hb⟩
    simp only [List.map_nil, List.flatten_nil, List.nil_append, List.length_nil, Nat.add_zero]
    refine skip_blank_lines_stop none delimiters f _ fn rows res h1 (Or.inl ?_)
    rw [h2]
    exact fun h => hne (List.length_eq_zero.mp h)
  | cons b bs ih =>
    intro fuel fn rows hb hf
    obtain ⟨f, rfl⟩ : ∃ f, fuel = f + 1 := ⟨fuel - 1, by simp at hf; omega⟩
    obtain ⟨hb0, hbl⟩ := hb b (by simp)
    obtain ⟨r, h1, h2, _, h4⟩ := hbl ((bs.map Prod.fst).flatten ++ (l.1 ++ rest)) fn
    obtain ⟨res, e1, e2⟩ := ih f r.fn (rows + 1) (fun x hx => hb x (by simp [hx]))
      (by simp only [List.length_cons] at hf; omega)
    refine ⟨res, ?_, e2⟩
    have hin : ((b :: bs).map Prod.fst).flatten ++ (l.1 ++ rest) =
        b.1 ++ ((bs.map Prod.fst).flatten ++ (l.1 ++ rest)) := by simp
    rw [hin]
    unfold skip_blank_lines
    simp only [h1]
    have hc : r.L.ct = 0 ∧ r.L.eof = false := by
      rw [h2, hb0]
      exact ⟨rfl, rfl⟩
    rw [if_pos hc, h4, e1]
    simp only [List.length_cons]
    congr 2
    omega

/-- The loop of `apop_text_to_db` ends when the line read last has no field
or was ended by the end of the input. -/
theorem insert_loop_stop {V : Type} (lib : DbLib V) (opts : apop_opts_type) (env : DbEnv)
    (tabname : List CChar) (statement : Bool) (delimiters : List CChar) (fuel : Nat)
    (s : DState) (h : s.L.ct = 0 ∨ s.L.eof = true) :
    insert_loop lib opts env tabname statement none delimiters (fuel + 1) s =
      ([], LoopEnd.done s.rows) := by
  unfold insert_loop
  have hc : ¬ (s.L.ct ≠ 0 ∧ s.L.eof = false) := by
    rintro ⟨h1, h2⟩
    rcases h with h | h
    · exact h1 h
    · rw [h] at h2; cases h2
  rw [if_neg hc]

/-- One pass of the loop of `apop_text_to_db` in two runs whose row buffers
hold the same fields and that skip to their next lines with the same count:
both runs end at once in the same way, or both issue the same operations and
go on from the lines they have read. -/
theorem insert_loop_pass_sim {V : Type} (lib : DbLib V) (opts : apop_opts_type) (env : DbEnv)
    (tabname : List CChar) (statement : Bool) (delimiters : List CChar)
    (L : line_parse_t) (fn1 fn2 : Text) (inp1 inp2 : FILE) (ct rows rows2 : Nat)
    (fuel1 fuel2 : Nat) (r1 r2 : LineResult)
    (hF : (fn1.take L.ct).map cstr = (fn2.take L.ct).map cstr)
    (hs1 : skip_blank_lines none delimiters (inp1.length + 1) inp1 fn1 rows = some (r1, rows2))
    (hs2 : skip_blank_lines none delimiters (inp2.length + 1) inp2 fn2 rows = some (r2, rows2)) :
    insert_loop lib opts env tabname statement none delimiters (fuel1 + 1)
        { L := L, add_this_line := fn1, infile := inp1, ct := ct, rows := rows } =
      insert_loop lib opts env tabname statement none delimiters (fuel2 + 1)
        { L := L, add_this_line := fn2, infile := inp2, ct := ct, rows := rows } ∨
    ∃ ops,
      insert_loop lib opts env tabname statement none delimiters (fuel1 + 1)
          { L := L, add_this_line := fn1, infile := inp1, ct := ct, rows := rows } =
        (ops ++ (insert_loop lib opts env tabname statement none delimiters fuel1
            { L := r1.L, add_this_line := r1.fn, infile := r1.infile, ct := ct + 1,
              rows := rows2 }).1,
          (insert_loop lib opts env tabname statement none delimiters fuel1
            { L := r1.L, add_this_line := r1.fn, infile := r1.infile, ct := ct + 1,
              rows := rows2 }).2) ∧
      insert_loop lib opts env tabname statement none delimiters (fuel2 + 1)
          { L := L, add_this_line := fn2, infile := inp2, ct := ct, rows := rows } =
        (ops ++ (insert_loop lib opts env tabname statement none delimiters fuel2
            { L := r2.L, add_this_line := r2.fn, infile := r2.infile, ct := ct + 1,
              rows := rows2 }).1,
          (insert_loop lib opts env tabname statement none delimiters fuel2
            { L := r2.L, add_this_line := r2.fn, infile := r2.infile, ct := ct + 1,
              rows := rows2 }).2) := by
  have e1 := line_to_insert_congr lib opts L fn1 fn2 tabname statement hF
  simp only [insert_loop, e1, hs1, hs2]
  split_ifs <;>
    first
      | exact Or.inl rfl
      | exact Or.inr ⟨_, rfl, rfl⟩

/-- Two runs of the loop of `apop_text_to_db` whose remaining lines are all
blank, followed by two different last lines that are both ended by the end of
the input: the same operations, the same end. -/
theorem insert_loop_sim_blank {V : Type} (lib : DbLib V) (opts : apop_opts_type)
    (env : DbEnv) (tabname : List CChar) (statement : Bool) (delimiters : List CChar)
    (tail1 tail2 : FILE)
    (ht1 : ∀ fn, ∃ res, parse_a_line tail1 fn none delimiters = some res ∧ res.L.eof = true)
    (ht2 : ∀ fn, ∃ res, parse_a_line tail2 fn none delimiters = some res ∧ res.L.eof = true)
    (lines : List (List CChar × List (List CChar)))
    (hlines : ∀ l ∈ lines, l.2 = [] ∧ ∀ rest fn, ∃ res,
        parse_a_line (l.1 ++ rest) fn none delimiters = some res ∧
          res.L = { ct := l.2.length, eof := false } ∧ res.fields = l.2 ∧ res.infile = rest)
    (L : line_parse_t) (fn1 fn2 : Text) (ct rows f1 f2 : Nat)
    (hF : (fn1.take L.ct).map cstr = (fn2.take L.ct).map cstr) :
    insert_loop lib opts env tabname statement none delimiters (f1 + 1 + 1)
        { L := L, add_this_line := fn1, infile := (lines.map Prod.fst).flatten ++ tail1,
          ct := ct, rows := rows } =
      insert_loop lib opts env tabname statement none delimiters (f2 + 1 + 1)
        { L := L, add_this_line := fn2, infile := (lines.map Prod.fst).flatten ++ tail2,
          ct := ct, rows := rows } := by
  have hlen := complete_lines_length delimiters lines (fun l hl => (hlines l hl).2)
  obtain ⟨r1, s1, e1⟩ := skip_blank_lines_all delimiters tail1 ht1 lines
    (((lines.map Prod.fst).flatten ++ tail1).length + 1) fn1 rows hlines
    (by have e := List.length_append (lines.map Prod.fst).flatten tail1; omega)
  obtain ⟨r2, s2, e2⟩ := skip_blank_lines_all delimiters tail2 ht2 lines
    (((lines.map Prod.fst).flatten ++ tail2).length + 1) fn2 rows hlines
    (by have e := List.length_append (lines.map Prod.fst).flatten tail2; omega)
  rcases insert_loop_pass_sim lib opts env tabname statement delimiters L fn1 fn2 _ _ ct rows
    _ (f1 + 1) (f2 + 1) r1 r2 hF s1 s2 with h | ⟨ops, h1, h2⟩
  · exact h
  · rw [h1, h2, insert_loop_stop lib opts env tabname statement delimiters f1 _ (Or.inr e1),
      insert_loop_stop lib opts env tabname statement delimiters f2 _ (Or.inr e2)]

/-- Two runs of the loop of `apop_text_to_db` on the same complete lines,
followed by two different last lines that are both ended by the end of the
input, issue the same operations and end in the same way: the last line is not
inserted. -/
theorem insert_loop_sim {V : Type} (lib : DbLib V) (opts : apop_opts_type)
    (env : DbEnv) (tabname : List CChar) (statement : Bool) (delimiters : List CChar)
    (tail1 tail2 : FILE)
    (ht1 : ∀ fn, ∃ res, parse_a_line tail1 fn none delimiters = some res ∧ res.L.eof = true)
    (ht2 : ∀ fn, ∃ res, parse_a_line tail2 fn none delimiters = some res ∧ res.L.eof = true)
    (n : Nat) :
    ∀ (lines : List (List CChar × List (List CChar))) (F : List (List CChar))
      (fn1 fn2 : Text) (ct rows fuel1 fuel2 : Nat),
      lines.length ≤ n →
      (∀ l ∈ lines, ∀ rest fn, ∃ res,
        parse_a_line (l.1 ++ rest) fn none delimiters = some res ∧
          res.L = { ct := l.2.length, eof := false } ∧ res.fields = l.2 ∧ res.infile = rest) →
      (fn1.take F.length).map cstr = F → (fn2.take F.length).map cstr = F →
      lines.length + 2 ≤ fuel1 → lines.length + 2 ≤ fuel2 →
      insert_loop lib opts env tabname statement none delimiters fuel1
          { L := { ct := F.length, eof := false }, add_this_line := fn1,
            infile := (lines.map Prod.fst).flatten ++ tail1, ct := ct, rows := rows } =
        insert_loop lib opts env tabname statement none delimiters fuel2
          { L := { ct := F.length, eof := false }, add_this_line := fn2,
            infile := (lines.map Prod.fst).flatten ++ tail2, ct := ct, rows := rows } := by
  induction n with
  | zero =>
    intro lines F fn1 fn2 ct rows fuel1 fuel2 hn hlines hF1 hF2 hf1 hf2
    have hl0 : lines = [] := List.length_eq_zero.mp (Nat.le_zero.mp hn)
    subst hl0
    obtain ⟨f1, rfl⟩ : ∃ f, fuel1 = f + 1 + 1 := ⟨fuel1 - 2, by simp at hf1; omega⟩
    obtain ⟨f2, rfl⟩ : ∃ f, fuel2 = f + 1 + 1 := ⟨fuel2 - 2, by simp at hf2; omega⟩
    exact insert_loop_sim_blank lib opts env tabname statement delimiters tail1 tail2 ht1 ht2
      [] (fun l hl => by simp at hl) _ fn1 fn2 ct rows f1 f2 (hF1.trans hF2.symm)
  | succ n ih =>
    intro lines F fn1 fn2 ct rows fuel1 fuel2 hn hlines hF1 hF2 hf1 hf2
    obtain ⟨f1, rfl⟩ : ∃ f, fuel1 = f + 1 + 1 := ⟨fuel1 - 2, by omega⟩
    obtain ⟨f2, rfl⟩ : ∃ f, fuel2 = f + 1 + 1 := ⟨fuel2 - 2, by omega⟩
    rcases lines_split lines with hall | ⟨bl, l, ls, rfl, hbl, hne⟩
    · exact insert_loop_sim_blank lib opts env tabname statement delimiters tail1 tail2 ht1
        ht2 lines (fun l hl => ⟨hall l hl, hlines l hl⟩) _ fn1 fn2 ct rows f1 f2
        (hF1.trans hF2.symm)
    · have hb : ∀ b ∈ bl, b.2 = [] ∧ ∀ rest fn, ∃ res,
          parse_a_line (b.1 ++ rest) fn none delimiters = some res ∧
            res.L = { ct := b.2.length, eof := false } ∧ res.fields = b.2 ∧
            res.infile = rest :=
        fun b hb => ⟨hbl b hb, hlines b (by simp [hb])⟩
      have hl := hlines l (by simp)
      have hls : ∀ x ∈ ls, ∀ rest fn, ∃ res,
          parse_a_line (x.1 ++ rest) fn none delimiters = some res ∧
            res.L = { ct := x.2.length, eof := false } ∧ res.fields = x.2 ∧
            res.infile = rest :=
        fun x hx => hlines x (by simp [hx])
      have hblen := complete_lines_length delimiters bl (fun b hb' => (hb b hb').2)
      have hin : ∀ t : FILE, ((bl ++ l :: ls).map Prod.fst).flatten ++ t =
          (bl.map Prod.fst).flatten ++ (l.1 ++ ((ls.map Prod.fst).flatten ++ t)) := by
        intro t; simp
      rw [hin, hin]
      obtain ⟨r1, s1, a1, b1, c1, _⟩ := skip_blank_lines_to_line delimiters l
        ((ls.map Prod.fst).flatten ++ tail1) hl hne bl
        (((bl.map Prod.fst).flatten ++ (l.1 ++ ((ls.map Prod.fst).flatten ++ tail1))).length
          + 1) fn1 rows hb
        (by
          have e := List.length_append (bl.map Prod.fst).flatten
            (l.1 ++ ((ls.map Prod.fst).flatten ++ tail1))
          omega)
      obtain ⟨r2, s2, a2, b2, c2, _⟩ := skip_blank_lines_to_line delimiters l
        ((ls.map Prod.fst).flatten ++ tail2) hl hne bl
        (((bl.map Prod.fst).flatten ++ (l.1 ++ ((ls.map Prod.fst).flatten ++ tail2))).length
          + 1) fn2 rows hb
        (by
          have e := List.length_append (bl.map Prod.fst).flatten
            (l.1 ++ ((ls.map Prod.fst).flatten ++ tail2))
          omega)
      rcases insert_loop_pass_sim lib opts env tabname statement delimiters
        { ct := F.length, eof := false } fn1 fn2 _ _ ct rows _ (f1 + 1) (f2 + 1) r1 r2
        (hF1.trans hF2.symm) s1 s2 with h | ⟨ops, h1, h2⟩
      · exact h
      · simp only [List.length_append, List.length_cons] at hn hf1 hf2
        have key := ih ls l.2 r1.fn r2.fn (ct + 1) (rows + bl.length + 1) (f1 + 1) (f2 + 1)
          (by omega) hls c1 c2 (by omega) (by omega)
        rw [h1, h2, a1, a2, b1, b2, key]

/-- With a list of names, or without names, `get_field_names` passes over
blank lines and reads the first line with fields into `add_this_line`; `fn`
gets one name for each of its fields. -/
theorem get_field_names_data_lines (delimiters : List CChar) (has_col_names : Nat)
    (field_names : Option (List (List CChar)))
    (hmode : ¬ (has_col_names ≠ 0 ∧ field_names.isNone = true))
    (blanks : List (List CChar × List (List CChar)))
    (first : List CChar × List (List CChar)) (rest : FILE)
    (hb : ∀ l ∈ blanks, l.2 = [] ∧ ∀ rest fn, ∃ res,
        parse_a_line (l.1 ++ rest) fn none delimiters = some res ∧
          res.L = { ct := l.2.length, eof := false } ∧ res.fields = l.2 ∧ res.infile = rest)
    (hfirst : ∀ rest fn, ∃ res, parse_a_line (first.1 ++ rest) fn none delimiters = some res ∧
      res.L = { ct := first.2.length, eof := false } ∧ res.fields = first.2 ∧
      res.infile = rest)
    (hne : first.2 ≠ []) :
    ∃ atl, get_field_names has_col_names field_names
        ((blanks.map Prod.fst).flatten ++ (first.1 ++ rest)) [] [] none delimiters =
        some ((List.range (apop_text_alloc [] first.2.length).length).foldl
            (fun t i => match field_names with
              | some names => apop_text_add t i (names.getD i [])
              | none => apop_text_add t i ([99, 111, 108, 95] ++ decimal i))
            (apop_text_alloc [] first.2.length), atl, rest) ∧
      atl.length = first.2.length ∧ atl.map cstr = first.2 := by
  have hbl := complete_lines_length delimiters blanks (fun l hl => (hb l hl).2)
  have h1 := line_nonempty delimiters first.1 _ _ hfirst
  have hl1 : 1 ≤ first.1.length := List.length_pos.mpr h1
  obtain ⟨atl, e1, e2, e3⟩ := read_until_fields_lines delimiters blanks first rest hfirst hne
    (((blanks.map Prod.fst).flatten ++ (first.1 ++ rest)).length + 1) hb
    (by simp only [List.length_append]; omega)
  refine ⟨atl, ?_, e2, e3⟩
  unfold get_field_names
  rw [if_neg hmode]
  simp only [e1, e2]

/-- Two calls of `apop_text_to_db` issue the same operations and return the
same value when `get_field_names` leaves them the same names and first lines
of the same width and their loops run in the same way. -/
theorem apop_text_to_db_congr {V : Type} (lib : DbLib V) (opts : apop_opts_type)
    (env : DbEnv) (inf1 inf2 : FILE) (tabname : List CChar)
    (has_row_names has_col_names : Nat) (field_names : Option (List (List CChar)))
    (field_params : Option (List (List CChar × List CChar)))
    (table_params : Option (List CChar)) (delimiters : List CChar)
    (fn1 atl1 : Text) (rest1 : FILE) (fn2 atl2 : Text) (rest2 : FILE)
    (g1 : get_field_names
      (if (if has_col_names = 1 ∨ has_col_names = 89 then 121 else has_col_names) = 121
        then 1 else 0) field_names inf1 [] [] none delimiters = some (fn1, atl1, rest1))
    (g2 : get_field_names
      (if (if has_col_names = 1 ∨ has_col_names = 89 then 121 else has_col_names) = 121
        then 1 else 0) field_names inf2 [] [] none delimiters = some (fn2, atl2, rest2))
    (hfn : fn1.map cstr = fn2.map cstr) (hlen : atl1.length = atl2.length)
    (hloop : ∀ statement,
      insert_loop lib opts env tabname statement none delimiters (rest1.length + 2)
          { L := { ct := atl2.length, eof := false }, add_this_line := atl1, infile := rest1,
            ct := 0, rows := 1 } =
        insert_loop lib opts env tabname statement none delimiters (rest2.length + 2)
          { L := { ct := atl2.length, eof := false }, add_this_line := atl2, infile := rest2,
            ct := 0, rows := 1 }) :
    apop_text_to_db lib opts env (some inf1) tabname has_row_names has_col_names field_names
        none field_params table_params delimiters =
      apop_text_to_db lib opts env (some inf2) tabname has_row_names has_col_names field_names
        none field_params table_params delimiters := by
  have hmade := tab_create_sqlite_congr lib env.created tabname
    (if (if has_row_names = 1 ∨ has_row_names = 89 then 121 else has_row_names) = 121
      then 1 else 0) field_params table_params fn1 fn2 hfn
  unfold apop_text_to_db
  simp only [g1, g2, hmade, hlen, hloop]

theorem apop_text_to_db_tails_header {V : Type} (lib : DbLib V) (opts : apop_opts_type)
    (env : DbEnv) (tabname : List CChar) (has_row_names has_col_names : Nat)
    (field_params : Option (List (List CChar × List CChar)))
    (table_params : Option (List CChar)) (delimiters : List CChar)
    (blanks : List (List CChar × List (List CChar)))
    (first second : List CChar × List (List CChar))
    (rest : List (List CChar × List (List CChar))) (tail1 tail2 : FILE)
    (hb : ∀ l ∈ blanks, l.2 = [] ∧ ∀ rest fn, ∃ res,
        parse_a_line (l.1 ++ rest) fn none delimiters = some res ∧
          res.L = { ct := l.2.length, eof := false } ∧ res.fields = l.2 ∧ res.infile = rest)
    (hfirst : ∀ rest fn, ∃ res, parse_a_line (first.1 ++ rest) fn none delimiters = some res ∧
      res.L = { ct := first.2.length, eof := false } ∧ res.fields = first.2 ∧
      res.infile = rest)
    (hne : first.2 ≠ [])
    (hsecond : ∀ rest fn, ∃ res,
      parse_a_line (second.1 ++ rest) fn none delimiters = some res ∧
      res.L = { ct := second.2.length, eof := false } ∧ res.fields = second.2 ∧
      res.infile = rest)
    (hrest : ∀ l ∈ rest, ∀ rest fn, ∃ res,
        parse_a_line (l.1 ++ rest) fn none delimiters = some res ∧
          res.L = { ct := l.2.length, eof := false } ∧ res.fields = l.2 ∧ res.infile = rest)
    (ht1 : ∀ fn, ∃ res, parse_a_line tail1 fn none delimiters = some res ∧ res.L.eof = true)
    (ht2 : ∀ fn, ∃ res, parse_a_line tail2 fn none delimiters = some res ∧ res.L.eof = true)
    (hc : has_col_names = 1 ∨ has_col_names = 89 ∨ has_col_names = 121) :
    apop_text_to_db lib opts env
        (some (((blanks ++ first :: second :: rest).map Prod.fst).flatten ++ tail1)) tabname
        has_row_names has_col_names none none field_params table_params delimiters =
      apop_text_to_db lib opts env
        (some (((blanks ++ first :: second :: rest).map Prod.fst).flatten ++ tail2)) tabname
        has_row_names has_col_names none none field_params table_params delimiters := by
  have hlen := complete_lines_length delimiters rest hrest
  have hin : ∀ t : FILE, ((blanks ++ first :: second :: rest).map Prod.fst).flatten ++ t =
      (blanks.map Prod.fst).flatten ++
        (first.1 ++ (second.1 ++ ((rest.map Prod.fst).flatten ++ t))) := by
    intro t; simp
  have hmode : (if (if has_col_names = 1 ∨ has_col_names = 89 then 121 else has_col_names) =
      121 then 1 else 0) = 1 := by
    rw [hascols_eq has_col_names hc, if_pos rfl]
  obtain ⟨fn1, atl1, g1, a1, b1, c1⟩ := get_field_names_header_lines delimiters 1 (by decide)
    blanks first second ((rest.map Prod.fst).flatten ++ tail1) hb hfirst hne hsecond
  obtain ⟨fn2, atl2, g2, a2, b2, c2⟩ := get_field_names_header_lines delimiters 1 (by decide)
    blanks first second ((rest.map Prod.fst).flatten ++ tail2) hb hfirst hne hsecond
  rw [hin, hin]
  refine apop_text_to_db_congr lib opts env _ _ tabname has_row_names has_col_names none
    field_params table_params delimiters fn1 atl1 _ fn2 atl2 _ (by rw [hmode]; exact g1)
    (by rw [hmode]; exact g2) (a1.trans a2.symm) (b1.trans b2.symm) ?_
  intro statement
  rw [b2]
  exact insert_loop_sim lib opts env tabname statement delimiters tail1 tail2 ht1 ht2
    rest.length rest second.2 atl1 atl2 0 1 _ _ (Nat.le_refl _) hrest
    (by rw [← b1, List.take_length, c1]) (by rw [← b2, List.take_length, c2])
    (by have e := List.length_append (rest.map Prod.fst).flatten tail1; omega)
    (by have e := List.length_append (rest.map Prod.fst).flatten tail2; omega)

theorem apop_text_to_db_tails_plain {V : Type} (lib : DbLib V) (opts : apop_opts_type)
    (env : DbEnv) (tabname : List CChar) (has_row_names has_col_names : Nat)
    (field_names : Option (List (List CChar)))
    (field_params : Option (List (List CChar × List CChar)))
    (table_params : Option (List CChar)) (delimiters : List CChar)
    (blanks : List (List CChar × List (List CChar)))
    (first : List CChar × List (List CChar))
    (rest : List (List CChar × List (List CChar))) (tail1 tail2 : FILE)
    (hb : ∀ l ∈ blanks, l.2 = [] ∧ ∀ rest fn, ∃ res,
        parse_a_line (l.1 ++ rest) fn none delimiters = some res ∧
          res.L = { ct := l.2.length, eof := false } ∧ res.fields = l.2 ∧ res.infile = rest)
    (hfirst : ∀ rest fn, ∃ res, parse_a_line (first.1 ++ rest) fn none delimiters = some res ∧
      res.L = { ct := first.2.length, eof := false } ∧ res.fields = first.2 ∧
      res.infile = rest)
    (hne : first.2 ≠ [])
    (hrest : ∀ l ∈ rest, ∀ rest fn, ∃ res,
        parse_a_line (l.1 ++ rest) fn none delimiters = some res ∧
          res.L = { ct := l.2.length, eof := false } ∧ res.fields = l.2 ∧ res.infile = rest)
    (ht1 : ∀ fn, ∃ res, parse_a_line tail1 fn none delimiters = some res ∧ res.L.eof = true)
    (ht2 : ∀ fn, ∃ res, parse_a_line tail2 fn none delimiters = some res ∧ res.L.eof = true)
    (hc : ¬ ((has_col_names = 1 ∨ has_col_names = 89 ∨ has_col_names = 121) ∧
      field_names = none)) :
    apop_text_to_db lib opts env
        (some (((blanks ++ first :: rest).map Prod.fst).flatten ++ tail1)) tabname
        has_row_names has_col_names field_names none field_params table_params delimiters =
      apop_text_to_db lib opts env
        (some (((blanks ++ first :: rest).map Prod.fst).flatten ++ tail2)) tabname
        has_row_names has_col_names field_names none field_params table_params delimiters := by
  have hlen := complete_lines_length delimiters rest hrest
  have hin : ∀ t : FILE, ((blanks ++ first :: rest).map Prod.fst).flatten ++ t =
      (blanks.map Prod.fst).flatten ++ (first.1 ++ ((rest.map Prod.fst).flatten ++ t)) := by
    intro t; simp
  have hmode : ¬ ((if (if has_col_names = 1 ∨ has_col_names = 89 then 121
      else has_col_names) = 121 then 1 else 0) ≠ 0 ∧ field_names.isNone = true) := by
    rintro ⟨h1, h2⟩
    apply hc
    refine ⟨?_, Option.isNone_iff_eq_none.mp h2⟩
    by_cases h3 : has_col_names = 1 ∨ has_col_names = 89
    · rcases h3 with h3 | h3
      · exact Or.inl h3
      · exact Or.inr (Or.inl h3)
    · rw [if_neg h3] at h1
      by_cases h4 : has_col_names = 121
      · exact Or.inr (Or.inr h4)
      · rw [if_neg h4] at h1
        exact absurd rfl h1
  obtain ⟨atl1, g1, b1, c1⟩ := get_field_names_data_lines delimiters _ field_names hmode
    blanks first ((rest.map Prod.fst).flatten ++ tail1) hb hfirst hne
  obtain ⟨atl2, g2, b2, c2⟩ := get_field_names_data_lines delimiters _ field_names hmode
    blanks first ((rest.map Prod.fst).flatten ++ tail2) hb hfirst hne
  rw [hin, hin]
  refine apop_text_to_db_congr lib opts env _ _ tabname has_row_names has_col_names
    field_names field_params table_params delimiters _ atl1 _ _ atl2 _ g1 g2 rfl
    (b1.trans b2.symm) ?_
  intro statement
  rw [b2]
  exact insert_loop_sim lib opts env tabname statement delimiters tail1 tail2 ht1 ht2
    rest.length rest first.2 atl1 atl2 0 1 _ _ (Nat.le_refl _) hrest
    (by rw [← b1, List.take_length, c1]) (by rw [← b2, List.take_length, c2])
    (by have e := List.length_append (rest.map Prod.fst).flatten tail1; omega)
    (by have e := List.length_append (rest.map Prod.fst).flatten tail2; omega)

/-- C34: let the input be complete lines (each read by the tokenizer with its
newline, whatever follows) of which one has fields, followed by a last line
that the tokenizer reports as ended by the end of the input.  Then
`apop_text_to_data` returns the same set, and `apop_text_to_db` issues the same
operations and returns the same value, as on the input without that last
line: the last line is not stored.  With a header line read from the file the
line with fields is the header, and a further complete line has to follow it;
otherwise the last line is read as the first data line.  The byte `0xFF` is
not a delimiter. -/
theorem final_line_without_newline_not_ingested {V W : Type} (lib : NumLib V)
    (dlib : DbLib W) (opts : apop_opts_type) (env : DbEnv) (delimiters : List CChar)
    (h255 : 255 ∉ delimiters)
    (blanks : List (List CChar × List (List CChar)))
    (first : List CChar × List (List CChar))
    (rest : List (List CChar × List (List CChar))) (last : List CChar)
    (hb : ∀ l ∈ blanks, l.2 = [] ∧ ∀ rest fn, ∃ res,
        parse_a_line (l.1 ++ rest) fn none delimiters = some res ∧
          res.L = { ct := l.2.length, eof := false } ∧ res.fields = l.2 ∧ res.infile = rest)
    (hfirst : ∀ rest fn, ∃ res, parse_a_line (first.1 ++ rest) fn none delimiters = some res ∧
      res.L = { ct := first.2.length, eof := false } ∧ res.fields = first.2 ∧
      res.infile = rest)
    (hne : first.2 ≠ [])
    (hrest : ∀ l ∈ rest, ∀ rest fn, ∃ res,
        parse_a_line (l.1 ++ rest) fn none delimiters = some res ∧
          res.L = { ct := l.2.length, eof := false } ∧ res.fields = l.2 ∧ res.infile = rest)
    (hlast : ∀ fn, ∃ res, parse_a_line last fn none delimiters = some res ∧
      res.L.eof = true) :
    (∀ has_row_names has_col_names,
      ((has_col_names = 1 ∨ has_col_names = 89 ∨ has_col_names = 121) → rest ≠ []) →
      apop_text_to_data lib
          (some (((blanks ++ first :: rest).map Prod.fst).flatten ++ last))
          has_row_names has_col_names none delimiters =
        apop_text_to_data lib
          (some ((blanks ++ first :: rest).map Prod.fst).flatten)
          has_row_names has_col_names none delimiters) ∧
    (∀ tabname has_row_names has_col_names field_names field_params table_params,
      (((has_col_names = 1 ∨ has_col_names = 89 ∨ has_col_names = 121) ∧
        field_names = none) → rest ≠ []) →
      apop_text_to_db dlib opts env
          (some (((blanks ++ first :: rest).map Prod.fst).flatten ++ last)) tabname
          has_row_names has_col_names field_names none field_params table_params delimiters =
        apop_text_to_db dlib opts env
          (some ((blanks ++ first :: rest).map Prod.fst).flatten) tabname
          has_row_names has_col_names field_names none field_params table_params
          delimiters) := by
  have hnil : ∀ fn, ∃ res, parse_a_line [] fn none delimiters = some res ∧
      res.L.eof = true := by
    intro fn
    obtain ⟨res, h1, h2, _⟩ := parse_a_line_nil fn delimiters h255
    exact ⟨res, h1, by rw [h2]⟩
  constructor
  · intro has_row_names has_col_names hhdr
    have key := apop_text_to_data_tails lib delimiters has_row_names has_col_names blanks
      first rest last [] hb hfirst hne hrest hlast hnil hhdr
    rw [List.append_nil] at key
    exact key
  · intro tabname has_row_names has_col_names field_names field_params table_params hhdr
    by_cases hc : (has_col_names = 1 ∨ has_col_names = 89 ∨ has_col_names = 121) ∧
        field_names = none
    · obtain ⟨second, rest2, rfl⟩ : ∃ s r, rest = s :: r := by
        cases hr : rest with
        | nil => exact absurd hr (hhdr hc)
        | cons s r => exact ⟨s, r, rfl⟩
      obtain ⟨hc1, rfl⟩ := hc
      have key := apop_text_to_db_tails_header dlib opts env tabname has_row_names
        has_col_names field_params table_params delimiters blanks first second rest2 last []
        hb hfirst hne (hrest second (by simp)) (fun l hl => hrest l (by simp [hl])) hlast hnil
        hc1
      rw [List.append_nil] at key
      exact key
    · have key := apop_text_to_db_tails_plain dlib opts env tabname has_row_names
        has_col_names field_names field_params table_params delimiters blanks first rest last
        [] hb hfirst hne hrest hlast hnil hc
      rw [List.append_nil] at key
      exact key

/-- Witness for C34: the lines `1,2` and `3,4` with the default delimiters,
followed by the last line `5,6` without a newline. -/
theorem final_line_without_newline_not_ingested_witness :
    (∀ has_row_names has_col_names,
      ((has_col_names = 1 ∨ has_col_names = 89 ∨ has_col_names = 121) →
        ([([51, 44, 52, 10], [[51], [52]])] : List (List CChar × List (List CChar))) ≠ []) →
      apop_text_to_data digits_lib
          (some ((([] ++ ([49, 44, 50, 10], [[49], [50]]) ::
            [([51, 44, 52, 10], [[51], [52]])] :
              List (List CChar × List (List CChar))).map Prod.fst).flatten ++ [53, 44, 54]))
          has_row_names has_col_names none default_delimiters =
        apop_text_to_data digits_lib
          (some (([] ++ ([49, 44, 50, 10], [[49], [50]]) ::
            [([51, 44, 52, 10], [[51], [52]])] :
              List (List CChar × List (List CChar))).map Prod.fst).flatten)
          has_row_names has_col_names none default_delimiters) ∧
    (∀ tabname has_row_names has_col_names field_names field_params table_params,
      (((has_col_names = 1 ∨ has_col_names = 89 ∨ has_col_names = 121) ∧
        field_names = none) →
        ([([51, 44, 52, 10], [[51], [52]])] : List (List CChar × List (List CChar))) ≠ []) →
      apop_text_to_db ex_lib default_opts sqlite_ok
          (some ((([] ++ ([49, 44, 50, 10], [[49], [50]]) ::
            [([51, 44, 52, 10], [[51], [52]])] :
              List (List CChar × List (List CChar))).map Prod.fst).flatten ++ [53, 44, 54]))
          tabname has_row_names has_col_names field_names none field_params table_params
          default_delimiters =
        apop_text_to_db ex_lib default_opts sqlite_ok
          (some (([] ++ ([49, 44, 50, 10], [[49], [50]]) ::
            [([51, 44, 52, 10], [[51], [52]])] :
              List (List CChar × List (List CChar))).map Prod.fst).flatten)
          tabname has_row_names has_col_names field_names none field_params table_params
          default_delimiters) :=
  final_line_without_newline_not_ingested digits_lib ex_lib default_opts sqlite_ok
    default_delimiters (by decide) [] ([49, 44, 50, 10], [[49], [50]])
    [([51, 44, 52, 10], [[51], [52]])] [53, 44, 54]
    (fun l hl => by simp at hl)
    (by
      intro rest fn
      obtain ⟨res, h1, h2, h3, h4⟩ := obs_of_aparse ([49, 44, 50, 10] ++ rest) fn
        default_delimiters ([[49], [50]], { ct := 2, eof := false }, rest) (by
          simp [aparse, aloop, aiter, read_step, parse_next_char, fgetc, char_type, strchr,
            default_delimiters, afield_step, afield_fill, aopen, aclose, aextend, AState.init,
            cstr, EOF])
      exact ⟨res, h1, h3, h2, h4⟩)
    (by decide)
    (by
      intro l hl rest fn
      simp only [List.mem_singleton] at hl
      subst hl
      obtain ⟨res, h1, h2, h3, h4⟩ := obs_of_aparse ([51, 44, 52, 10] ++ rest) fn
        default_delimiters ([[51], [52]], { ct := 2, eof := false }, rest) (by
          simp [aparse, aloop, aiter, read_step, parse_next_char, fgetc, char_type, strchr,
            default_delimiters, afield_step, afield_fill, aopen, aclose, aextend, AState.init,
            cstr, EOF])
      exact ⟨res, h1, h3, h2, h4⟩)
    (by
      intro fn
      obtain ⟨res, h1, _, h3, _⟩ := obs_of_aparse [53, 44, 54] fn
        default_delimiters ([[53], [54]], { ct := 2, eof := true }, []) (by
          simp [aparse, aloop, aiter, read_step, parse_next_char, fgetc, char_type, strchr,
            default_delimiters, afield_step, afield_fill, aopen, aclose, aextend, AState.init,
            cstr, EOF])
      exact ⟨res, h1, by rw [h3]⟩)

/-! ## The columns of the table and the values of a row -/

theorem intercalate_snoc {α : Type} (sep : List α) (L : List (List α)) (y : List α) :
    sep.intercalate (L ++ [y]) =
      (if L.length = 0 then [] else sep.intercalate L ++ sep) ++ y := by
  induction L with
  | nil => simp [List.intercalate]
  | cons x xs ih =>
    cases xs with
    | nil => simp [List.intercalate]
    | cons z zs =>
      have h1 : sep.intercalate (x :: (z :: zs ++ [y])) =
          x ++ sep ++ sep.intercalate (z :: zs ++ [y]) := by
        simp [List.intercalate]
      have h2 : sep.intercalate (x :: z :: zs) = x ++ sep ++ sep.intercalate (z :: zs) := by
        simp [List.intercalate]
      rw [List.cons_append, h1, ih, if_neg (by simp), if_neg (by simp), h2]
      simp only [List.append_assoc]

/-- The loop of `tab_create_sqlite` after the columns `0 .. m`: the
declarations of the columns before `m` are complete, that of column `m` is
open behind its name. -/
theorem foldl_create_col {V : Type} (lib : DbLib V) (has_row_names : Nat)
    (field_params : Option (List (List CChar × List CChar))) (fn : Text) (q0 : List CChar)
    (rown : List (List CChar)) (decl : Nat → List CChar)
    (hrown : rown = if has_row_names ≠ 0 then [bytes "'row_names'"] else [])
    (hdecl : ∀ i, decl i = bytes " '" ++ cstr (fn.getD i []) ++ bytes "' " ++
      get_field_conditions lib (cstr (fn.getD i [])) field_params)
    (m : Nat) :
    (List.range (m + 1)).foldl (create_col lib has_row_names field_params fn) q0 =
      q0 ++ bytes " (" ++
        (if (rown ++ (List.range m).map decl).length = 0 then []
          else (bytes ", ").intercalate (rown ++ (List.range m).map decl) ++ bytes ", ") ++
        bytes " '" ++ cstr (fn.getD m []) := by
  induction m with
  | zero =>
    have hr1 : List.range 1 = [0] := rfl
    rw [Nat.zero_add, hr1, List.foldl_cons, List.foldl_nil]
    unfold create_col
    simp only [if_true, List.range_zero, List.map_nil, List.append_nil]
    by_cases h : has_row_names ≠ 0
    · rw [if_pos h] at hrown
      rw [if_pos h, hrown, if_neg (by simp)]
      have e : bytes " ('row_names', " = bytes " (" ++ (bytes "'row_names'" ++ bytes ", ") := by
        decide
      simp only [List.intercalate, List.intersperse_single, List.flatten_cons,
        List.flatten_nil, List.append_nil, e, List.append_assoc]
    · rw [if_neg h] at hrown
      rw [if_neg h, hrown, if_pos List.length_nil]
      simp only [List.append_nil]
  | succ m ih =>
    have hL : rown ++ (List.range (m + 1)).map decl =
        (rown ++ (List.range m).map decl) ++ [decl m] := by
      rw [List.range_succ, List.map_append, List.map_singleton, List.append_assoc]
    have hne : ¬ (((rown ++ (List.range m).map decl) ++ [decl m]).length = 0) := by simp
    rw [List.range_succ, List.foldl_append, ih, List.foldl_cons, List.foldl_nil, hL,
      if_neg hne, intercalate_snoc, hdecl m]
    conv_lhs => unfold create_col
    simp only [Nat.add_one_ne_zero, if_false, Nat.add_sub_cancel, List.append_assoc]

/-- The query of `tab_create_sqlite` is the `create table` statement with the
column declarations of the field names. -/
theorem create_query_statement {V : Type} (lib : DbLib V) (tabname : List CChar)
    (has_row_names : Nat) (field_params : Option (List (List CChar × List CChar)))
    (table_params : Option (List CChar)) (fn : Text) (hfn : fn ≠ []) :
    create_query lib tabname has_row_names field_params table_params fn =
      create_statement tabname (column_decls lib has_row_names field_params fn)
        table_params := by
  obtain ⟨m, hm⟩ : ∃ m, fn.length = m + 1 :=
    ⟨fn.length - 1, by have := List.length_pos.mpr hfn; omega⟩
  have hL : (if has_row_names ≠ 0 then [bytes "'row_names'"] else []) ++
      (List.range (m + 1)).map (fun i =>
        bytes " '" ++ cstr (fn.getD i []) ++ bytes "' " ++
          get_field_conditions lib (cstr (fn.getD i [])) field_params) =
      ((if has_row_names ≠ 0 then [bytes "'row_names'"] else []) ++
        (List.range m).map (fun i =>
          bytes " '" ++ cstr (fn.getD i []) ++ bytes "' " ++
            get_field_conditions lib (cstr (fn.getD i [])) field_params)) ++
      [bytes " '" ++ cstr (fn.getD m []) ++ bytes "' " ++
          get_field_conditions lib (cstr (fn.getD m [])) field_params] := by
    simp only [List.range_succ, List.map_append, List.map_cons, List.map_nil,
      List.append_assoc]
  unfold create_query create_statement column_decls
  simp only []
  rw [hm, foldl_create_col lib has_row_names field_params fn _ _ _ rfl (fun _ => rfl) m, hL,
    intercalate_snoc, Nat.add_sub_cancel]
  simp only [List.append_assoc]

theorem column_decls_length {V : Type} (lib : DbLib V) (has_row_names : Nat)
    (field_params : Option (List (List CChar × List CChar))) (fn : Text) :
    (column_decls lib has_row_names field_params fn).length =
      fn.length + (if has_row_names ≠ 0 then 1 else 0) := by
  unfold column_decls
  by_cases h : has_row_names ≠ 0
  · simp only [if_pos h, List.length_append, List.length_map, List.length_range,
      List.length_singleton]
    omega
  · simp only [if_neg h, List.nil_append, List.length_map, List.length_range, Nat.add_zero]

theorem flatten_values (val : Nat → List CChar) (n : Nat) :
    ((List.range (n + 1)).map (fun col => (if col = 0 then 32 else 44) :: val col)).flatten =
      bytes " " ++ (bytes ",").intercalate ((List.range (n + 1)).map val) := by
  have hb : bytes " " = [32] := rfl
  have hc : bytes "," = [44] := rfl
  induction n with
  | zero =>
    have hr1 : List.range 1 = [0] := rfl
    rw [Nat.zero_add, hr1]
    simp [List.intercalate, hb]
  | succ n ih =>
    rw [List.range_succ, List.map_append, List.flatten_append, ih, List.map_append,
      List.map_cons, List.map_nil, List.map_cons, List.map_nil, intercalate_snoc,
      if_neg (by simp)]
    simp [hc]

/-- Without a statement `line_to_insert` sends an `INSERT` statement with one
value for each field of the line. -/
theorem line_to_insert_statement {V : Type} (lib : DbLib V) (opts : apop_opts_type)
    (L : line_parse_t) (addme : Text) (tabname : List CChar) (hct : L.ct ≠ 0) :
    line_to_insert lib opts L addme tabname false =
      [DbOp.query (insert_statement tabname (insert_values lib opts addme L.ct))] := by
  obtain ⟨n, hn⟩ : ∃ n, L.ct = n + 1 := ⟨L.ct - 1, by omega⟩
  rw [line_to_insert_text lib opts L addme tabname hct]
  unfold insert_statement insert_values
  rw [hn]
  have h := flatten_values (fun col =>
    match prep_string_for_sqlite lib opts 0 ((addme.get? col).map cstr) with
    | some v => bytes " " ++ v
    | none => bytes "NULL") n
  simp only [List.append_assoc]
  erw [h]
  all_goals simp only [List.append_assoc]

theorem foldl_length_preserved {α β : Type} (f : List α → β → List α)
    (h : ∀ t i, (f t i).length = t.length) (l : List β) (t : List α) :
    (l.foldl f t).length = t.length := by
  induction l generalizing t with
  | nil => rfl
  | cons x xs ih => rw [List.foldl_cons, ih, h]

theorem foldl_append_const {α β : Type} (s : List α) (l : List β) (q : List α) :
    l.foldl (fun q _ => q ++ s) q = q ++ (List.replicate l.length s).flatten := by
  induction l generalizing q with
  | nil => simp
  | cons x xs ih =>
    rw [List.foldl_cons, ih, List.length_cons, List.replicate_succ, List.flatten_cons,
      List.append_assoc]

/-- C36: the query of `tab_create_sqlite` for the field names `fn` is the
`create table` statement with one column declaration for each field name, and
the column `row_names` before them when `has_row_names` is set: `fn.length + 1`
or `fn.length` declarations.  With a list of names or with synthesized names
`get_field_names` passes over blank lines, reads the first line with fields,
and returns as many names as that line has fields.  `line_to_insert` sends an
`INSERT` statement with one value for each field of its line, and the prepared
statement for `col_ct` fields has `col_ct` parameters.  So with row names the
table has one column more than a row of the width of the first line has
values, and without row names as many. -/
theorem tab_create_sqlite_column_count {V : Type} (lib : DbLib V) (opts : apop_opts_type)
    (created : Bool) (tabname : List CChar) (has_row_names : Nat)
    (field_params : Option (List (List CChar × List CChar)))
    (table_params : Option (List CChar)) (fn : Text) (hfn : fn ≠ [])
    (delimiters : List CChar) (has_col_names : Nat)
    (field_names : Option (List (List CChar)))
    (hmode : ¬ (has_col_names ≠ 0 ∧ field_names.isNone = true))
    (blanks : List (List CChar × List (List CChar)))
    (first : List CChar × List (List CChar)) (rest : FILE)
    (hb : ∀ l ∈ blanks, l.2 = [] ∧ ∀ rest fn, ∃ res,
        parse_a_line (l.1 ++ rest) fn none delimiters = some res ∧
          res.L = { ct := l.2.length, eof := false } ∧ res.fields = l.2 ∧ res.infile = rest)
    (hfirst : ∀ rest fn, ∃ res, parse_a_line (first.1 ++ rest) fn none delimiters = some res ∧
      res.L = { ct := first.2.length, eof := false } ∧ res.fields = first.2 ∧
      res.infile = rest)
    (hne : first.2 ≠ [])
    (L : line_parse_t) (addme : Text) (hct : L.ct ≠ 0) (col_ct : Nat) :
    ((tab_create_sqlite lib created tabname has_row_names field_params table_params
        fn).2.head? =
      some (DbOp.query (create_statement tabname
        (column_decls lib has_row_names field_params fn) table_params)) ∧
     (column_decls lib has_row_names field_params fn).length =
       fn.length + (if has_row_names ≠ 0 then 1 else 0)) ∧
    (∃ names atl, get_field_names has_col_names field_names
        ((blanks.map Prod.fst).flatten ++ (first.1 ++ rest)) [] [] none delimiters =
        some (names, atl, rest) ∧
      names.length = first.2.length ∧ atl.length = first.2.length ∧
      atl.map cstr = first.2 ∧
      (column_decls lib has_row_names field_params names).length =
        atl.length + (if has_row_names ≠ 0 then 1 else 0)) ∧
    (line_to_insert lib opts L addme tabname false =
      [DbOp.query (insert_statement tabname (insert_values lib opts addme L.ct))] ∧
     (insert_values lib opts addme L.ct).length = L.ct) ∧
    prepared_query tabname col_ct =
      bytes "INSERT INTO " ++ tabname ++ bytes " VALUES (?" ++
        (List.replicate (col_ct - 1) (bytes ", ?")).flatten ++ bytes ")" := by
  refine ⟨⟨?_, column_decls_length lib has_row_names field_params fn⟩, ?_,
    ⟨line_to_insert_statement lib opts L addme tabname hct, ?_⟩, ?_⟩
  · unfold tab_create_sqlite
    simp only []
    rw [create_query_statement lib tabname has_row_names field_params table_params fn hfn]
    cases created <;> rfl
  · obtain ⟨atl, g, b, c⟩ := get_field_names_data_lines delimiters has_col_names field_names
      hmode blanks first rest hb hfirst hne
    have key : ∀ names, get_field_names has_col_names field_names
        ((blanks.map Prod.fst).flatten ++ (first.1 ++ rest)) [] [] none delimiters =
        some (names, atl, rest) → names.length = first.2.length := by
      intro names h
      rw [g] at h
      simp only [Option.some.injEq, Prod.mk.injEq, and_true] at h
      rw [← h, foldl_length_preserved _ _ _ _, length_apop_text_alloc]
      · simp
      · intro t i
        cases field_names <;> simp [apop_text_add]
    refine ⟨_, atl, g, key _ g, b, c, ?_⟩
    rw [column_decls_length, key _ g, b]
  · simp [insert_values]
  · unfold prepared_query
    rw [foldl_append_const]
    simp

/-- Witness for C36: the names `a` and `b` with row names give the statement
`create table t ('row_names',  'a' numeric,  'b' numeric);` of three columns;
the line `1,2` gives two synthesized names and an `INSERT` statement of two
values. -/
theorem tab_create_sqlite_column_count_witness :
    ((tab_create_sqlite ex_lib true (bytes "t") 1 none none [[97, 0], [98, 0]]).2.head? =
      some (DbOp.query (create_statement (bytes "t")
        (column_decls ex_lib 1 none [[97, 0], [98, 0]]) none)) ∧
     (column_decls ex_lib 1 none [[97, 0], [98, 0]]).length =
       ([[97, 0], [98, 0]] : Text).length + (if 1 ≠ 0 then 1 else 0)) ∧
    (∃ names atl, get_field_names 0 none
        ((([] : List (List CChar × List (List CChar))).map Prod.fst).flatten ++
          ([49, 44, 50, 10] ++ [])) [] [] none default_delimiters =
        some (names, atl, []) ∧
      names.length = ([[49], [50]] : List (List CChar)).length ∧
      atl.length = ([[49], [50]] : List (List CChar)).length ∧
      atl.map cstr = [[49], [50]] ∧
      (column_decls ex_lib 1 none names).length =
        atl.length + (if 1 ≠ 0 then 1 else 0)) ∧
    (line_to_insert ex_lib default_opts { ct := 2, eof := false } [[49, 0], [50, 0]]
        (bytes "t") false =
      [DbOp.query (insert_statement (bytes "t")
        (insert_values ex_lib default_opts [[49, 0], [50, 0]] 2))] ∧
     (insert_values ex_lib default_opts [[49, 0], [50, 0]] 2).length = 2) ∧
    prepared_query (bytes "t") 2 =
      bytes "INSERT INTO " ++ bytes "t" ++ bytes " VALUES (?" ++
        (List.replicate (2 - 1) (bytes ", ?")).flatten ++ bytes ")" :=
  tab_create_sqlite_column_count ex_lib default_opts true (bytes "t") 1 none none
    [[97, 0], [98, 0]] (by decide) default_delimiters 0 none (by decide) []
    ([49, 44, 50, 10], [[49], [50]]) []
    (fun l hl => by simp at hl)
    (by
      intro rest fn
      obtain ⟨res, h1, h2, h3, h4⟩ := obs_of_aparse ([49, 44, 50, 10] ++ rest) fn
        default_delimiters ([[49], [50]], { ct := 2, eof := false }, rest) (by
          simp [aparse, aloop, aiter, read_step, parse_next_char, fgetc, char_type, strchr,
            default_delimiters, afield_step, afield_fill, aopen, aclose, aextend, AState.init,
            cstr, EOF])
      exact ⟨res, h1, h3, h2, h4⟩)
    (by decide) { ct := 2, eof := false } [[49, 0], [50, 0]] (by decide) 2

/-! ## The quotes around a string literal -/

theorem prep_string_text_literal {V : Type} (lib : DbLib V)
    (opts : apop_opts_type) (s : List CChar) (h0 : 0 ∉ s) (hne : s ≠ [])
    (hnan : s.map tolower ≠ opts.db_nan.map tolower) (hnum : (lib.strtod s).2 < s.length) :
    prep_string_for_sqlite lib opts 0 (some s) =
      some (if 39 ∈ s then [34] ++ s ++ [34] else [39] ++ s ++ [39]) := by
  have h1 : ¬ (s.getD 0 0 = 0 ∨ strcasecmp opts.db_nan s = 0) := by
    rw [getD_zero_of_cstring s h0, strcasecmp_eq_zero, not_or]
    exact ⟨hne, fun e => hnan e.symm⟩
  have h2 : s.getD (lib.strtod s).2 0 ≠ 0 := (getD_of_cstring s h0 _).mpr hnum
  unfold prep_string_for_sqlite
  simp only [h1, if_false, h2, ne_eq, not_false_eq_true, if_true, strchr]
  by_cases h39 : 39 ∈ s
  · simp [h39]
  · simp [h39]

/-- C37 (refuted as stated): without a prepared statement, for every C string
that is not missing and not a number the literal is the string between two
copies of a quote character `q`, the double quote when the string holds a
single quote and the single quote otherwise.  The literal holds `q` twice more
than the string does; so it holds `q` exactly twice if and only if the string
does not hold both a single and a double quote.  A string with both quotes is
wrapped in double quotes and has a double quote inside. -/
theorem prep_string_for_sqlite_quote_count {V : Type} (lib : DbLib V)
    (opts : apop_opts_type) (s : List CChar) (h0 : 0 ∉ s) (hne : s ≠ [])
    (hnan : s.map tolower ≠ opts.db_nan.map tolower) (hnum : (lib.strtod s).2 < s.length) :
    ∃ q out, q = (if 39 ∈ s then 34 else 39) ∧
      prep_string_for_sqlite lib opts 0 (some s) = some out ∧
      out = [q] ++ s ++ [q] ∧ out.count q = s.count q + 2 ∧
      (out.count q = 2 ↔ ¬ (39 ∈ s ∧ 34 ∈ s)) := by
  have h := prep_string_text_literal lib opts s h0 hne hnan hnum
  by_cases h39 : 39 ∈ s
  · rw [if_pos h39] at h
    refine ⟨34, [34] ++ s ++ [34], by rw [if_pos h39], h, rfl, ?_, ?_⟩
    · simp [List.count_append]
    · have hc : ([34] ++ s ++ [34]).count 34 = s.count 34 + 2 := by
        simp [List.count_append]
      rw [hc]
      constructor
      · intro hh ⟨_, h34⟩
        have := List.count_pos_iff.mpr h34
        omega
      · intro hh
        have h34 : 34 ∉ s := fun x => hh ⟨h39, x⟩
        rw [List.count_eq_zero_of_not_mem h34]
  · rw [if_neg h39] at h
    refine ⟨39, [39] ++ s ++ [39], by rw [if_neg h39], h, rfl, ?_, ?_⟩
    · simp [List.count_append]
    · have hc : ([39] ++ s ++ [39]).count 39 = s.count 39 + 2 := by
        simp [List.count_append]
      rw [hc, List.count_eq_zero_of_not_mem h39]
      simp [h39]

/-- Witness for C37, at the failing input: the string `a'b"c` is wrapped in
double quotes, and the literal `"a'b"c"` holds the double quote three
times. -/
theorem prep_string_for_sqlite_quote_count_witness :
    ∃ q out, q = (if 39 ∈ ([97, 39, 98, 34, 99] : List CChar) then 34 else 39) ∧
      prep_string_for_sqlite ex_lib default_opts 0 (some [97, 39, 98, 34, 99]) = some out ∧
      out = [q] ++ [97, 39, 98, 34, 99] ++ [q] ∧
      out.count q = ([97, 39, 98, 34, 99] : List CChar).count q + 2 ∧
      (out.count q = 2 ↔
        ¬ (39 ∈ ([97, 39, 98, 34, 99] : List CChar) ∧
          34 ∈ ([97, 39, 98, 34, 99] : List CChar))) :=
  prep_string_for_sqlite_quote_count ex_lib default_opts [97, 39, 98, 34, 99]
    (by decide) (by decide) (by decide) (by decide)

/-! ## The row buffer before the call -/

theorem cell_update_sim (fn1 fn2 : Text) (i : Nat) (x : List CChar) (h1 : i < fn1.length)
    (h2 : i < fn2.length) (ht : fn1.take i = fn2.take i) :
    (fn1.set i x).take (i + 1) = (fn2.set i x).take (i + 1) := by
  rw [take_succ_set fn1 i x h1, take_succ_set fn2 i x h2, ht]

theorem getD_of_take_eq (fn1 fn2 : Text) (n i : Nat) (hi : i < n)
    (h : fn1.take n = fn2.take n) : fn1.getD i [] = fn2.getD i [] := by
  have e1 : fn1.getD i [] = (fn1.take n).getD i [] := by
    simp only [List.getD_eq_getElem?_getD, List.getElem?_take_of_lt hi]
  have e2 : fn2.getD i [] = (fn2.take n).getD i [] := by
    simp only [List.getD_eq_getElem?_getD, List.getElem?_take_of_lt hi]
  rw [e1, e2, h]

theorem take_of_take_succ (fn1 fn2 : Text) (k : Nat) (h : fn1.take (k + 1) = fn2.take (k + 1)) :
    fn1.take k = fn2.take k := by
  have e := congrArg (List.take k) h
  simpa [List.take_take] using e

theorem first_byte_cell (cell : List CChar) (c : CChar) : (realloc cell 1).set 0 c = [c] := by
  have h := realloc_set_take cell 0 c (Nat.zero_le _)
  simpa using h

theorem take_alloc_cell (fn : Text) (ct : Nat) (h : ct ≤ fn.length) :
    (if ct + 1 > fn.length then apop_text_alloc fn (ct + 1) else fn).take ct = fn.take ct ∧
      ct < (if ct + 1 > fn.length then apop_text_alloc fn (ct + 1) else fn).length := by
  by_cases hc : ct + 1 > fn.length
  · rw [if_pos hc]
    unfold apop_text_alloc
    constructor
    · rw [List.take_append_of_le_length h]
    · rw [List.length_append, List.length_replicate]
      omega
  · rw [if_neg hc]
    exact ⟨rfl, by omega⟩

theorem fixed_step_in_sim (behind : Nat → Int) (fn1 fn2 : Text) (k posn t q : Nat)
    (fe : List Nat) (c : CChar)
    (h1 : k < fn1.length) (h2 : k < fn2.length) (ht : fn1.take k = fn2.take k)
    (hcell : t = 0 ∨ fn1.getD k [] = fn2.getD k []) :
    ∃ fn1' fn2' posn' t' nf' fe' q',
      fixed_step behind { fn := fn1, ct := k + 1, posn := posn, thisflen := t,
                          needfield := false, field_ends := fe, past := q } c =
        { fn := fn1', ct := k + 1, posn := posn', thisflen := t', needfield := nf',
          field_ends := fe', past := q' } ∧
      fixed_step behind { fn := fn2, ct := k + 1, posn := posn, thisflen := t,
                          needfield := false, field_ends := fe, past := q } c =
        { fn := fn2', ct := k + 1, posn := posn', thisflen := t', needfield := nf',
          field_ends := fe', past := q' } ∧
      fn1'.take (k + 1) = fn2'.take (k + 1) ∧ k < fn1'.length ∧ k < fn2'.length := by
  have hH : (realloc (fn1.getD k []) (t + 1)).set t c =
      (realloc (fn2.getD k []) (t + 1)).set t c := by
    rcases hcell with e | e
    · subst e
      exact (first_byte_cell _ c).trans (first_byte_cell _ c).symm
    · rw [e]
  rw [fixed_step_in behind fn1 k posn t q fe c h1, fixed_step_in behind fn2 k posn t q fe c h2,
    hH]
  by_cases hh : ((posn + 1 : Nat) : Int) = read_field_ends behind fe q
  · rw [if_pos hh, if_pos hh]
    exact ⟨_, _, _, _, _, _, _, rfl, rfl, cell_update_sim fn1 fn2 k _ h1 h2 ht,
      by rw [List.length_set]; exact h1, by rw [List.length_set]; exact h2⟩
  · rw [if_neg hh, if_neg hh]
    exact ⟨_, _, _, _, _, _, _, rfl, rfl, cell_update_sim fn1 fn2 k _ h1 h2 ht,
      by rw [List.length_set]; exact h1, by rw [List.length_set]; exact h2⟩

/-- One pass of the loop of `parse_a_fixed_line` from two states that agree on
the locals and on the first `ct` cells of the row buffer. -/
theorem fixed_step_sim (behind : Nat → Int) (fn1 fn2 : Text) (ct posn t q : Nat) (nf : Bool)
    (fe : List Nat)
    (c : CChar) (ht : fn1.take ct = fn2.take ct) (h1 : ct ≤ fn1.length)
    (h2 : ct ≤ fn2.length) (hnf : nf = false → 1 ≤ ct) :
    ∃ fn1' fn2' k posn' t' nf' fe' q',
      fixed_step behind { fn := fn1, ct := ct, posn := posn, thisflen := t, needfield := nf,
                          field_ends := fe, past := q } c =
        { fn := fn1', ct := k + 1, posn := posn', thisflen := t', needfield := nf',
          field_ends := fe', past := q' } ∧
      fixed_step behind { fn := fn2, ct := ct, posn := posn, thisflen := t, needfield := nf,
                          field_ends := fe, past := q } c =
        { fn := fn2', ct := k + 1, posn := posn', thisflen := t', needfield := nf',
          field_ends := fe', past := q' } ∧
      fn1'.take (k + 1) = fn2'.take (k + 1) ∧ k < fn1'.length ∧ k < fn2'.length := by
  cases nf with
  | true =>
    obtain ⟨a1, a2⟩ := take_alloc_cell fn1 ct h1
    obtain ⟨b1, b2⟩ := take_alloc_cell fn2 ct h2
    rw [fixed_step_open behind fn1, fixed_step_open behind fn2]
    obtain ⟨x1, x2, p, t', nf', fe', q', e1, e2, e3, e4, e5⟩ :=
      fixed_step_in_sim behind _ _ ct posn 0 q fe c a2 b2 (by rw [a1, b1, ht]) (Or.inl rfl)
    exact ⟨x1, x2, ct, p, t', nf', fe', q', e1, e2, e3, e4, e5⟩
  | false =>
    obtain ⟨k, rfl⟩ : ∃ k, ct = k + 1 := ⟨ct - 1, by have := hnf rfl; omega⟩
    obtain ⟨x1, x2, p, t', nf', fe', q', e1, e2, e3, e4, e5⟩ :=
      fixed_step_in_sim behind fn1 fn2 k posn t q fe c h1 h2 (take_of_take_succ fn1 fn2 k ht)
        (Or.inr (getD_of_take_eq fn1 fn2 (k + 1) k (Nat.lt_succ_self k) ht))
    exact ⟨x1, x2, k, p, t', nf', fe', q', e1, e2, e3, e4, e5⟩

/-- The loop of `parse_a_fixed_line` from two states that agree on the locals
and on the first `ct` cells of the row buffer ends in two such states, at the
same byte and with the same stream. -/
theorem fixed_loop_sim (behind : Nat → Int) (f : FILE) :
    ∀ (fn1 fn2 : Text) (ct posn t q : Nat) (nf : Bool)
    (fe : List Nat), fn1.take ct = fn2.take ct → ct ≤ fn1.length → ct ≤ fn2.length →
    (nf = false → 1 ≤ ct) →
    ∃ fn1' fn2' ct' posn' t' nf' fe' q' c' rest,
      fixed_loop behind { fn := fn1, ct := ct, posn := posn, thisflen := t, needfield := nf,
                          field_ends := fe, past := q } f =
        ({ fn := fn1', ct := ct', posn := posn', thisflen := t', needfield := nf',
           field_ends := fe', past := q' }, c', rest) ∧
      fixed_loop behind { fn := fn2, ct := ct, posn := posn, thisflen := t, needfield := nf,
                          field_ends := fe, past := q } f =
        ({ fn := fn2', ct := ct', posn := posn', thisflen := t', needfield := nf',
           field_ends := fe', past := q' }, c', rest) ∧
      fn1'.take ct' = fn2'.take ct' ∧ ct' ≤ fn1'.length ∧ ct' ≤ fn2'.length ∧
      (nf' = false → 1 ≤ ct') := by
  induction f with
  | nil =>
    intro fn1 fn2 ct posn t q nf fe ht h1 h2 hnf
    exact ⟨fn1, fn2, ct, posn, t, nf, fe, q, EOF, [], rfl, rfl, ht, h1, h2, hnf⟩
  | cons c cs ih =>
    intro fn1 fn2 ct posn t q nf fe ht h1 h2 hnf
    by_cases hc : c ≠ 10 ∧ c ≠ EOF
    · rw [fixed_loop_cons behind _ c cs hc, fixed_loop_cons behind _ c cs hc]
      obtain ⟨x1, x2, k, p, t', nf', fe', q', e1, e2, e3, e4, e5⟩ :=
        fixed_step_sim behind fn1 fn2 ct posn t q nf fe c ht h1 h2 hnf
      rw [e1, e2]
      exact ih x1 x2 (k + 1) p t' q' nf' fe' e3 e4 e5 (fun _ => Nat.succ_pos k)
    · refine ⟨fn1, fn2, ct, posn, t, nf, fe, q, c, cs, ?_, ?_, ht, h1, h2, hnf⟩
      · simp only [fixed_loop, if_neg hc]
      · simp only [fixed_loop, if_neg hc]

/-- What a caller can observe of `parse_a_fixed_line` is the same for every
row buffer given to it. -/
theorem parse_a_fixed_line_obs (infile : FILE) (fn1 fn2 : Text) (field_ends : FieldEnds) :
    (parse_a_fixed_line infile fn1 field_ends).obs =
      (parse_a_fixed_line infile fn2 field_ends).obs := by
  obtain ⟨x1, x2, ct, p, t, nf, fe, q, c, rest, e1, e2, e3, e4, e5, e6⟩ :=
    fixed_loop_sim field_ends.behind infile fn1 fn2 0 0 0 0 true field_ends.ends rfl
      (Nat.zero_le _) (Nat.zero_le _) (fun h => absurd h (by decide))
  unfold parse_a_fixed_line LineResult.obs LineResult.fields
  simp only [e1, e2]
  cases nf with
  | true => simp only [Bool.true_eq_false, if_false, e3]
  | false =>
    obtain ⟨k, rfl⟩ : ∃ k, ct = k + 1 := ⟨ct - 1, by have := e6 rfl; omega⟩
    simp only [if_true, Nat.add_sub_cancel]
    rw [poke_realloc_set x1 k (t + 1) t 0 e4, poke_realloc_set x2 k (t + 1) t 0 e5,
      getD_of_take_eq x1 x2 (k + 1) k (Nat.lt_succ_self k) e3,
      cell_update_sim x1 x2 k _ e4 e5 (take_of_take_succ x1 x2 k e3)]

/-- C38: what a caller can observe of `parse_a_line` and of
`parse_a_fixed_line`, that is the C strings of the first `ct` cells of the row
buffer, the count `ct`, the `eof` flag and the stream left, is the same for
every row buffer given to the call: two runs on the same input with the same
delimiters and field ends and with different buffers return the same.  The
call returns when field ends are given or the byte `0xFF` is not a
delimiter. -/
theorem line_tokenizers_ignore_prior_buffer (infile : FILE) (fn1 fn2 : Text)
    (field_ends : Option FieldEnds) (delimiters : List CChar) :
    (parse_a_line infile fn1 field_ends delimiters).map LineResult.obs =
        (parse_a_line infile fn2 field_ends delimiters).map LineResult.obs ∧
      (field_ends ≠ none ∨ 255 ∉ delimiters →
        (parse_a_line infile fn1 field_ends delimiters).isSome = true) ∧
      ∀ fe, (parse_a_fixed_line infile fn1 fe).obs = (parse_a_fixed_line infile fn2 fe).obs := by
  refine ⟨?_, ?_, fun fe => parse_a_fixed_line_obs infile fn1 fn2 fe⟩
  · cases field_ends with
    | none => rw [parse_a_line_obs infile fn1 delimiters, parse_a_line_obs infile fn2 delimiters]
    | some fe =>
      simp only [parse_a_line, Option.map_some']
      rw [parse_a_fixed_line_obs infile fn1 fn2 fe]
  · intro h
    cases field_ends with
    | none =>
      rcases h with h | h
      · exact absurd rfl h
      · exact parse_a_line_isSome infile fn1 delimiters h
    | some fe => rfl

/-- Witness for C38: the line `1,2` read into an empty buffer and into a
buffer that holds the three fields `xyz`, `w` and `v` of an earlier line. -/
theorem line_tokenizers_ignore_prior_buffer_witness :
    ((parse_a_line [49, 44, 50, 10, 51] [] none default_delimiters).map LineResult.obs =
        (parse_a_line [49, 44, 50, 10, 51] [[120, 121, 122, 0], [119, 0], [118, 0]] none
          default_delimiters).map LineResult.obs) ∧
      (parse_a_line [49, 44, 50, 10, 51] [] none default_delimiters).isSome = true ∧
      (parse_a_fixed_line [49, 44, 50, 10, 51] []
          { ends := [1], behind := fun _ => 0 }).obs =
        (parse_a_fixed_line [49, 44, 50, 10, 51] [[120, 121, 122, 0], [119, 0], [118, 0]]
          { ends := [1], behind := fun _ => 0 }).obs :=
  ⟨(line_tokenizers_ignore_prior_buffer [49, 44, 50, 10, 51] []
      [[120, 121, 122, 0], [119, 0], [118, 0]] none default_delimiters).1,
    (line_tokenizers_ignore_prior_buffer [49, 44, 50, 10, 51] []
      [[120, 121, 122, 0], [119, 0], [118, 0]] none default_delimiters).2.1
      (Or.inr (by decide)),
    (line_tokenizers_ignore_prior_buffer [49, 44, 50, 10, 51] []
      [[120, 121, 122, 0], [119, 0], [118, 0]] none default_delimiters).2.2
      { ends := [1], behind := fun _ => 0 }⟩

end Apophenia
